import Mathlib

/-!
# Force distribution analysis (FDA): pairwise accumulation and virial stress

A shallow embedding of `src/gromacs/fda/FDA.cpp` (the accumulator with
`add_detailed` / `add_summed`), of the older `src/gromacs/fda/fda.cpp`
(namespace `Legacy`), of the frame loop of `src/gromacs/gmxana/gmx_fda_graph.cpp`
and of `src/gmxlib/princ.c`, followed by theorems about them.

Reals of the C++ code are an arbitrary linearly ordered field `α`; the square
root used by `norm` and `unitv` is a parameter of those functions, so that every
definition is computable and the theorems about norms instantiate it with
`Real.sqrt`.
-/

set_option linter.unusedSectionVars false

namespace fda

/-! ## Vectors and tensors -/

/-- Modelled from the spec: `rvec` of `gromacs/math/vectypes.h`, the three
components XX, YY, ZZ of a force or displacement. -/
@[ext]
structure RVec (α : Type) where
  x : α
  y : α
  z : α
deriving DecidableEq, Repr

/-- Modelled from the spec: `tensor` / `Tensor`, a 3×3 array addressed by
(XX|YY|ZZ, XX|YY|ZZ); the virial code reads and writes the upper triangle only. -/
@[ext]
structure Tensor (α : Type) where
  xx : α
  xy : α
  xz : α
  yx : α
  yy : α
  yz : α
  zx : α
  zy : α
  zz : α
deriving DecidableEq, Repr

section VecOps

variable {α : Type} [LinearOrderedField α]

/-- Modelled from the spec: `clear_rvec(a)` of `vec.h`, the zero vector. -/
def clear_rvec : RVec α := ⟨0, 0, 0⟩

/-- Modelled from the spec: `rvec_add(a, b, c)` of `vec.h`, `c = a + b`. -/
def rvec_add (a b : RVec α) : RVec α := ⟨a.x + b.x, a.y + b.y, a.z + b.z⟩

/-- Modelled from the spec: `rvec_sub(a, b, c)` of `vec.h`, `c = a - b`. -/
def rvec_sub (a b : RVec α) : RVec α := ⟨a.x - b.x, a.y - b.y, a.z - b.z⟩

/-- Modelled from the spec: `rvec_dec(a, b)` of `vec.h`, `a -= b`; the result is
the new value of `a`. -/
def rvec_dec (a b : RVec α) : RVec α := ⟨a.x - b.x, a.y - b.y, a.z - b.z⟩

/-- Modelled from the spec: `rvec_opp(a)` of `Utilities.h`, `a = -a` in place; the
result is the new value of `a`. -/
def rvec_opp (a : RVec α) : RVec α := ⟨-a.x, -a.y, -a.z⟩

/-- Modelled from the spec: `svmul(s, a, b)` of `vec.h`, `b = s * a`. -/
def svmul (s : α) (a : RVec α) : RVec α := ⟨s * a.x, s * a.y, s * a.z⟩

/-- Modelled from the spec: `iprod(a, b)` of `vec.h`, the inner product. -/
def iprod (a b : RVec α) : α := a.x * b.x + a.y * b.y + a.z * b.z

/-- Modelled from the spec: `cprod(a, b, c)` of `vec.h`, the cross product. -/
def cprod (a b : RVec α) : RVec α :=
  ⟨a.y * b.z - a.z * b.y, a.z * b.x - a.x * b.z, a.x * b.y - a.y * b.x⟩

/-- Modelled from the spec: `norm2(a)` of `vec.h`, the squared length. -/
def norm2 (a : RVec α) : α := a.x * a.x + a.y * a.y + a.z * a.z

/-- Modelled from the spec: `norm(a)` of `vec.h`, `sqrt(norm2(a))`; the square
root is the parameter `sqrt`. -/
def norm (sqrt : α → α) (a : RVec α) : α := sqrt (norm2 a)

/-- Modelled from the spec: `unitv(src, dest)` of `vec.h`,
`dest = invsqrt(norm2(src)) * src`. For the zero vector the factor is `1 / 0`,
which a field of Lean evaluates to `0`; the C code has no defined value there. -/
def unitv (sqrt : α → α) (src : RVec α) : RVec α := svmul (1 / sqrt (norm2 src)) src

/-- Modelled from the spec: `unitv(src, dest)` with its division made explicit: no
value when the length of `src` is zero. There the code multiplies `invsqrt(0)` with
the zero components of `src`, and the components of `dest` are not numbers. -/
def unitv_checked (sqrt : α → α) (src : RVec α) : Option (RVec α) :=
  if sqrt (norm2 src) = 0 then none else some (unitv sqrt src)

end VecOps

/-! ## Interaction types -/

/-- Modelled from the spec: `InteractionType`, a bit-flag integer. -/
abbrev InteractionType := Nat

/-- Modelled from the spec: bit flag BOND (first of the enumeration). -/
def InteractionType_BOND : InteractionType := 1
/-- Modelled from the spec: bit flag ANGLE. -/
def InteractionType_ANGLE : InteractionType := 2
/-- Modelled from the spec: bit flag DIHEDRAL. -/
def InteractionType_DIHEDRAL : InteractionType := 4
/-- Modelled from the spec: bit flag POLAR. -/
def InteractionType_POLAR : InteractionType := 8
/-- Modelled from the spec: bit flag COULOMB. -/
def InteractionType_COULOMB : InteractionType := 16
/-- Modelled from the spec: bit flag LJ. -/
def InteractionType_LJ : InteractionType := 32
/-- Modelled from the spec: bit flag NB14. -/
def InteractionType_NB14 : InteractionType := 64

/-- Modelled from the spec: `PureInteractionType`, one tag per single
interaction type; the key of the DETAILED store. -/
inductive PureInteractionType where
  | BOND
  | ANGLE
  | DIHEDRAL
  | POLAR
  | COULOMB
  | LJ
  | NB14
deriving DecidableEq, Repr

/-- Modelled from the spec: `from_pure`, the bit flag of a pure interaction type. -/
def from_pure : PureInteractionType → InteractionType
  | .BOND => InteractionType_BOND
  | .ANGLE => InteractionType_ANGLE
  | .DIHEDRAL => InteractionType_DIHEDRAL
  | .POLAR => InteractionType_POLAR
  | .COULOMB => InteractionType_COULOMB
  | .LJ => InteractionType_LJ
  | .NB14 => InteractionType_NB14

/-- Modelled from the spec: the one-pair mode, DETAILED or SUMMED. -/
inductive OnePair where
  | DETAILED
  | SUMMED
deriving DecidableEq, Repr

/-! ## The distributed-force store -/

/-- Modelled from the spec: look-up-or-create on an associative container that
keeps insertion order: the slot of key `k` is created with `init` when absent,
then `f` is applied to it (C++ `m[k] op= ...`). -/
def upsert {κ β : Type} [DecidableEq κ] (k : κ) (init : β) (f : β → β) :
    List (κ × β) → List (κ × β)
  | [] => [(k, f init)]
  | (k', b) :: m => if k' = k then (k', f b) :: m else (k', b) :: upsert k init f m

/-- Modelled from the spec: look-up without creation. -/
def find {κ β : Type} [DecidableEq κ] (k : κ) : List (κ × β) → Option β
  | [] => none
  | (k', b) :: m => if k' = k then some b else find k m

/-- Modelled from the spec: `DistributedForces` (DistributedForceStore). DETAILED
variant: entity index → partner index → interaction type → accumulated vector;
SUMMED variant: entity index → partner index → (accumulated vector, type bitmask). -/
structure DistributedForces (α : Type) where
  detailed : List (Nat × List (Nat × List (PureInteractionType × RVec α)))
  summed : List (Nat × List (Nat × (RVec α × InteractionType)))

section Store

variable {α : Type} [LinearOrderedField α]

/-- Modelled from the spec: the store right after construction or `clear()`. -/
def DistributedForces.empty : DistributedForces α := ⟨[], []⟩

/-- Modelled from the spec: `add_detailed(i, j, vector, type)`, look up or create
the (j-partner, type) slot under entity i and accumulate. -/
def DistributedForces.add_detailed (df : DistributedForces α) (i j : Nat) (force : RVec α)
    (type : PureInteractionType) : DistributedForces α :=
  { df with
    detailed :=
      upsert i [] (upsert j [] (upsert type clear_rvec (fun v => rvec_add v force))) df.detailed }

/-- Modelled from the spec: `add_summed(i, j, vector, typeMask)`, look up or
create the j-partner slot under entity i, accumulate the vector and OR in the
type bits. -/
def DistributedForces.add_summed (df : DistributedForces α) (i j : Nat) (force : RVec α)
    (type : InteractionType) : DistributedForces α :=
  { df with
    summed :=
      upsert i [] (upsert j (clear_rvec, 0) (fun p => (rvec_add p.1 force, p.2 ||| type)))
        df.summed }

end Store

/-! ## Settings and session state -/

/-- Modelled from the spec: the part of `FDASettings` the accumulator reads: the
tracked interaction-type mask, the one-pair mode, the group predicate and the
atom → residue table. `to_pure` (declared in `InteractionType.h`, outside the
sources) is carried here as a parameter. -/
structure FDASettings where
  type : InteractionType
  one_pair : OnePair
  atoms_in_groups : Nat → Nat → Bool
  get_atom2residue : Nat → Nat
  to_pure : InteractionType → PureInteractionType

/-- Modelled from the spec: `FDABase<Atom>` / `FDABase<Residue>`: whether pairwise
forces or punctual stress are requested (`PF_or_PS_mode()`), whether virial stress
is requested (`VS_mode()`), the pairwise store and the per-atom virial tensors. -/
structure FDABase (α : Type) where
  PF_or_PS_mode : Bool
  VS_mode : Bool
  distributed_forces : DistributedForces α
  virial_stress : List (Tensor α)

/-- The FDA session object of `FDA.cpp`: settings, atom-based and residue-based
operation. -/
structure FDA (α : Type) where
  fda_settings : FDASettings
  atom_based : FDABase α
  residue_based : FDABase α

section Accumulator

variable {α : Type} [LinearOrderedField α]

/-- Replace the pairwise store of the residue-based operation. -/
def FDA.set_residue_forces (self : FDA α) (df : DistributedForces α) : FDA α :=
  { self with residue_based := { self.residue_based with distributed_forces := df } }

/-- Replace the pairwise store of the atom-based operation. -/
def FDA.set_atom_forces (self : FDA α) (df : DistributedForces α) : FDA α :=
  { self with atom_based := { self.atom_based with distributed_forces := df } }

/-- Residue-based half of `FDA::add_bonded_nocheck` (FDA.cpp:58-86). -/
def FDA.add_bonded_residue (self : FDA α) (i j : Nat) (type : InteractionType)
    (force : RVec α) : FDA α :=
  if self.residue_based.PF_or_PS_mode then
    let ri := self.fda_settings.get_atom2residue i
    let rj := self.fda_settings.get_atom2residue j
    if ri ≠ rj then
      match self.fda_settings.one_pair with
      | OnePair.DETAILED =>
        if ri > rj then
          let force_residue := rvec_dec clear_rvec force
          self.set_residue_forces
            (self.residue_based.distributed_forces.add_detailed rj ri force_residue
              (self.fda_settings.to_pure type))
        else
          self.set_residue_forces
            (self.residue_based.distributed_forces.add_detailed ri rj force
              (self.fda_settings.to_pure type))
      | OnePair.SUMMED =>
        if ri > rj then
          let force_residue := rvec_dec clear_rvec force
          self.set_residue_forces
            (self.residue_based.distributed_forces.add_summed rj ri force_residue type)
        else
          self.set_residue_forces
            (self.residue_based.distributed_forces.add_summed ri rj force type)
    else self
  else self

/-- Atom-based half of `FDA::add_bonded_nocheck` (FDA.cpp:88-101); the second
component is the caller's `force` array after the call (negated in place when
the indices are swapped). -/
def FDA.add_bonded_atom (self : FDA α) (i j : Nat) (type : InteractionType)
    (force : RVec α) : FDA α × RVec α :=
  if self.atom_based.PF_or_PS_mode then
    let i1 := if i > j then j else i
    let j1 := if i > j then i else j
    let force1 := if i > j then rvec_opp force else force
    match self.fda_settings.one_pair with
    | OnePair.DETAILED =>
      (self.set_atom_forces
        (self.atom_based.distributed_forces.add_detailed i1 j1 force1
          (self.fda_settings.to_pure type)), force1)
    | OnePair.SUMMED =>
      (self.set_atom_forces
        (self.atom_based.distributed_forces.add_summed i1 j1 force1 type), force1)
  else (self, force)

/-- Function `FDA::add_bonded_nocheck` (FDA.cpp:54-102): the residue-based store first,
then the atom-based store. -/
def FDA.add_bonded_nocheck (self : FDA α) (i j : Nat) (type : InteractionType)
    (force : RVec α) : FDA α × RVec α :=
  (self.add_bonded_residue i j type force).add_bonded_atom i j type force

/-- Function `FDA::add_bonded` (FDA.cpp:104-110). -/
def FDA.add_bonded (self : FDA α) (i j : Nat) (type : InteractionType)
    (force : RVec α) : FDA α × RVec α :=
  if self.fda_settings.type &&& type = 0 then (self, force)
  else if self.fda_settings.atoms_in_groups i j = false then (self, force)
  else self.add_bonded_nocheck i j type force

/-- Function `FDA::add_nonbonded_single` (FDA.cpp:112-123). -/
def FDA.add_nonbonded_single (self : FDA α) (i j : Nat) (type : InteractionType)
    (force dx dy dz : α) : FDA α :=
  if self.fda_settings.type &&& type = 0 then self
  else if self.fda_settings.atoms_in_groups i j = false then self
  else
    let force_v : RVec α := ⟨force * dx, force * dy, force * dz⟩
    (self.add_bonded_nocheck i j type force_v).1

/-- Residue-based half of `FDA::add_nonbonded` (FDA.cpp:152-188). -/
def FDA.add_nonbonded_residue (self : FDA α) (i j : Nat) (pf_coul pf_lj dx dy dz : α) : FDA α :=
  if self.residue_based.PF_or_PS_mode then
    let ri := self.fda_settings.get_atom2residue i
    let rj := self.fda_settings.get_atom2residue j
    if ri ≠ rj then
      let ri1 := if ri > rj then rj else ri
      let rj1 := if ri > rj then ri else rj
      let pf_lj_residue := if ri > rj then -pf_lj else pf_lj
      let pf_coul_residue := if ri > rj then -pf_coul else pf_coul
      match self.fda_settings.one_pair with
      | OnePair.DETAILED =>
        let pf_coul_residue_v : RVec α :=
          ⟨pf_coul_residue * dx, pf_coul_residue * dy, pf_coul_residue * dz⟩
        let pf_lj_residue_v : RVec α :=
          ⟨pf_lj_residue * dx, pf_lj_residue * dy, pf_lj_residue * dz⟩
        self.set_residue_forces
          ((self.residue_based.distributed_forces.add_detailed ri1 rj1 pf_coul_residue_v
              PureInteractionType.COULOMB).add_detailed ri1 rj1 pf_lj_residue_v
            PureInteractionType.LJ)
      | OnePair.SUMMED =>
        let pf_lj_coul := pf_lj_residue + pf_coul_residue
        let pf_coul_residue_v : RVec α := ⟨pf_lj_coul * dx, pf_lj_coul * dy, pf_lj_coul * dz⟩
        self.set_residue_forces
          (self.residue_based.distributed_forces.add_summed ri1 rj1 pf_coul_residue_v
            (InteractionType_COULOMB ||| InteractionType_LJ))
    else self
  else self

/-- Atom-based half of `FDA::add_nonbonded` (FDA.cpp:191-216). -/
def FDA.add_nonbonded_atom (self : FDA α) (i j : Nat) (pf_coul pf_lj dx dy dz : α) : FDA α :=
  if self.atom_based.PF_or_PS_mode then
    let i1 := if i > j then j else i
    let j1 := if i > j then i else j
    let pf_lj1 := if i > j then -pf_lj else pf_lj
    let pf_coul1 := if i > j then -pf_coul else pf_coul
    match self.fda_settings.one_pair with
    | OnePair.DETAILED =>
      let pf_coul_atom_v : RVec α := ⟨pf_coul1 * dx, pf_coul1 * dy, pf_coul1 * dz⟩
      let pf_lj_atom_v : RVec α := ⟨pf_lj1 * dx, pf_lj1 * dy, pf_lj1 * dz⟩
      self.set_atom_forces
        ((self.atom_based.distributed_forces.add_detailed i1 j1 pf_coul_atom_v
            PureInteractionType.COULOMB).add_detailed i1 j1 pf_lj_atom_v
          PureInteractionType.LJ)
    | OnePair.SUMMED =>
      let pf_lj_coul := pf_lj1 + pf_coul1
      let pf_coul_atom_v : RVec α := ⟨pf_lj_coul * dx, pf_lj_coul * dy, pf_lj_coul * dz⟩
      self.set_atom_forces
        (self.atom_based.distributed_forces.add_summed i1 j1 pf_coul_atom_v
          (InteractionType_COULOMB ||| InteractionType_LJ))
  else self

/-- Function `FDA::add_nonbonded` (FDA.cpp:125-217). -/
def FDA.add_nonbonded (self : FDA α) (i j : Nat) (pf_coul pf_lj dx dy dz : α) : FDA α :=
  if self.fda_settings.type &&& InteractionType_COULOMB = 0 then
    if self.fda_settings.type &&& InteractionType_LJ = 0 then self
    else self.add_nonbonded_single i j InteractionType_LJ pf_lj dx dy dz
  else if self.fda_settings.type &&& InteractionType_LJ = 0 then
    self.add_nonbonded_single i j InteractionType_COULOMB pf_coul dx dy dz
  else if self.fda_settings.atoms_in_groups i j = false then self
  else (self.add_nonbonded_residue i j pf_coul pf_lj dx dy dz).add_nonbonded_atom i j
    pf_coul pf_lj dx dy dz

/-- One call of `add_bonded`: the two atoms, the type and the force handed over. -/
structure BondedCall (α : Type) where
  i : Nat
  j : Nat
  type : InteractionType
  force : RVec α

/-- Run a list of `add_bonded` calls one after the other, as the tail of
`add_angle` and `add_dihedral` does. -/
def FDA.add_bonded_calls (self : FDA α) (calls : List (BondedCall α)) : FDA α :=
  calls.foldl (fun s c => (s.add_bonded c.i c.j c.type c.force).1) self

/-- The `add_bonded` calls of `FDA::add_angle` (FDA.cpp:219-240), in order, with the
divisions of `unitv` made explicit: `some []` when the norms sum to zero and the
function returns; `none` when it does not return and one of `f_i`, `f_j`, `f_k` has
length zero, so that a unit vector, and with it a vector handed to `add_bonded`, is
not a number; else the three calls. -/
def add_angle_records (sqrt : α → α) (ai aj ak : Nat) (f_i f_j f_k : RVec α) :
    Option (List (BondedCall α)) :=
  if norm sqrt f_i + norm sqrt f_j + norm sqrt f_k = 0 then some []
  else
    (unitv_checked sqrt f_i).bind fun uf_i =>
      (unitv_checked sqrt f_j).bind fun uf_j =>
        (unitv_checked sqrt f_k).bind fun uf_k =>
          let nf_j_i := -norm sqrt f_i * iprod uf_i uf_j
          let nf_j_k := -norm sqrt f_k * iprod uf_k uf_j
          let f_j_i := svmul nf_j_i uf_j
          let f_j_k := svmul nf_j_k uf_j
          let f_i_k := rvec_add f_j_i f_i
          some
            [⟨aj, ai, InteractionType_ANGLE, f_j_i⟩,
             ⟨ai, ak, InteractionType_ANGLE, f_i_k⟩,
             ⟨aj, ak, InteractionType_ANGLE, f_j_k⟩]

/-- The `add_bonded` calls of `FDA::add_angle` (FDA.cpp:219-240), in order; none
when the norms sum to zero. This is the list of `add_angle_records` wherever that has
a value. Where it has none, the code still makes its three calls, with vectors that
are not numbers; the list then names the same three pairs and types and carries the
vectors that a field computes from `1 / 0 = 0`, which stand for no value of the code. -/
def add_angle_calls (sqrt : α → α) (ai aj ak : Nat) (f_i f_j f_k : RVec α) :
    List (BondedCall α) :=
  if norm sqrt f_i + norm sqrt f_j + norm sqrt f_k = 0 then []
  else
    let uf_i := unitv sqrt f_i
    let uf_j := unitv sqrt f_j
    let uf_k := unitv sqrt f_k
    let nf_j_i := -norm sqrt f_i * iprod uf_i uf_j
    let nf_j_k := -norm sqrt f_k * iprod uf_k uf_j
    let f_j_i := svmul nf_j_i uf_j
    let f_j_k := svmul nf_j_k uf_j
    let f_i_k := rvec_add f_j_i f_i
    [⟨aj, ai, InteractionType_ANGLE, f_j_i⟩,
     ⟨ai, ak, InteractionType_ANGLE, f_i_k⟩,
     ⟨aj, ak, InteractionType_ANGLE, f_j_k⟩]

/-- Function `FDA::add_angle` (FDA.cpp:219-240). -/
def FDA.add_angle (self : FDA α) (sqrt : α → α) (ai aj ak : Nat) (f_i f_j f_k : RVec α) :
    FDA α :=
  self.add_bonded_calls (add_angle_calls sqrt ai aj ak f_i f_j f_k)

/-- The `add_bonded` calls of `FDA::add_dihedral` (FDA.cpp:242-327), in order;
none when one of the guards returns early. `GMX_FLOAT_EPS` (declared in
`gromacs/utility/real.h`, outside the sources) is a parameter. -/
def add_dihedral_calls (sqrt : α → α) (GMX_FLOAT_EPS : α) (i j k l : Nat)
    (f_i f_j f_k f_l : RVec α) : List (BondedCall α) :=
  if norm sqrt f_i + norm sqrt f_j + norm sqrt f_k + norm sqrt f_l = 0 then []
  else
    let f_mj := rvec_sub clear_rvec f_j
    let f_mk := rvec_sub clear_rvec f_k
    let f_ipl := rvec_add f_i f_l
    let f_jpk := rvec_add f_mj f_mk
    let uf_jpk := unitv sqrt f_jpk
    let uf_j := unitv sqrt f_mj
    let uf_k := unitv sqrt f_mk
    let nf_ipl := norm sqrt f_ipl
    if nf_ipl < GMX_FLOAT_EPS then []
    else
      let f_jpk_i := svmul (iprod f_i f_ipl / nf_ipl) uf_jpk
      let f_jpk_l := svmul (iprod f_l f_ipl / nf_ipl) uf_jpk
      let nf_jpk := norm sqrt f_jpk
      let nf_j := norm sqrt f_mj
      let nf_k := norm sqrt f_mk
      let f_jpk_c_f_j := cprod f_jpk f_mj
      let f_jpk_c_f_k := cprod f_jpk f_mk
      let nf_jpkxnf_j := nf_jpk * nf_j
      let nf_jpkxnf_k := nf_jpk * nf_k
      if nf_jpkxnf_j < GMX_FLOAT_EPS ∨ nf_jpkxnf_k < GMX_FLOAT_EPS then []
      else
        let cos_a := iprod f_jpk f_mj / nf_jpkxnf_j
        let sin_a := norm sqrt f_jpk_c_f_j / nf_jpkxnf_j
        let cos_b := iprod f_jpk f_mk / nf_jpkxnf_k
        let sin_b := norm sqrt f_jpk_c_f_k / nf_jpkxnf_k
        let sinacosbpsinbcosa := sin_a * cos_b + sin_b * cos_a
        if sinacosbpsinbcosa < GMX_FLOAT_EPS then []
        else
          let nf_jpk_i := norm sqrt f_jpk_i
          let nf_jpk_l := norm sqrt f_jpk_l
          let nf_j_i := nf_jpk_i * sin_b / sinacosbpsinbcosa
          let nf_k_i := nf_jpk_i * sin_a / sinacosbpsinbcosa
          let nf_j_l := nf_jpk_l * sin_b / sinacosbpsinbcosa
          let nf_k_l := nf_jpk_l * sin_a / sinacosbpsinbcosa
          let f_j_i := svmul nf_j_i uf_j
          let f_j_l := svmul nf_j_l uf_j
          let f_k_i := svmul nf_k_i uf_k
          let f_k_l := svmul nf_k_l uf_k
          let f_j_ipl := rvec_add f_j_i f_j_l
          let f_j_k := rvec_sub f_mj f_j_ipl
          let f_l_i := rvec_opp (rvec_add f_i f_jpk_i)
          [⟨j, i, InteractionType_DIHEDRAL, f_j_i⟩,
           ⟨k, i, InteractionType_DIHEDRAL, f_k_i⟩,
           ⟨l, i, InteractionType_DIHEDRAL, f_l_i⟩,
           ⟨j, k, InteractionType_DIHEDRAL, f_j_k⟩,
           ⟨j, l, InteractionType_DIHEDRAL, f_j_l⟩,
           ⟨k, l, InteractionType_DIHEDRAL, f_k_l⟩]

/-- Function `FDA::add_dihedral` (FDA.cpp:242-327). -/
def FDA.add_dihedral (self : FDA α) (sqrt : α → α) (GMX_FLOAT_EPS : α) (i j k l : Nat)
    (f_i f_j f_k f_l : RVec α) : FDA α :=
  self.add_bonded_calls (add_dihedral_calls sqrt GMX_FLOAT_EPS i j k l f_i f_j f_k f_l)

/-- The net force a list of pairwise records puts on atom `a`, each record read as
the force on its first atom exerted by its second, with the opposite force on the
second atom. -/
def net_force (calls : List (BondedCall α)) (a : Nat) : RVec α :=
  calls.foldl
    (fun acc c =>
      rvec_sub (rvec_add acc (if c.i = a then c.force else clear_rvec))
        (if c.j = a then c.force else clear_rvec))
    clear_rvec

/-! ## Virial stress -/

/-- Constant `HALF` (FDA.cpp:22). -/
def HALF : α := 1 / 2
/-- Constant `THIRD` (FDA.cpp:23). -/
def THIRD : α := 1 / 3
/-- Constant `QUARTER` (FDA.cpp:24). -/
def QUARTER : α := 0.25

/-- Apply `f` to element `n` of a vector; an index past the end, which the C++
code must not use, leaves the vector as it is. -/
def modify_at {β : Type} (f : β → β) : Nat → List β → List β
  | _, [] => []
  | 0, b :: l => f b :: l
  | n + 1, b :: l => b :: modify_at f n l

/-- The six updates of `FDA::add_virial` (FDA.cpp:334-339) on one tensor. -/
def Tensor.add_scaled (t v : Tensor α) (s : α) : Tensor α :=
  { t with
    xx := t.xx + s * v.xx
    yy := t.yy + s * v.yy
    zz := t.zz + s * v.zz
    xy := t.xy + s * v.xy
    xz := t.xz + s * v.xz
    yz := t.yz + s * v.yz }

/-- Function `FDA::add_virial` (FDA.cpp:329-340). -/
def FDA.add_virial (self : FDA α) (ai : Nat) (v : Tensor α) (s : α) : FDA α :=
  { self with
    atom_based :=
      { self.atom_based with
        virial_stress := modify_at (fun t => t.add_scaled v s) ai self.atom_based.virial_stress } }

/-- The local tensor `v` of `FDA::add_virial_bond` (FDA.cpp:346-352); the lower
triangle, which the source neither assigns nor reads, is left at zero. -/
def virial_bond_tensor (f dx dy dz : α) : Tensor α :=
  { xx := dx * dx * f, yy := dy * dy * f, zz := dz * dz * f,
    xy := dx * dy * f, xz := dx * dz * f, yz := dy * dz * f,
    yx := 0, zx := 0, zy := 0 }

/-- Function `FDA::add_virial_bond` (FDA.cpp:342-355). -/
def FDA.add_virial_bond (self : FDA α) (ai aj : Nat) (f dx dy dz : α) : FDA α :=
  if self.atom_based.VS_mode = false then self
  else
    let v := virial_bond_tensor f dx dy dz
    (self.add_virial ai v HALF).add_virial aj v HALF

/-- The local tensor `v` of `FDA::add_virial_angle` (FDA.cpp:362-368). -/
def virial_angle_tensor (r_ij r_kj f_i f_k : RVec α) : Tensor α :=
  { xx := r_ij.x * f_i.x + r_kj.x * f_k.x
    yy := r_ij.y * f_i.y + r_kj.y * f_k.y
    zz := r_ij.z * f_i.z + r_kj.z * f_k.z
    xy := r_ij.x * f_i.y + r_kj.x * f_k.y
    xz := r_ij.x * f_i.z + r_kj.x * f_k.z
    yz := r_ij.y * f_i.z + r_kj.y * f_k.z
    yx := 0, zx := 0, zy := 0 }

/-- Function `FDA::add_virial_angle` (FDA.cpp:357-372). -/
def FDA.add_virial_angle (self : FDA α) (ai aj ak : Nat) (r_ij r_kj f_i f_k : RVec α) :
    FDA α :=
  if self.atom_based.VS_mode = false then self
  else
    let v := virial_angle_tensor r_ij r_kj f_i f_k
    ((self.add_virial ai v THIRD).add_virial aj v THIRD).add_virial ak v THIRD

/-- The local tensor `v` of `FDA::add_virial_dihedral` (FDA.cpp:379-387). -/
def virial_dihedral_tensor (f_i f_k f_l r_ij r_kj r_kl : RVec α) : Tensor α :=
  let r_lj := rvec_sub r_kj r_kl
  { xx := r_ij.x * f_i.x + r_kj.x * f_k.x + r_lj.x * f_l.x
    yy := r_ij.y * f_i.y + r_kj.y * f_k.y + r_lj.y * f_l.y
    zz := r_ij.z * f_i.z + r_kj.z * f_k.z + r_lj.z * f_l.z
    xy := r_ij.x * f_i.y + r_kj.x * f_k.y + r_lj.x * f_l.y
    xz := r_ij.x * f_i.z + r_kj.x * f_k.z + r_lj.x * f_l.z
    yz := r_ij.y * f_i.z + r_kj.y * f_k.z + r_lj.y * f_l.z
    yx := 0, zx := 0, zy := 0 }

/-- Function `FDA::add_virial_dihedral` (FDA.cpp:374-392). -/
def FDA.add_virial_dihedral (self : FDA α) (i j k l : Nat)
    (f_i f_k f_l r_ij r_kj r_kl : RVec α) : FDA α :=
  if self.atom_based.VS_mode = false then self
  else
    let v := virial_dihedral_tensor f_i f_k f_l r_ij r_kj r_kl
    (((self.add_virial i v QUARTER).add_virial j v QUARTER).add_virial k v QUARTER).add_virial
      l v QUARTER

/-! ## Sequences of accumulator calls -/

/-- One call of the host into the accumulator. -/
inductive Call (α : Type) where
  | bonded (i j : Nat) (type : InteractionType) (force : RVec α)
  | nonbonded_single (i j : Nat) (type : InteractionType) (force dx dy dz : α)
  | nonbonded (i j : Nat) (pf_coul pf_lj dx dy dz : α)
  | angle (ai aj ak : Nat) (f_i f_j f_k : RVec α)
  | dihedral (i j k l : Nat) (f_i f_j f_k f_l : RVec α)

/-- Carry out one call. -/
def FDA.step (sqrt : α → α) (GMX_FLOAT_EPS : α) (self : FDA α) : Call α → FDA α
  | .bonded i j type force => (self.add_bonded i j type force).1
  | .nonbonded_single i j type force dx dy dz => self.add_nonbonded_single i j type force dx dy dz
  | .nonbonded i j pf_coul pf_lj dx dy dz => self.add_nonbonded i j pf_coul pf_lj dx dy dz
  | .angle ai aj ak f_i f_j f_k => self.add_angle sqrt ai aj ak f_i f_j f_k
  | .dihedral i j k l f_i f_j f_k f_l => self.add_dihedral sqrt GMX_FLOAT_EPS i j k l f_i f_j f_k f_l

/-- Carry out a sequence of calls, first call first. -/
def FDA.run (sqrt : α → α) (GMX_FLOAT_EPS : α) (self : FDA α) (calls : List (Call α)) : FDA α :=
  calls.foldl (FDA.step sqrt GMX_FLOAT_EPS) self

/-- The atoms of a call are pairwise distinct. -/
def Call.distinct : Call α → Prop
  | .bonded i j _ _ => i ≠ j
  | .nonbonded_single i j _ _ _ _ _ => i ≠ j
  | .nonbonded i j _ _ _ _ _ => i ≠ j
  | .angle ai aj ak _ _ _ => ai ≠ aj ∧ ai ≠ ak ∧ aj ≠ ak
  | .dihedral i j k l _ _ _ _ => i ≠ j ∧ i ≠ k ∧ i ≠ l ∧ j ≠ k ∧ j ≠ l ∧ k ≠ l

/-- The (entity, partner) index pairs that have a slot in a two-level store. -/
def pairs {β : Type} : List (Nat × List (Nat × β)) → List (Nat × Nat)
  | [] => []
  | e :: m => e.2.map (fun p => (e.1, p.1)) ++ pairs m

/-- Every slot of both variants of a store has entity index below partner index. -/
def DistributedForces.canonical (df : DistributedForces α) : Prop :=
  (∀ p ∈ pairs df.detailed, p.1 < p.2) ∧ (∀ p ∈ pairs df.summed, p.1 < p.2)

/-- Both stores of a session keep entity index below partner index. -/
def FDA.canonical (self : FDA α) : Prop :=
  self.atom_based.distributed_forces.canonical ∧ self.residue_based.distributed_forces.canonical

/-- The vector the DETAILED store holds for entity `i`, partner `j` and type `t`,
if there is such a record. -/
def DistributedForces.get_detailed (df : DistributedForces α) (i j : Nat)
    (t : PureInteractionType) : Option (RVec α) :=
  ((find i df.detailed).bind (find j)).bind (find t)

/-- The types and vectors the DETAILED store holds for entity `i` and partner `j`. -/
def DistributedForces.get_detailed_pair (df : DistributedForces α) (i j : Nat) :
    Option (List (PureInteractionType × RVec α)) :=
  (find i df.detailed).bind (find j)

/-- The vector and type bitmask the SUMMED store holds for entity `i` and partner
`j`, if there is such a record. -/
def DistributedForces.get_summed (df : DistributedForces α) (i j : Nat) :
    Option (RVec α × InteractionType) :=
  (find i df.summed).bind (find j)

/-- Add one per-type record to a running (vector sum, type bitmask). -/
def add_type_record (acc : RVec α × InteractionType) (e : PureInteractionType × RVec α) :
    RVec α × InteractionType :=
  (rvec_add acc.1 e.2, acc.2 ||| from_pure e.1)

/-- The sum of the vectors of a list of per-type records together with the
bitwise OR of their type flags. -/
def sum_types (l : List (PureInteractionType × RVec α)) : RVec α × InteractionType :=
  l.foldl add_type_record (clear_rvec, 0)

/-- The SUMMED image of a DETAILED store: per pair, the sum of the per-type vectors
and the OR of the type flags, pairs kept in their order. -/
def collapse (d : List (Nat × List (Nat × List (PureInteractionType × RVec α)))) :
    List (Nat × List (Nat × (RVec α × InteractionType))) :=
  d.map (fun e => (e.1, e.2.map (fun p => (p.1, sum_types p.2))))

/-- The SUMMED image of one operation of a DETAILED session. -/
def FDABase.to_summed (b : FDABase α) : FDABase α :=
  { b with distributed_forces := ⟨[], collapse b.distributed_forces.detailed⟩ }

/-- The same session with another one-pair mode. -/
def FDA.with_mode (self : FDA α) (mode : OnePair) : FDA α :=
  { self with fda_settings := { self.fda_settings with one_pair := mode } }

/-- The SUMMED image of a DETAILED session: SUMMED mode, each store collapsed. -/
def FDA.to_summed (self : FDA α) : FDA α :=
  { fda_settings := { self.fda_settings with one_pair := OnePair.SUMMED }
    atom_based := self.atom_based.to_summed
    residue_based := self.residue_based.to_summed }

/-- The interaction type of a call is a single flag (the flag of a pure type);
`add_nonbonded`, `add_angle` and `add_dihedral` carry no type argument. -/
def Call.pure_type : Call α → Prop
  | .bonded _ _ type _ => ∃ p, type = from_pure p
  | .nonbonded_single _ _ type _ _ _ _ => ∃ p, type = from_pure p
  | .nonbonded _ _ _ _ _ _ _ => True
  | .angle _ _ _ _ _ _ => True
  | .dihedral _ _ _ _ _ _ _ _ => True

/-- The sum of a list of vectors, first vector first. -/
def rvec_sum (l : List (RVec α)) : RVec α := l.foldl rvec_add clear_rvec

/-- The value a slot holds after the vectors of `l` were accumulated into it one
after the other, if any were: their sum; no record when `l` is empty. -/
def stored_sum (l : List (RVec α)) : Option (RVec α) :=
  match l with
  | [] => none
  | _ :: _ => some (rvec_sum l)

/-- The slot value after one more contribution: unchanged without one, else the
old value (zero when the slot is new) plus the contribution. -/
def accumulate (old : Option (RVec α)) : Option (RVec α) → Option (RVec α)
  | none => old
  | some v => some (rvec_add (old.getD clear_rvec) v)

/-- What an `add_bonded` call made as (i, j, type, f) contributes to the atom pair
(lo, hi) under the pure type `t`: `f` when made as (lo, hi), `-f` when made as
(hi, lo), provided the call passes the mask and the group filter. -/
def contribution (s : FDASettings) (lo hi : Nat) (t : PureInteractionType)
    (c : BondedCall α) : Option (RVec α) :=
  if s.type &&& c.type = 0 then none
  else if s.atoms_in_groups c.i c.j = false then none
  else if s.to_pure c.type ≠ t then none
  else if c.i = lo ∧ c.j = hi then some c.force
  else if c.i = hi ∧ c.j = lo then some (rvec_opp c.force)
  else none

/-- What an `add_bonded` call contributes to the atom pair (lo, hi) whatever its
type: `f` when made as (lo, hi), `-f` when made as (hi, lo), provided the call
passes the mask and the group filter. -/
def contribution_pair (s : FDASettings) (lo hi : Nat) (c : BondedCall α) : Option (RVec α) :=
  if s.type &&& c.type = 0 then none
  else if s.atoms_in_groups c.i c.j = false then none
  else if c.i = lo ∧ c.j = hi then some c.force
  else if c.i = hi ∧ c.j = lo then some (rvec_opp c.force)
  else none

end Accumulator

/-! ## The older accumulator of `fda.cpp` -/

namespace Legacy

/-- Modelled from the spec: the one-pair mode of `fda.cpp`, whose switches also
name INVALID. -/
inductive OnePair where
  | DETAILED
  | SUMMED
  | INVALID
deriving DecidableEq, Repr

/-- Modelled from the spec: the part of `FDASettings` that `fda.cpp` reads. -/
structure FDASettings where
  type : InteractionType
  one_pair : OnePair
  atoms_in_groups : Nat → Nat → Bool
  get_atom2residue : Nat → Nat

/-- Modelled from the spec: the nested associative maps of `fda.cpp`,
`detailed[i][j][type]` and `summed[i][j]`, each slot an accumulated vector. -/
structure DistributedForces (α : Type) where
  detailed : List (Nat × List (Nat × List (InteractionType × RVec α)))
  summed : List (Nat × List (Nat × RVec α))

/-- Modelled from the spec: `FDABase` as `fda.cpp` uses it. -/
structure FDABase (α : Type) where
  PF_or_PS_mode : Bool
  VS_mode : Bool
  distributed_forces : DistributedForces α

/-- The FDA session object of `fda.cpp`. -/
structure FDA (α : Type) where
  fda_settings : FDASettings
  atom_based : FDABase α
  residue_based : FDABase α
  atom_vir : List (Tensor α)

section LegacyAccumulator

variable {α : Type} [LinearOrderedField α]

/-- Modelled from the spec: `PF_INTER_ANGLE` of `pf_interactions.h`, the ANGLE flag. -/
def PF_INTER_ANGLE : InteractionType := InteractionType_ANGLE

/-- The statement `detailed[i][j][type] += force` of `fda.cpp`. -/
def DistributedForces.detailed_inc (df : DistributedForces α) (i j : Nat)
    (type : InteractionType) (force : RVec α) : DistributedForces α :=
  { df with
    detailed :=
      upsert i [] (upsert j [] (upsert type clear_rvec (fun v => rvec_add v force))) df.detailed }

/-- The statement `summed[i][j] += force` of `fda.cpp`. -/
def DistributedForces.summed_inc (df : DistributedForces α) (i j : Nat) (force : RVec α) :
    DistributedForces α :=
  { df with summed := upsert i [] (upsert j clear_rvec (fun v => rvec_add v force)) df.summed }

/-- Replace the pairwise store of the residue-based operation. -/
def FDA.set_residue_forces (self : FDA α) (df : DistributedForces α) : FDA α :=
  { self with residue_based := { self.residue_based with distributed_forces := df } }

/-- Replace the pairwise store of the atom-based operation. -/
def FDA.set_atom_forces (self : FDA α) (df : DistributedForces α) : FDA α :=
  { self with atom_based := { self.atom_based with distributed_forces := df } }

/-- Residue-based half of `FDA::add_bonded_nocheck` (fda.cpp:52-82). -/
def FDA.add_bonded_residue (self : FDA α) (i j : Nat) (type : InteractionType)
    (force : RVec α) : FDA α :=
  if self.residue_based.PF_or_PS_mode then
    let ri := self.fda_settings.get_atom2residue i
    let rj := self.fda_settings.get_atom2residue j
    if ri ≠ rj then
      match self.fda_settings.one_pair with
      | OnePair.DETAILED =>
        if ri > rj then
          let force_residue := rvec_dec clear_rvec force
          self.set_residue_forces
            (self.residue_based.distributed_forces.detailed_inc rj ri type force_residue)
        else
          self.set_residue_forces
            (self.residue_based.distributed_forces.detailed_inc ri rj type force)
      | OnePair.SUMMED =>
        if ri > rj then
          let force_residue := rvec_dec clear_rvec force
          self.set_residue_forces
            (self.residue_based.distributed_forces.summed_inc rj ri force_residue)
        else
          self.set_residue_forces (self.residue_based.distributed_forces.summed_inc ri rj force)
      | OnePair.INVALID => self
    else self
  else self

/-- Atom-based half of `FDA::add_bonded_nocheck` (fda.cpp:84-99). -/
def FDA.add_bonded_atom (self : FDA α) (i j : Nat) (type : InteractionType)
    (force : RVec α) : FDA α × RVec α :=
  if self.atom_based.PF_or_PS_mode then
    let i1 := if i > j then j else i
    let j1 := if i > j then i else j
    let force1 := if i > j then rvec_opp force else force
    match self.fda_settings.one_pair with
    | OnePair.DETAILED =>
      (self.set_atom_forces (self.atom_based.distributed_forces.detailed_inc i1 j1 type force1),
        force1)
    | OnePair.SUMMED =>
      (self.set_atom_forces (self.atom_based.distributed_forces.summed_inc i1 j1 force1), force1)
    | OnePair.INVALID => (self, force1)
  else (self, force)

/-- Function `FDA::add_bonded_nocheck` (fda.cpp:48-100). -/
def FDA.add_bonded_nocheck (self : FDA α) (i j : Nat) (type : InteractionType)
    (force : RVec α) : FDA α × RVec α :=
  (self.add_bonded_residue i j type force).add_bonded_atom i j type force

/-- Function `FDA::add_bonded` (fda.cpp:102-109). -/
def FDA.add_bonded (self : FDA α) (i j : Nat) (type : InteractionType)
    (force : RVec α) : FDA α × RVec α :=
  if self.fda_settings.type &&& type = 0 then (self, force)
  else if self.fda_settings.atoms_in_groups i j = false then (self, force)
  else self.add_bonded_nocheck i j type force

/-- The `add_bonded` calls of `FDA::add_angle` of `fda.cpp` (lines 124-152), in order,
with the divisions of `unitv` made explicit: no early return precedes them, and there
is no value when one of `f_i`, `f_j`, `f_k` has length zero. -/
def add_angle_records (sqrt : α → α) (ai aj ak : Nat) (f_i f_j f_k : RVec α) :
    Option (List (BondedCall α)) :=
  (unitv_checked sqrt f_i).bind fun uf_i =>
    (unitv_checked sqrt f_j).bind fun uf_j =>
      (unitv_checked sqrt f_k).bind fun uf_k =>
        let nf_j_i := -norm sqrt f_i * iprod uf_i uf_j
        let nf_j_k := -norm sqrt f_k * iprod uf_k uf_j
        let f_j_i := svmul nf_j_i uf_j
        let f_j_k := svmul nf_j_k uf_j
        let f_i_k := rvec_add f_j_i f_i
        some
          [⟨aj, ai, PF_INTER_ANGLE, f_j_i⟩,
           ⟨ai, ak, PF_INTER_ANGLE, f_i_k⟩,
           ⟨aj, ak, PF_INTER_ANGLE, f_j_k⟩]

/-- Function `FDA::add_angle` (fda.cpp:124-152): no early return precedes the three
`add_bonded` calls. Where `add_angle_records` has no value the vectors of the three
calls stand for no value of the code (they are computed from `1 / 0 = 0`). -/
def FDA.add_angle (self : FDA α) (sqrt : α → α) (ai aj ak : Nat) (f_i f_j f_k : RVec α) :
    FDA α :=
  let uf_i := unitv sqrt f_i
  let uf_j := unitv sqrt f_j
  let uf_k := unitv sqrt f_k
  let nf_j_i := -norm sqrt f_i * iprod uf_i uf_j
  let nf_j_k := -norm sqrt f_k * iprod uf_k uf_j
  let f_j_i := svmul nf_j_i uf_j
  let f_j_k := svmul nf_j_k uf_j
  let f_i_k := rvec_add f_j_i f_i
  let s1 := (self.add_bonded aj ai PF_INTER_ANGLE f_j_i).1
  let s2 := (s1.add_bonded ai ak PF_INTER_ANGLE f_i_k).1
  (s2.add_bonded aj ak PF_INTER_ANGLE f_j_k).1

end LegacyAccumulator

end Legacy

/-! ## Virial totals and concrete instances -/

section Instances

variable {α : Type} [LinearOrderedField α]

/-- The six components of a tensor that the virial code stores: XX, YY, ZZ, XY,
XZ, YZ. -/
def Tensor.stored (t : Tensor α) : List α := [t.xx, t.yy, t.zz, t.xy, t.xz, t.yz]

/-- The six stored components summed over all atoms. -/
def virial_total (l : List (Tensor α)) : List α :=
  [(l.map Tensor.xx).sum, (l.map Tensor.yy).sum, (l.map Tensor.zz).sum,
   (l.map Tensor.xy).sum, (l.map Tensor.xz).sum, (l.map Tensor.yz).sum]

/-- An instance of `to_pure`: every single-bit flag goes to its tag. -/
def to_pure_flag (t : InteractionType) : PureInteractionType :=
  if t = InteractionType_BOND then PureInteractionType.BOND
  else if t = InteractionType_ANGLE then PureInteractionType.ANGLE
  else if t = InteractionType_DIHEDRAL then PureInteractionType.DIHEDRAL
  else if t = InteractionType_POLAR then PureInteractionType.POLAR
  else if t = InteractionType_COULOMB then PureInteractionType.COULOMB
  else if t = InteractionType_LJ then PureInteractionType.LJ
  else PureInteractionType.NB14

/-- Settings with the given mask and mode, every atom pair monitored, two atoms
per residue. -/
def settings_of (mask : InteractionType) (mode : OnePair) : FDASettings :=
  { type := mask, one_pair := mode, atoms_in_groups := fun _ _ => true,
    get_atom2residue := fun a => a / 2, to_pure := to_pure_flag }

/-- The zero tensor. -/
def Tensor.zero : Tensor α := ⟨0, 0, 0, 0, 0, 0, 0, 0, 0⟩

/-- A fresh session over four atoms: empty stores, pairwise output requested
for atoms and residues, virial tensors at zero. -/
def FDA.fresh (s : FDASettings) (vs : Bool) : FDA α :=
  { fda_settings := s
    atom_based :=
      { PF_or_PS_mode := true, VS_mode := vs, distributed_forces := DistributedForces.empty,
        virial_stress := [Tensor.zero, Tensor.zero, Tensor.zero, Tensor.zero] }
    residue_based :=
      { PF_or_PS_mode := true, VS_mode := false, distributed_forces := DistributedForces.empty,
        virial_stress := [] } }

end Instances

/-- Modelled from the spec: the fixed floating-point epsilon of the dihedral guards,
with the value `GMX_FLOAT_EPS` has in `gromacs/utility/real.h`. -/
def gmx_float_eps {α : Type} [LinearOrderedField α] : α := 1.19209290e-07

/-- A fresh session of the older accumulator: empty maps, pairwise output
requested for atoms and residues, every atom pair monitored, two atoms per residue. -/
def Legacy.FDA.fresh {α : Type} (mask : InteractionType) (mode : Legacy.OnePair) :
    Legacy.FDA α :=
  { fda_settings :=
      { type := mask, one_pair := mode, atoms_in_groups := fun _ _ => true,
        get_atom2residue := fun a => a / 2 }
    atom_based := { PF_or_PS_mode := true, VS_mode := false, distributed_forces := ⟨[], []⟩ }
    residue_based := { PF_or_PS_mode := true, VS_mode := false, distributed_forces := ⟨[], []⟩ }
    atom_vir := [] }

/-! ## Records of one contribution -/

section Contributions

variable {α : Type} [LinearOrderedField α]

/-- The store after one contribution `v` of type `t` was recorded under the pair
(a, b): in DETAILED mode under the tag of `t`, in SUMMED mode with `t` OR-ed into the
bitmask. -/
def DistributedForces.add_record (df : DistributedForces α) (s : FDASettings) (a b : Nat)
    (v : RVec α) (t : InteractionType) : DistributedForces α :=
  match s.one_pair with
  | OnePair.DETAILED => df.add_detailed a b v (s.to_pure t)
  | OnePair.SUMMED => df.add_summed a b v t

/-- The store after a Coulomb contribution `vc` and a Lennard-Jones contribution
`vl` were recorded under the pair (a, b): two records in DETAILED mode, one record
holding `vsum` with the bitmask COULOMB | LJ in SUMMED mode. -/
def DistributedForces.add_coulomb_lj (df : DistributedForces α) (s : FDASettings) (a b : Nat)
    (vc vl vsum : RVec α) : DistributedForces α :=
  match s.one_pair with
  | OnePair.DETAILED =>
    (df.add_detailed a b vc PureInteractionType.COULOMB).add_detailed a b vl
      PureInteractionType.LJ
  | OnePair.SUMMED => df.add_summed a b vsum (InteractionType_COULOMB ||| InteractionType_LJ)

/-- The vector `c * (dx, dy, dz)` of a scalar pairwise force along a displacement. -/
def scaled (c dx dy dz : α) : RVec α := ⟨c * dx, c * dy, c * dz⟩

/-- Settings with the given mask and mode, every atom pair monitored, and residue
numbers that fall as atom numbers rise (atom a in residue 10 - a). -/
def settings_reversed (mask : InteractionType) (mode : OnePair) : FDASettings :=
  { type := mask, one_pair := mode, atoms_in_groups := fun _ _ => true,
    get_atom2residue := fun a => 10 - a, to_pure := to_pure_flag }

end Contributions

/-! ## Residue centres of mass -/

section ResidueCom

variable {α : Type} [LinearOrderedField α]

/-- Modelled from the spec: the part of `FDASettings` that the frame functions read
in addition to the accumulator: the time-averaging period, the number of residues
and the membership of a single atom in the monitored groups. -/
structure FrameSettings where
  time_averaging_period : Nat
  syslen_residues : Nat
  atom_in_groups : Nat → Bool

/-- Modelled from the spec: a molecule block of the topology: the index of its
molecule type and the number of molecules. -/
structure gmx_molblock_t where
  type : Nat
  nmol : Nat

/-- Modelled from the spec: the topology as `get_residues_com` reads it: the molecule
blocks and, per molecule type, the masses `atoms.atom[k].m` of its atoms. -/
structure gmx_mtop_t (α : Type) where
  molblock : List gmx_molblock_t
  moltype : List (List α)

/-- Modelled from the spec: `rvec_inc(a, b)` of `vec.h`, `a += b`; the result is the
new value of `a`. -/
def rvec_inc (a b : RVec α) : RVec α := ⟨a.x + b.x, a.y + b.y, a.z + b.z⟩

/-- The statement `com[i][d] /= mass[i]` for the three components d. -/
def rvec_div (c : RVec α) (m : α) : RVec α := ⟨c.x / m, c.y / m, c.z / m⟩

/-- The locals of `FDA::get_residues_com` that its loops update: the arrays `mass`
and `com` and the counter `atom_global_index`. -/
structure ResidueSums (α : Type) where
  mass : List α
  com : List (RVec α)
  atom_global_index : Nat

/-- The body of the innermost loop of `FDA::get_residues_com` (FDA.cpp:478-485) for
an atom of mass `m`; `x` gives the position of every atom. -/
def com_add_atom (s : FDASettings) (fs : FrameSettings) (x : Nat → RVec α)
    (st : ResidueSums α) (m : α) : ResidueSums α :=
  if fs.atom_in_groups st.atom_global_index then
    let residue_global_index := s.get_atom2residue st.atom_global_index
    let r := svmul m (x st.atom_global_index)
    { mass := modify_at (fun v => v + m) residue_global_index st.mass
      com := modify_at (fun c => rvec_inc c r) residue_global_index st.com
      atom_global_index := st.atom_global_index + 1 }
  else { st with atom_global_index := st.atom_global_index + 1 }

/-- The loops over the molecules of one block and over the atoms of each molecule
(FDA.cpp:475-487); a type index outside `moltype` has no atoms. -/
def com_add_molblock (s : FDASettings) (fs : FrameSettings) (x : Nat → RVec α)
    (mtop : gmx_mtop_t α) (st : ResidueSums α) (mb : gmx_molblock_t) : ResidueSums α :=
  Nat.iterate (fun st1 => (mtop.moltype.getD mb.type []).foldl (com_add_atom s fs x) st1)
    mb.nmol st

/-- The sums `mass` and `com` after the loop over all molecule blocks
(FDA.cpp:464-488). -/
def residue_sums (s : FDASettings) (fs : FrameSettings) (x : Nat → RVec α)
    (mtop : gmx_mtop_t α) : ResidueSums α :=
  mtop.molblock.foldl (com_add_molblock s fs x mtop)
    ⟨List.replicate fs.syslen_residues 0, List.replicate fs.syslen_residues clear_rvec, 0⟩

/-- Function `FDA::get_residues_com` (FDA.cpp:456-499). -/
def get_residues_com (s : FDASettings) (fs : FrameSettings) (x : Nat → RVec α)
    (mtop : gmx_mtop_t α) : List (RVec α) :=
  let sums := residue_sums s fs x mtop
  List.zipWith (fun m c => if m ≠ 0 then rvec_div c m else c) sums.mass sums.com

/-- The list `l` written `n` times in a row. -/
def repeat_list {β : Type} : Nat → List β → List β
  | 0, _ => []
  | n + 1, l => l ++ repeat_list n l

/-- The masses of the atoms of a list of molecule blocks in the order of their
global atom index. -/
def block_masses (moltype : List (List α)) : List gmx_molblock_t → List α
  | [] => []
  | mb :: rest => repeat_list mb.nmol (moltype.getD mb.type []) ++ block_masses moltype rest

/-- The masses of all atoms of the topology in the order of their global index. -/
def atom_masses (mtop : gmx_mtop_t α) : List α := block_masses mtop.moltype mtop.molblock

/-- The sum of the masses of the atoms, numbered from `k` on, that are in the
monitored groups and map to residue `r`. -/
def tracked_mass (s : FDASettings) (fs : FrameSettings) (r : Nat) : Nat → List α → α
  | _, [] => 0
  | k, m :: ms =>
    (if fs.atom_in_groups k = true ∧ s.get_atom2residue k = r then m else 0)
      + tracked_mass s fs r (k + 1) ms

/-- The sum of mass times position over the atoms, numbered from `k` on, that are in
the monitored groups and map to residue `r`. -/
def tracked_moment (s : FDASettings) (fs : FrameSettings) (x : Nat → RVec α) (r : Nat) :
    Nat → List α → RVec α
  | _, [] => clear_rvec
  | k, m :: ms =>
    rvec_add (if fs.atom_in_groups k = true ∧ s.get_atom2residue k = r then svmul m (x k)
      else clear_rvec) (tracked_moment s fs x r (k + 1) ms)

/-- Frame settings with period `p` over `n` residues, every atom monitored. -/
def frame_settings_of (p n : Nat) : FrameSettings :=
  { time_averaging_period := p, syslen_residues := n, atom_in_groups := fun _ => true }

/-- One molecule of two atoms with the masses 1 and 3. -/
def two_atom_top : gmx_mtop_t α := { molblock := [⟨0, 1⟩], moltype := [[1, 3]] }

/-- Atom 0 at the origin, every other atom at (4, 0, 0). -/
def two_atom_x (a : Nat) : RVec α := if a = 0 then ⟨0, 0, 0⟩ else ⟨4, 0, 0⟩

end ResidueCom

/-! ## Time averaging and frame output of `FDA.cpp` -/

section Frames

variable {α : Type} [LinearOrderedField α]

/-- Modelled from the spec: the scalar variant of the store (`scalar` of
`DistributedForces`): entity index → partner index → (scalar value, type bitmask). -/
abbrev ScalarStore (α : Type) := List (Nat × List (Nat × (α × InteractionType)))

/-- Modelled from the spec: a scalar record of an output frame, `entityIndex
partnerIndex scalarValue typeTag`. -/
structure ScalarRecord (α : Type) where
  i : Nat
  j : Nat
  force : α
  type : InteractionType

/-- Modelled from the spec: what one frame-writing call of `FDABase` appends to its
result file: the frame number it was given and one record per stored slot, for the
scalar writer, the compatibility scalar writer and the writer of the per-frame
stores. -/
inductive FrameBlock (α : Type) where
  | scalar (nsteps : Nat) (records : List (ScalarRecord α))
  | scalar_compat (nsteps : Nat) (records : List (ScalarRecord α))
  | forces (nsteps : Nat) (detailed : List (Nat × Nat × PureInteractionType × RVec α))
      (summed : List (Nat × Nat × RVec α × InteractionType))

/-- The members of class `FDA` that the frame functions of `FDA.cpp` use: the
accumulator, the frame part of the settings, the scalar stores and the
`compatibility_mode()` of both operations, the time-averaging counter and centres of
mass, the frame counter `nsteps`, and the blocks written so far to both result
files. -/
structure FDAState (α : Type) where
  fda : FDA α
  frame_settings : FrameSettings
  atom_scalar : ScalarStore α
  residue_scalar : ScalarStore α
  atom_compatibility_mode : Bool
  residue_compatibility_mode : Bool
  time_averaging_steps : Nat
  time_averaging_com : List (RVec α)
  nsteps : Nat
  atom_file : List (FrameBlock α)
  residue_file : List (FrameBlock α)

/-- Modelled from the spec: `summed_merge_to_scalar(positions, box)`: every stored
summed vector is converted to a scalar by the configured vector-to-scalar projection
`v2s` (applied to the force and the positions of entity and partner; the box is part
of `v2s`) and accumulated, together with its type bits, in the scalar slot of the same
pair, which is created when absent. -/
def summed_merge_to_scalar (v2s : RVec α → RVec α → RVec α → α) (x : Nat → RVec α)
    (summed : List (Nat × List (Nat × (RVec α × InteractionType)))) (scalar : ScalarStore α) :
    ScalarStore α :=
  summed.foldl
    (fun sc e =>
      e.2.foldl
        (fun sc1 p =>
          upsert e.1 []
            (upsert p.1 (0, 0) (fun q => (q.1 + v2s p.2.1 (x e.1) (x p.1), q.2 ||| p.2.2))) sc1)
        sc)
    scalar

/-- Modelled from the spec: `scalar_real_divide(n)`: divide every stored scalar by n. -/
def scalar_real_divide (scalar : ScalarStore α) (divisor : α) : ScalarStore α :=
  scalar.map (fun e => (e.1, e.2.map (fun p => (p.1, (p.2.1 / divisor, p.2.2)))))

/-- Modelled from the spec: `clear()`: drop all per-frame accumulation, that is the
detailed and the summed records; the running scalar store is emptied by
`clear_scalar()` only. -/
def DistributedForces.clear (_df : DistributedForces α) : DistributedForces α := ⟨[], []⟩

/-- Modelled from the spec: the records of a scalar store in output order: all
entities in stored order and within each entity all partners. -/
def scalar_records (scalar : ScalarStore α) : List (ScalarRecord α) :=
  scalar.flatMap (fun e => e.2.map (fun p => ⟨e.1, p.1, p.2.1, p.2.2⟩))

/-- Modelled from the spec: the detailed records of a per-frame store in output
order: one per entity, partner and interaction type. -/
def DistributedForces.detailed_records (df : DistributedForces α) :
    List (Nat × Nat × PureInteractionType × RVec α) :=
  df.detailed.flatMap (fun e => e.2.flatMap (fun p => p.2.map (fun q => (e.1, p.1, q.1, q.2))))

/-- Modelled from the spec: the summed records of a per-frame store in output order:
one per entity and partner. -/
def DistributedForces.summed_records (df : DistributedForces α) :
    List (Nat × Nat × RVec α × InteractionType) :=
  df.summed.flatMap (fun e => e.2.map (fun p => (e.1, p.1, p.2.1, p.2.2)))

/-- Modelled from the spec: `FDABase::write_frame(x, box, nsteps)` for pairwise
output: one block with the frame number and the records of the per-frame store
(virial output is not part of this model). -/
def FDABase.write_frame (b : FDABase α) (nsteps : Nat) : FrameBlock α :=
  FrameBlock.forces nsteps b.distributed_forces.detailed_records
    b.distributed_forces.summed_records

/-- Modelled from the spec: `write_frame_scalar(nsteps)` and
`write_frame_scalar_compat(nsteps)` of `FDABase`: one block with the frame number and
the records of the scalar store. -/
def write_frame_scalar_block (compat : Bool) (nsteps : Nat) (scalar : ScalarStore α) :
    FrameBlock α :=
  if compat then FrameBlock.scalar_compat nsteps (scalar_records scalar)
  else FrameBlock.scalar nsteps (scalar_records scalar)

/-- A loop `for (i = 0; i != n; ++i) a[i] = f(i, a[i])` over an array. -/
def update_first {β : Type} (f : Nat → β → β) (n : Nat) (a : List β) : List β :=
  (List.range n).foldl (fun l i => modify_at (f i) i l) a

/-- The atom-based block of `FDA::write_scalar_time_averages` (FDA.cpp:423-430). -/
def FDAState.write_scalar_atoms (self : FDAState α) : FDAState α :=
  if self.fda.atom_based.PF_or_PS_mode then
    let scalar := scalar_real_divide self.atom_scalar (self.time_averaging_steps : α)
    { self with
      atom_file :=
        self.atom_file ++ [write_frame_scalar_block self.atom_compatibility_mode self.nsteps scalar]
      atom_scalar := [] }
  else self

/-- The residue-based block of `FDA::write_scalar_time_averages` (FDA.cpp:432-443);
`svdiv(a, v)` divides the vector v by a. -/
def FDAState.write_scalar_residues (self : FDAState α) : FDAState α :=
  if self.fda.residue_based.PF_or_PS_mode then
    let scalar := scalar_real_divide self.residue_scalar (self.time_averaging_steps : α)
    let com :=
      update_first (fun _ c => rvec_div c (self.time_averaging_steps : α)) scalar.length
        self.time_averaging_com
    { self with
      residue_file :=
        self.residue_file
          ++ [write_frame_scalar_block self.residue_compatibility_mode self.nsteps scalar]
      residue_scalar := []
      time_averaging_com :=
        update_first (fun _ _ => clear_rvec) self.frame_settings.syslen_residues com }
  else self

/-- Function `FDA::write_scalar_time_averages` (FDA.cpp:419-447). -/
def FDAState.write_scalar_time_averages (self : FDAState α) : FDAState α :=
  if self.time_averaging_steps = 0 then self
  else
    let s := self.write_scalar_atoms.write_scalar_residues
    { s with time_averaging_steps := 0, nsteps := s.nsteps + 1 }

/-- Function `FDA::write_frame` (FDA.cpp:449-454). -/
def FDAState.write_frame (self : FDAState α) : FDAState α :=
  { self with
    atom_file := self.atom_file ++ [self.fda.atom_based.write_frame self.nsteps]
    residue_file := self.residue_file ++ [self.fda.residue_based.write_frame self.nsteps]
    nsteps := self.nsteps + 1 }

/-- The atom-based saving step of `FDA::save_and_write_scalar_time_averages`
(FDA.cpp:397-399). -/
def FDAState.save_atoms (self : FDAState α) (v2s : RVec α → RVec α → RVec α → α)
    (x : Nat → RVec α) : FDAState α :=
  if self.fda.atom_based.PF_or_PS_mode then
    { self with
      atom_scalar :=
        summed_merge_to_scalar v2s x self.fda.atom_based.distributed_forces.summed
          self.atom_scalar }
  else self

/-- The residue-based saving step of `FDA::save_and_write_scalar_time_averages`
(FDA.cpp:400-406). -/
def FDAState.save_residues (self : FDAState α) (v2s : RVec α → RVec α → RVec α → α)
    (x : Nat → RVec α) (mtop : gmx_mtop_t α) : FDAState α :=
  if self.fda.residue_based.PF_or_PS_mode then
    let com := get_residues_com self.fda.fda_settings self.frame_settings x mtop
    { self with
      residue_scalar :=
        summed_merge_to_scalar v2s (fun r => com.getD r clear_rvec)
          self.fda.residue_based.distributed_forces.summed self.residue_scalar
      time_averaging_com :=
        update_first (fun i c => rvec_inc c (com.getD i clear_rvec))
          self.frame_settings.syslen_residues self.time_averaging_com }
  else self

/-- The statement `++time_averaging_steps` (FDA.cpp:407). -/
def FDAState.count_step (self : FDAState α) : FDAState α :=
  { self with time_averaging_steps := self.time_averaging_steps + 1 }

/-- The two `clear()` calls that end `FDA::save_and_write_scalar_time_averages`
(FDA.cpp:414-416). -/
def FDAState.clear_stores (self : FDAState α) : FDAState α :=
  { self with
    fda :=
      { self.fda with
        atom_based :=
          { self.fda.atom_based with
            distributed_forces := self.fda.atom_based.distributed_forces.clear }
        residue_based :=
          { self.fda.residue_based with
            distributed_forces := self.fda.residue_based.distributed_forces.clear } } }

/-- The condition under which `FDA::save_and_write_scalar_time_averages` calls
`write_scalar_time_averages` after it has counted the step (FDA.cpp:408). -/
def FDAState.flush_due (self : FDAState α) : Bool :=
  decide (self.frame_settings.time_averaging_period ≠ 0
    ∧ self.time_averaging_steps ≥ self.frame_settings.time_averaging_period)

/-- The saving steps and the counting of the step in
`FDA::save_and_write_scalar_time_averages` (FDA.cpp:397-407). -/
def FDAState.save_step (self : FDAState α) (v2s : RVec α → RVec α → RVec α → α)
    (x : Nat → RVec α) (mtop : gmx_mtop_t α) : FDAState α :=
  ((self.save_atoms v2s x).save_residues v2s x mtop).count_step

/-- Function `FDA::save_and_write_scalar_time_averages` (FDA.cpp:394-417). -/
def FDAState.save_and_write_scalar_time_averages (self : FDAState α)
    (v2s : RVec α → RVec α → RVec α → α) (x : Nat → RVec α) (mtop : gmx_mtop_t α) :
    FDAState α :=
  (if self.frame_settings.time_averaging_period ≠ 1 then
    let s := self.save_step v2s x mtop
    if s.flush_due then s.write_scalar_time_averages else s
  else self.write_frame).clear_stores

/-- One frame of a run: the accumulator calls of the step, then the positions and
topology handed to `save_and_write_scalar_time_averages`. -/
structure FrameInput (α : Type) where
  calls : List (Call α)
  x : Nat → RVec α
  mtop : gmx_mtop_t α

/-- One simulation step: the accumulator calls, then
`save_and_write_scalar_time_averages`. -/
def FDAState.frame (sqrt : α → α) (GMX_FLOAT_EPS : α) (v2s : RVec α → RVec α → RVec α → α)
    (self : FDAState α) (inp : FrameInput α) : FDAState α :=
  ({ self with fda := self.fda.run sqrt GMX_FLOAT_EPS inp.calls }
    : FDAState α).save_and_write_scalar_time_averages v2s inp.x inp.mtop

/-- A run of simulation steps. -/
def FDAState.frames (sqrt : α → α) (GMX_FLOAT_EPS : α) (v2s : RVec α → RVec α → RVec α → α)
    (self : FDAState α) (inputs : List (FrameInput α)) : FDAState α :=
  inputs.foldl (FDAState.frame sqrt GMX_FLOAT_EPS v2s) self

/-- A fresh frame state over the accumulator `fda` with averaging period `p`: empty
scalar stores, counters at zero, nothing written. -/
def FDAState.fresh (fda : FDA α) (p : Nat) : FDAState α :=
  { fda := fda, frame_settings := frame_settings_of p 2, atom_scalar := [],
    residue_scalar := [], atom_compatibility_mode := false,
    residue_compatibility_mode := false, time_averaging_steps := 0,
    time_averaging_com := [clear_rvec, clear_rvec], nsteps := 0, atom_file := [],
    residue_file := [] }

/-- The state in which the atom-based summed store holds exactly the pair (i, j)
with the vector `f` and the type bits `t` (one `add_summed` on the empty store). -/
def FDAState.with_atom_pair (self : FDAState α) (i j : Nat) (f : RVec α) (t : InteractionType) :
    FDAState α :=
  { self with
    fda := self.fda.set_atom_forces ((DistributedForces.empty : DistributedForces α).add_summed
      i j f t) }

/-- The vector-to-scalar projection by the first component. -/
def v2s_x (f _xi _xj : RVec α) : α := f.x

end Frames

/-! ## Frame output of the older `fda.cpp` -/

namespace Legacy

/-- Modelled from the spec: the output selectors `FILE_OUT_*` that `write_frame` of
`fda.cpp` switches on. -/
inductive ResultType where
  | FILE_OUT_NONE
  | FILE_OUT_PAIRWISE_FORCES_VECTOR
  | FILE_OUT_PAIRWISE_FORCES_SCALAR
  | FILE_OUT_PUNCTUAL_STRESS
  | FILE_OUT_VIRIAL_STRESS
  | FILE_OUT_VIRIAL_STRESS_VON_MISES
  | FILE_OUT_COMPAT_BIN
  | FILE_OUT_COMPAT_ASCII
deriving DecidableEq, Repr

/-- Modelled from the spec: the vector-to-scalar options that `per_atom_sum` switches
on; INVALID stands for every other value (the `default` branch). -/
inductive Vector2Scalar where
  | PF_VECTOR2SCALAR_NORM
  | PF_VECTOR2SCALAR_PROJECTION
  | INVALID
deriving DecidableEq, Repr

/-- Modelled from the spec: the functions of other files that the writers of
`fda.cpp` call, carried as parameters: `sqrt`, `cos_angle` of `vec.h`,
`vector2signedscalar` and `pf_compatibility_map_interaction`. -/
structure Helpers (α : Type) where
  sqrt : α → α
  cos_angle : RVec α → RVec α → α
  vector2signedscalar : RVec α → RVec α → RVec α → Vector2Scalar → α
  pf_compatibility_map_interaction : InteractionType → Nat

/-- Modelled from the spec: `t_pf_interaction_summed` / `t_pf_interaction_scalar`: the
partner `jjnr`, the accumulated force (vector or scalar) and the type bitmask. -/
structure t_pf_interaction (β : Type) where
  jjnr : Nat
  force : β
  type : InteractionType

/-- Modelled from the spec: `t_pf_atom_summed` / `t_pf_atom_scalar`: the entity `nr`
and its array of interactions. -/
structure t_pf_atom (β : Type) where
  nr : Nat
  interactions : List (t_pf_interaction β)

/-- Modelled from the spec: `t_pf_interaction_detailed`: the partner and the vector. -/
structure t_pf_interaction_detailed (α : Type) where
  jjnr : Nat
  force : RVec α

/-- Modelled from the spec: `t_pf_atom_detailed`: the entity `nr` and, for every
interaction type, the array `pf_interaction_array_by_type` returns. -/
structure t_pf_atom_detailed (α : Type) where
  nr : Nat
  interactions : InteractionType → List (t_pf_interaction_detailed α)

/-- Modelled from the spec: `t_pf_atoms`, the store the writers of `fda.cpp` read as
`atoms`: the number `len` of entities, the map `sys2pf` and the arrays `detailed`,
`summed` and `scalar`. -/
structure t_pf_atoms (α : Type) where
  len : Nat
  sys2pf : Nat → Nat
  detailed : List (t_pf_atom_detailed α)
  summed : List (t_pf_atom (RVec α))
  scalar : List (t_pf_atom α)

/-- What the writers print: the line `frame n`, a vector record, a scalar record, a
line of space-separated values, and the block that `pf_write_frame_atoms_compat`
receives (frame number, interaction count, atoms, indices, forces, mapped types,
ASCII flag). -/
inductive Line (α : Type) where
  | frame (framenr : Nat)
  | vector (ii jj : Nat) (force : RVec α) (type : InteractionType)
  | scalar (ii jj : Nat) (force : α) (type : InteractionType)
  | values (l : List α)
  | compat (framenr interactions_count : Nat) (fmatoms : List Nat) (index : List Int)
      (force : List α) (interaction : List Nat) (ascii : Bool)

/-- An output file `f` together with its frame counter `*framenr`. -/
structure Output (α : Type) where
  f : List (Line α)
  framenr : Nat

/-- The calls of `gmx_fatal` in `fda.cpp`, which end the process, by their message:
`Per atom ...` (false) or `Per residue ...` (true) `detailed output not supported for
virial stress`, `... for virial stress von mises`, `... detailed output not
implemented`, `... summed output not supported for virial stress`, `... for virial
stress von mises`, `... summed output not implemented`; the message about detailed
pairwise interactions that cannot be mapped in compatibility mode; and `Unknown option
for Vector2Scalar`. -/
inductive Fatal where
  | detailed_virial_stress (residue : Bool)
  | detailed_virial_stress_von_mises (residue : Bool)
  | detailed_compatibility_mode
  | detailed_not_implemented (residue : Bool)
  | summed_virial_stress (residue : Bool)
  | summed_virial_stress_von_mises (residue : Bool)
  | summed_not_implemented (residue : Bool)
  | unknown_vector2scalar
deriving DecidableEq, Repr

section LegacyWriters

variable {α : Type} [LinearOrderedField α]

/-- Modelled from the spec: the values of `type` in the loop
`for (type = 1; type < PF_INTER_ALL; type <<= 1)`: the seven single-bit types. -/
def interaction_types : List InteractionType := [1, 2, 4, 8, 16, 32, 64]

/-- Function `FDA::write_frame_detailed` (fda.cpp:434-459). -/
def write_frame_detailed (h : Helpers α) (atoms : t_pf_atoms α) (out : Output α)
    (x : Nat → RVec α) (bVector : Bool) (v2s : Vector2Scalar) : Output α :=
  { f :=
      out.f ++ Line.frame out.framenr ::
        (atoms.detailed.take atoms.len).flatMap (fun a =>
          interaction_types.flatMap (fun type =>
            (a.interactions type).map (fun id =>
              if bVector then Line.vector a.nr id.jjnr id.force type
              else
                Line.scalar a.nr id.jjnr
                  (h.vector2signedscalar id.force (x a.nr) (x id.jjnr) v2s) type)))
    framenr := out.framenr + 1 }

/-- Function `FDA::write_frame_summed` (fda.cpp:461-483). -/
def write_frame_summed (h : Helpers α) (atoms : t_pf_atoms α) (out : Output α)
    (x : Nat → RVec α) (bVector : Bool) (v2s : Vector2Scalar) : Output α :=
  { f :=
      out.f ++ Line.frame out.framenr ::
        (atoms.summed.take atoms.len).flatMap (fun a =>
          a.interactions.map (fun is =>
            if bVector then Line.vector a.nr is.jjnr is.force is.type
            else
              Line.scalar a.nr is.jjnr
                (h.vector2signedscalar is.force (x a.nr) (x is.jjnr) v2s) is.type))
    framenr := out.framenr + 1 }

/-- Function `FDA::write_frame_scalar` (fda.cpp:485-504). -/
def write_frame_scalar (atoms : t_pf_atoms α) (out : Output α) : Output α :=
  { f :=
      out.f ++ Line.frame out.framenr ::
        (atoms.scalar.take atoms.len).flatMap (fun a =>
          a.interactions.map (fun is => Line.scalar a.nr is.jjnr is.force is.type))
    framenr := out.framenr + 1 }

/-- Modelled from the spec: the count `pf_atoms_scalar_to_fm` returns: the number of
stored scalar interactions, one slot of the arrays `index`, `force` and `interaction`
for each interaction the loop of the caller visits. -/
def pf_atoms_scalar_to_fm (atoms : t_pf_atoms α) : Nat :=
  ((atoms.scalar.take atoms.len).map (fun a => a.interactions.length)).sum

/-- Modelled from the spec: the array `fmatoms` that `pf_atoms_scalar_to_fm` fills: the
entities of the store. -/
def fmatoms_of (atoms : t_pf_atoms α) : List Nat := (atoms.scalar.take atoms.len).map (fun a => a.nr)

/-- The value a 32-bit `int` holds for the arithmetic result
`x`: `x` itself when it lies in [-2^31, 2^31), and `x` wrapped around modulo 2^32
otherwise. C leaves the overflow of `int` undefined; the wrapped value is what
two's-complement targets compute. -/
def wrap_int (x : Int) : Int := (x + 2147483648) % 4294967296 - 2147483648

/-- The index of the half-matrix storage (fda.cpp:713):
`(ii > jj) ? (jj * atoms->len) + ii : (ii * atoms->len) + jj`, computed in `int` as the
declarations of fda.cpp:682 have it: the product and the sum each wrap around. -/
def compat_index (len ii jj : Nat) : Int :=
  if ii > jj then wrap_int (wrap_int ((jj : Int) * (len : Int)) + (ii : Int))
  else wrap_int (wrap_int ((ii : Int) * (len : Int)) + (jj : Int))

/-- The entries `index[c_ix]`, `force[c_ix]`, `interaction[c_ix]` that the loop of
`FDA::write_frame_atoms_scalar_compat` fills (fda.cpp:702-718), in the order of
`c_ix`. -/
def compat_entries (h : Helpers α) (atoms : t_pf_atoms α) : List (Int × α × Nat) :=
  (atoms.scalar.take atoms.len).flatMap (fun a =>
    a.interactions.map (fun j =>
      (compat_index atoms.len (atoms.sys2pf a.nr) (atoms.sys2pf j.jjnr), j.force,
        h.pf_compatibility_map_interaction j.type)))

/-- Function `FDA::write_frame_atoms_scalar_compat` (fda.cpp:677-728);
`pf_write_frame_atoms_compat` prints one block from its arguments. -/
def write_frame_atoms_scalar_compat (h : Helpers α) (atoms : t_pf_atoms α) (out : Output α)
    (ascii : Bool) : Output α :=
  let interactions_count := pf_atoms_scalar_to_fm atoms
  if interactions_count = 0 then out
  else
    let entries := compat_entries h atoms
    { f :=
        out.f ++ [Line.compat out.framenr interactions_count (fmatoms_of atoms)
          (entries.map (fun e => e.1)) (entries.map (fun e => e.2.1))
          (entries.map (fun e => e.2.2)) ascii]
      framenr := out.framenr + 1 }

/-- The loop of `FDA::per_atom_real_write_frame` that detects the last non-zero
item (fda.cpp:734-738): the value of `j` after the loop that started at `j`. -/
def last_nonzero (force : List α) : Nat → Nat
  | 0 => 0
  | j + 1 => if force.getD j 0 ≠ 0 then j + 1 else last_nonzero force j

/-- Function `FDA::per_atom_real_write_frame` (fda.cpp:730-751): one line with the
first `j` values. -/
def per_atom_real_write_frame (f : List (Line α)) (force : List α) (no_end_zeros : Bool) :
    List (Line α) :=
  let j := if no_end_zeros then last_nonzero force force.length else force.length
  f ++ [Line.values (force.take j)]

/-- Function `pf_vector2unsignedscalar` (fda.cpp:753-762). -/
def pf_vector2unsignedscalar (h : Helpers α) (v : RVec α) (i j : Nat) (x : Nat → RVec α) : α :=
  let r := rvec_sub (x j) (x i)
  let p := h.cos_angle r v * norm h.sqrt v
  if p < 0 then -p else p

/-- The loop body of `FDA::per_atom_sum` (fda.cpp:776-790) over the interactions in
loop order, each with the `nr` of its entity; the `default` branch of the switch is
the fatal error. -/
def per_atom_sum_loop (h : Helpers α) (x : Nat → RVec α) (v2s : Vector2Scalar) :
    List (Nat × t_pf_interaction (RVec α)) → List α → Except Fatal (List α)
  | [], force => Except.ok force
  | (ii, is) :: rest, force =>
    match v2s with
    | Vector2Scalar.PF_VECTOR2SCALAR_NORM =>
      per_atom_sum_loop h x v2s rest
        (modify_at (fun v => v + norm h.sqrt is.force) is.jjnr
          (modify_at (fun v => v + norm h.sqrt is.force) ii force))
    | Vector2Scalar.PF_VECTOR2SCALAR_PROJECTION =>
      per_atom_sum_loop h x v2s rest
        (modify_at (fun v => v + pf_vector2unsignedscalar h is.force ii is.jjnr x) is.jjnr
          (modify_at (fun v => v + pf_vector2unsignedscalar h is.force ii is.jjnr x) ii force))
    | Vector2Scalar.INVALID => Except.error Fatal.unknown_vector2scalar

/-- Function `FDA::per_atom_sum` (fda.cpp:764-793): the per-node array is set to zero
and then receives the scalar of every summed interaction at both nodes. -/
def per_atom_sum (h : Helpers α) (force_per_node : List α) (summed : List (t_pf_atom (RVec α)))
    (atoms_len : Nat) (x : Nat → RVec α) (v2s : Vector2Scalar) : Except Fatal (List α) :=
  per_atom_sum_loop h x v2s
    ((summed.take atoms_len).flatMap (fun a => a.interactions.map (fun is => (a.nr, is))))
    (List.replicate force_per_node.length 0)

/-- Function `FDA::write_atom_virial_sum` (fda.cpp:795-809): one line with the six
negated components of every atom. -/
def write_atom_virial_sum (f : List (Line α)) (atom_vir : List (Tensor α)) (natoms : Nat) :
    List (Line α) :=
  f ++ [Line.values ((atom_vir.take natoms).flatMap
    (fun t => [-t.xx, -t.yy, -t.zz, -t.xy, -t.xz, -t.yz]))]

/-- Function `tensor_to_vonmises` (fda.cpp:811-820). -/
def tensor_to_vonmises (sqrt : α → α) (t : Tensor α) : α :=
  let txy := t.xx - t.yy
  let tyz := t.yy - t.zz
  let tzx := t.zz - t.xx
  sqrt (0.5 * (txy * txy + tyz * tyz + tzx * tzx
    + 6 * (t.xy * t.xy + t.xz * t.xz + t.yz * t.yz)))

/-- Function `FDA::write_atom_virial_sum_von_mises` (fda.cpp:822-836): one line with
the von Mises scalar of every atom. -/
def write_atom_virial_sum_von_mises (sqrt : α → α) (f : List (Line α))
    (atom_vir : List (Tensor α)) (natoms : Nat) : List (Line α) :=
  f ++ [Line.values ((atom_vir.take natoms).map (tensor_to_vonmises sqrt))]

/-- Modelled from the spec: `pf_write_frame_atoms_summed_compat`, the compatibility
writer of the summed store: the scalar compatibility writer applied to the scalars
that `vector2signedscalar` gives for the summed vectors. -/
def pf_write_frame_atoms_summed_compat (h : Helpers α) (atoms : t_pf_atoms α) (out : Output α)
    (x : Nat → RVec α) (ascii : Bool) (v2s : Vector2Scalar) : Output α :=
  write_frame_atoms_scalar_compat h
    { atoms with
      scalar :=
        atoms.summed.map (fun a =>
          ⟨a.nr, a.interactions.map (fun is =>
            ⟨is.jjnr, h.vector2signedscalar is.force (x a.nr) (x is.jjnr) v2s, is.type⟩)⟩) }
    out ascii

/-- The members of class `FDA` that the frame functions of `fda.cpp` use: the one-pair
mode, the two output selectors, the vector-to-scalar option, the two stores, the two
output files with their frame counters (`of_atoms` with `nsteps_atoms`, `of_residues`
with `nsteps_residues`), the per-node arrays of punctual stress, the atom virials, the
system sizes, the no-trailing-zeros flag and the time-averaging period, step counter
and centres of mass. -/
structure FDAFrames (α : Type) where
  one_pair : OnePair
  AtomBased : ResultType
  ResidueBased : ResultType
  v2s : Vector2Scalar
  atom_based_forces : t_pf_atoms α
  residue_based_forces : t_pf_atoms α
  atoms_out : Output α
  residues_out : Output α
  force_per_atom : List α
  force_per_residue : List α
  atom_vir : List (Tensor α)
  syslen_atoms : Nat
  syslen_residues : Nat
  no_end_zeros : Bool
  time_averaging_period : Nat
  time_averaging_steps : Nat
  time_averaging_com : List (RVec α)

/-- The switch on `AtomBased` in the DETAILED branch of `FDA::write_frame`
(fda.cpp:515-538); a fatal error carries the state at the call. -/
def FDAFrames.detailed_atoms (h : Helpers α) (self : FDAFrames α) (x : Nat → RVec α) :
    Except (Fatal × FDAFrames α) (FDAFrames α) :=
  match self.AtomBased with
  | ResultType.FILE_OUT_NONE => Except.ok self
  | ResultType.FILE_OUT_PAIRWISE_FORCES_VECTOR =>
    Except.ok { self with
      atoms_out := write_frame_detailed h self.atom_based_forces self.atoms_out x true self.v2s }
  | ResultType.FILE_OUT_PAIRWISE_FORCES_SCALAR =>
    Except.ok { self with
      atoms_out := write_frame_detailed h self.atom_based_forces self.atoms_out x false self.v2s }
  | ResultType.FILE_OUT_VIRIAL_STRESS => Except.error (Fatal.detailed_virial_stress false, self)
  | ResultType.FILE_OUT_VIRIAL_STRESS_VON_MISES =>
    Except.error (Fatal.detailed_virial_stress_von_mises false, self)
  | ResultType.FILE_OUT_COMPAT_BIN => Except.ok self
  | ResultType.FILE_OUT_COMPAT_ASCII => Except.error (Fatal.detailed_compatibility_mode, self)
  | ResultType.FILE_OUT_PUNCTUAL_STRESS =>
    Except.error (Fatal.detailed_not_implemented false, self)

/-- The switch on `ResidueBased` in the DETAILED branch of `FDA::write_frame`
(fda.cpp:539-562); `com` holds the residue centres of mass. -/
def FDAFrames.detailed_residues (h : Helpers α) (self : FDAFrames α) (com : Nat → RVec α) :
    Except (Fatal × FDAFrames α) (FDAFrames α) :=
  match self.ResidueBased with
  | ResultType.FILE_OUT_NONE => Except.ok self
  | ResultType.FILE_OUT_PAIRWISE_FORCES_VECTOR =>
    Except.ok { self with
      residues_out :=
        write_frame_detailed h self.residue_based_forces self.residues_out com true self.v2s }
  | ResultType.FILE_OUT_PAIRWISE_FORCES_SCALAR =>
    Except.ok { self with
      residues_out :=
        write_frame_detailed h self.residue_based_forces self.residues_out com false self.v2s }
  | ResultType.FILE_OUT_VIRIAL_STRESS => Except.error (Fatal.detailed_virial_stress true, self)
  | ResultType.FILE_OUT_VIRIAL_STRESS_VON_MISES =>
    Except.error (Fatal.detailed_virial_stress_von_mises true, self)
  | ResultType.FILE_OUT_COMPAT_BIN => Except.ok self
  | ResultType.FILE_OUT_COMPAT_ASCII => Except.error (Fatal.detailed_compatibility_mode, self)
  | ResultType.FILE_OUT_PUNCTUAL_STRESS =>
    Except.error (Fatal.detailed_not_implemented true, self)

/-- The switch on `AtomBased` in the SUMMED branch of `FDA::write_frame`
(fda.cpp:565-592). -/
def FDAFrames.summed_atoms (h : Helpers α) (self : FDAFrames α) (x : Nat → RVec α) :
    Except (Fatal × FDAFrames α) (FDAFrames α) :=
  match self.AtomBased with
  | ResultType.FILE_OUT_NONE => Except.ok self
  | ResultType.FILE_OUT_PAIRWISE_FORCES_VECTOR =>
    Except.ok { self with
      atoms_out := write_frame_summed h self.atom_based_forces self.atoms_out x true self.v2s }
  | ResultType.FILE_OUT_PAIRWISE_FORCES_SCALAR =>
    Except.ok { self with
      atoms_out := write_frame_summed h self.atom_based_forces self.atoms_out x false self.v2s }
  | ResultType.FILE_OUT_PUNCTUAL_STRESS =>
    match per_atom_sum h self.force_per_atom self.atom_based_forces.summed
        self.atom_based_forces.len x self.v2s with
    | Except.error e => Except.error (e, self)
    | Except.ok force =>
      Except.ok { self with
        force_per_atom := force
        atoms_out :=
          { self.atoms_out with
            f := per_atom_real_write_frame self.atoms_out.f force self.no_end_zeros } }
  | ResultType.FILE_OUT_VIRIAL_STRESS =>
    Except.ok { self with
      atoms_out :=
        { self.atoms_out with
          f := write_atom_virial_sum self.atoms_out.f self.atom_vir self.syslen_atoms } }
  | ResultType.FILE_OUT_VIRIAL_STRESS_VON_MISES =>
    Except.ok { self with
      atoms_out :=
        { self.atoms_out with
          f :=
            write_atom_virial_sum_von_mises h.sqrt self.atoms_out.f self.atom_vir
              self.syslen_atoms } }
  | ResultType.FILE_OUT_COMPAT_BIN => Except.ok self
  | ResultType.FILE_OUT_COMPAT_ASCII =>
    Except.ok { self with
      atoms_out :=
        pf_write_frame_atoms_summed_compat h self.atom_based_forces self.atoms_out x true
          self.v2s }

/-- The switch on `ResidueBased` in the SUMMED branch of `FDA::write_frame`
(fda.cpp:593-620). -/
def FDAFrames.summed_residues (h : Helpers α) (self : FDAFrames α) (com : Nat → RVec α) :
    Except (Fatal × FDAFrames α) (FDAFrames α) :=
  match self.ResidueBased with
  | ResultType.FILE_OUT_NONE => Except.ok self
  | ResultType.FILE_OUT_PAIRWISE_FORCES_VECTOR =>
    Except.ok { self with
      residues_out :=
        write_frame_summed h self.residue_based_forces self.residues_out com true self.v2s }
  | ResultType.FILE_OUT_PAIRWISE_FORCES_SCALAR =>
    Except.ok { self with
      residues_out :=
        write_frame_summed h self.residue_based_forces self.residues_out com false self.v2s }
  | ResultType.FILE_OUT_PUNCTUAL_STRESS =>
    match per_atom_sum h self.force_per_residue self.residue_based_forces.summed
        self.residue_based_forces.len com self.v2s with
    | Except.error e => Except.error (e, self)
    | Except.ok force =>
      Except.ok { self with
        force_per_residue := force
        residues_out :=
          { self.residues_out with
            f := per_atom_real_write_frame self.residues_out.f force self.no_end_zeros } }
  | ResultType.FILE_OUT_VIRIAL_STRESS => Except.error (Fatal.summed_virial_stress true, self)
  | ResultType.FILE_OUT_VIRIAL_STRESS_VON_MISES =>
    Except.error (Fatal.summed_virial_stress_von_mises true, self)
  | ResultType.FILE_OUT_COMPAT_BIN => Except.ok self
  | ResultType.FILE_OUT_COMPAT_ASCII =>
    Except.ok { self with
      residues_out :=
        pf_write_frame_atoms_summed_compat h self.residue_based_forces self.residues_out com
          true self.v2s }

/-- Function `FDA::write_frame` (fda.cpp:506-627): the atom switch, then the residue
switch of the one-pair mode; `com` is the result of `pf_residues_com`. -/
def FDAFrames.write_frame (h : Helpers α) (self : FDAFrames α) (x com : Nat → RVec α) :
    Except (Fatal × FDAFrames α) (FDAFrames α) :=
  match self.one_pair with
  | OnePair.DETAILED =>
    match self.detailed_atoms h x with
    | Except.error e => Except.error e
    | Except.ok s => s.detailed_residues h com
  | OnePair.SUMMED =>
    match self.summed_atoms h x with
    | Except.error e => Except.error e
    | Except.ok s => s.summed_residues h com
  | OnePair.INVALID => Except.ok self

/-- The fatal error of a run, if it ended in one. -/
def fatal_of {σ : Type} : Except (Fatal × σ) σ → Option Fatal
  | Except.error e => some e.1
  | Except.ok _ => none

/-- The state in which a run ended: at its return or at the fatal error. -/
def final_state {σ : Type} : Except (Fatal × σ) σ → σ
  | Except.error e => e.2
  | Except.ok s => s

/-- Modelled from the spec: `PF_or_PS_mode()` / `pf_file_out_PF_or_PS`: the selector
asks for pairwise forces or punctual stress (the compatibility encodings hold pairwise
forces). -/
def PF_or_PS_mode : ResultType → Bool
  | ResultType.FILE_OUT_PAIRWISE_FORCES_VECTOR => true
  | ResultType.FILE_OUT_PAIRWISE_FORCES_SCALAR => true
  | ResultType.FILE_OUT_PUNCTUAL_STRESS => true
  | ResultType.FILE_OUT_COMPAT_BIN => true
  | ResultType.FILE_OUT_COMPAT_ASCII => true
  | _ => false

/-- Modelled from the spec: `compatibility_mode()`: one of the two legacy
compatibility encodings is selected. -/
def compatibility_mode : ResultType → Bool
  | ResultType.FILE_OUT_COMPAT_BIN => true
  | ResultType.FILE_OUT_COMPAT_ASCII => true
  | _ => false

/-- Modelled from the spec: look-up-or-create of the scalar interaction with partner
`jjnr`: the scalar is added and the type bits are OR-ed in. -/
def scalar_add (jjnr : Nat) (s : α) (type : InteractionType) :
    List (t_pf_interaction α) → List (t_pf_interaction α)
  | [] => [⟨jjnr, s, type⟩]
  | a :: rest =>
    if a.jjnr = jjnr then { a with force := a.force + s, type := a.type ||| type } :: rest
    else a :: scalar_add jjnr s type rest

/-- Modelled from the spec: `summed_merge_to_scalar(positions, v2s)` on the store of
`fda.cpp`: the scalar of every summed vector is accumulated in the scalar array of the
same entity. -/
def t_pf_atoms.summed_merge_to_scalar (atoms : t_pf_atoms α) (h : Helpers α) (x : Nat → RVec α)
    (v2s : Vector2Scalar) : t_pf_atoms α :=
  { atoms with
    scalar :=
      List.zipWith
        (fun (sm : t_pf_atom (RVec α)) (sc : t_pf_atom α) =>
          { sc with
            interactions :=
              sm.interactions.foldl
                (fun l is =>
                  scalar_add is.jjnr (h.vector2signedscalar is.force (x sm.nr) (x is.jjnr) v2s)
                    is.type l)
                sc.interactions })
        atoms.summed atoms.scalar }

/-- Modelled from the spec: `scalar_real_divide(n)` on the store of `fda.cpp`. -/
def t_pf_atoms.scalar_real_divide (atoms : t_pf_atoms α) (divisor : α) : t_pf_atoms α :=
  { atoms with
    scalar :=
      atoms.scalar.map (fun a =>
        { a with interactions := a.interactions.map (fun is => { is with force := is.force / divisor }) }) }

/-- Modelled from the spec: `pf_atoms_scalar_init`: every entity loses its scalar
interactions. -/
def t_pf_atoms.pf_atoms_scalar_init (atoms : t_pf_atoms α) : t_pf_atoms α :=
  { atoms with scalar := atoms.scalar.map (fun a => { a with interactions := [] }) }

/-- The atom-based block of `FDA::write_scalar_time_averages` (fda.cpp:654-661). -/
def FDAFrames.write_scalar_atoms (h : Helpers α) (self : FDAFrames α) : FDAFrames α :=
  if PF_or_PS_mode self.AtomBased then
    let forces := self.atom_based_forces.scalar_real_divide (self.time_averaging_steps : α)
    { self with
      atoms_out :=
        if compatibility_mode self.AtomBased then
          write_frame_atoms_scalar_compat h forces self.atoms_out
            (decide (self.AtomBased = ResultType.FILE_OUT_COMPAT_ASCII))
        else write_frame_scalar forces self.atoms_out
      atom_based_forces := forces.pf_atoms_scalar_init }
  else self

/-- The residue-based block of `FDA::write_scalar_time_averages` (fda.cpp:663-672);
`pf_x_real_div` divides the first `syslen_residues` centres of mass by the step
count. -/
def FDAFrames.write_scalar_residues (h : Helpers α) (self : FDAFrames α) : FDAFrames α :=
  if PF_or_PS_mode self.ResidueBased then
    let forces := self.residue_based_forces.scalar_real_divide (self.time_averaging_steps : α)
    { self with
      residues_out :=
        if compatibility_mode self.ResidueBased then
          write_frame_atoms_scalar_compat h forces self.residues_out
            (decide (self.ResidueBased = ResultType.FILE_OUT_COMPAT_ASCII))
        else write_frame_scalar forces self.residues_out
      residue_based_forces := forces.pf_atoms_scalar_init
      time_averaging_com :=
        update_first (fun _ _ => clear_rvec) self.syslen_residues
          (update_first (fun _ c => rvec_div c (self.time_averaging_steps : α))
            self.syslen_residues self.time_averaging_com) }
  else self

/-- Function `FDA::write_scalar_time_averages` (fda.cpp:649-675). -/
def FDAFrames.write_scalar_time_averages (h : Helpers α) (self : FDAFrames α) : FDAFrames α :=
  if self.time_averaging_steps = 0 then self
  else if self.time_averaging_period = 1 then self
  else
    { (self.write_scalar_atoms h).write_scalar_residues h with time_averaging_steps := 0 }

/-- Function `FDA::save_and_write_scalar_time_averages` (fda.cpp:628-647);
`time_averages->steps` and `time_averages->period` are the step counter and the
period, `com` is the result of `pf_residues_com`, and `pf_x_inc` adds it to the
centres of mass of the window. -/
def FDAFrames.save_and_write_scalar_time_averages (h : Helpers α) (self : FDAFrames α)
    (x com : Nat → RVec α) : Except (Fatal × FDAFrames α) (FDAFrames α) :=
  if self.time_averaging_period ≠ 1 then
    let s1 :=
      if PF_or_PS_mode self.AtomBased then
        { self with
          atom_based_forces := self.atom_based_forces.summed_merge_to_scalar h x self.v2s }
      else self
    let s2 :=
      if PF_or_PS_mode s1.ResidueBased then
        { s1 with
          residue_based_forces := s1.residue_based_forces.summed_merge_to_scalar h com s1.v2s
          time_averaging_com :=
            update_first (fun i c => rvec_inc c (com i)) s1.syslen_residues
              s1.time_averaging_com }
      else s1
    let s3 := { s2 with time_averaging_steps := s2.time_averaging_steps + 1 }
    if s3.time_averaging_period ≠ 0 ∧ s3.time_averaging_steps ≥ s3.time_averaging_period then
      Except.ok (s3.write_scalar_time_averages h)
    else Except.ok s3
  else self.write_frame h x com

/-- An instance of the helper functions: the identity as square root, the constant
1 as cosine, the first component as vector-to-scalar projection and the identity as
type map. -/
def helpers_x : Helpers α :=
  { sqrt := fun a => a, cos_angle := fun _ _ => 1,
    vector2signedscalar := fun f _ _ _ => f.x,
    pf_compatibility_map_interaction := fun t => t }

/-- A store over two entities without any interaction. -/
def no_pair_atoms : t_pf_atoms α :=
  { len := 2, sys2pf := fun a => a, detailed := [⟨0, fun _ => []⟩, ⟨1, fun _ => []⟩],
    summed := [⟨0, []⟩, ⟨1, []⟩], scalar := [⟨0, []⟩, ⟨1, []⟩] }

/-- A store over two entities with one interaction of type BOND between 0 and 1:
the vector (1, 2, 3) in the detailed and the summed array, the scalar 5 in the scalar
array. -/
def one_pair_atoms : t_pf_atoms α :=
  { len := 2, sys2pf := fun a => a,
    detailed :=
      [⟨0, fun type => if type = InteractionType_BOND then [⟨1, ⟨1, 2, 3⟩⟩] else []⟩,
        ⟨1, fun _ => []⟩],
    summed := [⟨0, [⟨1, ⟨1, 2, 3⟩, InteractionType_BOND⟩]⟩, ⟨1, []⟩],
    scalar := [⟨0, [⟨1, 5, InteractionType_BOND⟩]⟩, ⟨1, []⟩] }

/-- A frame state of `fda.cpp` with the given mode, selectors, period and atom
store: empty residue store, empty output files, counters at zero. -/
def FDAFrames.fresh (mode : OnePair) (atom residue : ResultType) (period : Nat)
    (atoms : t_pf_atoms α) : FDAFrames α :=
  { one_pair := mode, AtomBased := atom, ResidueBased := residue,
    v2s := Vector2Scalar.PF_VECTOR2SCALAR_NORM, atom_based_forces := atoms,
    residue_based_forces := no_pair_atoms, atoms_out := ⟨[], 0⟩, residues_out := ⟨[], 0⟩,
    force_per_atom := [0, 0], force_per_residue := [0, 0], atom_vir := [], syslen_atoms := 2,
    syslen_residues := 2, no_end_zeros := false, time_averaging_period := period,
    time_averaging_steps := 0, time_averaging_com := [clear_rvec, clear_rvec] }

end LegacyWriters

end Legacy

/-! ## Virial and dihedral functions of the older `fda.cpp` -/

namespace Legacy

section LegacyVirial

variable {α : Type} [LinearOrderedField α]

/-- Modelled from the spec: `VS_mode()`: the selector asks for virial stress or for
its von Mises scalar. -/
def VS_mode : ResultType → Bool
  | ResultType.FILE_OUT_VIRIAL_STRESS => true
  | ResultType.FILE_OUT_VIRIAL_STRESS_VON_MISES => true
  | _ => false

/-- The constructor `FDA::FDA` of `fda.cpp` (lines 30-46): both operations are set up
from their result types with empty maps, and `atom_vir` is resized to `syslen_atoms`
zero tensors only when the atom-based result is in virial-stress mode; otherwise it
stays the empty vector. -/
def FDA.construct (fda_settings : FDASettings)
    (atom_based_result_type residue_based_result_type : ResultType) (syslen_atoms : Nat) :
    FDA α :=
  { fda_settings := fda_settings
    atom_based :=
      { PF_or_PS_mode := PF_or_PS_mode atom_based_result_type
        VS_mode := VS_mode atom_based_result_type, distributed_forces := ⟨[], []⟩ }
    residue_based :=
      { PF_or_PS_mode := PF_or_PS_mode residue_based_result_type
        VS_mode := VS_mode residue_based_result_type, distributed_forces := ⟨[], []⟩ }
    atom_vir :=
      if VS_mode atom_based_result_type then List.replicate syslen_atoms Tensor.zero else [] }

/-- Function `FDA::add_virial` of `fda.cpp` (lines 375-386): the six updates of
`atom_vir[ai]`; `none` when `ai` is no index of the vector `atom_vir`, where the
access `atom_vir[ai]` is outside the vector. -/
def FDA.add_virial (self : FDA α) (ai : Nat) (v : Tensor α) (s : α) : Option (FDA α) :=
  if ai < self.atom_vir.length then
    some { self with atom_vir := modify_at (fun t => t.add_scaled v s) ai self.atom_vir }
  else none

/-- Function `FDA::add_virial_bond` of `fda.cpp` (lines 388-399): no test of the
virial-stress mode precedes the two `add_virial` calls. -/
def FDA.add_virial_bond (self : FDA α) (ai aj : Nat) (f dx dy dz : α) : Option (FDA α) :=
  let v := virial_bond_tensor f dx dy dz
  (self.add_virial ai v HALF).bind (fun s1 => s1.add_virial aj v HALF)

/-- Function `FDA::add_virial_angle` of `fda.cpp` (lines 401-414). -/
def FDA.add_virial_angle (self : FDA α) (ai aj ak : Nat) (r_ij r_kj f_i f_k : RVec α) :
    Option (FDA α) :=
  let v := virial_angle_tensor r_ij r_kj f_i f_k
  ((self.add_virial ai v THIRD).bind (fun s1 => s1.add_virial aj v THIRD)).bind
    (fun s2 => s2.add_virial ak v THIRD)

/-- Function `FDA::add_virial_dihedral` of `fda.cpp` (lines 416-432). -/
def FDA.add_virial_dihedral (self : FDA α) (i j k l : Nat)
    (f_i f_k f_l r_ij r_kj r_kl : RVec α) : Option (FDA α) :=
  let v := virial_dihedral_tensor f_i f_k f_l r_ij r_kj r_kl
  (((self.add_virial i v QUARTER).bind (fun s1 => s1.add_virial j v QUARTER)).bind
    (fun s2 => s2.add_virial k v QUARTER)).bind (fun s3 => s3.add_virial l v QUARTER)

/-- Modelled from the spec: `PF_INTER_DIHEDRAL` of `pf_interactions.h`, the DIHEDRAL
flag. -/
def PF_INTER_DIHEDRAL : InteractionType := InteractionType_DIHEDRAL

/-- The `add_bonded` calls of `FDA::add_dihedral` of `fda.cpp` (lines 154-274), in
order; none when one of the three guards returns early. -/
def add_dihedral_calls (sqrt : α → α) (GMX_FLOAT_EPS : α) (i j k l : Nat)
    (f_i f_j f_k f_l : RVec α) : List (BondedCall α) :=
  let f_mj := rvec_sub clear_rvec f_j
  let f_mk := rvec_sub clear_rvec f_k
  let f_ipl := rvec_add f_i f_l
  let f_jpk := rvec_add f_mj f_mk
  let uf_jpk := unitv sqrt f_jpk
  let uf_j := unitv sqrt f_mj
  let uf_k := unitv sqrt f_mk
  let nf_ipl := norm sqrt f_ipl
  if nf_ipl < GMX_FLOAT_EPS then []
  else
    let f_jpk_i := svmul (iprod f_i f_ipl / nf_ipl) uf_jpk
    let f_jpk_l := svmul (iprod f_l f_ipl / nf_ipl) uf_jpk
    let nf_jpk := norm sqrt f_jpk
    let nf_j := norm sqrt f_mj
    let nf_k := norm sqrt f_mk
    let f_jpk_c_f_j := cprod f_jpk f_mj
    let f_jpk_c_f_k := cprod f_jpk f_mk
    let nf_jpkxnf_j := nf_jpk * nf_j
    let nf_jpkxnf_k := nf_jpk * nf_k
    if nf_jpkxnf_j < GMX_FLOAT_EPS ∨ nf_jpkxnf_k < GMX_FLOAT_EPS then []
    else
      let cos_a := iprod f_jpk f_mj / nf_jpkxnf_j
      let sin_a := norm sqrt f_jpk_c_f_j / nf_jpkxnf_j
      let cos_b := iprod f_jpk f_mk / nf_jpkxnf_k
      let sin_b := norm sqrt f_jpk_c_f_k / nf_jpkxnf_k
      let sinacosbpsinbcosa := sin_a * cos_b + sin_b * cos_a
      if sinacosbpsinbcosa < GMX_FLOAT_EPS then []
      else
        let nf_jpk_i := norm sqrt f_jpk_i
        let nf_jpk_l := norm sqrt f_jpk_l
        let nf_j_i := nf_jpk_i * sin_b / sinacosbpsinbcosa
        let nf_k_i := nf_jpk_i * sin_a / sinacosbpsinbcosa
        let nf_j_l := nf_jpk_l * sin_b / sinacosbpsinbcosa
        let nf_k_l := nf_jpk_l * sin_a / sinacosbpsinbcosa
        let f_j_i := svmul nf_j_i uf_j
        let f_j_l := svmul nf_j_l uf_j
        let f_k_i := svmul nf_k_i uf_k
        let f_k_l := svmul nf_k_l uf_k
        let f_j_ipl := rvec_add f_j_i f_j_l
        let f_j_k := rvec_sub f_mj f_j_ipl
        let f_l_i := rvec_opp (rvec_add f_i f_jpk_i)
        [⟨j, i, PF_INTER_DIHEDRAL, f_j_i⟩,
         ⟨k, i, PF_INTER_DIHEDRAL, f_k_i⟩,
         ⟨l, i, PF_INTER_DIHEDRAL, f_l_i⟩,
         ⟨j, k, PF_INTER_DIHEDRAL, f_j_k⟩,
         ⟨j, l, PF_INTER_DIHEDRAL, f_j_l⟩,
         ⟨k, l, PF_INTER_DIHEDRAL, f_k_l⟩]

/-- Function `FDA::add_dihedral` of `fda.cpp` (lines 154-274). -/
def FDA.add_dihedral (self : FDA α) (sqrt : α → α) (GMX_FLOAT_EPS : α) (i j k l : Nat)
    (f_i f_j f_k f_l : RVec α) : FDA α :=
  (add_dihedral_calls sqrt GMX_FLOAT_EPS i j k l f_i f_j f_k f_l).foldl
    (fun s c => (s.add_bonded c.i c.j c.type c.force).1) self

end LegacyVirial

end Legacy

/-! ## The quantities of the dihedral guards -/

section DihedralGuards

variable {α : Type} [LinearOrderedField α]

/-- The vector `f_jpk` of `FDA::add_dihedral` (FDA.cpp:258-263): the sum of `-f_j` and
`-f_k`. -/
def dihedral_f_jpk (f_j f_k : RVec α) : RVec α :=
  rvec_add (rvec_sub clear_rvec f_j) (rvec_sub clear_rvec f_k)

/-- The length `nf_ipl` of `FDA::add_dihedral` (FDA.cpp:262, 268). -/
def dihedral_nf_ipl (sqrt : α → α) (f_i f_l : RVec α) : α := norm sqrt (rvec_add f_i f_l)

/-- The product `nf_jpkxnf_j` of `FDA::add_dihedral` (FDA.cpp:284). -/
def dihedral_nf_jpkxnf_j (sqrt : α → α) (f_j f_k : RVec α) : α :=
  norm sqrt (dihedral_f_jpk f_j f_k) * norm sqrt (rvec_sub clear_rvec f_j)

/-- The product `nf_jpkxnf_k` of `FDA::add_dihedral` (FDA.cpp:285). -/
def dihedral_nf_jpkxnf_k (sqrt : α → α) (f_j f_k : RVec α) : α :=
  norm sqrt (dihedral_f_jpk f_j f_k) * norm sqrt (rvec_sub clear_rvec f_k)

/-- The value `cos_a` of `FDA::add_dihedral` (FDA.cpp:289). -/
def dihedral_cos_a (sqrt : α → α) (f_j f_k : RVec α) : α :=
  iprod (dihedral_f_jpk f_j f_k) (rvec_sub clear_rvec f_j) / dihedral_nf_jpkxnf_j sqrt f_j f_k

/-- The value `sin_a` of `FDA::add_dihedral` (FDA.cpp:282, 290). -/
def dihedral_sin_a (sqrt : α → α) (f_j f_k : RVec α) : α :=
  norm sqrt (cprod (dihedral_f_jpk f_j f_k) (rvec_sub clear_rvec f_j))
    / dihedral_nf_jpkxnf_j sqrt f_j f_k

/-- The value `cos_b` of `FDA::add_dihedral` (FDA.cpp:291). -/
def dihedral_cos_b (sqrt : α → α) (f_j f_k : RVec α) : α :=
  iprod (dihedral_f_jpk f_j f_k) (rvec_sub clear_rvec f_k) / dihedral_nf_jpkxnf_k sqrt f_j f_k

/-- The value `sin_b` of `FDA::add_dihedral` (FDA.cpp:283, 292). -/
def dihedral_sin_b (sqrt : α → α) (f_j f_k : RVec α) : α :=
  norm sqrt (cprod (dihedral_f_jpk f_j f_k) (rvec_sub clear_rvec f_k))
    / dihedral_nf_jpkxnf_k sqrt f_j f_k

/-- The value `sinacosbpsinbcosa` of `FDA::add_dihedral` (FDA.cpp:295). -/
def dihedral_sinacosbpsinbcosa (sqrt : α → α) (f_j f_k : RVec α) : α :=
  dihedral_sin_a sqrt f_j f_k * dihedral_cos_b sqrt f_j f_k
    + dihedral_sin_b sqrt f_j f_k * dihedral_cos_a sqrt f_j f_k

end DihedralGuards

/-! ## Outer products of positions and forces -/

section OuterProducts

variable {α : Type} [LinearOrderedField α]

/-- The sum over the (r, f) pairs of `r[a] * f[b]` for the components picked by `a`
and `b`. -/
def outer_sum (a b : RVec α → α) (pairs : List (RVec α × RVec α)) : α :=
  (pairs.map (fun p => a p.1 * b p.2)).sum

/-- The upper triangle of the plain outer product of a list of (r, f) pairs:
component (a, b) with a ≤ b is the sum of `r[a] * f[b]`; the lower triangle is left at
zero, as in the local tensors of the virial functions. -/
def outer_upper (pairs : List (RVec α × RVec α)) : Tensor α :=
  { xx := outer_sum RVec.x RVec.x pairs
    yy := outer_sum RVec.y RVec.y pairs
    zz := outer_sum RVec.z RVec.z pairs
    xy := outer_sum RVec.x RVec.y pairs
    xz := outer_sum RVec.x RVec.z pairs
    yz := outer_sum RVec.y RVec.z pairs
    yx := 0, zx := 0, zy := 0 }

/-- The symmetrized outer product as the specification words it: diagonal component
(a, a) the sum of `r[a] * f[a]`, off-diagonal component (a, b) half the sum of
`r[a] * f[b] + r[b] * f[a]`; given here on the upper triangle. -/
def symmetrized_outer (pairs : List (RVec α × RVec α)) : Tensor α :=
  { xx := outer_sum RVec.x RVec.x pairs
    yy := outer_sum RVec.y RVec.y pairs
    zz := outer_sum RVec.z RVec.z pairs
    xy := 1 / 2 * (outer_sum RVec.x RVec.y pairs + outer_sum RVec.y RVec.x pairs)
    xz := 1 / 2 * (outer_sum RVec.x RVec.z pairs + outer_sum RVec.z RVec.x pairs)
    yz := 1 / 2 * (outer_sum RVec.y RVec.z pairs + outer_sum RVec.z RVec.y pairs)
    yx := 0, zx := 0, zy := 0 }

/-- The (r, f) pair of a bond: the displacement (dx, dy, dz) and the force
`f * (dx, dy, dz)` along it. -/
def bond_pairs (f dx dy dz : α) : List (RVec α × RVec α) :=
  [(⟨dx, dy, dz⟩, ⟨f * dx, f * dy, f * dz⟩)]

/-- The (r, f) pairs of an angle: (r_ij, f_i) and (r_kj, f_k). -/
def angle_pairs (r_ij r_kj f_i f_k : RVec α) : List (RVec α × RVec α) :=
  [(r_ij, f_i), (r_kj, f_k)]

/-- The (r, f) pairs of a dihedral: (r_ij, f_i), (r_kj, f_k) and (r_lj, f_l) with
`r_lj = r_kj - r_kl`. -/
def dihedral_pairs (f_i f_k f_l r_ij r_kj r_kl : RVec α) : List (RVec α × RVec α) :=
  [(r_ij, f_i), (r_kj, f_k), (rvec_sub r_kj r_kl, f_l)]

end OuterProducts

/-! ## The force matrix of the graph tool -/

section GraphTool

variable {α : Type} [LinearOrderedField α]

/-- The statements of the multi-frame loop of `gmx_fda_graph` that prepare the matrix
of one frame (gmx_fda_graph.cpp:213-221): the matrix of the frame is read, the matrix
of the `-diff` file, if that option is set, is subtracted element by element, every
element is replaced by its absolute value, and with `-convert` multiplied by 1.66.
The argument `get_forcematrix_of_frame` gives the matrix of each frame of the input
file, `diff` that of the `-diff` file; all matrices have `nbParticles2` elements. -/
def prepared_matrix (get_forcematrix_of_frame : Nat → List α) (diff : Option (Nat → List α))
    (convert : Bool) (frame : Nat) : List α :=
  let forceMatrix := get_forcematrix_of_frame frame
  let forceMatrix :=
    match diff with
    | some get_diff => List.zipWith (fun a b => a - b) forceMatrix (get_diff frame)
    | none => forceMatrix
  let forceMatrix := forceMatrix.map (fun f => |f|)
  if convert then forceMatrix.map (fun f => f * 1.66) else forceMatrix

/-- The block of the multi-frame loop for the frame type AVERAGE
(gmx_fda_graph.cpp:213-241): the prepared matrix of `frame`, to which the inner loop
adds `frameValue - 1` times the prepared matrix that it reads again with the index
`frame`, divided element by element by `frameValue`. This is the matrix handed to
`Graph`. -/
def average_matrix (get_forcematrix_of_frame : Nat → List α) (diff : Option (Nat → List α))
    (convert : Bool) (frameValue frame : Nat) : List α :=
  let forceMatrix := prepared_matrix get_forcematrix_of_frame diff convert frame
  let forceMatrix :=
    Nat.iterate
      (fun m =>
        List.zipWith (fun a b => a + b) m
          (prepared_matrix get_forcematrix_of_frame diff convert frame))
      (frameValue - 1) forceMatrix
  forceMatrix.map (fun f => f / (frameValue : α))

/-- The mean the help text of `-frame` describes for "average n": the element-wise
sum of the prepared matrices of the n frames `frame`, `frame + 1`, …,
`frame + n - 1`, divided by n. -/
def window_mean (get_forcematrix_of_frame : Nat → List α) (diff : Option (Nat → List α))
    (convert : Bool) (n frame : Nat) : List α :=
  ((List.range (n - 1)).foldl
      (fun m k =>
        List.zipWith (fun a b => a + b) m
          (prepared_matrix get_forcematrix_of_frame diff convert (frame + k + 1)))
      (prepared_matrix get_forcematrix_of_frame diff convert frame)).map
    (fun f => f / (n : α))

/-- A force file with two frames over one pair: the matrix (1) in frame 0 and the
matrix (3) in every later frame. -/
def two_frames (frame : Nat) : List α := if frame = 0 then [1] else [3]

end GraphTool

/-! ## Projections of the angle and dihedral decompositions -/

section Projections

variable {α : Type} [LinearOrderedField α]

/-- The orthogonal projection of `f` onto the unit vector of `u`, as the
specification words it: the component of `f` along `unitv u` times `unitv u`. -/
def projection_onto (sqrt : α → α) (f u : RVec α) : RVec α :=
  svmul (iprod f (unitv sqrt u)) (unitv sqrt u)

end Projections

/-! ## What each accumulation path reads -/

section Views

variable {α : Type} [LinearOrderedField α]

/-- Two sessions agree on everything but the residue-based operation and the
atom-to-residue table: the same atom-based operation, type mask, one-pair mode, group
predicate and `to_pure`. -/
def FDA.same_atom_view (a b : FDA α) : Prop :=
  a.atom_based = b.atom_based ∧ a.fda_settings.type = b.fda_settings.type
    ∧ a.fda_settings.one_pair = b.fda_settings.one_pair
    ∧ a.fda_settings.atoms_in_groups = b.fda_settings.atoms_in_groups
    ∧ a.fda_settings.to_pure = b.fda_settings.to_pure

/-- Two sessions agree on everything but the atom-based operation: the same
residue-based operation and the same settings. -/
def FDA.same_residue_view (a b : FDA α) : Prop :=
  a.residue_based = b.residue_based ∧ a.fda_settings = b.fda_settings

end Views

/-! ## The components of the dihedral decomposition -/

section DihedralComponents

variable {α : Type} [LinearOrderedField α]

/-- The vector `f_jpk_i` of `FDA::add_dihedral` (FDA.cpp:271): the projection of `f_i`. -/
def dihedral_f_jpk_i (sqrt : α → α) (f_i f_j f_k f_l : RVec α) : RVec α :=
  svmul (iprod f_i (rvec_add f_i f_l) / dihedral_nf_ipl sqrt f_i f_l)
    (unitv sqrt (dihedral_f_jpk f_j f_k))

/-- The vector `f_jpk_l` of `FDA::add_dihedral` (FDA.cpp:272): the projection of `f_l`. -/
def dihedral_f_jpk_l (sqrt : α → α) (f_i f_j f_k f_l : RVec α) : RVec α :=
  svmul (iprod f_l (rvec_add f_i f_l) / dihedral_nf_ipl sqrt f_i f_l)
    (unitv sqrt (dihedral_f_jpk f_j f_k))

/-- The vector `f_j_i` of `FDA::add_dihedral` (FDA.cpp:298, 300, 307). -/
def dihedral_f_j_i (sqrt : α → α) (f_i f_j f_k f_l : RVec α) : RVec α :=
  svmul
    (norm sqrt (dihedral_f_jpk_i sqrt f_i f_j f_k f_l) * dihedral_sin_b sqrt f_j f_k
      / dihedral_sinacosbpsinbcosa sqrt f_j f_k)
    (unitv sqrt (rvec_sub clear_rvec f_j))

/-- The vector `f_k_i` of `FDA::add_dihedral` (FDA.cpp:298, 301, 309). -/
def dihedral_f_k_i (sqrt : α → α) (f_i f_j f_k f_l : RVec α) : RVec α :=
  svmul
    (norm sqrt (dihedral_f_jpk_i sqrt f_i f_j f_k f_l) * dihedral_sin_a sqrt f_j f_k
      / dihedral_sinacosbpsinbcosa sqrt f_j f_k)
    (unitv sqrt (rvec_sub clear_rvec f_k))

/-- The vector `f_j_l` of `FDA::add_dihedral` (FDA.cpp:299, 302, 308). -/
def dihedral_f_j_l (sqrt : α → α) (f_i f_j f_k f_l : RVec α) : RVec α :=
  svmul
    (norm sqrt (dihedral_f_jpk_l sqrt f_i f_j f_k f_l) * dihedral_sin_b sqrt f_j f_k
      / dihedral_sinacosbpsinbcosa sqrt f_j f_k)
    (unitv sqrt (rvec_sub clear_rvec f_j))

/-- The vector `f_k_l` of `FDA::add_dihedral` (FDA.cpp:299, 303, 310). -/
def dihedral_f_k_l (sqrt : α → α) (f_i f_j f_k f_l : RVec α) : RVec α :=
  svmul
    (norm sqrt (dihedral_f_jpk_l sqrt f_i f_j f_k f_l) * dihedral_sin_a sqrt f_j f_k
      / dihedral_sinacosbpsinbcosa sqrt f_j f_k)
    (unitv sqrt (rvec_sub clear_rvec f_k))

end DihedralComponents

/-! ## The per-node sums of the older `fda.cpp` -/

namespace Legacy

section PerAtomSum

variable {α : Type} [LinearOrderedField α]

/-- The interactions `FDA::per_atom_sum` visits (fda.cpp:772-776), in loop order, each
with the `nr` of its entity. -/
def per_atom_pairs (summed : List (t_pf_atom (RVec α))) (atoms_len : Nat) :
    List (Nat × t_pf_interaction (RVec α)) :=
  (summed.take atoms_len).flatMap (fun a => a.interactions.map (fun is => (a.nr, is)))

/-- The value of `scalar_force` after the switch of `FDA::per_atom_sum`
(fda.cpp:777-786): the norm of the force, or its unsigned projection; in the `default`
branch, which ends in the fatal error, the variable still has its initial value 0. -/
def scalar_force (h : Helpers α) (x : Nat → RVec α) (v2s : Vector2Scalar) (ii : Nat)
    (is : t_pf_interaction (RVec α)) : α :=
  match v2s with
  | Vector2Scalar.PF_VECTOR2SCALAR_NORM => norm h.sqrt is.force
  | Vector2Scalar.PF_VECTOR2SCALAR_PROJECTION => pf_vector2unsignedscalar h is.force ii is.jjnr x
  | Vector2Scalar.INVALID => 0

/-- The two statements `force[ii] += scalar_force; force[jj] += scalar_force`
(fda.cpp:787-788). -/
def add_to_nodes (s : α) (ii jj : Nat) (force : List α) : List α :=
  modify_at (fun v => v + s) jj (modify_at (fun v => v + s) ii force)

/-- What the specification says node `n` receives: the scalar of every pair that has
`n` as its first node plus the scalar of every pair that has `n` as its second node. -/
def node_total (h : Helpers α) (x : Nat → RVec α) (v2s : Vector2Scalar)
    (pairs : List (Nat × t_pf_interaction (RVec α))) (n : Nat) : α :=
  (pairs.map (fun p =>
    (if p.1 = n then scalar_force h x v2s p.1 p.2 else 0)
      + (if p.2.jjnr = n then scalar_force h x v2s p.1 p.2 else 0))).sum

end PerAtomSum

end Legacy

/-! ## Principal components and centre of mass (`gmxlib/princ.c`) -/

/-- Modelled from the spec: the fields of `t_atom` that `princ.c` reads: the mass `m`
and the charge `q`. -/
structure t_atom (α : Type) where
  m : α
  q : α

section Princ

variable {α : Type} [LinearOrderedField α]

/-- The index `ii` of the loops of `calc_xcm` and `sub_xcm`: `index ? index[i] : i`. -/
def xcm_index (index : Option (Nat → Nat)) (i : Nat) : Nat :=
  match index with
  | some ix => ix i
  | none => i

/-- The weight `m0` of `calc_xcm` (princ.c:196-203): the absolute charge or the mass
of the atom, or 1 when no atoms are given. -/
def xcm_weight (atom : Option (Nat → t_atom α)) (bQ : Bool) (ii : Nat) : α :=
  match atom with
  | some a => if bQ then |(a ii).q| else (a ii).m
  | none => 1

/-- The variables `tm` and `xcm` of `calc_xcm` after the first `i` rounds of its loop
(princ.c:192-207). -/
def calc_xcm_loop (x : Nat → RVec α) (index : Option (Nat → Nat))
    (atom : Option (Nat → t_atom α)) (bQ : Bool) : Nat → α × RVec α
  | 0 => (0, clear_rvec)
  | i + 1 =>
    let p := calc_xcm_loop x index atom bQ i
    let ii := xcm_index index i
    let m0 := xcm_weight atom bQ ii
    (p.1 + m0, ⟨p.2.x + m0 * (x ii).x, p.2.y + m0 * (x ii).y, p.2.z + m0 * (x ii).z⟩)

/-- Function `calc_xcm` (princ.c:186-212): the returned `tm` and the output `xcm`. -/
def calc_xcm (x : Nat → RVec α) (gnx : Nat) (index : Option (Nat → Nat))
    (atom : Option (Nat → t_atom α)) (bQ : Bool) : α × RVec α :=
  let p := calc_xcm_loop x index atom bQ gnx
  (p.1, ⟨p.2.x / p.1, p.2.y / p.1, p.2.z / p.1⟩)

/-- The array `x` of `sub_xcm` after the first `i` rounds of its loop
(princ.c:221-224). -/
def sub_xcm_loop (xcm : RVec α) (index : Option (Nat → Nat)) (x : Nat → RVec α) :
    Nat → Nat → RVec α
  | 0 => x
  | i + 1 =>
    let x1 := sub_xcm_loop xcm index x i
    let ii := xcm_index index i
    fun a => if a = ii then rvec_dec (x1 ii) xcm else x1 a

/-- Function `sub_xcm` (princ.c:214-226): the returned `tm`, the output `xcm` and the
array `x` after the call. -/
def sub_xcm (x : Nat → RVec α) (gnx : Nat) (index : Option (Nat → Nat))
    (atom : Option (Nat → t_atom α)) (bQ : Bool) : α × RVec α × (Nat → RVec α) :=
  let c := calc_xcm x gnx index atom bQ
  (c.1, c.2, sub_xcm_loop c.2 index x gnx)

end Princ

/-! ## Theorems -/

section Theorems

variable {α : Type} [LinearOrderedField α]

/-! ### Vector algebra -/

@[simp]
theorem rvec_opp_opp (f : RVec α) : rvec_opp (rvec_opp f) = f := by
  cases f; simp [rvec_opp]

@[simp]
theorem rvec_dec_clear (f : RVec α) : rvec_dec clear_rvec f = rvec_opp f := by
  cases f; simp [rvec_dec, rvec_opp, clear_rvec]

@[simp]
theorem rvec_sub_clear (f : RVec α) : rvec_sub clear_rvec f = rvec_opp f := by
  cases f; simp [rvec_sub, rvec_opp, clear_rvec]

@[simp]
theorem rvec_add_clear_left (f : RVec α) : rvec_add clear_rvec f = f := by
  cases f; simp [rvec_add, clear_rvec]

@[simp]
theorem rvec_add_clear_right (f : RVec α) : rvec_add f clear_rvec = f := by
  cases f; simp [rvec_add, clear_rvec]

/-! ### Pair canonicalisation and filters -/

/-- C1: for atoms i ≠ j and a symmetric group predicate, `add_bonded(i, j, type, f)`
and `add_bonded(j, i, type, -f)` started from the same state end in the same state,
atom-based and residue-based store included. -/
theorem add_bonded_swap_same_state (self : FDA α) (i j : Nat) (type : InteractionType)
    (f : RVec α) (hij : i ≠ j)
    (hsym : ∀ a b, self.fda_settings.atoms_in_groups a b = self.fda_settings.atoms_in_groups b a) :
    (self.add_bonded i j type f).1 = (self.add_bonded j i type (rvec_opp f)).1 := by
  unfold FDA.add_bonded
  rw [hsym j i]
  by_cases hm : self.fda_settings.type &&& type = 0
  · simp [hm]
  by_cases hg : self.fda_settings.atoms_in_groups i j = false
  · simp [hm, hg]
  simp only [hm, hg, if_false]
  have hres : self.add_bonded_residue i j type f
      = self.add_bonded_residue j i type (rvec_opp f) := by
    unfold FDA.add_bonded_residue
    cases hp : self.residue_based.PF_or_PS_mode
    · simp
    · rcases lt_trichotomy (self.fda_settings.get_atom2residue i)
        (self.fda_settings.get_atom2residue j) with h | h | h
      · have h1 := h.ne
        have h2 := h.ne.symm
        have h3 := h.le.not_lt
        cases ho : self.fda_settings.one_pair <;> simp [h, h1, h2, h3]
      · simp [h]
      · have h1 := h.ne
        have h2 := h.ne.symm
        have h3 := h.le.not_lt
        cases ho : self.fda_settings.one_pair <;> simp [h, h1, h2, h3]
  unfold FDA.add_bonded_nocheck
  rw [hres]
  unfold FDA.add_bonded_atom
  cases hp : (self.add_bonded_residue j i type (rvec_opp f)).atom_based.PF_or_PS_mode
  · simp
  · rcases lt_or_gt_of_ne hij with h | h
    · have h3 := h.le.not_lt
      cases ho : (self.add_bonded_residue j i type (rvec_opp f)).fda_settings.one_pair <;>
        simp [h, h3]
    · have h3 := h.le.not_lt
      cases ho : (self.add_bonded_residue j i type (rvec_opp f)).fda_settings.one_pair <;>
        simp [h, h3]

/-- C7: `add_bonded` and `add_nonbonded_single` change nothing (stores included)
when the type is not in the configured mask, and nothing when the two atoms are
not in the monitored groups. -/
theorem add_bonded_filtered_unchanged (self : FDA α) (i j : Nat) (type : InteractionType)
    (f : RVec α) (force dx dy dz : α)
    (h : self.fda_settings.type &&& type = 0 ∨ self.fda_settings.atoms_in_groups i j = false) :
    (self.add_bonded i j type f).1 = self
      ∧ self.add_nonbonded_single i j type force dx dy dz = self := by
  unfold FDA.add_bonded FDA.add_nonbonded_single
  rcases h with h | h
  · simp [h]
  · by_cases hm : self.fda_settings.type &&& type = 0 <;> simp [hm, h]

/-- Witness of C1 at atoms 0 and 1 on a fresh session. -/
theorem add_bonded_swap_same_state_witness :
    (0 : Nat) ≠ 1
      ∧ ((FDA.fresh (settings_of InteractionType_BOND OnePair.DETAILED) false :
            FDA ℚ).add_bonded 0 1 InteractionType_BOND ⟨1, 2, 3⟩).1
        = ((FDA.fresh (settings_of InteractionType_BOND OnePair.DETAILED) false :
            FDA ℚ).add_bonded 1 0 InteractionType_BOND (rvec_opp ⟨1, 2, 3⟩)).1 :=
  ⟨by decide,
    add_bonded_swap_same_state _ 0 1 InteractionType_BOND ⟨1, 2, 3⟩ (by decide)
      (fun _ _ => rfl)⟩

/-- Witness of C7: ANGLE is not in a BOND-only mask. -/
theorem add_bonded_filtered_unchanged_witness :
    ((FDA.fresh (settings_of InteractionType_BOND OnePair.SUMMED) false :
          FDA ℚ).add_bonded 0 1 InteractionType_ANGLE ⟨1, 2, 3⟩).1
        = FDA.fresh (settings_of InteractionType_BOND OnePair.SUMMED) false
      ∧ (FDA.fresh (settings_of InteractionType_BOND OnePair.SUMMED) false :
          FDA ℚ).add_nonbonded_single 0 1 InteractionType_ANGLE 7 1 0 0
        = FDA.fresh (settings_of InteractionType_BOND OnePair.SUMMED) false :=
  add_bonded_filtered_unchanged _ 0 1 InteractionType_ANGLE ⟨1, 2, 3⟩ 7 1 0 0
    (Or.inl (by decide))

/-! ### The two halves do not touch each other -/

@[simp]
theorem add_bonded_residue_atom_based (self : FDA α) (i j : Nat) (type : InteractionType)
    (f : RVec α) : (self.add_bonded_residue i j type f).atom_based = self.atom_based := by
  unfold FDA.add_bonded_residue FDA.set_residue_forces
  cases self.fda_settings.one_pair <;> dsimp only <;> split_ifs <;> rfl

@[simp]
theorem add_bonded_residue_settings (self : FDA α) (i j : Nat) (type : InteractionType)
    (f : RVec α) : (self.add_bonded_residue i j type f).fda_settings = self.fda_settings := by
  unfold FDA.add_bonded_residue FDA.set_residue_forces
  cases self.fda_settings.one_pair <;> dsimp only <;> split_ifs <;> rfl

@[simp]
theorem add_bonded_atom_residue_based (self : FDA α) (i j : Nat) (type : InteractionType)
    (f : RVec α) : (self.add_bonded_atom i j type f).1.residue_based = self.residue_based := by
  unfold FDA.add_bonded_atom FDA.set_atom_forces
  cases self.fda_settings.one_pair <;> dsimp only <;> split_ifs <;> rfl

@[simp]
theorem add_bonded_atom_settings (self : FDA α) (i j : Nat) (type : InteractionType)
    (f : RVec α) : (self.add_bonded_atom i j type f).1.fda_settings = self.fda_settings := by
  unfold FDA.add_bonded_atom FDA.set_atom_forces
  cases self.fda_settings.one_pair <;> dsimp only <;> split_ifs <;> rfl

/-! ### End-to-end: Coulomb only -/

/-- C6: with the mask set to COULOMB only, atom-based pairwise output active, empty
atom-based store and atoms 0 and 1 monitored, `add_nonbonded(0, 1, 10, 5, 1, 0, 0)`
leaves the atom-based store with exactly one record, pair (0, 1), vector (10, 0, 0),
type COULOMB (DETAILED: under the tag of COULOMB; SUMMED: with bitmask COULOMB); and
for every state with only COULOMB tracked the LJ scalar has no influence on the
resulting state. -/
theorem add_nonbonded_coulomb_only (self : FDA α)
    (hmask : self.fda_settings.type = InteractionType_COULOMB)
    (hpure : self.fda_settings.to_pure InteractionType_COULOMB = PureInteractionType.COULOMB)
    (hpf : self.atom_based.PF_or_PS_mode = true)
    (hempty : self.atom_based.distributed_forces = DistributedForces.empty)
    (hg : self.fda_settings.atoms_in_groups 0 1 = true) :
    (self.fda_settings.one_pair = OnePair.DETAILED →
        (self.add_nonbonded 0 1 10 5 1 0 0).atom_based.distributed_forces
          = ⟨[(0, [(1, [(PureInteractionType.COULOMB, ⟨10, 0, 0⟩)])])], []⟩)
      ∧ (self.fda_settings.one_pair = OnePair.SUMMED →
        (self.add_nonbonded 0 1 10 5 1 0 0).atom_based.distributed_forces
          = ⟨[], [(0, [(1, ((⟨10, 0, 0⟩ : RVec α), InteractionType_COULOMB))])]⟩)
      ∧ ∀ (st : FDA α), st.fda_settings.type = InteractionType_COULOMB →
          ∀ (i j : Nat) (pf_coul pf_lj pf_lj2 dx dy dz : α),
            st.add_nonbonded i j pf_coul pf_lj dx dy dz
              = st.add_nonbonded i j pf_coul pf_lj2 dx dy dz := by
  have h1 : ¬ (InteractionType_COULOMB &&& InteractionType_COULOMB = 0) := by decide
  have h2 : InteractionType_COULOMB &&& InteractionType_LJ = 0 := by decide
  have h3 : ¬ (InteractionType_COULOMB = 0) := by decide
  refine ⟨?_, ?_, ?_⟩
  · intro ho
    simp [FDA.add_nonbonded, FDA.add_nonbonded_single, FDA.add_bonded_nocheck, hmask, h1, h2, h3, hg,
      FDA.add_bonded_atom, hpf, ho, FDA.set_atom_forces, hempty, DistributedForces.add_detailed,
      DistributedForces.empty, upsert, hpure, rvec_add, clear_rvec]
  · intro ho
    simp [FDA.add_nonbonded, FDA.add_nonbonded_single, FDA.add_bonded_nocheck, hmask, h1, h2, h3, hg,
      FDA.add_bonded_atom, hpf, ho, FDA.set_atom_forces, hempty, DistributedForces.add_summed,
      DistributedForces.empty, upsert, rvec_add, clear_rvec]
  · intro st hst i j pf_coul pf_lj pf_lj2 dx dy dz
    simp [FDA.add_nonbonded, hst, h1, h2, h3]

/-- Witness of C6 on a fresh session in DETAILED mode. -/
theorem add_nonbonded_coulomb_only_witness :
    (FDA.fresh (settings_of InteractionType_COULOMB OnePair.DETAILED) false :
        FDA ℚ).fda_settings.type = InteractionType_COULOMB
      ∧ ((FDA.fresh (settings_of InteractionType_COULOMB OnePair.DETAILED) false :
          FDA ℚ).add_nonbonded 0 1 10 5 1 0 0).atom_based.distributed_forces
        = ⟨[(0, [(1, [(PureInteractionType.COULOMB, ⟨10, 0, 0⟩)])])], []⟩ :=
  ⟨rfl,
    (add_nonbonded_coulomb_only
      (FDA.fresh (settings_of InteractionType_COULOMB OnePair.DETAILED) false : FDA ℚ)
      rfl rfl rfl rfl rfl).1 rfl⟩

/-! ### Virial stress -/

theorem length_modify_at {β : Type} (g : β → β) :
    ∀ (n : Nat) (l : List β), (modify_at g n l).length = l.length
  | 0, [] => rfl
  | _ + 1, [] => rfl
  | 0, _ :: _ => rfl
  | n + 1, _ :: l => by simp [modify_at, length_modify_at g n l]

theorem sum_map_modify_at {β : Type} (c : β → α) (g : β → β) (d : α)
    (hc : ∀ t, c (g t) = c t + d) :
    ∀ (n : Nat) (l : List β), n < l.length → ((modify_at g n l).map c).sum = (l.map c).sum + d
  | _, [], h => absurd h (by simp)
  | 0, b :: l, _ => by simp [modify_at, hc]; ring
  | n + 1, b :: l, h => by
    have ih := sum_map_modify_at c g d hc n l (by simpa using h)
    simp [modify_at, ih]; ring

@[simp]
theorem add_virial_length (self : FDA α) (ai : Nat) (v : Tensor α) (s : α) :
    (self.add_virial ai v s).atom_based.virial_stress.length
      = self.atom_based.virial_stress.length := by
  simp [FDA.add_virial, length_modify_at]

theorem virial_total_add_virial (self : FDA α) (ai : Nat) (v : Tensor α) (s : α)
    (h : ai < self.atom_based.virial_stress.length) :
    virial_total (self.add_virial ai v s).atom_based.virial_stress
      = [(self.atom_based.virial_stress.map Tensor.xx).sum + s * v.xx,
         (self.atom_based.virial_stress.map Tensor.yy).sum + s * v.yy,
         (self.atom_based.virial_stress.map Tensor.zz).sum + s * v.zz,
         (self.atom_based.virial_stress.map Tensor.xy).sum + s * v.xy,
         (self.atom_based.virial_stress.map Tensor.xz).sum + s * v.xz,
         (self.atom_based.virial_stress.map Tensor.yz).sum + s * v.yz] := by
  simp only [virial_total, FDA.add_virial]
  rw [sum_map_modify_at Tensor.xx _ (s * v.xx) (fun t => rfl) ai _ h,
    sum_map_modify_at Tensor.yy _ (s * v.yy) (fun t => rfl) ai _ h,
    sum_map_modify_at Tensor.zz _ (s * v.zz) (fun t => rfl) ai _ h,
    sum_map_modify_at Tensor.xy _ (s * v.xy) (fun t => rfl) ai _ h,
    sum_map_modify_at Tensor.xz _ (s * v.xz) (fun t => rfl) ai _ h,
    sum_map_modify_at Tensor.yz _ (s * v.yz) (fun t => rfl) ai _ h]

/-- C5: with virial-stress mode active and the atom indices inside the tensor
array, each of `add_virial_bond`, `add_virial_angle` and `add_virial_dihedral`
raises the per-atom tensors, summed over all atoms, by exactly the undistributed
tensor `v` it builds, in each of the six stored components; the atom indices may
coincide. -/
theorem virial_sum_reconstructs (self : FDA α) (hvs : self.atom_based.VS_mode = true)
    (ai aj ak al : Nat)
    (hi : ai < self.atom_based.virial_stress.length)
    (hj : aj < self.atom_based.virial_stress.length)
    (hk : ak < self.atom_based.virial_stress.length)
    (hl : al < self.atom_based.virial_stress.length)
    (f dx dy dz : α) (r_ij r_kj r_kl f_i f_k f_l : RVec α) :
    virial_total (self.add_virial_bond ai aj f dx dy dz).atom_based.virial_stress
        = List.zipWith (· + ·) (virial_total self.atom_based.virial_stress)
            (virial_bond_tensor f dx dy dz).stored
      ∧ virial_total (self.add_virial_angle ai aj ak r_ij r_kj f_i f_k).atom_based.virial_stress
        = List.zipWith (· + ·) (virial_total self.atom_based.virial_stress)
            (virial_angle_tensor r_ij r_kj f_i f_k).stored
      ∧ virial_total
          (self.add_virial_dihedral ai aj ak al f_i f_k f_l r_ij r_kj r_kl).atom_based.virial_stress
        = List.zipWith (· + ·) (virial_total self.atom_based.virial_stress)
            (virial_dihedral_tensor f_i f_k f_l r_ij r_kj r_kl).stored := by
  refine ⟨?_, ?_, ?_⟩
  · simp only [FDA.add_virial_bond, hvs, Bool.true_eq_false, if_false]
    rw [virial_total_add_virial _ _ _ _ (by simpa using hj)]
    have h1 := virial_total_add_virial self ai (virial_bond_tensor f dx dy dz) HALF hi
    simp only [virial_total, List.cons.injEq, and_true] at h1
    obtain ⟨e1, e2, e3, e4, e5, e6⟩ := h1
    rw [e1, e2, e3, e4, e5, e6]
    simp only [virial_total, Tensor.stored, List.zipWith, HALF, List.cons.injEq, and_true]
    refine ⟨?_, ?_, ?_, ?_, ?_, ?_⟩ <;> ring
  · simp only [FDA.add_virial_angle, hvs, Bool.true_eq_false, if_false]
    rw [virial_total_add_virial _ _ _ _ (by simpa using hk)]
    have h2 := virial_total_add_virial (self.add_virial ai (virial_angle_tensor r_ij r_kj f_i f_k)
      THIRD) aj (virial_angle_tensor r_ij r_kj f_i f_k) THIRD (by simpa using hj)
    simp only [virial_total, List.cons.injEq, and_true] at h2
    obtain ⟨e1, e2, e3, e4, e5, e6⟩ := h2
    rw [e1, e2, e3, e4, e5, e6]
    have h1 := virial_total_add_virial self ai (virial_angle_tensor r_ij r_kj f_i f_k) THIRD hi
    simp only [virial_total, List.cons.injEq, and_true] at h1
    obtain ⟨d1, d2, d3, d4, d5, d6⟩ := h1
    rw [d1, d2, d3, d4, d5, d6]
    simp only [virial_total, Tensor.stored, List.zipWith, THIRD, List.cons.injEq, and_true]
    refine ⟨?_, ?_, ?_, ?_, ?_, ?_⟩ <;> ring
  · simp only [FDA.add_virial_dihedral, hvs, Bool.true_eq_false, if_false]
    rw [virial_total_add_virial _ _ _ _ (by simpa using hl)]
    have h3 := virial_total_add_virial
      ((self.add_virial ai (virial_dihedral_tensor f_i f_k f_l r_ij r_kj r_kl) QUARTER).add_virial
        aj (virial_dihedral_tensor f_i f_k f_l r_ij r_kj r_kl) QUARTER) ak
      (virial_dihedral_tensor f_i f_k f_l r_ij r_kj r_kl) QUARTER (by simpa using hk)
    simp only [virial_total, List.cons.injEq, and_true] at h3
    obtain ⟨c1, c2, c3, c4, c5, c6⟩ := h3
    rw [c1, c2, c3, c4, c5, c6]
    have h2 := virial_total_add_virial
      (self.add_virial ai (virial_dihedral_tensor f_i f_k f_l r_ij r_kj r_kl) QUARTER) aj
      (virial_dihedral_tensor f_i f_k f_l r_ij r_kj r_kl) QUARTER (by simpa using hj)
    simp only [virial_total, List.cons.injEq, and_true] at h2
    obtain ⟨e1, e2, e3, e4, e5, e6⟩ := h2
    rw [e1, e2, e3, e4, e5, e6]
    have h1 := virial_total_add_virial self ai
      (virial_dihedral_tensor f_i f_k f_l r_ij r_kj r_kl) QUARTER hi
    simp only [virial_total, List.cons.injEq, and_true] at h1
    obtain ⟨d1, d2, d3, d4, d5, d6⟩ := h1
    rw [d1, d2, d3, d4, d5, d6]
    simp only [virial_total, Tensor.stored, List.zipWith, QUARTER, List.cons.injEq, and_true]
    refine ⟨?_, ?_, ?_, ?_, ?_, ?_⟩ <;> norm_num <;> ring

/-- Witness of C5: a bond whose two atom indices coincide. -/
theorem virial_sum_reconstructs_witness :
    (FDA.fresh (settings_of InteractionType_BOND OnePair.SUMMED) true : FDA ℚ).atom_based.VS_mode
        = true
      ∧ virial_total
          ((FDA.fresh (settings_of InteractionType_BOND OnePair.SUMMED) true :
            FDA ℚ).add_virial_bond 0 0 2 1 1 1).atom_based.virial_stress
        = List.zipWith (· + ·)
            (virial_total
              (FDA.fresh (settings_of InteractionType_BOND OnePair.SUMMED) true :
                FDA ℚ).atom_based.virial_stress)
            (virial_bond_tensor (2 : ℚ) 1 1 1).stored :=
  ⟨rfl,
    (virial_sum_reconstructs
      (FDA.fresh (settings_of InteractionType_BOND OnePair.SUMMED) true : FDA ℚ) rfl 0 0 1 2
      (by decide) (by decide) (by decide) (by decide) 2 1 1 1
      ⟨1, 0, 0⟩ ⟨0, 1, 0⟩ ⟨0, 0, 1⟩ ⟨1, 1, 0⟩ ⟨0, 1, 1⟩ ⟨1, 0, 1⟩).1⟩

/-! ### Degenerate input -/

theorem norm_clear_real : norm Real.sqrt (clear_rvec : RVec ℝ) = 0 := by
  simp [norm, norm2, clear_rvec]

/-- The accumulator of `FDA.cpp` stores nothing for an angle or a dihedral whose
forces are all zero. -/
theorem add_angle_dihedral_zero_unchanged (self : FDA ℝ) (eps : ℝ) (i j k l : Nat) :
    self.add_angle Real.sqrt i j k clear_rvec clear_rvec clear_rvec = self
      ∧ self.add_dihedral Real.sqrt eps i j k l clear_rvec clear_rvec clear_rvec clear_rvec
        = self := by
  simp [FDA.add_angle, FDA.add_dihedral, add_angle_calls, add_dihedral_calls, norm_clear_real,
    FDA.add_bonded_calls]

/-- C4 (the `add_angle` of `fda.cpp`): with ANGLE tracked, all-zero forces on the
atoms 0, 1, 2 and empty maps, the older `add_angle` creates three atom-based
records, each holding the zero vector. -/
theorem legacy_add_angle_zero_stores :
    ((Legacy.FDA.fresh InteractionType_ANGLE Legacy.OnePair.DETAILED :
        Legacy.FDA ℝ).add_angle Real.sqrt 0 1 2 clear_rvec clear_rvec
        clear_rvec).atom_based.distributed_forces.detailed
      = [(0, [(1, [(InteractionType_ANGLE, clear_rvec)]),
              (2, [(InteractionType_ANGLE, clear_rvec)])]),
         (1, [(2, [(InteractionType_ANGLE, clear_rvec)])])] := by
  have h1 : ¬ (InteractionType_ANGLE = 0) := by decide
  simp [Legacy.FDA.add_angle, Legacy.FDA.add_bonded, Legacy.FDA.add_bonded_nocheck,
    Legacy.FDA.add_bonded_residue, Legacy.FDA.add_bonded_atom, Legacy.FDA.fresh,
    Legacy.PF_INTER_ANGLE, Legacy.FDA.set_atom_forces, Legacy.FDA.set_residue_forces,
    Legacy.DistributedForces.detailed_inc, upsert, h1, unitv, svmul, norm_clear_real, iprod,
    clear_rvec, rvec_add, rvec_opp, rvec_dec]

/-! ### Angle decomposition -/

theorem norm2_nonneg (f : RVec α) : 0 ≤ norm2 f := by
  unfold norm2
  nlinarith [mul_self_nonneg f.x, mul_self_nonneg f.y, mul_self_nonneg f.z]

theorem eq_clear_of_norm2_eq_zero (f : RVec α) (h : norm2 f = 0) : f = clear_rvec := by
  unfold norm2 at h
  have hx : f.x = 0 := by nlinarith [mul_self_nonneg f.x, mul_self_nonneg f.y, mul_self_nonneg f.z]
  have hy : f.y = 0 := by nlinarith [mul_self_nonneg f.x, mul_self_nonneg f.y, mul_self_nonneg f.z]
  have hz : f.z = 0 := by nlinarith [mul_self_nonneg f.x, mul_self_nonneg f.y, mul_self_nonneg f.z]
  cases f
  simp_all [clear_rvec]

theorem norm_mul_self (f : RVec ℝ) : norm Real.sqrt f * norm Real.sqrt f = norm2 f :=
  Real.mul_self_sqrt (norm2_nonneg f)

theorem norm_nonneg_real (f : RVec ℝ) : 0 ≤ norm Real.sqrt f := Real.sqrt_nonneg _

theorem norm_eq_zero_real (f : RVec ℝ) (h : norm Real.sqrt f = 0) : f = clear_rvec := by
  apply eq_clear_of_norm2_eq_zero
  rw [← norm_mul_self, h, mul_zero]

/-- Rescaling the unit vector of `f` by the length of `f` gives `f` back. -/
theorem norm_smul_unitv (f : RVec ℝ) : svmul (norm Real.sqrt f) (unitv Real.sqrt f) = f := by
  by_cases h : norm Real.sqrt f = 0
  · have hf := norm_eq_zero_real f h
    rw [hf]
    simp [svmul, unitv, clear_rvec]
  · have hn : Real.sqrt (norm2 f) ≠ 0 := h
    cases f
    simp only [svmul, unitv, norm]
    ext <;> field_simp

/-- Projecting `f` on its own unit vector gives `f` back. -/
theorem iprod_unitv_smul (f : RVec ℝ) :
    svmul (iprod f (unitv Real.sqrt f)) (unitv Real.sqrt f) = f := by
  by_cases h : norm Real.sqrt f = 0
  · have hf := norm_eq_zero_real f h
    rw [hf]
    simp [svmul, unitv, clear_rvec]
  · have hn : Real.sqrt (norm2 f) ≠ 0 := h
    have hsq : Real.sqrt (norm2 f) * Real.sqrt (norm2 f) = norm2 f := norm_mul_self f
    have hinv : (1 / Real.sqrt (norm2 f)) * (1 / Real.sqrt (norm2 f)) * norm2 f = 1 := by
      field_simp
      nlinarith [hsq]
    obtain ⟨x, y, z⟩ := f
    simp only [svmul, unitv, iprod]
    simp only [norm2] at hinv
    ext
    · show (x * (1 / Real.sqrt (norm2 ⟨x, y, z⟩) * x) + y * (1 / Real.sqrt (norm2 ⟨x, y, z⟩) * y)
          + z * (1 / Real.sqrt (norm2 ⟨x, y, z⟩) * z)) * (1 / Real.sqrt (norm2 ⟨x, y, z⟩) * x) = x
      simp only [norm2]
      linear_combination x * hinv
    · show (x * (1 / Real.sqrt (norm2 ⟨x, y, z⟩) * x) + y * (1 / Real.sqrt (norm2 ⟨x, y, z⟩) * y)
          + z * (1 / Real.sqrt (norm2 ⟨x, y, z⟩) * z)) * (1 / Real.sqrt (norm2 ⟨x, y, z⟩) * y) = y
      simp only [norm2]
      linear_combination y * hinv
    · show (x * (1 / Real.sqrt (norm2 ⟨x, y, z⟩) * x) + y * (1 / Real.sqrt (norm2 ⟨x, y, z⟩) * y)
          + z * (1 / Real.sqrt (norm2 ⟨x, y, z⟩) * z)) * (1 / Real.sqrt (norm2 ⟨x, y, z⟩) * z) = z
      simp only [norm2]
      linear_combination z * hinv

/-! ### Dihedral decomposition -/

/-- Whenever `add_dihedral` emits its six records for four distinct atoms, the
records with atom j in them put the net force -f_j on atom j: the record (j, k)
is built as -f_j - (f_j_i + f_j_l). -/
theorem dihedral_net_force_on_j (sqrt : α → α) (eps : α) (i j k l : Nat)
    (f_i f_j f_k f_l : RVec α) (hij : i ≠ j) (hjk : j ≠ k) (hjl : j ≠ l)
    (hne : add_dihedral_calls sqrt eps i j k l f_i f_j f_k f_l ≠ []) :
    net_force (add_dihedral_calls sqrt eps i j k l f_i f_j f_k f_l) j = rvec_opp f_j := by
  unfold add_dihedral_calls at hne ⊢
  dsimp only at hne ⊢
  split_ifs at hne ⊢
  · exact absurd rfl hne
  · exact absurd rfl hne
  · exact absurd rfl hne
  · exact absurd rfl hne
  · have hkj := hjk.symm
    have hlj := hjl.symm
    simp only [net_force, List.foldl, hij, hkj, hlj, if_true, if_false, rvec_add, rvec_sub,
      clear_rvec, rvec_opp, svmul, RVec.mk.injEq]
    refine ⟨?_, ?_, ?_⟩ <;> ring

/-! ### Canonical order of the stored pairs -/

theorem mem_keys_upsert {κ β : Type} [DecidableEq κ] (k : κ) (init : β) (f : β → β) :
    ∀ (m : List (κ × β)) (q : κ),
      q ∈ (upsert k init f m).map Prod.fst → q ∈ m.map Prod.fst ∨ q = k
  | [], q, h => by
    simp only [upsert, List.map_cons, List.map_nil, List.mem_singleton] at h
    exact Or.inr h
  | (k', b) :: m, q, h => by
    simp only [upsert] at h
    split_ifs at h with hk
    · simp only [List.map_cons, List.mem_cons] at h ⊢
      exact Or.inl h
    · simp only [List.map_cons, List.mem_cons] at h ⊢
      rcases h with h | h
      · exact Or.inl (Or.inl h)
      · rcases mem_keys_upsert k init f m q h with h2 | h2
        · exact Or.inl (Or.inr h2)
        · exact Or.inr h2

theorem mem_pairs_upsert {β : Type} (i j : Nat) (init : β) (f : β → β) :
    ∀ (m : List (Nat × List (Nat × β))) (p : Nat × Nat),
      p ∈ pairs (upsert i [] (upsert j init f) m) → p ∈ pairs m ∨ p = (i, j)
  | [], p, h => by
    simp only [upsert, pairs, List.map_cons, List.map_nil, List.append_nil,
      List.mem_singleton] at h
    exact Or.inr h
  | (k, inner) :: m, p, h => by
    simp only [upsert] at h
    split_ifs at h with hk
    · simp only [pairs, List.mem_append, List.mem_map] at h ⊢
      rcases h with ⟨q, hq, rfl⟩ | h
      · have hq2 : q.1 ∈ (upsert j init f inner).map Prod.fst := List.mem_map_of_mem _ hq
        rcases mem_keys_upsert j init f inner q.1 hq2 with h3 | h3
        · obtain ⟨q0, hq0, e0⟩ := List.mem_map.mp h3
          exact Or.inl (Or.inl ⟨q0, hq0, by rw [e0]⟩)
        · exact Or.inr (by rw [h3, hk])
      · exact Or.inl (Or.inr h)
    · simp only [pairs, List.mem_append] at h ⊢
      rcases h with h | h
      · exact Or.inl (Or.inl h)
      · rcases mem_pairs_upsert i j init f m p h with h2 | h2
        · exact Or.inl (Or.inr h2)
        · exact Or.inr h2

theorem canonical_add_detailed (df : DistributedForces α) (i j : Nat) (force : RVec α)
    (t : PureInteractionType) (hc : df.canonical) (hij : i < j) :
    (df.add_detailed i j force t).canonical := by
  refine ⟨fun p hp => ?_, hc.2⟩
  rcases mem_pairs_upsert i j _ _ _ p hp with h | h
  · exact hc.1 p h
  · rw [h]; exact hij

theorem canonical_add_summed (df : DistributedForces α) (i j : Nat) (force : RVec α)
    (t : InteractionType) (hc : df.canonical) (hij : i < j) :
    (df.add_summed i j force t).canonical := by
  refine ⟨hc.1, fun p hp => ?_⟩
  rcases mem_pairs_upsert i j _ _ _ p hp with h | h
  · exact hc.2 p h
  · rw [h]; exact hij

theorem canonical_add_bonded_residue (self : FDA α) (i j : Nat) (type : InteractionType)
    (f : RVec α) (hc : self.canonical) : (self.add_bonded_residue i j type f).canonical := by
  refine ⟨by simpa using hc.1, ?_⟩
  unfold FDA.add_bonded_residue FDA.set_residue_forces
  cases self.fda_settings.one_pair <;> dsimp only <;> split_ifs with h1 h2 h3 <;>
    first
    | exact hc.2
    | exact canonical_add_detailed _ _ _ _ _ hc.2 h3
    | exact canonical_add_summed _ _ _ _ _ hc.2 h3
    | exact canonical_add_detailed _ _ _ _ _ hc.2 (lt_of_le_of_ne (not_lt.mp h3) h2)
    | exact canonical_add_summed _ _ _ _ _ hc.2 (lt_of_le_of_ne (not_lt.mp h3) h2)

theorem canonical_add_bonded_atom (self : FDA α) (i j : Nat) (type : InteractionType)
    (f : RVec α) (hij : i ≠ j) (hc : self.canonical) :
    (self.add_bonded_atom i j type f).1.canonical := by
  refine ⟨?_, by simpa using hc.2⟩
  unfold FDA.add_bonded_atom FDA.set_atom_forces
  cases self.fda_settings.one_pair <;> dsimp only <;> split_ifs with h1 h3 <;>
    first
    | exact hc.1
    | exact canonical_add_detailed _ _ _ _ _ hc.1 h3
    | exact canonical_add_summed _ _ _ _ _ hc.1 h3
    | exact canonical_add_detailed _ _ _ _ _ hc.1 (lt_of_le_of_ne (not_lt.mp h3) hij)
    | exact canonical_add_summed _ _ _ _ _ hc.1 (lt_of_le_of_ne (not_lt.mp h3) hij)

theorem canonical_add_bonded (self : FDA α) (i j : Nat) (type : InteractionType)
    (f : RVec α) (hij : i ≠ j) (hc : self.canonical) : (self.add_bonded i j type f).1.canonical := by
  unfold FDA.add_bonded FDA.add_bonded_nocheck
  split_ifs
  · exact hc
  · exact hc
  · exact canonical_add_bonded_atom _ i j type f hij (canonical_add_bonded_residue self i j type f hc)

theorem canonical_add_nonbonded_single (self : FDA α) (i j : Nat) (type : InteractionType)
    (force dx dy dz : α) (hij : i ≠ j) (hc : self.canonical) :
    (self.add_nonbonded_single i j type force dx dy dz).canonical := by
  unfold FDA.add_nonbonded_single FDA.add_bonded_nocheck
  split_ifs
  · exact hc
  · exact hc
  · exact canonical_add_bonded_atom _ i j type _ hij (canonical_add_bonded_residue self i j type _ hc)

@[simp]
theorem add_nonbonded_residue_atom_based (self : FDA α) (i j : Nat) (pf_coul pf_lj dx dy dz : α) :
    (self.add_nonbonded_residue i j pf_coul pf_lj dx dy dz).atom_based = self.atom_based := by
  unfold FDA.add_nonbonded_residue FDA.set_residue_forces
  cases self.fda_settings.one_pair <;> dsimp only <;> split_ifs <;> rfl

@[simp]
theorem add_nonbonded_residue_settings (self : FDA α) (i j : Nat) (pf_coul pf_lj dx dy dz : α) :
    (self.add_nonbonded_residue i j pf_coul pf_lj dx dy dz).fda_settings = self.fda_settings := by
  unfold FDA.add_nonbonded_residue FDA.set_residue_forces
  cases self.fda_settings.one_pair <;> dsimp only <;> split_ifs <;> rfl

@[simp]
theorem add_nonbonded_atom_residue_based (self : FDA α) (i j : Nat) (pf_coul pf_lj dx dy dz : α) :
    (self.add_nonbonded_atom i j pf_coul pf_lj dx dy dz).residue_based = self.residue_based := by
  unfold FDA.add_nonbonded_atom FDA.set_atom_forces
  cases self.fda_settings.one_pair <;> dsimp only <;> split_ifs <;> rfl

@[simp]
theorem add_nonbonded_atom_settings (self : FDA α) (i j : Nat) (pf_coul pf_lj dx dy dz : α) :
    (self.add_nonbonded_atom i j pf_coul pf_lj dx dy dz).fda_settings = self.fda_settings := by
  unfold FDA.add_nonbonded_atom FDA.set_atom_forces
  cases self.fda_settings.one_pair <;> dsimp only <;> split_ifs <;> rfl

theorem canonical_add_nonbonded_residue (self : FDA α) (i j : Nat) (pf_coul pf_lj dx dy dz : α)
    (hc : self.canonical) : (self.add_nonbonded_residue i j pf_coul pf_lj dx dy dz).canonical := by
  refine ⟨by simpa using hc.1, ?_⟩
  unfold FDA.add_nonbonded_residue FDA.set_residue_forces
  cases self.fda_settings.one_pair <;> dsimp only <;> split_ifs with h1 h2 h3 <;>
    first
    | exact hc.2
    | exact canonical_add_detailed _ _ _ _ _ (canonical_add_detailed _ _ _ _ _ hc.2 h3) h3
    | exact canonical_add_summed _ _ _ _ _ hc.2 h3
    | exact canonical_add_detailed _ _ _ _ _
        (canonical_add_detailed _ _ _ _ _ hc.2 (lt_of_le_of_ne (not_lt.mp h3) h2))
        (lt_of_le_of_ne (not_lt.mp h3) h2)
    | exact canonical_add_summed _ _ _ _ _ hc.2 (lt_of_le_of_ne (not_lt.mp h3) h2)

theorem canonical_add_nonbonded_atom (self : FDA α) (i j : Nat) (pf_coul pf_lj dx dy dz : α)
    (hij : i ≠ j) (hc : self.canonical) :
    (self.add_nonbonded_atom i j pf_coul pf_lj dx dy dz).canonical := by
  refine ⟨?_, by simpa using hc.2⟩
  unfold FDA.add_nonbonded_atom FDA.set_atom_forces
  cases self.fda_settings.one_pair <;> dsimp only <;> split_ifs with h1 h3 <;>
    first
    | exact hc.1
    | exact canonical_add_detailed _ _ _ _ _ (canonical_add_detailed _ _ _ _ _ hc.1 h3) h3
    | exact canonical_add_summed _ _ _ _ _ hc.1 h3
    | exact canonical_add_detailed _ _ _ _ _
        (canonical_add_detailed _ _ _ _ _ hc.1 (lt_of_le_of_ne (not_lt.mp h3) hij))
        (lt_of_le_of_ne (not_lt.mp h3) hij)
    | exact canonical_add_summed _ _ _ _ _ hc.1 (lt_of_le_of_ne (not_lt.mp h3) hij)

theorem canonical_add_nonbonded (self : FDA α) (i j : Nat) (pf_coul pf_lj dx dy dz : α)
    (hij : i ≠ j) (hc : self.canonical) :
    (self.add_nonbonded i j pf_coul pf_lj dx dy dz).canonical := by
  unfold FDA.add_nonbonded
  split_ifs
  · exact hc
  · exact canonical_add_nonbonded_single self i j _ _ _ _ _ hij hc
  · exact canonical_add_nonbonded_single self i j _ _ _ _ _ hij hc
  · exact hc
  · exact canonical_add_nonbonded_atom _ i j _ _ _ _ _ hij
      (canonical_add_nonbonded_residue self i j _ _ _ _ _ hc)

theorem canonical_add_bonded_calls :
    ∀ (calls : List (BondedCall α)) (self : FDA α), (∀ c ∈ calls, c.i ≠ c.j) → self.canonical →
      (self.add_bonded_calls calls).canonical
  | [], _, _, hc => hc
  | c :: calls, self, hd, hc => by
    have h1 := canonical_add_bonded self c.i c.j c.type c.force (hd c (List.mem_cons_self _ _)) hc
    exact canonical_add_bonded_calls calls _ (fun c2 hc2 => hd c2 (List.mem_cons_of_mem _ hc2)) h1

theorem add_angle_calls_distinct (sqrt : α → α) (ai aj ak : Nat) (f_i f_j f_k : RVec α)
    (hij : ai ≠ aj) (hik : ai ≠ ak) (hjk : aj ≠ ak) :
    ∀ c ∈ add_angle_calls sqrt ai aj ak f_i f_j f_k, c.i ≠ c.j := by
  intro c hc
  unfold add_angle_calls at hc
  split_ifs at hc
  · simp at hc
  · simp only [List.mem_cons, List.mem_singleton, List.not_mem_nil, or_false] at hc
    rcases hc with rfl | rfl | rfl
    · exact hij.symm
    · exact hik
    · exact hjk

theorem add_dihedral_calls_distinct (sqrt : α → α) (eps : α) (i j k l : Nat)
    (f_i f_j f_k f_l : RVec α)
    (hd : i ≠ j ∧ i ≠ k ∧ i ≠ l ∧ j ≠ k ∧ j ≠ l ∧ k ≠ l) :
    ∀ c ∈ add_dihedral_calls sqrt eps i j k l f_i f_j f_k f_l, c.i ≠ c.j := by
  intro c hc
  obtain ⟨hij, hik, hil, hjk, hjl, hkl⟩ := hd
  unfold add_dihedral_calls at hc
  dsimp only at hc
  split_ifs at hc
  · simp at hc
  · simp at hc
  · simp at hc
  · simp at hc
  · simp only [List.mem_cons, List.mem_singleton, List.not_mem_nil, or_false] at hc
    rcases hc with rfl | rfl | rfl | rfl | rfl | rfl
    · exact hij.symm
    · exact hik.symm
    · exact hil.symm
    · exact hjk
    · exact hjl
    · exact hkl

theorem canonical_step (sqrt : α → α) (eps : α) (self : FDA α) (c : Call α) (hd : c.distinct)
    (hc : self.canonical) : (self.step sqrt eps c).canonical := by
  cases c with
  | bonded i j type force => exact canonical_add_bonded self i j type force hd hc
  | nonbonded_single i j type force dx dy dz =>
    exact canonical_add_nonbonded_single self i j type force dx dy dz hd hc
  | nonbonded i j pf_coul pf_lj dx dy dz =>
    exact canonical_add_nonbonded self i j pf_coul pf_lj dx dy dz hd hc
  | angle ai aj ak f_i f_j f_k =>
    exact canonical_add_bonded_calls _ self
      (add_angle_calls_distinct sqrt ai aj ak f_i f_j f_k hd.1 hd.2.1 hd.2.2) hc
  | dihedral i j k l f_i f_j f_k f_l =>
    exact canonical_add_bonded_calls _ self
      (add_dihedral_calls_distinct sqrt eps i j k l f_i f_j f_k f_l hd) hc

theorem canonical_run (sqrt : α → α) (eps : α) :
    ∀ (calls : List (Call α)) (self : FDA α), (∀ c ∈ calls, c.distinct) → self.canonical →
      (self.run sqrt eps calls).canonical
  | [], _, _, hc => hc
  | c :: calls, self, hd, hc => by
    have h1 := canonical_step sqrt eps self c (hd c (List.mem_cons_self _ _)) hc
    exact canonical_run sqrt eps calls _ (fun c2 hc2 => hd c2 (List.mem_cons_of_mem _ hc2)) h1

theorem canonical_empty : (DistributedForces.empty : DistributedForces α).canonical := by
  constructor <;> intro p hp <;> simp [DistributedForces.empty, pairs] at hp

/-- C8: starting from empty stores, after any sequence of `add_bonded`,
`add_nonbonded_single`, `add_nonbonded`, `add_angle` and `add_dihedral` calls with
pairwise distinct atoms in each call, every slot of the atom-based and of the
residue-based store (DETAILED and SUMMED) has entity index strictly below partner
index, hence no self-pair; and a call of `add_bonded`, `add_nonbonded_single` or
`add_nonbonded` for two atoms of one residue leaves the residue-based operation as
it was. -/
theorem stores_canonical_after_run (sqrt : α → α) (eps : α) (self : FDA α)
    (calls : List (Call α))
    (ha : self.atom_based.distributed_forces = DistributedForces.empty)
    (hr : self.residue_based.distributed_forces = DistributedForces.empty)
    (hd : ∀ c ∈ calls, c.distinct) :
    (∀ p ∈ pairs (self.run sqrt eps calls).atom_based.distributed_forces.detailed, p.1 < p.2)
      ∧ (∀ p ∈ pairs (self.run sqrt eps calls).atom_based.distributed_forces.summed, p.1 < p.2)
      ∧ (∀ p ∈ pairs (self.run sqrt eps calls).residue_based.distributed_forces.detailed,
          p.1 < p.2)
      ∧ (∀ p ∈ pairs (self.run sqrt eps calls).residue_based.distributed_forces.summed,
          p.1 < p.2)
      ∧ ∀ (st : FDA α) (i j : Nat),
          st.fda_settings.get_atom2residue i = st.fda_settings.get_atom2residue j →
          (∀ (type : InteractionType) (f : RVec α),
              (st.add_bonded i j type f).1.residue_based = st.residue_based)
            ∧ (∀ (type : InteractionType) (force dx dy dz : α),
              (st.add_nonbonded_single i j type force dx dy dz).residue_based = st.residue_based)
            ∧ ∀ (pf_coul pf_lj dx dy dz : α),
              (st.add_nonbonded i j pf_coul pf_lj dx dy dz).residue_based = st.residue_based := by
  have h0 : self.canonical := by
    unfold FDA.canonical
    rw [ha, hr]
    exact ⟨canonical_empty, canonical_empty⟩
  have h := canonical_run sqrt eps calls self hd h0
  refine ⟨h.1.1, h.1.2, h.2.1, h.2.2, ?_⟩
  intro st i j hres
  have hb : ∀ (type : InteractionType) (f : RVec α),
      (st.add_bonded_nocheck i j type f).1.residue_based = st.residue_based := by
    intro type f
    simp [FDA.add_bonded_nocheck, FDA.add_bonded_residue, hres]
  refine ⟨?_, ?_, ?_⟩
  · intro type f
    unfold FDA.add_bonded
    split_ifs <;> first | rfl | exact hb type f
  · intro type force dx dy dz
    unfold FDA.add_nonbonded_single
    split_ifs <;> first | rfl | exact hb type _
  · intro pf_coul pf_lj dx dy dz
    unfold FDA.add_nonbonded FDA.add_nonbonded_single
    split_ifs <;>
      first
      | rfl
      | exact hb _ _
      | simp [FDA.add_nonbonded_residue, hres]

/-- Witness of C8: two calls made with the larger atom first. -/
theorem stores_canonical_after_run_witness :
    (pairs
        ((FDA.fresh (settings_of (InteractionType_BOND ||| InteractionType_COULOMB)
              OnePair.DETAILED) false : FDA ℝ).run Real.sqrt gmx_float_eps
          [Call.bonded 1 0 InteractionType_BOND ⟨1, 0, 0⟩,
            Call.nonbonded 2 0 1 1 1 0 0]).atom_based.distributed_forces.detailed).all
      (fun p => decide (p.1 < p.2)) = true :=
  List.all_eq_true.mpr (fun p hp =>
    decide_eq_true
      ((stores_canonical_after_run Real.sqrt gmx_float_eps
        (FDA.fresh (settings_of (InteractionType_BOND ||| InteractionType_COULOMB)
          OnePair.DETAILED) false : FDA ℝ)
        [Call.bonded 1 0 InteractionType_BOND ⟨1, 0, 0⟩, Call.nonbonded 2 0 1 1 1 0 0] rfl rfl
        (by
          intro c hc
          simp only [List.mem_cons, List.mem_singleton, List.not_mem_nil, or_false] at hc
          rcases hc with rfl | rfl <;> simp [Call.distinct])).1 p hp))

/-! ### Accumulation -/

theorem find_upsert_self {κ β : Type} [DecidableEq κ] (k : κ) (init : β) (f : β → β) :
    ∀ m : List (κ × β), find k (upsert k init f m) = some (f ((find k m).getD init))
  | [] => by simp [upsert, find]
  | (k', b) :: m => by
    by_cases h : k' = k
    · simp [upsert, find, h]
    · simp [upsert, find, h, find_upsert_self k init f m]

theorem find_upsert_ne {κ β : Type} [DecidableEq κ] (k k2 : κ) (h : k2 ≠ k) (init : β)
    (f : β → β) : ∀ m : List (κ × β), find k2 (upsert k init f m) = find k2 m
  | [] => by simp [upsert, find, h.symm]
  | (k', b) :: m => by
    by_cases h1 : k' = k
    · have h2 : ¬ k = k2 := fun e => h e.symm
      simp [upsert, find, h1, h2]
    · by_cases h3 : k' = k2
      · subst h3
        simp [upsert, find, h1]
      · simp [upsert, find, h1, h3, find_upsert_ne k k2 h init f m]

theorem find_getD_nil {κ β : Type} [DecidableEq κ] (o : Option (List (κ × β))) (k : κ) :
    find k (o.getD []) = o.bind (find k) := by
  cases o <;> rfl

theorem get_detailed_add_detailed (df : DistributedForces α) (i j : Nat) (v : RVec α)
    (t : PureInteractionType) (i2 j2 : Nat) (t2 : PureInteractionType) :
    (df.add_detailed i j v t).get_detailed i2 j2 t2
      = if i2 = i ∧ j2 = j ∧ t2 = t then
          some (rvec_add ((df.get_detailed i j t).getD clear_rvec) v)
        else df.get_detailed i2 j2 t2 := by
  unfold DistributedForces.get_detailed DistributedForces.add_detailed
  by_cases hi : i2 = i
  · subst hi
    rw [find_upsert_self, Option.some_bind]
    by_cases hj : j2 = j
    · subst hj
      rw [find_upsert_self, Option.some_bind]
      by_cases ht : t2 = t
      · subst ht
        rw [find_upsert_self, find_getD_nil, find_getD_nil]
        simp
      · rw [find_upsert_ne t t2 ht, find_getD_nil, find_getD_nil]
        simp [ht]
    · rw [find_upsert_ne j j2 hj, find_getD_nil]
      simp [hj]
  · rw [find_upsert_ne i i2 hi]
    simp [hi]

@[simp]
theorem add_bonded_atom_pf_mode (self : FDA α) (i j : Nat) (type : InteractionType)
    (f : RVec α) :
    (self.add_bonded_atom i j type f).1.atom_based.PF_or_PS_mode
      = self.atom_based.PF_or_PS_mode := by
  unfold FDA.add_bonded_atom FDA.set_atom_forces
  cases self.fda_settings.one_pair <;> dsimp only <;> split_ifs <;> rfl

@[simp]
theorem add_bonded_settings (self : FDA α) (i j : Nat) (type : InteractionType) (f : RVec α) :
    (self.add_bonded i j type f).1.fda_settings = self.fda_settings := by
  unfold FDA.add_bonded FDA.add_bonded_nocheck
  split_ifs <;> simp

@[simp]
theorem add_bonded_pf_mode (self : FDA α) (i j : Nat) (type : InteractionType) (f : RVec α) :
    (self.add_bonded i j type f).1.atom_based.PF_or_PS_mode = self.atom_based.PF_or_PS_mode := by
  unfold FDA.add_bonded FDA.add_bonded_nocheck
  split_ifs <;> simp

/-- One `add_bonded` call seen from the DETAILED atom-based slot (lo, hi, t). -/
theorem get_detailed_add_bonded (self : FDA α) (c : BondedCall α) (lo hi : Nat)
    (t : PureInteractionType) (hlt : lo < hi) (hpf : self.atom_based.PF_or_PS_mode = true)
    (hdet : self.fda_settings.one_pair = OnePair.DETAILED) :
    (self.add_bonded c.i c.j c.type c.force).1.atom_based.distributed_forces.get_detailed lo hi t
      = accumulate (self.atom_based.distributed_forces.get_detailed lo hi t)
          (contribution self.fda_settings lo hi t c) := by
  unfold FDA.add_bonded contribution
  by_cases hm : self.fda_settings.type &&& c.type = 0
  · simp [hm, accumulate]
  by_cases hg : self.fda_settings.atoms_in_groups c.i c.j = false
  · simp [hm, hg, accumulate]
  rw [if_neg hm, if_neg hg, if_neg hm, if_neg hg]
  unfold FDA.add_bonded_nocheck FDA.add_bonded_atom
  simp only [add_bonded_residue_atom_based, add_bonded_residue_settings, hpf, hdet, if_true,
    FDA.set_atom_forces]
  rw [get_detailed_add_detailed]
  by_cases hgt : c.i > c.j
  · simp only [hgt, if_true]
    by_cases ht : self.fda_settings.to_pure c.type = t
    · by_cases h1 : c.i = hi ∧ c.j = lo
      · obtain ⟨h1a, h1b⟩ := h1
        have h2 : ¬ (c.i = lo ∧ c.j = hi) := by omega
        simp [ht, h1a, h1b, accumulate, hlt.ne, hlt.ne.symm]
      · have h2 : ¬ (c.i = lo ∧ c.j = hi) := by omega
        have h3 : ¬ (lo = c.j ∧ hi = c.i ∧ t = self.fda_settings.to_pure c.type) := by
          rintro ⟨a, b, -⟩
          exact h1 ⟨b.symm, a.symm⟩
        rw [if_neg h3]
        simp [ht, h1, h2, accumulate]
    · have h3 : ¬ (lo = c.j ∧ hi = c.i ∧ t = self.fda_settings.to_pure c.type) := by
        rintro ⟨-, -, e⟩
        exact ht e.symm
      simp [ht, h3, accumulate]
  · simp only [hgt, if_false]
    by_cases ht : self.fda_settings.to_pure c.type = t
    · by_cases h1 : c.i = lo ∧ c.j = hi
      · obtain ⟨h1a, h1b⟩ := h1
        simp [ht, h1a, h1b, accumulate]
      · have h2 : ¬ (c.i = hi ∧ c.j = lo) := by omega
        have h3 : ¬ (lo = c.i ∧ hi = c.j ∧ t = self.fda_settings.to_pure c.type) := by
          rintro ⟨a, b, -⟩
          exact h1 ⟨a.symm, b.symm⟩
        rw [if_neg h3]
        simp [ht, h1, h2, accumulate]
    · have h3 : ¬ (lo = c.i ∧ hi = c.j ∧ t = self.fda_settings.to_pure c.type) := by
        rintro ⟨-, -, e⟩
        exact ht e.symm
      simp [ht, h3, accumulate]

theorem get_detailed_add_bonded_calls (lo hi : Nat) (t : PureInteractionType) (hlt : lo < hi) :
    ∀ (calls : List (BondedCall α)) (self : FDA α), self.atom_based.PF_or_PS_mode = true →
      self.fda_settings.one_pair = OnePair.DETAILED →
      (self.add_bonded_calls calls).atom_based.distributed_forces.get_detailed lo hi t
        = (calls.map (contribution self.fda_settings lo hi t)).foldl accumulate
            (self.atom_based.distributed_forces.get_detailed lo hi t)
  | [], _, _, _ => rfl
  | c :: calls, self, hpf, hdet => by
    have ih := get_detailed_add_bonded_calls lo hi t hlt calls
      (self.add_bonded c.i c.j c.type c.force).1 (by simpa using hpf) (by simpa using hdet)
    simp only [FDA.add_bonded_calls, List.foldl_cons, List.map_cons] at ih ⊢
    rw [ih, get_detailed_add_bonded self c lo hi t hlt hpf hdet, add_bonded_settings]

theorem foldl_accumulate_some (l : List (Option (RVec α))) :
    ∀ (a : RVec α), l.foldl accumulate (some a) = some ((l.filterMap id).foldl rvec_add a) := by
  induction l with
  | nil => intro a; rfl
  | cons o l ih =>
    intro a
    cases o with
    | none => simpa [accumulate] using ih a
    | some v => simpa [accumulate] using ih (rvec_add a v)

theorem foldl_accumulate_none (l : List (Option (RVec α))) :
    l.foldl accumulate none = stored_sum (l.filterMap id) := by
  induction l with
  | nil => rfl
  | cons o l ih =>
    cases o with
    | none => simpa [accumulate] using ih
    | some v =>
      simp only [List.foldl_cons, accumulate, Option.getD_none, List.filterMap_cons, id,
        stored_sum, rvec_sum]
      rw [foldl_accumulate_some]

theorem get_summed_add_summed (df : DistributedForces α) (i j : Nat) (v : RVec α)
    (t : InteractionType) (i2 j2 : Nat) :
    (df.add_summed i j v t).get_summed i2 j2
      = if i2 = i ∧ j2 = j then
          some (rvec_add ((df.get_summed i j).getD (clear_rvec, 0)).1 v,
            ((df.get_summed i j).getD (clear_rvec, 0)).2 ||| t)
        else df.get_summed i2 j2 := by
  unfold DistributedForces.get_summed DistributedForces.add_summed
  by_cases hi : i2 = i
  · subst hi
    rw [find_upsert_self, Option.some_bind]
    by_cases hj : j2 = j
    · subst hj
      rw [find_upsert_self, find_getD_nil]
      simp
    · rw [find_upsert_ne j j2 hj, find_getD_nil]
      simp [hj]
  · rw [find_upsert_ne i i2 hi]
    simp [hi]

/-- One `add_bonded` call seen from the SUMMED atom-based slot (lo, hi). -/
theorem get_summed_add_bonded (self : FDA α) (c : BondedCall α) (lo hi : Nat)
    (hlt : lo < hi) (hpf : self.atom_based.PF_or_PS_mode = true)
    (hsum : self.fda_settings.one_pair = OnePair.SUMMED) :
    ((self.add_bonded c.i c.j c.type c.force).1.atom_based.distributed_forces.get_summed
        lo hi).map Prod.fst
      = accumulate ((self.atom_based.distributed_forces.get_summed lo hi).map Prod.fst)
          (contribution_pair self.fda_settings lo hi c) := by
  unfold FDA.add_bonded contribution_pair
  by_cases hm : self.fda_settings.type &&& c.type = 0
  · simp [hm, accumulate]
  by_cases hg : self.fda_settings.atoms_in_groups c.i c.j = false
  · simp [hm, hg, accumulate]
  rw [if_neg hm, if_neg hg, if_neg hm, if_neg hg]
  unfold FDA.add_bonded_nocheck FDA.add_bonded_atom
  simp only [add_bonded_residue_atom_based, add_bonded_residue_settings, hpf, hsum, if_true,
    FDA.set_atom_forces]
  rw [get_summed_add_summed]
  by_cases hgt : c.i > c.j
  · simp only [hgt, if_true]
    by_cases h1 : c.i = hi ∧ c.j = lo
    · obtain ⟨h1a, h1b⟩ := h1
      have h2 : ¬ (c.i = lo ∧ c.j = hi) := by omega
      have h4 : c.i = hi ∧ c.j = lo := ⟨h1a, h1b⟩
      have h5 : lo = c.j ∧ hi = c.i := ⟨h1b.symm, h1a.symm⟩
      rw [if_neg h2, if_pos h4, if_pos h5, h1a, h1b]
      cases self.atom_based.distributed_forces.get_summed lo hi <;> simp [accumulate]
    · have h2 : ¬ (c.i = lo ∧ c.j = hi) := by omega
      have h3 : ¬ (lo = c.j ∧ hi = c.i) := fun ⟨a, b⟩ => h1 ⟨b.symm, a.symm⟩
      rw [if_neg h3, if_neg h2, if_neg h1]
      rfl
  · simp only [hgt, if_false]
    by_cases h1 : c.i = lo ∧ c.j = hi
    · obtain ⟨h1a, h1b⟩ := h1
      have h4 : c.i = lo ∧ c.j = hi := ⟨h1a, h1b⟩
      have h5 : lo = c.i ∧ hi = c.j := ⟨h1a.symm, h1b.symm⟩
      rw [if_pos h4, if_pos h5, h1a, h1b]
      cases self.atom_based.distributed_forces.get_summed lo hi <;> simp [accumulate]
    · have h2 : ¬ (c.i = hi ∧ c.j = lo) := by omega
      have h3 : ¬ (lo = c.i ∧ hi = c.j) := fun ⟨a, b⟩ => h1 ⟨a.symm, b.symm⟩
      rw [if_neg h3, if_neg h1, if_neg h2]
      rfl

theorem get_summed_add_bonded_calls (lo hi : Nat) (hlt : lo < hi) :
    ∀ (calls : List (BondedCall α)) (self : FDA α), self.atom_based.PF_or_PS_mode = true →
      self.fda_settings.one_pair = OnePair.SUMMED →
      ((self.add_bonded_calls calls).atom_based.distributed_forces.get_summed lo hi).map Prod.fst
        = (calls.map (contribution_pair self.fda_settings lo hi)).foldl accumulate
            ((self.atom_based.distributed_forces.get_summed lo hi).map Prod.fst)
  | [], _, _, _ => rfl
  | c :: calls, self, hpf, hsum => by
    have ih := get_summed_add_bonded_calls lo hi hlt calls
      (self.add_bonded c.i c.j c.type c.force).1 (by simpa using hpf) (by simpa using hsum)
    simp only [FDA.add_bonded_calls, List.foldl_cons, List.map_cons] at ih ⊢
    rw [ih, get_summed_add_bonded self c lo hi hlt hpf hsum, add_bonded_settings]

/-- C9: for every sequence of `add_bonded` calls on a session with atom-based pairwise
output and an empty atom-based store, and every canonical pair lo < hi: in DETAILED
mode the vector stored for (lo, hi) and a type is the sum, over the calls for that
pair and type that pass the mask and group filters, of f for a call made as (lo, hi)
and of -f for a call made as (hi, lo); in SUMMED mode the vector stored for (lo, hi)
is that sum over the calls of every type. There is no record exactly when no call
contributes, so repeated calls add up and never overwrite. -/
theorem add_bonded_accumulates (self : FDA α) (calls : List (BondedCall α)) (lo hi : Nat)
    (hlt : lo < hi) (hpf : self.atom_based.PF_or_PS_mode = true)
    (hempty : self.atom_based.distributed_forces = DistributedForces.empty) :
    (self.fda_settings.one_pair = OnePair.DETAILED →
        ∀ t : PureInteractionType,
          (self.add_bonded_calls calls).atom_based.distributed_forces.get_detailed lo hi t
            = stored_sum (calls.filterMap (contribution self.fda_settings lo hi t)))
      ∧ (self.fda_settings.one_pair = OnePair.SUMMED →
          ((self.add_bonded_calls calls).atom_based.distributed_forces.get_summed lo hi).map
              Prod.fst
            = stored_sum (calls.filterMap (contribution_pair self.fda_settings lo hi))) := by
  constructor
  · intro hdet t
    rw [get_detailed_add_bonded_calls lo hi t hlt calls self hpf hdet, hempty]
    have h0 : (DistributedForces.empty : DistributedForces α).get_detailed lo hi t = none := rfl
    rw [h0, foldl_accumulate_none, List.filterMap_map]
    rfl
  · intro hsum
    rw [get_summed_add_bonded_calls lo hi hlt calls self hpf hsum, hempty]
    have h0 : ((DistributedForces.empty : DistributedForces α).get_summed lo hi).map Prod.fst
        = none := rfl
    rw [h0, foldl_accumulate_none, List.filterMap_map]
    rfl

/-- Witness of C9: the pair (0, 1) called as (0, 1), as (1, 0) and as (0, 1) again. -/
theorem add_bonded_accumulates_witness :
    ((FDA.fresh (settings_of InteractionType_BOND OnePair.DETAILED) false :
          FDA ℚ).add_bonded_calls
        [⟨0, 1, InteractionType_BOND, ⟨1, 2, 3⟩⟩, ⟨1, 0, InteractionType_BOND, ⟨1, 1, 1⟩⟩,
          ⟨0, 1, InteractionType_BOND, ⟨5, 5, 5⟩⟩]).atom_based.distributed_forces.get_detailed
        0 1 PureInteractionType.BOND
      = stored_sum
          (List.filterMap
            (contribution (settings_of InteractionType_BOND OnePair.DETAILED) 0 1
              PureInteractionType.BOND)
            [⟨0, 1, InteractionType_BOND, (⟨1, 2, 3⟩ : RVec ℚ)⟩,
              ⟨1, 0, InteractionType_BOND, ⟨1, 1, 1⟩⟩, ⟨0, 1, InteractionType_BOND, ⟨5, 5, 5⟩⟩]) :=
  (add_bonded_accumulates
    (FDA.fresh (settings_of InteractionType_BOND OnePair.DETAILED) false : FDA ℚ)
    [⟨0, 1, InteractionType_BOND, ⟨1, 2, 3⟩⟩, ⟨1, 0, InteractionType_BOND, ⟨1, 1, 1⟩⟩,
      ⟨0, 1, InteractionType_BOND, ⟨5, 5, 5⟩⟩] 0 1 (by decide) rfl rfl).1 rfl
    PureInteractionType.BOND

/-! ### SUMMED against DETAILED -/

theorem rvec_add_assoc (a b c : RVec α) : rvec_add (rvec_add a b) c = rvec_add a (rvec_add b c) := by
  ext <;> simp [rvec_add, add_assoc]

theorem rvec_add_right_comm (a b c : RVec α) :
    rvec_add (rvec_add a b) c = rvec_add (rvec_add a c) b := by
  ext <;> simp [rvec_add, add_right_comm]

theorem lor_right_comm (a b c : Nat) : (a ||| b) ||| c = (a ||| c) ||| b := by
  rw [Nat.or_assoc, Nat.or_comm b c, ← Nat.or_assoc]

theorem map_upsert {κ β γ : Type} [DecidableEq κ] (g : β → γ) (f : β → β) (f2 : γ → γ)
    (h : ∀ b, g (f b) = f2 (g b)) (k : κ) (init : β) :
    ∀ m : List (κ × β),
      (upsert k init f m).map (fun e => (e.1, g e.2))
        = upsert k (g init) f2 (m.map (fun e => (e.1, g e.2)))
  | [] => by simp [upsert, h]
  | (k', b) :: m => by
    by_cases hk : k' = k
    · simp [upsert, hk, h]
    · simp [upsert, hk, map_upsert g f f2 h k init m]

theorem upsert_upsert {κ β : Type} [DecidableEq κ] (f g : β → β) (k : κ) (init : β) :
    ∀ m : List (κ × β), upsert k init g (upsert k init f m) = upsert k init (fun b => g (f b)) m
  | [] => by simp [upsert]
  | (k', b) :: m => by
    by_cases hk : k' = k
    · simp [upsert, hk]
    · simp [upsert, hk, upsert_upsert f g k init m]

theorem find_map_values {κ β γ : Type} [DecidableEq κ] (g : β → γ) (k : κ) :
    ∀ m : List (κ × β), find k (m.map (fun e => (e.1, g e.2))) = (find k m).map g
  | [] => rfl
  | (k', b) :: m => by
    by_cases hk : k' = k
    · simp [find, hk]
    · simp [find, hk, find_map_values g k m]

theorem foldl_types_shift (l : List (PureInteractionType × RVec α)) :
    ∀ (a : RVec α × InteractionType) (x : RVec α) (m : InteractionType),
      l.foldl add_type_record (rvec_add a.1 x, a.2 ||| m)
        = (rvec_add (l.foldl add_type_record a).1 x, (l.foldl add_type_record a).2 ||| m) := by
  induction l with
  | nil => intro a x m; rfl
  | cons e l ih =>
    intro a x m
    simp only [List.foldl_cons]
    have h : add_type_record (rvec_add a.1 x, a.2 ||| m) e
        = (rvec_add (add_type_record a e).1 x, (add_type_record a e).2 ||| m) := by
      simp only [add_type_record]
      rw [rvec_add_right_comm, lor_right_comm]
    rw [h, ih]

theorem foldl_types_upsert (t : PureInteractionType) (v : RVec α) :
    ∀ (l : List (PureInteractionType × RVec α)) (a : RVec α × InteractionType),
      (upsert t clear_rvec (fun w => rvec_add w v) l).foldl add_type_record a
        = (rvec_add (l.foldl add_type_record a).1 v,
            (l.foldl add_type_record a).2 ||| from_pure t)
  | [], a => by simp [upsert, add_type_record]
  | (t', w) :: l, a => by
    by_cases ht : t' = t
    · subst ht
      simp only [upsert, if_true, List.foldl_cons]
      have h : add_type_record a (t', rvec_add w v)
          = (rvec_add (add_type_record a (t', w)).1 v,
              (add_type_record a (t', w)).2 ||| from_pure t') := by
        simp only [add_type_record]
        rw [rvec_add_assoc, Nat.or_assoc, Nat.or_self]
      rw [h, foldl_types_shift]
    · simp only [upsert, ht, if_false, List.foldl_cons]
      exact foldl_types_upsert t v l _

theorem sum_types_upsert (t : PureInteractionType) (v : RVec α)
    (l : List (PureInteractionType × RVec α)) :
    sum_types (upsert t clear_rvec (fun w => rvec_add w v) l)
      = (rvec_add (sum_types l).1 v, (sum_types l).2 ||| from_pure t) :=
  foldl_types_upsert t v l _

theorem collapse_upsert (i j : Nat) (v : RVec α) (t : PureInteractionType)
    (d : List (Nat × List (Nat × List (PureInteractionType × RVec α)))) :
    collapse (upsert i [] (upsert j [] (upsert t clear_rvec (fun w => rvec_add w v))) d)
      = upsert i []
          (upsert j (clear_rvec, 0) (fun p => (rvec_add p.1 v, p.2 ||| from_pure t)))
          (collapse d) := by
  unfold collapse
  exact map_upsert (fun inner => inner.map (fun p => (p.1, sum_types p.2)))
    (upsert j [] (upsert t clear_rvec (fun w => rvec_add w v)))
    (upsert j (clear_rvec, 0) (fun p => (rvec_add p.1 v, p.2 ||| from_pure t)))
    (fun inner =>
      map_upsert sum_types (upsert t clear_rvec (fun w => rvec_add w v))
        (fun p => (rvec_add p.1 v, p.2 ||| from_pure t)) (sum_types_upsert t v) j [] inner)
    i [] d

theorem to_summed_add_bonded_residue (b : FDA α) (i j : Nat) (t : InteractionType) (f : RVec α)
    (hdet : b.fda_settings.one_pair = OnePair.DETAILED)
    (hp : from_pure (b.fda_settings.to_pure t) = t) :
    (b.add_bonded_residue i j t f).to_summed = b.to_summed.add_bonded_residue i j t f := by
  unfold FDA.add_bonded_residue
  simp only [hdet, FDA.to_summed, FDABase.to_summed, FDA.set_residue_forces,
    DistributedForces.add_detailed, DistributedForces.add_summed]
  split_ifs <;> simp [collapse_upsert, hp]

theorem to_summed_add_bonded_atom (b : FDA α) (i j : Nat) (t : InteractionType) (f : RVec α)
    (hdet : b.fda_settings.one_pair = OnePair.DETAILED)
    (hp : from_pure (b.fda_settings.to_pure t) = t) :
    (b.add_bonded_atom i j t f).1.to_summed = (b.to_summed.add_bonded_atom i j t f).1 := by
  unfold FDA.add_bonded_atom
  simp only [hdet, FDA.to_summed, FDABase.to_summed, FDA.set_atom_forces,
    DistributedForces.add_detailed, DistributedForces.add_summed]
  split_ifs <;> simp [collapse_upsert, hp]

theorem to_summed_add_bonded_nocheck (b : FDA α) (i j : Nat) (t : InteractionType) (f : RVec α)
    (hdet : b.fda_settings.one_pair = OnePair.DETAILED)
    (hp : from_pure (b.fda_settings.to_pure t) = t) :
    (b.add_bonded_nocheck i j t f).1.to_summed = (b.to_summed.add_bonded_nocheck i j t f).1 := by
  unfold FDA.add_bonded_nocheck
  rw [to_summed_add_bonded_atom _ i j t f (by simpa using hdet) (by simpa using hp),
    to_summed_add_bonded_residue b i j t f hdet hp]

theorem to_summed_add_bonded (b : FDA α) (i j : Nat) (t : InteractionType) (f : RVec α)
    (hdet : b.fda_settings.one_pair = OnePair.DETAILED)
    (hp : from_pure (b.fda_settings.to_pure t) = t) :
    (b.add_bonded i j t f).1.to_summed = (b.to_summed.add_bonded i j t f).1 := by
  have h := to_summed_add_bonded_nocheck b i j t f hdet hp
  unfold FDA.add_bonded
  have e1 : b.to_summed.fda_settings.type = b.fda_settings.type := rfl
  have e2 : b.to_summed.fda_settings.atoms_in_groups = b.fda_settings.atoms_in_groups := rfl
  rw [e1, e2]
  split_ifs <;> first | rfl | exact h

theorem to_summed_add_nonbonded_single (b : FDA α) (i j : Nat) (t : InteractionType)
    (force dx dy dz : α) (hdet : b.fda_settings.one_pair = OnePair.DETAILED)
    (hp : from_pure (b.fda_settings.to_pure t) = t) :
    (b.add_nonbonded_single i j t force dx dy dz).to_summed
      = b.to_summed.add_nonbonded_single i j t force dx dy dz := by
  have h := to_summed_add_bonded_nocheck b i j t ⟨force * dx, force * dy, force * dz⟩ hdet hp
  unfold FDA.add_nonbonded_single
  have e1 : b.to_summed.fda_settings.type = b.fda_settings.type := rfl
  have e2 : b.to_summed.fda_settings.atoms_in_groups = b.fda_settings.atoms_in_groups := rfl
  rw [e1, e2]
  split_ifs <;> first | rfl | exact h

theorem collapse_coulomb_lj (i j : Nat) (v1 v2 vs : RVec α) (hv : rvec_add v1 v2 = vs)
    (d : List (Nat × List (Nat × List (PureInteractionType × RVec α)))) :
    collapse
        (upsert i []
          (upsert j [] (upsert PureInteractionType.LJ clear_rvec (fun w => rvec_add w v2)))
          (upsert i []
            (upsert j []
              (upsert PureInteractionType.COULOMB clear_rvec (fun w => rvec_add w v1))) d))
      = upsert i []
          (upsert j (clear_rvec, 0)
            (fun p => (rvec_add p.1 vs, p.2 ||| (InteractionType_COULOMB ||| InteractionType_LJ))))
          (collapse d) := by
  rw [collapse_upsert, collapse_upsert, upsert_upsert]
  congr 1
  funext inner
  rw [upsert_upsert]
  congr 1
  funext p
  simp only [rvec_add_assoc, hv, Nat.or_assoc, from_pure]

theorem to_summed_add_nonbonded_residue (b : FDA α) (i j : Nat) (pf_coul pf_lj dx dy dz : α)
    (hdet : b.fda_settings.one_pair = OnePair.DETAILED) :
    (b.add_nonbonded_residue i j pf_coul pf_lj dx dy dz).to_summed
      = b.to_summed.add_nonbonded_residue i j pf_coul pf_lj dx dy dz := by
  unfold FDA.add_nonbonded_residue
  simp only [hdet, FDA.to_summed, FDABase.to_summed, FDA.set_residue_forces,
    DistributedForces.add_detailed, DistributedForces.add_summed]
  split_ifs <;> simp <;>
    exact collapse_coulomb_lj _ _ _ _ _ (by ext <;> simp only [rvec_add] <;> ring) _

theorem to_summed_add_nonbonded_atom (b : FDA α) (i j : Nat) (pf_coul pf_lj dx dy dz : α)
    (hdet : b.fda_settings.one_pair = OnePair.DETAILED) :
    (b.add_nonbonded_atom i j pf_coul pf_lj dx dy dz).to_summed
      = b.to_summed.add_nonbonded_atom i j pf_coul pf_lj dx dy dz := by
  unfold FDA.add_nonbonded_atom
  simp only [hdet, FDA.to_summed, FDABase.to_summed, FDA.set_atom_forces,
    DistributedForces.add_detailed, DistributedForces.add_summed]
  split_ifs <;> simp <;>
    exact collapse_coulomb_lj _ _ _ _ _ (by ext <;> simp only [rvec_add] <;> ring) _

theorem from_pure_to_pure (s : FDASettings) (hpure : ∀ p, s.to_pure (from_pure p) = p)
    (t : InteractionType) (ht : ∃ p, t = from_pure p) : from_pure (s.to_pure t) = t := by
  obtain ⟨p, rfl⟩ := ht
  rw [hpure]

theorem to_summed_add_nonbonded (b : FDA α) (i j : Nat) (pf_coul pf_lj dx dy dz : α)
    (hdet : b.fda_settings.one_pair = OnePair.DETAILED)
    (hpure : ∀ p, b.fda_settings.to_pure (from_pure p) = p) :
    (b.add_nonbonded i j pf_coul pf_lj dx dy dz).to_summed
      = b.to_summed.add_nonbonded i j pf_coul pf_lj dx dy dz := by
  unfold FDA.add_nonbonded
  have e1 : b.to_summed.fda_settings.type = b.fda_settings.type := rfl
  have e2 : b.to_summed.fda_settings.atoms_in_groups = b.fda_settings.atoms_in_groups := rfl
  rw [e1, e2]
  split_ifs
  · rfl
  · exact to_summed_add_nonbonded_single b i j _ _ _ _ _ hdet
      (from_pure_to_pure _ hpure _ ⟨PureInteractionType.LJ, rfl⟩)
  · exact to_summed_add_nonbonded_single b i j _ _ _ _ _ hdet
      (from_pure_to_pure _ hpure _ ⟨PureInteractionType.COULOMB, rfl⟩)
  · rfl
  · rw [to_summed_add_nonbonded_atom _ i j _ _ _ _ _ (by simpa using hdet),
      to_summed_add_nonbonded_residue b i j _ _ _ _ _ hdet]

@[simp]
theorem add_nonbonded_single_settings (self : FDA α) (i j : Nat) (t : InteractionType)
    (force dx dy dz : α) :
    (self.add_nonbonded_single i j t force dx dy dz).fda_settings = self.fda_settings := by
  unfold FDA.add_nonbonded_single FDA.add_bonded_nocheck
  split_ifs <;> simp

@[simp]
theorem add_nonbonded_settings (self : FDA α) (i j : Nat) (pf_coul pf_lj dx dy dz : α) :
    (self.add_nonbonded i j pf_coul pf_lj dx dy dz).fda_settings = self.fda_settings := by
  unfold FDA.add_nonbonded
  split_ifs <;> simp

@[simp]
theorem add_bonded_calls_settings :
    ∀ (calls : List (BondedCall α)) (self : FDA α),
      (self.add_bonded_calls calls).fda_settings = self.fda_settings
  | [], _ => rfl
  | c :: calls, self => by
    have ih := add_bonded_calls_settings calls (self.add_bonded c.i c.j c.type c.force).1
    simp only [FDA.add_bonded_calls, List.foldl_cons] at ih ⊢
    rw [ih, add_bonded_settings]

@[simp]
theorem step_settings (sqrt : α → α) (eps : α) (self : FDA α) (c : Call α) :
    (self.step sqrt eps c).fda_settings = self.fda_settings := by
  cases c <;> simp [FDA.step, FDA.add_angle, FDA.add_dihedral]

theorem to_summed_add_bonded_calls :
    ∀ (calls : List (BondedCall α)) (b : FDA α),
      b.fda_settings.one_pair = OnePair.DETAILED →
      (∀ p, b.fda_settings.to_pure (from_pure p) = p) →
      (∀ c ∈ calls, ∃ p, c.type = from_pure p) →
      (b.add_bonded_calls calls).to_summed = b.to_summed.add_bonded_calls calls
  | [], _, _, _, _ => rfl
  | c :: calls, b, hdet, hpure, hc => by
    have h1 := to_summed_add_bonded b c.i c.j c.type c.force hdet
      (from_pure_to_pure _ hpure _ (hc c (List.mem_cons_self _ _)))
    have ih := to_summed_add_bonded_calls calls (b.add_bonded c.i c.j c.type c.force).1
      (by simpa using hdet) (by simpa using hpure)
      (fun c2 hc2 => hc c2 (List.mem_cons_of_mem _ hc2))
    simp only [FDA.add_bonded_calls, List.foldl_cons] at ih ⊢
    rw [ih, h1]

theorem add_angle_calls_pure (sqrt : α → α) (ai aj ak : Nat) (f_i f_j f_k : RVec α) :
    ∀ c ∈ add_angle_calls sqrt ai aj ak f_i f_j f_k, ∃ p, c.type = from_pure p := by
  intro c hc
  unfold add_angle_calls at hc
  split_ifs at hc
  · simp at hc
  · simp only [List.mem_cons, List.mem_singleton, List.not_mem_nil, or_false] at hc
    rcases hc with rfl | rfl | rfl <;> exact ⟨PureInteractionType.ANGLE, rfl⟩

theorem add_dihedral_calls_pure (sqrt : α → α) (eps : α) (i j k l : Nat)
    (f_i f_j f_k f_l : RVec α) :
    ∀ c ∈ add_dihedral_calls sqrt eps i j k l f_i f_j f_k f_l, ∃ p, c.type = from_pure p := by
  intro c hc
  unfold add_dihedral_calls at hc
  dsimp only at hc
  split_ifs at hc
  · simp at hc
  · simp at hc
  · simp at hc
  · simp at hc
  · simp only [List.mem_cons, List.mem_singleton, List.not_mem_nil, or_false] at hc
    rcases hc with rfl | rfl | rfl | rfl | rfl | rfl <;>
      exact ⟨PureInteractionType.DIHEDRAL, rfl⟩

theorem to_summed_step (sqrt : α → α) (eps : α) (b : FDA α) (c : Call α)
    (hdet : b.fda_settings.one_pair = OnePair.DETAILED)
    (hpure : ∀ p, b.fda_settings.to_pure (from_pure p) = p) (hc : c.pure_type) :
    (b.step sqrt eps c).to_summed = b.to_summed.step sqrt eps c := by
  cases c with
  | bonded i j type force =>
    exact to_summed_add_bonded b i j type force hdet (from_pure_to_pure _ hpure _ hc)
  | nonbonded_single i j type force dx dy dz =>
    exact to_summed_add_nonbonded_single b i j type force dx dy dz hdet
      (from_pure_to_pure _ hpure _ hc)
  | nonbonded i j pf_coul pf_lj dx dy dz =>
    exact to_summed_add_nonbonded b i j pf_coul pf_lj dx dy dz hdet hpure
  | angle ai aj ak f_i f_j f_k =>
    exact to_summed_add_bonded_calls _ b hdet hpure (add_angle_calls_pure sqrt ai aj ak f_i f_j f_k)
  | dihedral i j k l f_i f_j f_k f_l =>
    exact to_summed_add_bonded_calls _ b hdet hpure
      (add_dihedral_calls_pure sqrt eps i j k l f_i f_j f_k f_l)

theorem to_summed_run (sqrt : α → α) (eps : α) :
    ∀ (calls : List (Call α)) (b : FDA α),
      b.fda_settings.one_pair = OnePair.DETAILED →
      (∀ p, b.fda_settings.to_pure (from_pure p) = p) →
      (∀ c ∈ calls, c.pure_type) →
      (b.run sqrt eps calls).to_summed = b.to_summed.run sqrt eps calls
  | [], _, _, _, _ => rfl
  | c :: calls, b, hdet, hpure, hc => by
    have h1 := to_summed_step sqrt eps b c hdet hpure (hc c (List.mem_cons_self _ _))
    have ih := to_summed_run sqrt eps calls (b.step sqrt eps c) (by simpa using hdet)
      (by simpa using hpure) (fun c2 hc2 => hc c2 (List.mem_cons_of_mem _ hc2))
    simp only [FDA.run, List.foldl_cons] at ih ⊢
    rw [ih, h1]

theorem get_summed_collapse (d : List (Nat × List (Nat × List (PureInteractionType × RVec α))))
    (i j : Nat) :
    (⟨[], collapse d⟩ : DistributedForces α).get_summed i j
      = ((⟨d, []⟩ : DistributedForces α).get_detailed_pair i j).map sum_types := by
  unfold DistributedForces.get_summed DistributedForces.get_detailed_pair collapse
  simp only []
  rw [find_map_values]
  cases find i d with
  | none => rfl
  | some inner =>
    simp only [Option.map_some', Option.some_bind]
    exact find_map_values sum_types j inner

theorem to_summed_with_mode (self : FDA α)
    (ha : self.atom_based.distributed_forces = DistributedForces.empty)
    (hr : self.residue_based.distributed_forces = DistributedForces.empty) :
    (self.with_mode OnePair.DETAILED).to_summed = self.with_mode OnePair.SUMMED := by
  obtain ⟨s, ⟨a1, a2, a3, a4⟩, ⟨r1, r2, r3, r4⟩⟩ := self
  simp only at ha hr
  subst ha hr
  rfl

/-- C10: run one and the same sequence of calls on a session with empty stores once
in SUMMED and once in DETAILED mode, every `add_bonded` / `add_nonbonded_single`
type being a single flag that `to_pure` maps to its tag. Then for every pair (i, j)
of the atom-based store and of the residue-based store the SUMMED record exists
exactly when DETAILED records exist, its vector is the sum over the types of the
DETAILED vectors of the pair, and its bitmask is the OR of their type flags. -/
theorem summed_is_sum_of_detailed (sqrt : α → α) (eps : α) (self : FDA α)
    (calls : List (Call α))
    (ha : self.atom_based.distributed_forces = DistributedForces.empty)
    (hr : self.residue_based.distributed_forces = DistributedForces.empty)
    (hpure : ∀ p, self.fda_settings.to_pure (from_pure p) = p)
    (hc : ∀ c ∈ calls, c.pure_type) (i j : Nat) :
    ((self.with_mode OnePair.SUMMED).run sqrt eps calls).atom_based.distributed_forces.get_summed
          i j
        = (((self.with_mode OnePair.DETAILED).run sqrt eps
            calls).atom_based.distributed_forces.get_detailed_pair i j).map sum_types
      ∧ ((self.with_mode OnePair.SUMMED).run sqrt eps
            calls).residue_based.distributed_forces.get_summed i j
        = (((self.with_mode OnePair.DETAILED).run sqrt eps
            calls).residue_based.distributed_forces.get_detailed_pair i j).map sum_types := by
  have h := to_summed_run sqrt eps calls (self.with_mode OnePair.DETAILED) rfl hpure hc
  rw [to_summed_with_mode self ha hr] at h
  rw [← h]
  exact ⟨get_summed_collapse _ i j, get_summed_collapse _ i j⟩

/-- Witness of C10: a Coulomb + LJ call and a bond call on the pair (0, 1). -/
theorem summed_is_sum_of_detailed_witness :
    (((FDA.fresh (settings_of 49 OnePair.DETAILED) false : FDA ℝ).with_mode OnePair.SUMMED).run
          Real.sqrt gmx_float_eps
          [Call.nonbonded 0 1 10 5 1 0 0,
            Call.bonded 1 0 InteractionType_BOND ⟨1, 1, 1⟩]).atom_based.distributed_forces.get_summed
        0 1
      = ((((FDA.fresh (settings_of 49 OnePair.DETAILED) false : FDA ℝ).with_mode
              OnePair.DETAILED).run Real.sqrt gmx_float_eps
            [Call.nonbonded 0 1 10 5 1 0 0,
              Call.bonded 1 0 InteractionType_BOND
                ⟨1, 1, 1⟩]).atom_based.distributed_forces.get_detailed_pair 0 1).map sum_types :=
  (summed_is_sum_of_detailed Real.sqrt gmx_float_eps
    (FDA.fresh (settings_of 49 OnePair.DETAILED) false : FDA ℝ)
    [Call.nonbonded 0 1 10 5 1 0 0, Call.bonded 1 0 InteractionType_BOND ⟨1, 1, 1⟩] rfl rfl
    (by intro p; cases p <;> rfl)
    (by
      intro c hc
      simp only [List.mem_cons, List.mem_singleton, List.not_mem_nil, or_false] at hc
      rcases hc with rfl | rfl
      · exact True.intro
      · exact ⟨PureInteractionType.BOND, rfl⟩) 0 1).1

/-! ### Sign of a record in each store -/

theorem add_bonded_nocheck_stores (self : FDA α) (i j : Nat) (t : InteractionType) (f : RVec α)
    (hpr : self.residue_based.PF_or_PS_mode = true)
    (hpa : self.atom_based.PF_or_PS_mode = true)
    (hres : self.fda_settings.get_atom2residue i ≠ self.fda_settings.get_atom2residue j) :
    (self.add_bonded_nocheck i j t f).1.residue_based.distributed_forces
        = self.residue_based.distributed_forces.add_record self.fda_settings
            (min (self.fda_settings.get_atom2residue i) (self.fda_settings.get_atom2residue j))
            (max (self.fda_settings.get_atom2residue i) (self.fda_settings.get_atom2residue j))
            (if self.fda_settings.get_atom2residue i > self.fda_settings.get_atom2residue j then
              rvec_opp f else f) t
      ∧ (self.add_bonded_nocheck i j t f).1.atom_based.distributed_forces
        = self.atom_based.distributed_forces.add_record self.fda_settings (min i j) (max i j)
            (if i > j then rvec_opp f else f) t := by
  unfold FDA.add_bonded_nocheck
  constructor
  · rw [add_bonded_atom_residue_based]
    unfold FDA.add_bonded_residue FDA.set_residue_forces DistributedForces.add_record
    simp only [hpr, if_true, hres, ne_eq, not_false_eq_true]
    by_cases h : self.fda_settings.get_atom2residue i > self.fda_settings.get_atom2residue j
    · have h1 : min (self.fda_settings.get_atom2residue i) (self.fda_settings.get_atom2residue j)
          = self.fda_settings.get_atom2residue j := min_eq_right h.le
      have h2 : max (self.fda_settings.get_atom2residue i) (self.fda_settings.get_atom2residue j)
          = self.fda_settings.get_atom2residue i := max_eq_left h.le
      rw [h1, h2]
      cases self.fda_settings.one_pair <;> simp [h]
    · have h1 : min (self.fda_settings.get_atom2residue i) (self.fda_settings.get_atom2residue j)
          = self.fda_settings.get_atom2residue i := min_eq_left (not_lt.mp h)
      have h2 : max (self.fda_settings.get_atom2residue i) (self.fda_settings.get_atom2residue j)
          = self.fda_settings.get_atom2residue j := max_eq_right (not_lt.mp h)
      rw [h1, h2]
      cases self.fda_settings.one_pair <;> simp [h]
  · unfold FDA.add_bonded_atom FDA.set_atom_forces DistributedForces.add_record
    simp only [add_bonded_residue_atom_based, add_bonded_residue_settings, hpa, if_true]
    by_cases h : i > j
    · rw [min_eq_right h.le, max_eq_left h.le]
      cases self.fda_settings.one_pair <;> simp [h]
    · rw [min_eq_left (not_lt.mp h), max_eq_right (not_lt.mp h)]
      cases self.fda_settings.one_pair <;> simp [h]

/-- C11: for a call that passes the mask and group filters, with pairwise output on
for atoms and residues and the two atoms in different residues: `add_bonded`,
`add_nonbonded_single` and (both types tracked) `add_nonbonded` record the
contribution in the residue-based store under (min residue, max residue), negated
exactly when residue(i) > residue(j), and in the atom-based store under
(min atom, max atom), negated exactly when i > j; each sign depends on the index
order of its own store only, so the two may differ. -/
theorem record_sign_per_store (self : FDA α) (i j : Nat) (t : InteractionType) (f : RVec α)
    (pf_coul pf_lj force dx dy dz : α)
    (hg : self.fda_settings.atoms_in_groups i j = true)
    (hpr : self.residue_based.PF_or_PS_mode = true)
    (hpa : self.atom_based.PF_or_PS_mode = true)
    (hres : self.fda_settings.get_atom2residue i ≠ self.fda_settings.get_atom2residue j) :
    (self.fda_settings.type &&& t ≠ 0 →
        ((self.add_bonded i j t f).1.residue_based.distributed_forces
            = self.residue_based.distributed_forces.add_record self.fda_settings
                (min (self.fda_settings.get_atom2residue i) (self.fda_settings.get_atom2residue j))
                (max (self.fda_settings.get_atom2residue i) (self.fda_settings.get_atom2residue j))
                (if self.fda_settings.get_atom2residue i > self.fda_settings.get_atom2residue j
                  then rvec_opp f else f) t
          ∧ (self.add_bonded i j t f).1.atom_based.distributed_forces
            = self.atom_based.distributed_forces.add_record self.fda_settings (min i j) (max i j)
                (if i > j then rvec_opp f else f) t)
        ∧ (self.add_nonbonded_single i j t force dx dy dz).residue_based.distributed_forces
            = self.residue_based.distributed_forces.add_record self.fda_settings
                (min (self.fda_settings.get_atom2residue i) (self.fda_settings.get_atom2residue j))
                (max (self.fda_settings.get_atom2residue i) (self.fda_settings.get_atom2residue j))
                (if self.fda_settings.get_atom2residue i > self.fda_settings.get_atom2residue j
                  then rvec_opp (scaled force dx dy dz) else scaled force dx dy dz) t
        ∧ (self.add_nonbonded_single i j t force dx dy dz).atom_based.distributed_forces
            = self.atom_based.distributed_forces.add_record self.fda_settings (min i j) (max i j)
                (if i > j then rvec_opp (scaled force dx dy dz) else scaled force dx dy dz) t)
      ∧ (self.fda_settings.type &&& InteractionType_COULOMB ≠ 0 →
          self.fda_settings.type &&& InteractionType_LJ ≠ 0 →
          (self.add_nonbonded i j pf_coul pf_lj dx dy dz).residue_based.distributed_forces
              = self.residue_based.distributed_forces.add_coulomb_lj self.fda_settings
                  (min (self.fda_settings.get_atom2residue i)
                    (self.fda_settings.get_atom2residue j))
                  (max (self.fda_settings.get_atom2residue i)
                    (self.fda_settings.get_atom2residue j))
                  (if self.fda_settings.get_atom2residue i > self.fda_settings.get_atom2residue j
                    then rvec_opp (scaled pf_coul dx dy dz) else scaled pf_coul dx dy dz)
                  (if self.fda_settings.get_atom2residue i > self.fda_settings.get_atom2residue j
                    then rvec_opp (scaled pf_lj dx dy dz) else scaled pf_lj dx dy dz)
                  (if self.fda_settings.get_atom2residue i > self.fda_settings.get_atom2residue j
                    then rvec_opp (scaled (pf_lj + pf_coul) dx dy dz)
                    else scaled (pf_lj + pf_coul) dx dy dz)
            ∧ (self.add_nonbonded i j pf_coul pf_lj dx dy dz).atom_based.distributed_forces
              = self.atom_based.distributed_forces.add_coulomb_lj self.fda_settings (min i j)
                  (max i j)
                  (if i > j then rvec_opp (scaled pf_coul dx dy dz) else scaled pf_coul dx dy dz)
                  (if i > j then rvec_opp (scaled pf_lj dx dy dz) else scaled pf_lj dx dy dz)
                  (if i > j then rvec_opp (scaled (pf_lj + pf_coul) dx dy dz)
                    else scaled (pf_lj + pf_coul) dx dy dz)) := by
  have hg2 : ¬ (self.fda_settings.atoms_in_groups i j = false) := by simp [hg]
  constructor
  · intro hm
    have h1 := add_bonded_nocheck_stores self i j t f hpr hpa hres
    have h2 := add_bonded_nocheck_stores self i j t (scaled force dx dy dz) hpr hpa hres
    unfold FDA.add_bonded FDA.add_nonbonded_single
    rw [if_neg hm, if_neg hg2, if_neg hm, if_neg hg2]
    exact ⟨h1, h2⟩
  · intro hC hL
    unfold FDA.add_nonbonded
    rw [if_neg hC, if_neg hL, if_neg hg2]
    constructor
    · rw [add_nonbonded_atom_residue_based]
      unfold FDA.add_nonbonded_residue FDA.set_residue_forces DistributedForces.add_coulomb_lj
      simp only [hpr, if_true, hres, ne_eq, not_false_eq_true]
      by_cases h : self.fda_settings.get_atom2residue i > self.fda_settings.get_atom2residue j
      · rw [min_eq_right h.le, max_eq_left h.le]
        cases self.fda_settings.one_pair <;>
          simp [h, scaled, rvec_opp, neg_add, neg_mul, add_mul, add_comm]
      · rw [min_eq_left (not_lt.mp h), max_eq_right (not_lt.mp h)]
        cases self.fda_settings.one_pair <;> simp [h, scaled]
    · unfold FDA.add_nonbonded_atom FDA.set_atom_forces DistributedForces.add_coulomb_lj
      simp only [add_nonbonded_residue_atom_based, add_nonbonded_residue_settings, hpa, if_true]
      by_cases h : i > j
      · rw [min_eq_right h.le, max_eq_left h.le]
        cases self.fda_settings.one_pair <;>
          simp [h, scaled, rvec_opp, neg_add, neg_mul, add_mul, add_comm]
      · rw [min_eq_left (not_lt.mp h), max_eq_right (not_lt.mp h)]
        cases self.fda_settings.one_pair <;> simp [h, scaled]

/-! ### The early-exit ladder of add_nonbonded -/

/-- C12: `add_nonbonded` changes nothing when neither COULOMB nor LJ is in the mask;
with only LJ in the mask it is `add_nonbonded_single(i, j, LJ, lj, dx, dy, dz)`, with
only COULOMB in the mask it is `add_nonbonded_single(i, j, COULOMB, coul, dx, dy, dz)`. -/
theorem add_nonbonded_ladder (self : FDA α) (i j : Nat) (pf_coul pf_lj dx dy dz : α) :
    (self.fda_settings.type &&& InteractionType_COULOMB = 0 →
        self.fda_settings.type &&& InteractionType_LJ = 0 →
        self.add_nonbonded i j pf_coul pf_lj dx dy dz = self)
      ∧ (self.fda_settings.type &&& InteractionType_COULOMB = 0 →
        self.fda_settings.type &&& InteractionType_LJ ≠ 0 →
        self.add_nonbonded i j pf_coul pf_lj dx dy dz
          = self.add_nonbonded_single i j InteractionType_LJ pf_lj dx dy dz)
      ∧ (self.fda_settings.type &&& InteractionType_COULOMB ≠ 0 →
        self.fda_settings.type &&& InteractionType_LJ = 0 →
        self.add_nonbonded i j pf_coul pf_lj dx dy dz
          = self.add_nonbonded_single i j InteractionType_COULOMB pf_coul dx dy dz) := by
  refine ⟨?_, ?_, ?_⟩ <;> intro hC hL <;> unfold FDA.add_nonbonded
  · rw [if_pos hC, if_pos hL]
  · rw [if_pos hC, if_neg hL]
  · rw [if_neg hC, if_pos hL]

/-- Witness of C11: atoms 3 > 1 in residues 7 < 9, so the atom-based record is
negated and the residue-based record is not. -/
theorem record_sign_per_store_witness :
    ((FDA.fresh (settings_reversed InteractionType_BOND OnePair.DETAILED) false :
          FDA ℚ).add_bonded 3 1 InteractionType_BOND ⟨1, 2, 3⟩).1.residue_based.distributed_forces
        = (FDA.fresh (settings_reversed InteractionType_BOND OnePair.DETAILED) false :
            FDA ℚ).residue_based.distributed_forces.add_record
            (settings_reversed InteractionType_BOND OnePair.DETAILED) 7 9 ⟨1, 2, 3⟩
            InteractionType_BOND
      ∧ ((FDA.fresh (settings_reversed InteractionType_BOND OnePair.DETAILED) false :
          FDA ℚ).add_bonded 3 1 InteractionType_BOND ⟨1, 2, 3⟩).1.atom_based.distributed_forces
        = (FDA.fresh (settings_reversed InteractionType_BOND OnePair.DETAILED) false :
            FDA ℚ).atom_based.distributed_forces.add_record
            (settings_reversed InteractionType_BOND OnePair.DETAILED) 1 3
            (rvec_opp ⟨1, 2, 3⟩) InteractionType_BOND :=
  ((record_sign_per_store
    (FDA.fresh (settings_reversed InteractionType_BOND OnePair.DETAILED) false : FDA ℚ) 3 1
    InteractionType_BOND ⟨1, 2, 3⟩ 0 0 0 0 0 0 rfl rfl rfl (by decide)).1 (by decide)).1

/-- Witness of C12: a mask with LJ only. -/
theorem add_nonbonded_ladder_witness :
    (FDA.fresh (settings_of InteractionType_LJ OnePair.SUMMED) false : FDA ℚ).add_nonbonded 0 1
        10 5 1 0 0
      = (FDA.fresh (settings_of InteractionType_LJ OnePair.SUMMED) false :
          FDA ℚ).add_nonbonded_single 0 1 InteractionType_LJ 5 1 0 0 :=
  (add_nonbonded_ladder (FDA.fresh (settings_of InteractionType_LJ OnePair.SUMMED) false : FDA ℚ)
    0 1 10 5 1 0 0).2.1 (by decide) (by decide)

/-! ### add_nonbonded against two single-type calls -/

theorem add_summed_add_summed (df : DistributedForces α) (a b : Nat) (v1 v2 : RVec α)
    (t1 t2 : InteractionType) :
    (df.add_summed a b v1 t1).add_summed a b v2 t2
      = df.add_summed a b (rvec_add v1 v2) (t1 ||| t2) := by
  unfold DistributedForces.add_summed
  simp only [DistributedForces.mk.injEq, true_and]
  rw [upsert_upsert]
  congr 1
  funext inner
  rw [upsert_upsert]
  congr 1
  funext p
  simp only [rvec_add_assoc, Nat.or_assoc]

theorem FDA.ext_fields (a b : FDA α) (h1 : a.fda_settings = b.fda_settings)
    (h2 : a.atom_based = b.atom_based) (h3 : a.residue_based = b.residue_based) : a = b := by
  cases a
  cases b
  simp_all

theorem add_bonded_residue_congr (st1 st2 : FDA α) (hs : st1.fda_settings = st2.fda_settings)
    (hr : st1.residue_based = st2.residue_based) (i j : Nat) (t : InteractionType)
    (f : RVec α) :
    (st1.add_bonded_residue i j t f).residue_based
      = (st2.add_bonded_residue i j t f).residue_based := by
  unfold FDA.add_bonded_residue FDA.set_residue_forces
  rw [hs, hr]
  cases st2.fda_settings.one_pair <;> dsimp only <;> split_ifs <;> first | rfl | exact hr

theorem add_bonded_atom_congr (st1 st2 : FDA α) (hs : st1.fda_settings = st2.fda_settings)
    (ha : st1.atom_based = st2.atom_based) (i j : Nat) (t : InteractionType) (f : RVec α) :
    (st1.add_bonded_atom i j t f).1.atom_based = (st2.add_bonded_atom i j t f).1.atom_based := by
  unfold FDA.add_bonded_atom FDA.set_atom_forces
  rw [hs, ha]
  cases st2.fda_settings.one_pair <;> dsimp only <;> split_ifs <;> first | rfl | exact ha

theorem add_bonded_atom_residue_comm (st : FDA α) (i j : Nat) (t1 t2 : InteractionType)
    (f1 f2 : RVec α) :
    (st.add_bonded_atom i j t1 f1).1.add_bonded_residue i j t2 f2
      = ((st.add_bonded_residue i j t2 f2).add_bonded_atom i j t1 f1).1 := by
  apply FDA.ext_fields
  · simp
  · rw [add_bonded_residue_atom_based]
    exact add_bonded_atom_congr _ _ (by simp) (by simp) i j t1 f1
  · rw [add_bonded_atom_residue_based]
    exact add_bonded_residue_congr _ _ (by simp) (by simp) i j t2 f2

theorem add_bonded_residue_twice (self : FDA α) (i j : Nat) (pf_coul pf_lj dx dy dz : α)
    (hpC : self.fda_settings.to_pure InteractionType_COULOMB = PureInteractionType.COULOMB)
    (hpL : self.fda_settings.to_pure InteractionType_LJ = PureInteractionType.LJ) :
    (self.add_bonded_residue i j InteractionType_COULOMB
        ⟨pf_coul * dx, pf_coul * dy, pf_coul * dz⟩).add_bonded_residue i j InteractionType_LJ
        ⟨pf_lj * dx, pf_lj * dy, pf_lj * dz⟩
      = self.add_nonbonded_residue i j pf_coul pf_lj dx dy dz := by
  obtain ⟨⟨ty, op, g, a2r, tp⟩, a, r⟩ := self
  simp only at hpC hpL
  cases op <;>
    simp only [FDA.add_bonded_residue, FDA.add_nonbonded_residue, FDA.set_residue_forces] <;>
    split_ifs <;>
    simp [hpC, hpL, add_summed_add_summed, rvec_add, rvec_opp, rvec_dec, clear_rvec, neg_add,
      neg_mul, add_mul, add_comm]

theorem add_bonded_atom_twice (self : FDA α) (i j : Nat) (pf_coul pf_lj dx dy dz : α)
    (hpC : self.fda_settings.to_pure InteractionType_COULOMB = PureInteractionType.COULOMB)
    (hpL : self.fda_settings.to_pure InteractionType_LJ = PureInteractionType.LJ) :
    ((self.add_bonded_atom i j InteractionType_COULOMB
        ⟨pf_coul * dx, pf_coul * dy, pf_coul * dz⟩).1.add_bonded_atom i j InteractionType_LJ
        ⟨pf_lj * dx, pf_lj * dy, pf_lj * dz⟩).1
      = self.add_nonbonded_atom i j pf_coul pf_lj dx dy dz := by
  obtain ⟨⟨ty, op, g, a2r, tp⟩, a, r⟩ := self
  simp only at hpC hpL
  cases op <;>
    simp only [FDA.add_bonded_atom, FDA.add_nonbonded_atom, FDA.set_atom_forces] <;>
    split_ifs <;>
    simp [hpC, hpL, add_summed_add_summed, rvec_add, rvec_opp, rvec_dec, clear_rvec, neg_add,
      neg_mul, add_mul, add_comm]

/-- C13: with COULOMB and LJ both in the mask (and `to_pure` mapping the two flags to
their tags), `add_nonbonded(i, j, coul, lj, dx, dy, dz)` ends in the same session state,
atom-based and residue-based store included, DETAILED or SUMMED, as
`add_nonbonded_single(i, j, COULOMB, coul, dx, dy, dz)` followed by
`add_nonbonded_single(i, j, LJ, lj, dx, dy, dz)`. -/
theorem add_nonbonded_eq_two_singles (self : FDA α) (i j : Nat) (pf_coul pf_lj dx dy dz : α)
    (hC : self.fda_settings.type &&& InteractionType_COULOMB ≠ 0)
    (hL : self.fda_settings.type &&& InteractionType_LJ ≠ 0)
    (hpC : self.fda_settings.to_pure InteractionType_COULOMB = PureInteractionType.COULOMB)
    (hpL : self.fda_settings.to_pure InteractionType_LJ = PureInteractionType.LJ) :
    self.add_nonbonded i j pf_coul pf_lj dx dy dz
      = (self.add_nonbonded_single i j InteractionType_COULOMB pf_coul dx dy
          dz).add_nonbonded_single i j InteractionType_LJ pf_lj dx dy dz := by
  unfold FDA.add_nonbonded
  rw [if_neg hC, if_neg hL]
  unfold FDA.add_nonbonded_single
  rw [if_neg hC]
  by_cases hg : self.fda_settings.atoms_in_groups i j = false
  · rw [if_pos hg, if_pos hg, if_neg hL, if_pos hg]
  · rw [if_neg hg, if_neg hg]
    unfold FDA.add_bonded_nocheck
    simp only [add_bonded_atom_settings, add_bonded_residue_settings]
    rw [if_neg hL, if_neg hg, add_bonded_atom_residue_comm,
      add_bonded_residue_twice self i j pf_coul pf_lj dx dy dz hpC hpL,
      add_bonded_atom_twice _ i j pf_coul pf_lj dx dy dz (by simpa using hpC)
        (by simpa using hpL)]

/-- Witness of C13: both types tracked, SUMMED mode, atoms given in descending order. -/
theorem add_nonbonded_eq_two_singles_witness :
    (FDA.fresh (settings_of 48 OnePair.SUMMED) false : FDA ℚ).add_nonbonded 3 0 10 5 1 2 0
      = ((FDA.fresh (settings_of 48 OnePair.SUMMED) false : FDA ℚ).add_nonbonded_single 3 0
          InteractionType_COULOMB 10 1 2 0).add_nonbonded_single 3 0 InteractionType_LJ 5 1 2 0 :=
  add_nonbonded_eq_two_singles (FDA.fresh (settings_of 48 OnePair.SUMMED) false : FDA ℚ) 3 0 10 5
    1 2 0 (by decide) (by decide) rfl rfl

/-! ### Residue centres of mass -/

theorem iterate_foldl_repeat {β γ : Type} (f : γ → β → γ) (l : List β) :
    ∀ (n : Nat) (st : γ),
      Nat.iterate (fun st1 => l.foldl f st1) n st = (repeat_list n l).foldl f st
  | 0, _ => rfl
  | n + 1, st => by
    simp only [Function.iterate_succ_apply, repeat_list, List.foldl_append]
    exact iterate_foldl_repeat f l n _

theorem foldl_molblocks (s : FDASettings) (fs : FrameSettings) (x : Nat → RVec α)
    (mtop : gmx_mtop_t α) :
    ∀ (blocks : List gmx_molblock_t) (st : ResidueSums α),
      blocks.foldl (com_add_molblock s fs x mtop) st
        = (block_masses mtop.moltype blocks).foldl (com_add_atom s fs x) st
  | [], _ => rfl
  | mb :: rest, st => by
    simp only [List.foldl_cons, block_masses, List.foldl_append]
    rw [foldl_molblocks s fs x mtop rest]
    unfold com_add_molblock
    rw [iterate_foldl_repeat]

theorem getD_modify_at {β : Type} (f : β → β) (d : β) :
    ∀ (l : List β) (n r : Nat),
      (modify_at f n l).getD r d
        = if n = r ∧ r < l.length then f (l.getD r d) else l.getD r d
  | [], n, r => by cases n <;> simp [modify_at]
  | b :: l, 0, 0 => by simp [modify_at]
  | b :: l, 0, r + 1 => by simp [modify_at]
  | b :: l, n + 1, 0 => by simp [modify_at]
  | b :: l, n + 1, r + 1 => by
    simp only [modify_at, List.getD_cons_succ, getD_modify_at f d l n r, List.length_cons,
      Nat.add_lt_add_iff_right, Nat.add_right_cancel_iff]

theorem com_add_atom_lengths (s : FDASettings) (fs : FrameSettings) (x : Nat → RVec α)
    (st : ResidueSums α) (m : α) :
    (com_add_atom s fs x st m).mass.length = st.mass.length
      ∧ (com_add_atom s fs x st m).com.length = st.com.length
      ∧ (com_add_atom s fs x st m).atom_global_index = st.atom_global_index + 1 := by
  unfold com_add_atom
  split_ifs <;> simp [length_modify_at]

theorem foldl_com_lengths (s : FDASettings) (fs : FrameSettings) (x : Nat → RVec α) :
    ∀ (ms : List α) (st : ResidueSums α),
      (ms.foldl (com_add_atom s fs x) st).mass.length = st.mass.length
        ∧ (ms.foldl (com_add_atom s fs x) st).com.length = st.com.length
  | [], _ => ⟨rfl, rfl⟩
  | m :: ms, st => by
    have h := com_add_atom_lengths s fs x st m
    have ih := foldl_com_lengths s fs x ms (com_add_atom s fs x st m)
    simp only [List.foldl_cons]
    exact ⟨ih.1.trans h.1, ih.2.trans h.2.1⟩

/-- The entries of residue `r` after the atom loop: what they were before plus the
tracked mass and the tracked moment of the atoms visited. -/
theorem foldl_com_getD (s : FDASettings) (fs : FrameSettings) (x : Nat → RVec α) (r : Nat) :
    ∀ (ms : List α) (st : ResidueSums α), r < st.mass.length → r < st.com.length →
      (ms.foldl (com_add_atom s fs x) st).mass.getD r 0
          = st.mass.getD r 0 + tracked_mass s fs r st.atom_global_index ms
        ∧ (ms.foldl (com_add_atom s fs x) st).com.getD r clear_rvec
          = rvec_add (st.com.getD r clear_rvec)
              (tracked_moment s fs x r st.atom_global_index ms)
  | [], st, _, _ => by simp [tracked_mass, tracked_moment]
  | m :: ms, st, hm, hc => by
    have hl := com_add_atom_lengths s fs x st m
    have ih := foldl_com_getD s fs x r ms (com_add_atom s fs x st m) (by rw [hl.1]; exact hm)
      (by rw [hl.2.1]; exact hc)
    simp only [List.foldl_cons, tracked_mass, tracked_moment]
    rw [ih.1, ih.2, hl.2.2]
    unfold com_add_atom
    cases hg : fs.atom_in_groups st.atom_global_index
    · simp
    · by_cases hr : s.get_atom2residue st.atom_global_index = r
      · simp only [hr, if_true, and_self, getD_modify_at, hm, hc, rvec_inc, rvec_add]
        constructor
        · ring
        · ext <;> simp only [] <;> ring
      · simp only [hr, if_true, if_false, and_false, false_and, getD_modify_at, zero_add,
          rvec_add_clear_left, and_self]

theorem residue_sums_eq (s : FDASettings) (fs : FrameSettings) (x : Nat → RVec α)
    (mtop : gmx_mtop_t α) (r : Nat) (hr : r < fs.syslen_residues) :
    (residue_sums s fs x mtop).mass.length = fs.syslen_residues
      ∧ (residue_sums s fs x mtop).com.length = fs.syslen_residues
      ∧ (residue_sums s fs x mtop).mass.getD r 0 = tracked_mass s fs r 0 (atom_masses mtop)
      ∧ (residue_sums s fs x mtop).com.getD r clear_rvec
        = tracked_moment s fs x r 0 (atom_masses mtop) := by
  unfold residue_sums atom_masses
  rw [foldl_molblocks]
  have hl := foldl_com_lengths s fs x (block_masses mtop.moltype mtop.molblock)
    ⟨List.replicate fs.syslen_residues 0, List.replicate fs.syslen_residues clear_rvec, 0⟩
  have hg := foldl_com_getD s fs x r (block_masses mtop.moltype mtop.molblock)
    ⟨List.replicate fs.syslen_residues 0, List.replicate fs.syslen_residues clear_rvec, 0⟩
    (by simpa using hr) (by simpa using hr)
  simp only [List.length_replicate] at hl
  refine ⟨hl.1, hl.2, ?_, ?_⟩
  · rw [hg.1]
    simp [List.getD_eq_getElem?_getD, hr]
  · rw [hg.2]
    simp [List.getD_eq_getElem?_getD, hr]

theorem getD_zipWith {β γ δ : Type} (g : β → γ → δ) (db : β) (dc : γ) (dd : δ) :
    ∀ (l1 : List β) (l2 : List γ) (r : Nat), r < l1.length → r < l2.length →
      (List.zipWith g l1 l2).getD r dd = g (l1.getD r db) (l2.getD r dc)
  | [], _, _, h, _ => absurd h (by simp)
  | _ :: _, [], _, _, h => absurd h (by simp)
  | b :: l1, c :: l2, 0, _, _ => by simp
  | b :: l1, c :: l2, r + 1, h1, h2 => by
    simp only [List.zipWith_cons_cons, List.getD_cons_succ]
    exact getD_zipWith g db dc dd l1 l2 r (by simpa using h1) (by simpa using h2)

theorem get_residues_com_getD (s : FDASettings) (fs : FrameSettings) (x : Nat → RVec α)
    (mtop : gmx_mtop_t α) (r : Nat) (hr : r < fs.syslen_residues) :
    (get_residues_com s fs x mtop).getD r clear_rvec
      = if tracked_mass s fs r 0 (atom_masses mtop) ≠ 0 then
          rvec_div (tracked_moment s fs x r 0 (atom_masses mtop))
            (tracked_mass s fs r 0 (atom_masses mtop))
        else tracked_moment s fs x r 0 (atom_masses mtop) := by
  have h := residue_sums_eq s fs x mtop r hr
  unfold get_residues_com
  simp only []
  rw [getD_zipWith _ 0 clear_rvec clear_rvec _ _ r (by rw [h.1]; exact hr)
    (by rw [h.2.1]; exact hr), h.2.2.1, h.2.2.2]

/-- C14: for every residue r (below the number of residues) whose tracked mass is
not zero, `get_residues_com` returns the mass-weighted mean: the sum of mass times
position divided by the sum of the masses, both over exactly the atoms that are in
the monitored groups and map to r; and for two atoms of mass 1 and 3 at (0,0,0) and
(4,0,0) in one residue the result is (3,0,0). -/
theorem residue_com_weighted_mean (s : FDASettings) (fs : FrameSettings) (x : Nat → RVec α)
    (mtop : gmx_mtop_t α) (r : Nat) (hr : r < fs.syslen_residues)
    (hm : tracked_mass s fs r 0 (atom_masses mtop) ≠ 0) :
    (get_residues_com s fs x mtop).getD r clear_rvec
        = rvec_div (tracked_moment s fs x r 0 (atom_masses mtop))
            (tracked_mass s fs r 0 (atom_masses mtop))
      ∧ get_residues_com (settings_of InteractionType_BOND OnePair.SUMMED) (frame_settings_of 1 1)
          two_atom_x (two_atom_top : gmx_mtop_t α) = [⟨3, 0, 0⟩] := by
  constructor
  · rw [get_residues_com_getD s fs x mtop r hr, if_pos hm]
  · simp [get_residues_com, residue_sums, com_add_molblock, com_add_atom, two_atom_top,
      two_atom_x, frame_settings_of, settings_of, modify_at, rvec_inc, svmul, clear_rvec,
      rvec_div]
    norm_num

/-- Witness of C14: the two-atom residue. -/
theorem residue_com_weighted_mean_witness :
    (get_residues_com (settings_of InteractionType_BOND OnePair.SUMMED) (frame_settings_of 1 1)
        two_atom_x (two_atom_top : gmx_mtop_t ℚ)).getD 0 clear_rvec
      = rvec_div
          (tracked_moment (settings_of InteractionType_BOND OnePair.SUMMED)
            (frame_settings_of 1 1) two_atom_x 0 0 (atom_masses (two_atom_top : gmx_mtop_t ℚ)))
          (tracked_mass (settings_of InteractionType_BOND OnePair.SUMMED) (frame_settings_of 1 1)
            0 0 (atom_masses (two_atom_top : gmx_mtop_t ℚ))) :=
  (residue_com_weighted_mean (settings_of InteractionType_BOND OnePair.SUMMED)
    (frame_settings_of 1 1) two_atom_x (two_atom_top : gmx_mtop_t ℚ) 0 (by decide)
    (by
      simp [tracked_mass, atom_masses, block_masses, repeat_list, two_atom_top,
        frame_settings_of, settings_of]
      norm_num)).1

theorem tracked_mass_nonneg (s : FDASettings) (fs : FrameSettings) (r : Nat) :
    ∀ (ms : List α) (k : Nat), (∀ m ∈ ms, 0 ≤ m) → 0 ≤ tracked_mass s fs r k ms
  | [], _, _ => le_refl _
  | m :: ms, k, h => by
    have h1 : 0 ≤ m := h m (List.mem_cons_self _ _)
    have h2 := tracked_mass_nonneg s fs r ms (k + 1) (fun a ha => h a (List.mem_cons_of_mem _ ha))
    simp only [tracked_mass]
    split_ifs <;> linarith

theorem tracked_moment_zero_of_mass_zero (s : FDASettings) (fs : FrameSettings)
    (x : Nat → RVec α) (r : Nat) :
    ∀ (ms : List α) (k : Nat), (∀ m ∈ ms, 0 ≤ m) → tracked_mass s fs r k ms = 0 →
      tracked_moment s fs x r k ms = clear_rvec
  | [], _, _, _ => rfl
  | m :: ms, k, h, hz => by
    have h1 : 0 ≤ m := h m (List.mem_cons_self _ _)
    have hrest : ∀ a ∈ ms, 0 ≤ a := fun a ha => h a (List.mem_cons_of_mem _ ha)
    have h2 := tracked_mass_nonneg s fs r ms (k + 1) hrest
    simp only [tracked_mass] at hz
    simp only [tracked_moment]
    by_cases hc : fs.atom_in_groups k = true ∧ s.get_atom2residue k = r
    · rw [if_pos hc] at hz
      have hm0 : m = 0 := by linarith
      have hr0 : tracked_mass s fs r (k + 1) ms = 0 := by linarith
      rw [if_pos hc, tracked_moment_zero_of_mass_zero s fs x r ms (k + 1) hrest hr0, hm0]
      simp [svmul, rvec_add, clear_rvec]
    · rw [if_neg hc] at hz
      have hr0 : tracked_mass s fs r (k + 1) ms = 0 := by linarith
      rw [if_neg hc, tracked_moment_zero_of_mass_zero s fs x r ms (k + 1) hrest hr0]
      simp

theorem tracked_zero_of_no_atom (s : FDASettings) (fs : FrameSettings) (x : Nat → RVec α)
    (r : Nat) :
    ∀ (ms : List α) (k : Nat),
      (∀ a, k ≤ a → a < k + ms.length →
        ¬ (fs.atom_in_groups a = true ∧ s.get_atom2residue a = r)) →
      tracked_mass s fs r k ms = 0 ∧ tracked_moment s fs x r k ms = clear_rvec
  | [], _, _ => ⟨rfl, rfl⟩
  | m :: ms, k, h => by
    have hk := h k (le_refl k) (by simp)
    have ih := tracked_zero_of_no_atom s fs x r ms (k + 1)
      (fun a h1 h2 => h a (by omega) (by simp only [List.length_cons]; omega))
    simp only [tracked_mass, tracked_moment, if_neg hk, ih.1, ih.2, zero_add,
      rvec_add_clear_left, and_self]

/-- C15: for a residue r (below the number of residues) whose tracked mass is exactly
zero, `get_residues_com` returns the accumulated sum undivided, and with non-negative
atom masses that sum is the zero vector; in particular the tracked mass is zero and
the result the zero vector for every residue to which no atom of the monitored groups
belongs. -/
theorem residue_com_zero_mass (s : FDASettings) (fs : FrameSettings) (x : Nat → RVec α)
    (mtop : gmx_mtop_t α) (r : Nat) (hr : r < fs.syslen_residues) :
    (tracked_mass s fs r 0 (atom_masses mtop) = 0 →
        (get_residues_com s fs x mtop).getD r clear_rvec
          = tracked_moment s fs x r 0 (atom_masses mtop))
      ∧ ((∀ m ∈ atom_masses mtop, 0 ≤ m) → tracked_mass s fs r 0 (atom_masses mtop) = 0 →
          (get_residues_com s fs x mtop).getD r clear_rvec = clear_rvec)
      ∧ ((∀ a, a < (atom_masses mtop).length →
            ¬ (fs.atom_in_groups a = true ∧ s.get_atom2residue a = r)) →
          tracked_mass s fs r 0 (atom_masses mtop) = 0
            ∧ (get_residues_com s fs x mtop).getD r clear_rvec = clear_rvec) := by
  have h := get_residues_com_getD s fs x mtop r hr
  refine ⟨?_, ?_, ?_⟩
  · intro hz
    rw [h, hz]
    simp only [ne_eq, not_true_eq_false, if_false]
  · intro hnn hz
    rw [h, hz]
    simp only [ne_eq, not_true_eq_false, if_false]
    exact tracked_moment_zero_of_mass_zero s fs x r _ 0 hnn hz
  · intro hno
    have h0 := tracked_zero_of_no_atom s fs x r (atom_masses mtop) 0
      (fun a _ h2 => hno a (by simpa using h2))
    refine ⟨h0.1, ?_⟩
    rw [h, h0.1, h0.2]
    simp

/-- Witness of C15: residue 1 of a system whose only two atoms are in residue 0. -/
theorem residue_com_zero_mass_witness :
    (get_residues_com (settings_of InteractionType_BOND OnePair.SUMMED) (frame_settings_of 1 2)
        two_atom_x (two_atom_top : gmx_mtop_t ℚ)).getD 1 clear_rvec = clear_rvec :=
  ((residue_com_zero_mass (settings_of InteractionType_BOND OnePair.SUMMED)
    (frame_settings_of 1 2) two_atom_x (two_atom_top : gmx_mtop_t ℚ) 1 (by decide)).2.2
    (by
      intro a ha
      have h2 : a < 2 := by
        simpa [atom_masses, block_masses, repeat_list, two_atom_top] using ha
      simp only [frame_settings_of, settings_of, true_and]
      omega)).2

/-! ### Time averaging -/

theorem write_scalar_residues_fields (self : FDAState α) :
    self.write_scalar_residues.fda = self.fda
      ∧ self.write_scalar_residues.frame_settings = self.frame_settings
      ∧ self.write_scalar_residues.atom_scalar = self.atom_scalar
      ∧ self.write_scalar_residues.atom_compatibility_mode = self.atom_compatibility_mode
      ∧ self.write_scalar_residues.residue_compatibility_mode = self.residue_compatibility_mode
      ∧ self.write_scalar_residues.time_averaging_steps = self.time_averaging_steps
      ∧ self.write_scalar_residues.nsteps = self.nsteps
      ∧ self.write_scalar_residues.atom_file = self.atom_file := by
  unfold FDAState.write_scalar_residues
  split_ifs <;> simp

theorem write_scalar_atoms_fields (self : FDAState α) :
    self.write_scalar_atoms.fda = self.fda
      ∧ self.write_scalar_atoms.frame_settings = self.frame_settings
      ∧ self.write_scalar_atoms.atom_compatibility_mode = self.atom_compatibility_mode
      ∧ self.write_scalar_atoms.residue_compatibility_mode = self.residue_compatibility_mode
      ∧ self.write_scalar_atoms.time_averaging_steps = self.time_averaging_steps
      ∧ self.write_scalar_atoms.nsteps = self.nsteps := by
  unfold FDAState.write_scalar_atoms
  split_ifs <;> simp

theorem write_scalar_time_averages_fields (self : FDAState α) :
    self.write_scalar_time_averages.fda = self.fda
      ∧ self.write_scalar_time_averages.frame_settings = self.frame_settings
      ∧ self.write_scalar_time_averages.atom_compatibility_mode = self.atom_compatibility_mode
      ∧ self.write_scalar_time_averages.residue_compatibility_mode
          = self.residue_compatibility_mode := by
  unfold FDAState.write_scalar_time_averages
  have h1 := write_scalar_residues_fields self.write_scalar_atoms
  have h2 := write_scalar_atoms_fields self
  split_ifs
  · simp
  · simp only [h1.1, h1.2.1, h1.2.2.2.1, h1.2.2.2.2.1, h2.1, h2.2.1, h2.2.2.1, h2.2.2.2.1,
      and_self]

theorem write_scalar_time_averages_counters (self : FDAState α) :
    self.write_scalar_time_averages.time_averaging_steps = 0
      ∧ self.write_scalar_time_averages.nsteps
          = if self.time_averaging_steps = 0 then self.nsteps else self.nsteps + 1 := by
  unfold FDAState.write_scalar_time_averages
  have h1 := write_scalar_residues_fields self.write_scalar_atoms
  have h2 := write_scalar_atoms_fields self
  split_ifs with h
  · exact ⟨h, rfl⟩
  · simp only [h1.2.2.2.2.2.2.1, h2.2.2.2.2.2, and_self]

theorem write_scalar_time_averages_atoms (self : FDAState α)
    (hn : self.time_averaging_steps ≠ 0) (hpf : self.fda.atom_based.PF_or_PS_mode = true) :
    self.write_scalar_time_averages.atom_scalar = []
      ∧ self.write_scalar_time_averages.atom_file
          = self.atom_file ++ [write_frame_scalar_block self.atom_compatibility_mode self.nsteps
              (scalar_real_divide self.atom_scalar (self.time_averaging_steps : α))] := by
  unfold FDAState.write_scalar_time_averages
  have h1 := write_scalar_residues_fields self.write_scalar_atoms
  rw [if_neg hn]
  simp only [h1.2.2.1, h1.2.2.2.2.2.2.2]
  unfold FDAState.write_scalar_atoms
  rw [if_pos hpf]
  exact ⟨rfl, rfl⟩

theorem write_scalar_atoms_residue_fields (self : FDAState α) :
    self.write_scalar_atoms.residue_scalar = self.residue_scalar
      ∧ self.write_scalar_atoms.residue_file = self.residue_file := by
  unfold FDAState.write_scalar_atoms
  split_ifs <;> simp

theorem write_scalar_time_averages_residues (self : FDAState α)
    (hn : self.time_averaging_steps ≠ 0) (hpf : self.fda.residue_based.PF_or_PS_mode = true) :
    self.write_scalar_time_averages.residue_scalar = []
      ∧ self.write_scalar_time_averages.residue_file
          = self.residue_file ++ [write_frame_scalar_block self.residue_compatibility_mode
              self.nsteps
              (scalar_real_divide self.residue_scalar (self.time_averaging_steps : α))] := by
  have h2 := write_scalar_atoms_fields self
  have h3 := write_scalar_atoms_residue_fields self
  unfold FDAState.write_scalar_time_averages
  rw [if_neg hn]
  unfold FDAState.write_scalar_residues
  rw [if_pos (by rw [h2.1]; exact hpf)]
  simp only [h2.2.2.2.1, h2.2.2.2.2.1, h2.2.2.2.2.2, h3.1, h3.2, and_self]

theorem scalar_records_divide (scalar : ScalarStore α) (d : α) :
    scalar_records (scalar_real_divide scalar d)
      = (scalar_records scalar).map (fun r => { r with force := r.force / d }) := by
  induction scalar with
  | nil => rfl
  | cons e rest ih =>
    unfold scalar_records scalar_real_divide at ih ⊢
    simp only [List.map_cons, List.flatMap_cons, List.map_append, List.map_map]
    exact congrArg₂ (fun a b => a ++ b) rfl ih

theorem save_step_fields (self : FDAState α) (v2s : RVec α → RVec α → RVec α → α)
    (x : Nat → RVec α) (mtop : gmx_mtop_t α) :
    (self.save_step v2s x mtop).fda = self.fda
      ∧ (self.save_step v2s x mtop).frame_settings = self.frame_settings
      ∧ (self.save_step v2s x mtop).atom_compatibility_mode = self.atom_compatibility_mode
      ∧ (self.save_step v2s x mtop).residue_compatibility_mode = self.residue_compatibility_mode
      ∧ (self.save_step v2s x mtop).time_averaging_steps = self.time_averaging_steps + 1
      ∧ (self.save_step v2s x mtop).nsteps = self.nsteps
      ∧ (self.save_step v2s x mtop).atom_file = self.atom_file
      ∧ (self.save_step v2s x mtop).atom_scalar
          = if self.fda.atom_based.PF_or_PS_mode = true then
              summed_merge_to_scalar v2s x self.fda.atom_based.distributed_forces.summed
                self.atom_scalar
            else self.atom_scalar := by
  unfold FDAState.save_step FDAState.count_step FDAState.save_residues FDAState.save_atoms
  split_ifs <;> simp_all

theorem clear_stores_fields (self : FDAState α) :
    self.clear_stores.frame_settings = self.frame_settings
      ∧ self.clear_stores.atom_compatibility_mode = self.atom_compatibility_mode
      ∧ self.clear_stores.residue_compatibility_mode = self.residue_compatibility_mode
      ∧ self.clear_stores.time_averaging_steps = self.time_averaging_steps
      ∧ self.clear_stores.nsteps = self.nsteps
      ∧ self.clear_stores.atom_file = self.atom_file
      ∧ self.clear_stores.atom_scalar = self.atom_scalar
      ∧ self.clear_stores.fda.atom_based.PF_or_PS_mode = self.fda.atom_based.PF_or_PS_mode
      ∧ self.clear_stores.fda.residue_based.PF_or_PS_mode
          = self.fda.residue_based.PF_or_PS_mode
      ∧ self.clear_stores.fda.fda_settings = self.fda.fda_settings :=
  ⟨rfl, rfl, rfl, rfl, rfl, rfl, rfl, rfl, rfl, rfl⟩

theorem save_and_write_eq (self : FDAState α) (v2s : RVec α → RVec α → RVec α → α)
    (x : Nat → RVec α) (mtop : gmx_mtop_t α)
    (hp : self.frame_settings.time_averaging_period ≠ 1) :
    self.save_and_write_scalar_time_averages v2s x mtop
      = (if (self.save_step v2s x mtop).flush_due = true then
          (self.save_step v2s x mtop).write_scalar_time_averages
        else self.save_step v2s x mtop).clear_stores := by
  unfold FDAState.save_and_write_scalar_time_averages
  rw [if_pos hp]

theorem flush_due_save_step (self : FDAState α) (v2s : RVec α → RVec α → RVec α → α)
    (x : Nat → RVec α) (mtop : gmx_mtop_t α) :
    (self.save_step v2s x mtop).flush_due
      = decide (self.frame_settings.time_averaging_period ≠ 0
          ∧ self.time_averaging_steps + 1 ≥ self.frame_settings.time_averaging_period) := by
  have h := save_step_fields self v2s x mtop
  unfold FDAState.flush_due
  rw [h.2.1, h.2.2.2.2.1]

theorem save_and_write_settings (self : FDAState α) (v2s : RVec α → RVec α → RVec α → α)
    (x : Nat → RVec α) (mtop : gmx_mtop_t α) :
    (self.save_and_write_scalar_time_averages v2s x mtop).frame_settings = self.frame_settings
      ∧ (self.save_and_write_scalar_time_averages v2s x mtop).atom_compatibility_mode
          = self.atom_compatibility_mode
      ∧ (self.save_and_write_scalar_time_averages v2s x mtop).fda.atom_based.PF_or_PS_mode
          = self.fda.atom_based.PF_or_PS_mode
      ∧ (self.save_and_write_scalar_time_averages v2s x mtop).fda.fda_settings
          = self.fda.fda_settings := by
  have h := save_step_fields self v2s x mtop
  have hw := write_scalar_time_averages_fields (self.save_step v2s x mtop)
  unfold FDAState.save_and_write_scalar_time_averages
  simp only [(clear_stores_fields _).1, (clear_stores_fields _).2.1,
    (clear_stores_fields _).2.2.2.2.2.2.2.1, (clear_stores_fields _).2.2.2.2.2.2.2.2.2]
  split_ifs
  · simp only [hw.1, hw.2.1, hw.2.2.1, h.1, h.2.1, h.2.2.1, and_self]
  · simp only [h.1, h.2.1, h.2.2.1, and_self]
  · exact ⟨rfl, rfl, rfl, rfl⟩

theorem save_and_write_counters (self : FDAState α) (v2s : RVec α → RVec α → RVec α → α)
    (x : Nat → RVec α) (mtop : gmx_mtop_t α)
    (hp : self.frame_settings.time_averaging_period ≠ 1) :
    (self.save_and_write_scalar_time_averages v2s x mtop).time_averaging_steps
        = (if self.frame_settings.time_averaging_period ≠ 0
              ∧ self.time_averaging_steps + 1 ≥ self.frame_settings.time_averaging_period then 0
            else self.time_averaging_steps + 1)
      ∧ (self.save_and_write_scalar_time_averages v2s x mtop).nsteps
        = (if self.frame_settings.time_averaging_period ≠ 0
              ∧ self.time_averaging_steps + 1 ≥ self.frame_settings.time_averaging_period then
              self.nsteps + 1
            else self.nsteps) := by
  have h := save_step_fields self v2s x mtop
  have hw := write_scalar_time_averages_counters (self.save_step v2s x mtop)
  rw [save_and_write_eq self v2s x mtop hp, flush_due_save_step]
  simp only [(clear_stores_fields _).2.2.2.1, (clear_stores_fields _).2.2.2.2.1]
  by_cases hd : self.frame_settings.time_averaging_period ≠ 0
      ∧ self.time_averaging_steps + 1 ≥ self.frame_settings.time_averaging_period
  · rw [if_pos (by simpa using hd), if_pos hd, if_pos hd, hw.1, hw.2, h.2.2.2.2.1, h.2.2.2.2.2.1,
      if_neg (Nat.succ_ne_zero _)]
    exact ⟨rfl, rfl⟩
  · rw [if_neg (by simpa using hd), if_neg hd, if_neg hd, h.2.2.2.2.1, h.2.2.2.2.2.1]
    exact ⟨rfl, rfl⟩

theorem save_and_write_atoms (self : FDAState α) (v2s : RVec α → RVec α → RVec α → α)
    (x : Nat → RVec α) (mtop : gmx_mtop_t α)
    (hp : self.frame_settings.time_averaging_period ≠ 1)
    (hpf : self.fda.atom_based.PF_or_PS_mode = true) :
    (self.save_and_write_scalar_time_averages v2s x mtop).atom_scalar
        = (if self.frame_settings.time_averaging_period ≠ 0
              ∧ self.time_averaging_steps + 1 ≥ self.frame_settings.time_averaging_period then []
            else summed_merge_to_scalar v2s x self.fda.atom_based.distributed_forces.summed
              self.atom_scalar)
      ∧ (self.save_and_write_scalar_time_averages v2s x mtop).atom_file
        = (if self.frame_settings.time_averaging_period ≠ 0
              ∧ self.time_averaging_steps + 1 ≥ self.frame_settings.time_averaging_period then
              self.atom_file ++ [write_frame_scalar_block self.atom_compatibility_mode self.nsteps
                (scalar_real_divide
                  (summed_merge_to_scalar v2s x self.fda.atom_based.distributed_forces.summed
                    self.atom_scalar)
                  ((self.time_averaging_steps + 1 : Nat) : α))]
            else self.atom_file) := by
  have h := save_step_fields self v2s x mtop
  have hw := write_scalar_time_averages_atoms (self.save_step v2s x mtop)
    (by rw [h.2.2.2.2.1]; exact Nat.succ_ne_zero _) (by rw [h.1]; exact hpf)
  rw [save_and_write_eq self v2s x mtop hp, flush_due_save_step]
  simp only [(clear_stores_fields _).2.2.2.2.2.1, (clear_stores_fields _).2.2.2.2.2.2.1]
  by_cases hd : self.frame_settings.time_averaging_period ≠ 0
      ∧ self.time_averaging_steps + 1 ≥ self.frame_settings.time_averaging_period
  · rw [if_pos (by simpa using hd), if_pos hd, if_pos hd, hw.1, hw.2, h.2.2.2.2.1, h.2.2.2.2.2.1,
      h.2.2.1, h.2.2.2.2.2.2.1, h.2.2.2.2.2.2.2, if_pos hpf]
    exact ⟨rfl, rfl⟩
  · rw [if_neg (by simpa using hd), if_neg hd, if_neg hd, h.2.2.2.2.2.2.1, h.2.2.2.2.2.2.2,
      if_pos hpf]
    exact ⟨rfl, rfl⟩

theorem pair_step (s : FDAState α) (v2s : RVec α → RVec α → RVec α → α) (x : Nat → RVec α)
    (mtop : gmx_mtop_t α) (i j : Nat) (f : RVec α) (t : InteractionType) (v : α)
    (hp : s.frame_settings.time_averaging_period ≠ 1)
    (hpf : s.fda.atom_based.PF_or_PS_mode = true) (hv : v2s f (x i) (x j) = v) :
    ((s.with_atom_pair i j f t).save_and_write_scalar_time_averages v2s x mtop).atom_scalar
        = (if s.frame_settings.time_averaging_period ≠ 0
              ∧ s.time_averaging_steps + 1 ≥ s.frame_settings.time_averaging_period then []
            else upsert i [] (upsert j (0, 0) (fun q => (q.1 + v, q.2 ||| t))) s.atom_scalar)
      ∧ ((s.with_atom_pair i j f t).save_and_write_scalar_time_averages v2s x mtop).atom_file
        = (if s.frame_settings.time_averaging_period ≠ 0
              ∧ s.time_averaging_steps + 1 ≥ s.frame_settings.time_averaging_period then
              s.atom_file ++ [write_frame_scalar_block s.atom_compatibility_mode s.nsteps
                (scalar_real_divide
                  (upsert i [] (upsert j (0, 0) (fun q => (q.1 + v, q.2 ||| t))) s.atom_scalar)
                  ((s.time_averaging_steps + 1 : Nat) : α))]
            else s.atom_file)
      ∧ ((s.with_atom_pair i j f t).save_and_write_scalar_time_averages v2s x
            mtop).time_averaging_steps
        = (if s.frame_settings.time_averaging_period ≠ 0
              ∧ s.time_averaging_steps + 1 ≥ s.frame_settings.time_averaging_period then 0
            else s.time_averaging_steps + 1)
      ∧ ((s.with_atom_pair i j f t).save_and_write_scalar_time_averages v2s x mtop).nsteps
        = (if s.frame_settings.time_averaging_period ≠ 0
              ∧ s.time_averaging_steps + 1 ≥ s.frame_settings.time_averaging_period then
              s.nsteps + 1
            else s.nsteps)
      ∧ ((s.with_atom_pair i j f t).save_and_write_scalar_time_averages v2s x
            mtop).frame_settings = s.frame_settings
      ∧ ((s.with_atom_pair i j f t).save_and_write_scalar_time_averages v2s x
            mtop).atom_compatibility_mode = s.atom_compatibility_mode
      ∧ ((s.with_atom_pair i j f t).save_and_write_scalar_time_averages v2s x
            mtop).fda.atom_based.PF_or_PS_mode = true := by
  have hm : summed_merge_to_scalar v2s x
      (s.with_atom_pair i j f t).fda.atom_based.distributed_forces.summed
      (s.with_atom_pair i j f t).atom_scalar
      = upsert i [] (upsert j (0, 0) (fun q => (q.1 + v, q.2 ||| t))) s.atom_scalar := by
    simp [FDAState.with_atom_pair, FDA.set_atom_forces, DistributedForces.add_summed,
      DistributedForces.empty, summed_merge_to_scalar, upsert, rvec_add_clear_left, hv]
  have ha := save_and_write_atoms (s.with_atom_pair i j f t) v2s x mtop hp hpf
  have hc := save_and_write_counters (s.with_atom_pair i j f t) v2s x mtop hp
  have hs := save_and_write_settings (s.with_atom_pair i j f t) v2s x mtop
  rw [hm] at ha
  exact ⟨ha.1, ha.2, hc.1, hc.2, hs.1, hs.2.1, hs.2.2.1.trans hpf⟩

/-- C16: with averaging period 3, step counter 0 and an empty atom scalar store,
three successive calls of `save_and_write_scalar_time_averages` in which the summed
store holds one pair (i, j) whose vector projects to the scalar v write, at the third
call, one frame whose single record holds v for that pair (the accumulated v + v + v
divided by the step count 3), and nothing before; and in general the flush of
`write_scalar_time_averages` after n ≠ 0 accumulated steps writes, to the atom and to
the residue output, one frame whose records are the accumulated scalars divided by
n. -/
theorem time_average_divides_by_steps (s : FDAState α) (v2s : RVec α → RVec α → RVec α → α)
    (x1 x2 x3 : Nat → RVec α) (m1 m2 m3 : gmx_mtop_t α) (i j : Nat) (f1 f2 f3 : RVec α)
    (t : InteractionType) (v : α)
    (hp : s.frame_settings.time_averaging_period = 3) (h0 : s.time_averaging_steps = 0)
    (he : s.atom_scalar = []) (hpf : s.fda.atom_based.PF_or_PS_mode = true)
    (hc : s.atom_compatibility_mode = false)
    (h1 : v2s f1 (x1 i) (x1 j) = v) (h2 : v2s f2 (x2 i) (x2 j) = v)
    (h3 : v2s f3 (x3 i) (x3 j) = v) :
    (((s.with_atom_pair i j f1 t).save_and_write_scalar_time_averages v2s x1 m1).atom_file
        = s.atom_file
      ∧ ((((s.with_atom_pair i j f1 t).save_and_write_scalar_time_averages v2s x1
            m1).with_atom_pair i j f2 t).save_and_write_scalar_time_averages v2s x2 m2).atom_file
        = s.atom_file
      ∧ ((((((s.with_atom_pair i j f1 t).save_and_write_scalar_time_averages v2s x1
            m1).with_atom_pair i j f2 t).save_and_write_scalar_time_averages v2s x2
            m2).with_atom_pair i j f3 t).save_and_write_scalar_time_averages v2s x3 m3).atom_file
        = s.atom_file ++ [FrameBlock.scalar s.nsteps [⟨i, j, v, t⟩]])
      ∧ (∀ u : FDAState α, u.time_averaging_steps ≠ 0 →
          (u.fda.atom_based.PF_or_PS_mode = true →
            u.write_scalar_time_averages.atom_file
              = u.atom_file ++ [write_frame_scalar_block u.atom_compatibility_mode u.nsteps
                  (scalar_real_divide u.atom_scalar (u.time_averaging_steps : α))])
          ∧ (u.fda.residue_based.PF_or_PS_mode = true →
            u.write_scalar_time_averages.residue_file
              = u.residue_file ++ [write_frame_scalar_block u.residue_compatibility_mode u.nsteps
                  (scalar_real_divide u.residue_scalar (u.time_averaging_steps : α))]))
      ∧ (∀ (scalar : ScalarStore α) (n : α) (compat : Bool) (nsteps : Nat),
          scalar_records (scalar_real_divide scalar n)
              = (scalar_records scalar).map (fun r => { r with force := r.force / n })
            ∧ write_frame_scalar_block compat nsteps (scalar_real_divide scalar n)
              = if compat then
                  FrameBlock.scalar_compat nsteps (scalar_records (scalar_real_divide scalar n))
                else FrameBlock.scalar nsteps (scalar_records (scalar_real_divide scalar n))) := by
  constructor
  · have a1 := pair_step s v2s x1 m1 i j f1 t v (by rw [hp]; decide) hpf h1
    rw [hp, h0, he, hc] at a1
    simp only [ne_eq, OfNat.ofNat_ne_zero, not_false_eq_true, zero_add, ge_iff_le,
      Nat.not_ofNat_le_one, and_false, if_false] at a1
    obtain ⟨a11, a12, a13, a14, a15, a16, a17⟩ := a1
    have a2 := pair_step _ v2s x2 m2 i j f2 t v (by rw [a15, hp]; decide) a17 h2
    rw [a15, hp, a13, a11, a16, a12, a14] at a2
    simp only [ne_eq, OfNat.ofNat_ne_zero, not_false_eq_true, ge_iff_le,
      Nat.reduceAdd, Nat.reduceLeDiff, and_false, if_false] at a2
    obtain ⟨a21, a22, a23, a24, a25, a26, a27⟩ := a2
    have a3 := pair_step _ v2s x3 m3 i j f3 t v (by rw [a25, hp]; decide) a27 h3
    rw [a25, hp, a23, a21, a26, a22, a24] at a3
    simp only [ne_eq, OfNat.ofNat_ne_zero, not_false_eq_true, ge_iff_le,
      Nat.reduceAdd, le_refl, and_self, if_true] at a3
    refine ⟨a12, a22, ?_⟩
    rw [a3.2.1]
    have h3v : (v + v + v) / (3 : α) = v := by
      field_simp
      ring
    simp [upsert, scalar_real_divide, scalar_records, write_frame_scalar_block, h3v]
  · refine ⟨fun u hn => ⟨fun hpfu => (write_scalar_time_averages_atoms u hn hpfu).2,
      fun hpfu => (write_scalar_time_averages_residues u hn hpfu).2⟩, ?_⟩
    intro scalar n compat nsteps
    exact ⟨scalar_records_divide scalar n, rfl⟩

/-- Witness of C16: three steps of a force with first component 5 between the
atoms 0 and 1, projected on the first component. -/
theorem time_average_divides_by_steps_witness :
    (((((((FDAState.fresh (FDA.fresh (settings_of InteractionType_BOND OnePair.SUMMED) false)
        3 : FDAState ℚ).with_atom_pair 0 1 ⟨5, 0, 0⟩
        InteractionType_BOND).save_and_write_scalar_time_averages v2s_x two_atom_x
        two_atom_top).with_atom_pair 0 1 ⟨5, 1, 0⟩
        InteractionType_BOND).save_and_write_scalar_time_averages v2s_x two_atom_x
        two_atom_top).with_atom_pair 0 1 ⟨5, 0, 2⟩
        InteractionType_BOND).save_and_write_scalar_time_averages v2s_x two_atom_x
        two_atom_top).atom_file
      = [FrameBlock.scalar 0 [⟨0, 1, 5, InteractionType_BOND⟩]] :=
  (time_average_divides_by_steps
    (FDAState.fresh (FDA.fresh (settings_of InteractionType_BOND OnePair.SUMMED) false) 3)
    v2s_x two_atom_x two_atom_x two_atom_x two_atom_top two_atom_top two_atom_top 0 1
    ⟨5, 0, 0⟩ ⟨5, 1, 0⟩ ⟨5, 0, 2⟩ InteractionType_BOND 5 rfl rfl rfl rfl rfl rfl rfl rfl).1.2.2

theorem succ_mod_div (p k : Nat) (hp : 2 ≤ p) :
    ((k + 1) % p = if k % p + 1 ≥ p then 0 else k % p + 1)
      ∧ ((k + 1) / p = if k % p + 1 ≥ p then k / p + 1 else k / p) := by
  have hk := Nat.div_add_mod k p
  have hr : k % p < p := Nat.mod_lt k (by omega)
  by_cases h : k % p + 1 ≥ p
  · rw [if_pos h, if_pos h]
    have e : k + 1 = p * (k / p + 1) := by rw [Nat.mul_succ]; omega
    rw [e, Nat.mul_mod_right, Nat.mul_div_cancel_left _ (by omega : 0 < p)]
    exact ⟨rfl, rfl⟩
  · rw [if_neg h, if_neg h]
    have e : k + 1 = p * (k / p) + (k % p + 1) := by omega
    have hlt : k % p + 1 < p := by omega
    constructor
    · conv_lhs => rw [e]
      rw [Nat.mul_add_mod, Nat.mod_eq_of_lt hlt]
    · conv_lhs => rw [e]
      rw [Nat.mul_add_div (by omega : 0 < p), Nat.div_eq_of_lt hlt, Nat.add_zero]

theorem frame_counters (sqrt : α → α) (GMX_FLOAT_EPS : α) (v2s : RVec α → RVec α → RVec α → α)
    (self : FDAState α) (inp : FrameInput α)
    (hp : self.frame_settings.time_averaging_period ≠ 1) :
    (FDAState.frame sqrt GMX_FLOAT_EPS v2s self inp).frame_settings = self.frame_settings
      ∧ (FDAState.frame sqrt GMX_FLOAT_EPS v2s self inp).time_averaging_steps
        = (if self.frame_settings.time_averaging_period ≠ 0
              ∧ self.time_averaging_steps + 1 ≥ self.frame_settings.time_averaging_period then 0
            else self.time_averaging_steps + 1)
      ∧ (FDAState.frame sqrt GMX_FLOAT_EPS v2s self inp).nsteps
        = (if self.frame_settings.time_averaging_period ≠ 0
              ∧ self.time_averaging_steps + 1 ≥ self.frame_settings.time_averaging_period then
              self.nsteps + 1
            else self.nsteps) := by
  unfold FDAState.frame
  exact ⟨(save_and_write_settings
      ({ self with fda := self.fda.run sqrt GMX_FLOAT_EPS inp.calls } : FDAState α) v2s inp.x
      inp.mtop).1,
    (save_and_write_counters
      ({ self with fda := self.fda.run sqrt GMX_FLOAT_EPS inp.calls } : FDAState α) v2s inp.x
      inp.mtop hp).1,
    (save_and_write_counters
      ({ self with fda := self.fda.run sqrt GMX_FLOAT_EPS inp.calls } : FDAState α) v2s inp.x
      inp.mtop hp).2⟩

theorem frames_counters (sqrt : α → α) (GMX_FLOAT_EPS : α) (v2s : RVec α → RVec α → RVec α → α)
    (self : FDAState α) (hp : self.frame_settings.time_averaging_period ≠ 1)
    (h0 : self.time_averaging_steps = 0) (inputs : List (FrameInput α)) :
    (FDAState.frames sqrt GMX_FLOAT_EPS v2s self inputs).frame_settings = self.frame_settings
      ∧ (FDAState.frames sqrt GMX_FLOAT_EPS v2s self inputs).time_averaging_steps
        = inputs.length % self.frame_settings.time_averaging_period
      ∧ (FDAState.frames sqrt GMX_FLOAT_EPS v2s self inputs).nsteps
        = self.nsteps + inputs.length / self.frame_settings.time_averaging_period := by
  induction inputs using List.reverseRecOn with
  | nil => simp [FDAState.frames, h0]
  | append_singleton l a ih =>
    obtain ⟨i1, i2, i3⟩ := ih
    have hf : FDAState.frames sqrt GMX_FLOAT_EPS v2s self (l ++ [a])
        = FDAState.frame sqrt GMX_FLOAT_EPS v2s (FDAState.frames sqrt GMX_FLOAT_EPS v2s self l)
            a := by
      simp [FDAState.frames, List.foldl_append]
    have hc := frame_counters sqrt GMX_FLOAT_EPS v2s
      (FDAState.frames sqrt GMX_FLOAT_EPS v2s self l) a (by rw [i1]; exact hp)
    rw [hf, hc.1, hc.2.1, hc.2.2, i1, i2, i3, List.length_append, List.length_singleton]
    refine ⟨rfl, ?_, ?_⟩
    · by_cases hz : self.frame_settings.time_averaging_period = 0
      · rw [hz]
        simp
      · have h2 : 2 ≤ self.frame_settings.time_averaging_period := by omega
        rw [(succ_mod_div _ l.length h2).1]
        simp only [ne_eq, hz, not_false_eq_true, true_and]
    · by_cases hz : self.frame_settings.time_averaging_period = 0
      · rw [hz]
        simp
      · have h2 : 2 ≤ self.frame_settings.time_averaging_period := by omega
        rw [(succ_mod_div _ l.length h2).2]
        simp only [ne_eq, hz, not_false_eq_true, true_and]
        split_ifs <;> omega

/-- C17: when the averaging period is not 1, a call of
`save_and_write_scalar_time_averages` counts the step (the counter grows by one) and
then calls `write_scalar_time_averages` if and only if the period is not zero and the
counter has reached the period; after such a flush the step counter is 0 and the frame
counter `nsteps` is one larger, without a flush the frame counter is unchanged; and
`write_scalar_time_averages` with counter 0 returns the state unchanged. Hence, from
counter 0, after k calls the step counter is k mod p and the frame counter has grown
by k div p, and the call number k + 1 flushes exactly when p is not zero and divides
k + 1 (never for period 0). -/
theorem step_counter_and_flush (self : FDAState α) (v2s : RVec α → RVec α → RVec α → α)
    (x : Nat → RVec α) (mtop : gmx_mtop_t α)
    (hp : self.frame_settings.time_averaging_period ≠ 1) :
    (self.save_step v2s x mtop).time_averaging_steps = self.time_averaging_steps + 1
      ∧ self.save_and_write_scalar_time_averages v2s x mtop
          = (if self.frame_settings.time_averaging_period ≠ 0
                ∧ self.time_averaging_steps + 1 ≥ self.frame_settings.time_averaging_period then
              (self.save_step v2s x mtop).write_scalar_time_averages
            else self.save_step v2s x mtop).clear_stores
      ∧ (self.frame_settings.time_averaging_period ≠ 0
            ∧ self.time_averaging_steps + 1 ≥ self.frame_settings.time_averaging_period →
          (self.save_and_write_scalar_time_averages v2s x mtop).time_averaging_steps = 0
            ∧ (self.save_and_write_scalar_time_averages v2s x mtop).nsteps = self.nsteps + 1)
      ∧ (¬ (self.frame_settings.time_averaging_period ≠ 0
            ∧ self.time_averaging_steps + 1 ≥ self.frame_settings.time_averaging_period) →
          (self.save_and_write_scalar_time_averages v2s x mtop).time_averaging_steps
              = self.time_averaging_steps + 1
            ∧ (self.save_and_write_scalar_time_averages v2s x mtop).nsteps = self.nsteps)
      ∧ (∀ u : FDAState α, u.time_averaging_steps = 0 → u.write_scalar_time_averages = u)
      ∧ (self.time_averaging_steps = 0 →
          ∀ (sqrt : α → α) (GMX_FLOAT_EPS : α) (inputs : List (FrameInput α)),
            (FDAState.frames sqrt GMX_FLOAT_EPS v2s self inputs).time_averaging_steps
                = inputs.length % self.frame_settings.time_averaging_period
              ∧ (FDAState.frames sqrt GMX_FLOAT_EPS v2s self inputs).nsteps
                = self.nsteps + inputs.length / self.frame_settings.time_averaging_period
              ∧ ∀ inp : FrameInput α,
                  ((({ FDAState.frames sqrt GMX_FLOAT_EPS v2s self inputs with
                        fda := (FDAState.frames sqrt GMX_FLOAT_EPS v2s self inputs).fda.run sqrt
                          GMX_FLOAT_EPS inp.calls } : FDAState α).save_step v2s inp.x
                      inp.mtop).flush_due = true
                    ↔ self.frame_settings.time_averaging_period ≠ 0
                        ∧ self.frame_settings.time_averaging_period ∣ inputs.length + 1)) := by
  have hc := save_and_write_counters self v2s x mtop hp
  refine ⟨(save_step_fields self v2s x mtop).2.2.2.2.1, ?_, ?_, ?_, ?_, ?_⟩
  · rw [save_and_write_eq self v2s x mtop hp, flush_due_save_step]
    simp only [decide_eq_true_eq]
  · intro hd
    rw [hc.1, hc.2, if_pos hd, if_pos hd]
    exact ⟨rfl, rfl⟩
  · intro hd
    rw [hc.1, hc.2, if_neg hd, if_neg hd]
    exact ⟨rfl, rfl⟩
  · intro u hu
    unfold FDAState.write_scalar_time_averages
    rw [if_pos hu]
  · intro h0 sqrt GMX_FLOAT_EPS inputs
    have hf := frames_counters sqrt GMX_FLOAT_EPS v2s self hp h0 inputs
    refine ⟨hf.2.1, hf.2.2, ?_⟩
    intro inp
    rw [flush_due_save_step]
    simp only [decide_eq_true_eq]
    rw [hf.1, hf.2.1]
    by_cases hz : self.frame_settings.time_averaging_period = 0
    · simp [hz]
    · have h2 : 2 ≤ self.frame_settings.time_averaging_period := by omega
      have hm := (succ_mod_div _ inputs.length h2).1
      rw [Nat.dvd_iff_mod_eq_zero, hm]
      simp only [ne_eq, hz, not_false_eq_true, true_and]
      split_ifs with h
      · simp [h]
      · simp [h]

/-- Witness of C17: seven frames with period 3 leave the step counter at 1 and the
frame counter at 2. -/
theorem step_counter_and_flush_witness :
    (FDAState.frames (fun a => a) 0 v2s_x
        (FDAState.fresh (FDA.fresh (settings_of InteractionType_BOND OnePair.SUMMED) false) 3
          : FDAState ℚ)
        (List.replicate 7 ⟨[], two_atom_x, two_atom_top⟩)).time_averaging_steps = 1
      ∧ (FDAState.frames (fun a => a) 0 v2s_x
        (FDAState.fresh (FDA.fresh (settings_of InteractionType_BOND OnePair.SUMMED) false) 3
          : FDAState ℚ)
        (List.replicate 7 ⟨[], two_atom_x, two_atom_top⟩)).nsteps = 2 :=
  ⟨((step_counter_and_flush
      (FDAState.fresh (FDA.fresh (settings_of InteractionType_BOND OnePair.SUMMED) false) 3
        : FDAState ℚ) v2s_x two_atom_x two_atom_top (by decide)).2.2.2.2.2 rfl (fun a => a) 0
      (List.replicate 7 ⟨[], two_atom_x, two_atom_top⟩)).1,
    ((step_counter_and_flush
      (FDAState.fresh (FDA.fresh (settings_of InteractionType_BOND OnePair.SUMMED) false) 3
        : FDAState ℚ) v2s_x two_atom_x two_atom_top (by decide)).2.2.2.2.2 rfl (fun a => a) 0
      (List.replicate 7 ⟨[], two_atom_x, two_atom_top⟩)).2.1⟩

/-- The function of `FDA.cpp`: after every call of
`save_and_write_scalar_time_averages`, for every averaging period, the atom-based and the residue-based per-frame store are empty (no
entity, no detailed and no summed record), so that `write_frame` called right after
appends a frame block without a record to each result file; and clearing a cleared
store, or the stores of the resulting state once more, changes nothing. -/
theorem stores_empty_after_save (self : FDAState α) (v2s : RVec α → RVec α → RVec α → α)
    (x : Nat → RVec α) (mtop : gmx_mtop_t α) :
    (self.save_and_write_scalar_time_averages v2s x mtop).fda.atom_based.distributed_forces
        = DistributedForces.empty
      ∧ (self.save_and_write_scalar_time_averages v2s x mtop).fda.residue_based.distributed_forces
        = DistributedForces.empty
      ∧ (DistributedForces.empty : DistributedForces α).detailed_records = []
      ∧ (DistributedForces.empty : DistributedForces α).summed_records = []
      ∧ (self.save_and_write_scalar_time_averages v2s x mtop).write_frame.atom_file
        = (self.save_and_write_scalar_time_averages v2s x mtop).atom_file
            ++ [FrameBlock.forces (self.save_and_write_scalar_time_averages v2s x mtop).nsteps
                [] []]
      ∧ (self.save_and_write_scalar_time_averages v2s x mtop).write_frame.residue_file
        = (self.save_and_write_scalar_time_averages v2s x mtop).residue_file
            ++ [FrameBlock.forces (self.save_and_write_scalar_time_averages v2s x mtop).nsteps
                [] []]
      ∧ (∀ df : DistributedForces α, df.clear = DistributedForces.empty
          ∧ df.clear.clear = df.clear)
      ∧ (self.save_and_write_scalar_time_averages v2s x mtop).clear_stores
        = self.save_and_write_scalar_time_averages v2s x mtop := by
  unfold FDAState.save_and_write_scalar_time_averages
  generalize (if self.frame_settings.time_averaging_period ≠ 1 then
      let s := self.save_step v2s x mtop
      if s.flush_due = true then s.write_scalar_time_averages else s
    else self.write_frame) = u
  exact ⟨rfl, rfl, rfl, rfl, rfl, rfl, fun _ => ⟨rfl, rfl⟩, rfl⟩

/-! ### Frame output of the older file -/

theorem legacy_detailed_atoms_state (h : Legacy.Helpers α) (self : Legacy.FDAFrames α)
    (x : Nat → RVec α) :
    (Legacy.final_state (self.detailed_atoms h x)).atom_based_forces = self.atom_based_forces
      ∧ (Legacy.final_state (self.detailed_atoms h x)).residue_based_forces
          = self.residue_based_forces
      ∧ (Legacy.final_state (self.detailed_atoms h x)).ResidueBased = self.ResidueBased
      ∧ (Legacy.final_state (self.detailed_atoms h x)).residues_out = self.residues_out := by
  unfold Legacy.FDAFrames.detailed_atoms
  split <;> exact ⟨rfl, rfl, rfl, rfl⟩

theorem legacy_detailed_residues_state (h : Legacy.Helpers α) (self : Legacy.FDAFrames α)
    (com : Nat → RVec α) :
    (Legacy.final_state (self.detailed_residues h com)).atom_based_forces
        = self.atom_based_forces
      ∧ (Legacy.final_state (self.detailed_residues h com)).residue_based_forces
          = self.residue_based_forces
      ∧ (Legacy.final_state (self.detailed_residues h com)).atoms_out = self.atoms_out := by
  unfold Legacy.FDAFrames.detailed_residues
  split <;> exact ⟨rfl, rfl, rfl⟩

theorem legacy_summed_atoms_state (h : Legacy.Helpers α) (self : Legacy.FDAFrames α)
    (x : Nat → RVec α) :
    (Legacy.final_state (self.summed_atoms h x)).atom_based_forces = self.atom_based_forces
      ∧ (Legacy.final_state (self.summed_atoms h x)).residue_based_forces
          = self.residue_based_forces
      ∧ (Legacy.final_state (self.summed_atoms h x)).ResidueBased = self.ResidueBased
      ∧ (Legacy.final_state (self.summed_atoms h x)).residues_out = self.residues_out := by
  unfold Legacy.FDAFrames.summed_atoms
  split
  all_goals first
    | exact ⟨rfl, rfl, rfl, rfl⟩
    | (split <;> exact ⟨rfl, rfl, rfl, rfl⟩)

theorem legacy_summed_residues_state (h : Legacy.Helpers α) (self : Legacy.FDAFrames α)
    (com : Nat → RVec α) :
    (Legacy.final_state (self.summed_residues h com)).atom_based_forces = self.atom_based_forces
      ∧ (Legacy.final_state (self.summed_residues h com)).residue_based_forces
          = self.residue_based_forces
      ∧ (Legacy.final_state (self.summed_residues h com)).atoms_out = self.atoms_out := by
  unfold Legacy.FDAFrames.summed_residues
  split
  all_goals first
    | exact ⟨rfl, rfl, rfl⟩
    | (split <;> exact ⟨rfl, rfl, rfl⟩)

theorem legacy_write_frame_keeps_stores (h : Legacy.Helpers α) (self : Legacy.FDAFrames α)
    (x com : Nat → RVec α) :
    (Legacy.final_state (self.write_frame h x com)).atom_based_forces = self.atom_based_forces
      ∧ (Legacy.final_state (self.write_frame h x com)).residue_based_forces
          = self.residue_based_forces := by
  unfold Legacy.FDAFrames.write_frame
  split
  · have ha := legacy_detailed_atoms_state h self x
    split
    · rename_i e he
      rw [he] at ha
      exact ⟨ha.1, ha.2.1⟩
    · rename_i s hs
      rw [hs] at ha
      have hr := legacy_detailed_residues_state h s com
      exact ⟨hr.1.trans ha.1, hr.2.1.trans ha.2.1⟩
  · have ha := legacy_summed_atoms_state h self x
    split
    · rename_i e he
      rw [he] at ha
      exact ⟨ha.1, ha.2.1⟩
    · rename_i s hs
      rw [hs] at ha
      have hr := legacy_summed_residues_state h s com
      exact ⟨hr.1.trans ha.1, hr.2.1.trans ha.2.1⟩
  · exact ⟨rfl, rfl⟩

/-- C18: the older `save_and_write_scalar_time_averages` of `fda.cpp` does not clear
the per-frame stores: with averaging period 1 it is `write_frame`, and the atom-based
and the residue-based store are after the call what they were before it; for a summed
store that holds one pair, the call writes the frame with that record and the store
still holds the record afterwards. -/
theorem legacy_save_keeps_stores (h : Legacy.Helpers α) (self : Legacy.FDAFrames α)
    (x com : Nat → RVec α) (hp : self.time_averaging_period = 1) :
    self.save_and_write_scalar_time_averages h x com = self.write_frame h x com
      ∧ (Legacy.final_state
            (self.save_and_write_scalar_time_averages h x com)).atom_based_forces
          = self.atom_based_forces
      ∧ (Legacy.final_state
            (self.save_and_write_scalar_time_averages h x com)).residue_based_forces
          = self.residue_based_forces
      ∧ Legacy.fatal_of
            ((Legacy.FDAFrames.fresh Legacy.OnePair.SUMMED
                Legacy.ResultType.FILE_OUT_PAIRWISE_FORCES_VECTOR
                Legacy.ResultType.FILE_OUT_NONE 1
                (Legacy.one_pair_atoms : Legacy.t_pf_atoms α)).save_and_write_scalar_time_averages
              Legacy.helpers_x two_atom_x two_atom_x) = none
      ∧ (Legacy.final_state
            ((Legacy.FDAFrames.fresh Legacy.OnePair.SUMMED
                Legacy.ResultType.FILE_OUT_PAIRWISE_FORCES_VECTOR
                Legacy.ResultType.FILE_OUT_NONE 1
                (Legacy.one_pair_atoms : Legacy.t_pf_atoms α)).save_and_write_scalar_time_averages
              Legacy.helpers_x two_atom_x two_atom_x)).atoms_out.f
          = [Legacy.Line.frame 0, Legacy.Line.vector 0 1 ⟨1, 2, 3⟩ InteractionType_BOND]
      ∧ ((Legacy.final_state
            ((Legacy.FDAFrames.fresh Legacy.OnePair.SUMMED
                Legacy.ResultType.FILE_OUT_PAIRWISE_FORCES_VECTOR
                Legacy.ResultType.FILE_OUT_NONE 1
                (Legacy.one_pair_atoms : Legacy.t_pf_atoms α)).save_and_write_scalar_time_averages
              Legacy.helpers_x two_atom_x two_atom_x)).atom_based_forces.summed.map
            (fun a => a.interactions.length)) = [1, 0] := by
  have he : self.save_and_write_scalar_time_averages h x com = self.write_frame h x com := by
    unfold Legacy.FDAFrames.save_and_write_scalar_time_averages
    rw [if_neg (by rw [hp]; exact fun hn => hn rfl)]
  have hk := legacy_write_frame_keeps_stores h self x com
  refine ⟨he, by rw [he]; exact hk.1, by rw [he]; exact hk.2, rfl, ?_, rfl⟩
  simp [Legacy.FDAFrames.save_and_write_scalar_time_averages, Legacy.FDAFrames.fresh,
    Legacy.FDAFrames.write_frame, Legacy.FDAFrames.summed_atoms,
    Legacy.FDAFrames.summed_residues, Legacy.final_state, Legacy.write_frame_summed,
    Legacy.one_pair_atoms]

/-- Witness of C18: the frame state with one stored pair and period 1. -/
theorem legacy_save_keeps_stores_witness :
    (Legacy.final_state
        ((Legacy.FDAFrames.fresh Legacy.OnePair.SUMMED
            Legacy.ResultType.FILE_OUT_PAIRWISE_FORCES_VECTOR Legacy.ResultType.FILE_OUT_NONE 1
            (Legacy.one_pair_atoms : Legacy.t_pf_atoms ℚ)).save_and_write_scalar_time_averages
          Legacy.helpers_x two_atom_x two_atom_x)).atom_based_forces
      = (Legacy.one_pair_atoms : Legacy.t_pf_atoms ℚ) :=
  (legacy_save_keeps_stores Legacy.helpers_x
    (Legacy.FDAFrames.fresh Legacy.OnePair.SUMMED
      Legacy.ResultType.FILE_OUT_PAIRWISE_FORCES_VECTOR Legacy.ResultType.FILE_OUT_NONE 1
      (Legacy.one_pair_atoms : Legacy.t_pf_atoms ℚ)) two_atom_x two_atom_x rfl).2.1

/-- C19 (counterexample): the compatibility writer `write_frame_atoms_scalar_compat`
called on a store without any scalar interaction, with frame counter 0, writes nothing
and returns with the frame counter still 0, not 1. -/
theorem compat_writer_skips_empty_frame :
    (Legacy.write_frame_atoms_scalar_compat Legacy.helpers_x
        (Legacy.no_pair_atoms : Legacy.t_pf_atoms ℚ) ⟨[], 0⟩ true).framenr = 0
      ∧ (Legacy.write_frame_atoms_scalar_compat Legacy.helpers_x
        (Legacy.no_pair_atoms : Legacy.t_pf_atoms ℚ) ⟨[], 0⟩ true).framenr ≠ 0 + 1
      ∧ (Legacy.write_frame_atoms_scalar_compat Legacy.helpers_x
        (Legacy.no_pair_atoms : Legacy.t_pf_atoms ℚ) ⟨[], 0⟩ true).f = [] := by
  refine ⟨rfl, ?_, rfl⟩
  decide

/-- C19 (amended): `write_frame_detailed`, `write_frame_summed` and `write_frame_scalar`
of `fda.cpp` and `FDA::write_frame` of `FDA.cpp` increase their frame counter by
exactly 1 for every content of the store, a store without records included;
`write_frame_atoms_scalar_compat` increases it by exactly 1 when the store holds at
least one scalar interaction, and writes nothing and leaves the counter as it is when
the store holds none. -/
theorem frame_counter_increment (h : Legacy.Helpers α) (atoms : Legacy.t_pf_atoms α)
    (out : Legacy.Output α) (x : Nat → RVec α) (bVector ascii : Bool)
    (v2s : Legacy.Vector2Scalar) (s : FDAState α) :
    (Legacy.write_frame_detailed h atoms out x bVector v2s).framenr = out.framenr + 1
      ∧ (Legacy.write_frame_summed h atoms out x bVector v2s).framenr = out.framenr + 1
      ∧ (Legacy.write_frame_scalar atoms out).framenr = out.framenr + 1
      ∧ s.write_frame.nsteps = s.nsteps + 1
      ∧ (Legacy.pf_atoms_scalar_to_fm atoms ≠ 0 →
          (Legacy.write_frame_atoms_scalar_compat h atoms out ascii).framenr = out.framenr + 1)
      ∧ (Legacy.pf_atoms_scalar_to_fm atoms = 0 →
          Legacy.write_frame_atoms_scalar_compat h atoms out ascii = out) := by
  refine ⟨rfl, rfl, rfl, rfl, ?_, ?_⟩
  · intro hn
    unfold Legacy.write_frame_atoms_scalar_compat
    simp only [if_neg hn]
  · intro hz
    unfold Legacy.write_frame_atoms_scalar_compat
    simp only [if_pos hz]

/-- Witness of C19: the compatibility writer on a store with one scalar interaction. -/
theorem frame_counter_increment_witness :
    (Legacy.write_frame_atoms_scalar_compat Legacy.helpers_x
        (Legacy.one_pair_atoms : Legacy.t_pf_atoms ℚ) ⟨[], 0⟩ true).framenr = 0 + 1 :=
  (frame_counter_increment Legacy.helpers_x (Legacy.one_pair_atoms : Legacy.t_pf_atoms ℚ)
    ⟨[], 0⟩ two_atom_x true true Legacy.Vector2Scalar.PF_VECTOR2SCALAR_NORM
    (FDAState.fresh (FDA.fresh (settings_of InteractionType_BOND OnePair.SUMMED) false)
      3)).2.2.2.2.1 (by decide)

/-- C20 (counterexample): in DETAILED mode with the binary compatibility encoding
selected for atoms and residues `write_frame` returns without a fatal error; and with
a pairwise vector encoding for atoms and the ASCII compatibility encoding for residues
it fails only after the atom frame with its record has been written. -/
theorem detailed_compat_not_always_fatal :
    Legacy.fatal_of
        ((Legacy.FDAFrames.fresh Legacy.OnePair.DETAILED Legacy.ResultType.FILE_OUT_COMPAT_BIN
            Legacy.ResultType.FILE_OUT_COMPAT_BIN 1
            (Legacy.one_pair_atoms : Legacy.t_pf_atoms ℚ)).write_frame Legacy.helpers_x
          two_atom_x two_atom_x) = none
      ∧ Legacy.fatal_of
        ((Legacy.FDAFrames.fresh Legacy.OnePair.DETAILED
            Legacy.ResultType.FILE_OUT_PAIRWISE_FORCES_VECTOR
            Legacy.ResultType.FILE_OUT_COMPAT_ASCII 1
            (Legacy.one_pair_atoms : Legacy.t_pf_atoms ℚ)).write_frame Legacy.helpers_x
          two_atom_x two_atom_x) = some Legacy.Fatal.detailed_compatibility_mode
      ∧ (Legacy.final_state
        ((Legacy.FDAFrames.fresh Legacy.OnePair.DETAILED
            Legacy.ResultType.FILE_OUT_PAIRWISE_FORCES_VECTOR
            Legacy.ResultType.FILE_OUT_COMPAT_ASCII 1
            (Legacy.one_pair_atoms : Legacy.t_pf_atoms ℚ)).write_frame Legacy.helpers_x
          two_atom_x two_atom_x)).atoms_out.f
        = [Legacy.Line.frame 0, Legacy.Line.vector 0 1 ⟨1, 2, 3⟩ InteractionType_BOND] := by
  refine ⟨rfl, rfl, ?_⟩
  simp [Legacy.FDAFrames.fresh, Legacy.FDAFrames.write_frame, Legacy.FDAFrames.detailed_atoms,
    Legacy.FDAFrames.detailed_residues, Legacy.final_state, Legacy.write_frame_detailed,
    Legacy.one_pair_atoms, Legacy.interaction_types, InteractionType_BOND]

/-- C20 (amended): in DETAILED mode `write_frame` fails fatally whenever the ASCII
compatibility encoding is selected: selected for atoms, it fails with the message of
the compatibility mode before anything is written (the state at the failure is the
state at the call); selected for residues, it fails for every atom selector, nothing
is written to the residue output, and the message is that of the compatibility mode
whenever the atom selector is none, a pairwise encoding or the binary compatibility
encoding. -/
theorem detailed_compat_ascii_fatal (h : Legacy.Helpers α) (self : Legacy.FDAFrames α)
    (x com : Nat → RVec α) (hd : self.one_pair = Legacy.OnePair.DETAILED) :
    (self.AtomBased = Legacy.ResultType.FILE_OUT_COMPAT_ASCII →
        self.write_frame h x com
          = Except.error (Legacy.Fatal.detailed_compatibility_mode, self))
      ∧ (self.ResidueBased = Legacy.ResultType.FILE_OUT_COMPAT_ASCII →
          Legacy.fatal_of (self.write_frame h x com) ≠ none
            ∧ (Legacy.final_state (self.write_frame h x com)).residues_out = self.residues_out
            ∧ (self.AtomBased = Legacy.ResultType.FILE_OUT_NONE
                ∨ self.AtomBased = Legacy.ResultType.FILE_OUT_PAIRWISE_FORCES_VECTOR
                ∨ self.AtomBased = Legacy.ResultType.FILE_OUT_PAIRWISE_FORCES_SCALAR
                ∨ self.AtomBased = Legacy.ResultType.FILE_OUT_COMPAT_BIN →
              Legacy.fatal_of (self.write_frame h x com)
                = some Legacy.Fatal.detailed_compatibility_mode)) := by
  have hw : self.write_frame h x com
      = (match self.detailed_atoms h x with
        | Except.error e => Except.error e
        | Except.ok s => s.detailed_residues h com) := by
    unfold Legacy.FDAFrames.write_frame
    rw [hd]
  constructor
  · intro ha
    rw [hw]
    unfold Legacy.FDAFrames.detailed_atoms
    rw [ha]
  · intro hr
    have hst := legacy_detailed_atoms_state h self x
    rw [hw]
    cases hda : self.detailed_atoms h x with
    | error e =>
      rw [hda] at hst
      refine ⟨by simp [Legacy.fatal_of], hst.2.2.2, ?_⟩
      intro hab
      exfalso
      unfold Legacy.FDAFrames.detailed_atoms at hda
      rcases hab with hab | hab | hab | hab <;> rw [hab] at hda <;> simp at hda
    | ok s =>
      rw [hda] at hst
      have hrs : s.ResidueBased = Legacy.ResultType.FILE_OUT_COMPAT_ASCII := by
        have := hst.2.2.1
        simp only [Legacy.final_state] at this
        rw [this, hr]
      have hres : s.detailed_residues h com
          = Except.error (Legacy.Fatal.detailed_compatibility_mode, s) := by
        unfold Legacy.FDAFrames.detailed_residues
        rw [hrs]
      show Legacy.fatal_of (s.detailed_residues h com) ≠ none
        ∧ (Legacy.final_state (s.detailed_residues h com)).residues_out = self.residues_out
        ∧ (_ → Legacy.fatal_of (s.detailed_residues h com)
            = some Legacy.Fatal.detailed_compatibility_mode)
      rw [hres]
      exact ⟨by simp [Legacy.fatal_of], hst.2.2.2, fun _ => rfl⟩

/-- Witness of C20: DETAILED mode with the ASCII compatibility encoding for atoms. -/
theorem detailed_compat_ascii_fatal_witness :
    Legacy.fatal_of
        ((Legacy.FDAFrames.fresh Legacy.OnePair.DETAILED Legacy.ResultType.FILE_OUT_COMPAT_ASCII
            Legacy.ResultType.FILE_OUT_NONE 1
            (Legacy.one_pair_atoms : Legacy.t_pf_atoms ℚ)).write_frame Legacy.helpers_x
          two_atom_x two_atom_x) = some Legacy.Fatal.detailed_compatibility_mode :=
  congrArg Legacy.fatal_of
    ((detailed_compat_ascii_fatal Legacy.helpers_x
      (Legacy.FDAFrames.fresh Legacy.OnePair.DETAILED Legacy.ResultType.FILE_OUT_COMPAT_ASCII
        Legacy.ResultType.FILE_OUT_NONE 1 (Legacy.one_pair_atoms : Legacy.t_pf_atoms ℚ))
      two_atom_x two_atom_x rfl).1 rfl)

/-! ### Fatal output selectors of the older write_frame -/

/-- C21: `write_frame` of `fda.cpp` fails fatally when virial stress or its von Mises
scalar is selected in DETAILED mode for atoms (at once, nothing written) or for
residues, and when it is selected for residues in SUMMED mode; in SUMMED mode the two
selectors do not make the atom switch fail, and the call returns when the residue
selector is NONE; with the selector NONE neither switch fails, in every mode, and the
call returns when both selectors are NONE. -/
theorem write_frame_virial_fatal (h : Legacy.Helpers α) (self : Legacy.FDAFrames α)
    (x com : Nat → RVec α) :
    (self.one_pair = Legacy.OnePair.DETAILED →
        (self.AtomBased = Legacy.ResultType.FILE_OUT_VIRIAL_STRESS →
          self.write_frame h x com
            = Except.error (Legacy.Fatal.detailed_virial_stress false, self))
        ∧ (self.AtomBased = Legacy.ResultType.FILE_OUT_VIRIAL_STRESS_VON_MISES →
          self.write_frame h x com
            = Except.error (Legacy.Fatal.detailed_virial_stress_von_mises false, self))
        ∧ (self.ResidueBased = Legacy.ResultType.FILE_OUT_VIRIAL_STRESS
              ∨ self.ResidueBased = Legacy.ResultType.FILE_OUT_VIRIAL_STRESS_VON_MISES →
            Legacy.fatal_of (self.write_frame h x com) ≠ none))
      ∧ (self.one_pair = Legacy.OnePair.SUMMED →
        (self.ResidueBased = Legacy.ResultType.FILE_OUT_VIRIAL_STRESS
              ∨ self.ResidueBased = Legacy.ResultType.FILE_OUT_VIRIAL_STRESS_VON_MISES →
            Legacy.fatal_of (self.write_frame h x com) ≠ none)
        ∧ (self.AtomBased = Legacy.ResultType.FILE_OUT_VIRIAL_STRESS
              ∨ self.AtomBased = Legacy.ResultType.FILE_OUT_VIRIAL_STRESS_VON_MISES →
            Legacy.fatal_of (self.summed_atoms h x) = none
              ∧ (self.ResidueBased = Legacy.ResultType.FILE_OUT_NONE →
                Legacy.fatal_of (self.write_frame h x com) = none)))
      ∧ (self.AtomBased = Legacy.ResultType.FILE_OUT_NONE →
          self.detailed_atoms h x = Except.ok self ∧ self.summed_atoms h x = Except.ok self)
      ∧ (self.ResidueBased = Legacy.ResultType.FILE_OUT_NONE →
          self.detailed_residues h com = Except.ok self
            ∧ self.summed_residues h com = Except.ok self)
      ∧ (self.AtomBased = Legacy.ResultType.FILE_OUT_NONE →
          self.ResidueBased = Legacy.ResultType.FILE_OUT_NONE →
          self.write_frame h x com = Except.ok self) := by
  refine ⟨?_, ?_, ?_, ?_, ?_⟩
  · intro hd
    have hw : self.write_frame h x com
        = (match self.detailed_atoms h x with
          | Except.error e => Except.error e
          | Except.ok s => s.detailed_residues h com) := by
      unfold Legacy.FDAFrames.write_frame
      rw [hd]
    refine ⟨?_, ?_, ?_⟩
    · intro ha
      rw [hw]
      unfold Legacy.FDAFrames.detailed_atoms
      rw [ha]
    · intro ha
      rw [hw]
      unfold Legacy.FDAFrames.detailed_atoms
      rw [ha]
    · intro hr
      have hst := legacy_detailed_atoms_state h self x
      rw [hw]
      cases hda : self.detailed_atoms h x with
      | error e => simp [Legacy.fatal_of]
      | ok s =>
        rw [hda] at hst
        have hrs : s.ResidueBased = self.ResidueBased := hst.2.2.1
        show Legacy.fatal_of (s.detailed_residues h com) ≠ none
        unfold Legacy.FDAFrames.detailed_residues
        rcases hr with hr | hr <;> rw [hrs, hr] <;> simp [Legacy.fatal_of]
  · intro hs
    have hw : self.write_frame h x com
        = (match self.summed_atoms h x with
          | Except.error e => Except.error e
          | Except.ok s => s.summed_residues h com) := by
      unfold Legacy.FDAFrames.write_frame
      rw [hs]
    refine ⟨?_, ?_⟩
    · intro hr
      have hst := legacy_summed_atoms_state h self x
      rw [hw]
      cases hda : self.summed_atoms h x with
      | error e => simp [Legacy.fatal_of]
      | ok s =>
        rw [hda] at hst
        have hrs : s.ResidueBased = self.ResidueBased := hst.2.2.1
        show Legacy.fatal_of (s.summed_residues h com) ≠ none
        unfold Legacy.FDAFrames.summed_residues
        rcases hr with hr | hr <;> rw [hrs, hr] <;> simp [Legacy.fatal_of]
    · intro ha
      have hok : ∃ s, self.summed_atoms h x = Except.ok s ∧ s.ResidueBased = self.ResidueBased := by
        unfold Legacy.FDAFrames.summed_atoms
        rcases ha with ha | ha <;> rw [ha] <;> exact ⟨_, rfl, rfl⟩
      obtain ⟨s, hsa, hrs⟩ := hok
      refine ⟨by rw [hsa]; rfl, ?_⟩
      intro hr
      rw [hw, hsa]
      show Legacy.fatal_of (s.summed_residues h com) = none
      unfold Legacy.FDAFrames.summed_residues
      rw [hrs, hr]
      rfl
  · intro ha
    unfold Legacy.FDAFrames.detailed_atoms Legacy.FDAFrames.summed_atoms
    rw [ha]
    exact ⟨rfl, rfl⟩
  · intro hr
    unfold Legacy.FDAFrames.detailed_residues Legacy.FDAFrames.summed_residues
    rw [hr]
    exact ⟨rfl, rfl⟩
  · intro ha hr
    unfold Legacy.FDAFrames.write_frame Legacy.FDAFrames.detailed_atoms
      Legacy.FDAFrames.summed_atoms
    rw [ha]
    unfold Legacy.FDAFrames.detailed_residues Legacy.FDAFrames.summed_residues
    cases self.one_pair <;> simp only [hr]

/-- Witness of C21: DETAILED mode with virial stress selected for the residues and a
pairwise encoding for the atoms. -/
theorem write_frame_virial_fatal_witness :
    Legacy.fatal_of
        ((Legacy.FDAFrames.fresh Legacy.OnePair.DETAILED
            Legacy.ResultType.FILE_OUT_PAIRWISE_FORCES_VECTOR
            Legacy.ResultType.FILE_OUT_VIRIAL_STRESS 1
            (Legacy.one_pair_atoms : Legacy.t_pf_atoms ℚ)).write_frame Legacy.helpers_x
          two_atom_x two_atom_x) ≠ none :=
  ((write_frame_virial_fatal Legacy.helpers_x
      (Legacy.FDAFrames.fresh Legacy.OnePair.DETAILED
        Legacy.ResultType.FILE_OUT_PAIRWISE_FORCES_VECTOR
        Legacy.ResultType.FILE_OUT_VIRIAL_STRESS 1
        (Legacy.one_pair_atoms : Legacy.t_pf_atoms ℚ)) two_atom_x two_atom_x).1 rfl).2.2
    (Or.inl rfl)

/-! ### The von Mises scalar -/

/-- C23: over the reals `tensor_to_vonmises(t)` is the square root of
0.5 * ((xx - yy)² + (yy - zz)² + (zz - xx)² + 6 * (xy² + xz² + yz²)) for every tensor
t, it is never negative, and it is 3 for the diagonal tensor with the entries
(3, 0, 0). -/
theorem vonmises_formula (t : Tensor ℝ) :
    Legacy.tensor_to_vonmises Real.sqrt t
        = Real.sqrt (0.5 * ((t.xx - t.yy) ^ 2 + (t.yy - t.zz) ^ 2 + (t.zz - t.xx) ^ 2
            + 6 * (t.xy ^ 2 + t.xz ^ 2 + t.yz ^ 2)))
      ∧ 0 ≤ Legacy.tensor_to_vonmises Real.sqrt t
      ∧ Legacy.tensor_to_vonmises Real.sqrt (⟨3, 0, 0, 0, 0, 0, 0, 0, 0⟩ : Tensor ℝ) = 3 := by
  refine ⟨?_, Real.sqrt_nonneg _, ?_⟩
  · show Real.sqrt _ = Real.sqrt _
    congr 1
    ring
  · unfold Legacy.tensor_to_vonmises
    have h9 : (0.5 : ℝ) * ((3 - 0) * (3 - 0) + (0 - 0) * (0 - 0) + (0 - 3) * (0 - 3)
        + 6 * (0 * 0 + 0 * 0 + 0 * 0)) = 3 * 3 := by norm_num
    simp only [h9]
    exact Real.sqrt_mul_self (by norm_num)

/-! ### The six updates of add_virial -/

/-- C24: for an atom index inside the tensor array, `add_virial(ai, v, s)` of
`FDA.cpp` adds s * v[a][b] to the components XX, YY, ZZ, XY, XZ, YZ of the tensor of
atom ai, leaves its components YX, ZX, ZY as they are, leaves the tensor of every
other atom and the number of tensors as they are, and changes nothing else of the
session; the `add_virial` of `fda.cpp` makes the same six updates on `atom_vir`. -/
theorem add_virial_components (self : FDA α) (old : Legacy.FDA α) (ai : Nat) (v : Tensor α)
    (s : α) (h : ai < self.atom_based.virial_stress.length)
    (hold : ai < old.atom_vir.length) :
    (self.add_virial ai v s).atom_based.virial_stress.getD ai Tensor.zero
        = { xx := (self.atom_based.virial_stress.getD ai Tensor.zero).xx + s * v.xx
            yy := (self.atom_based.virial_stress.getD ai Tensor.zero).yy + s * v.yy
            zz := (self.atom_based.virial_stress.getD ai Tensor.zero).zz + s * v.zz
            xy := (self.atom_based.virial_stress.getD ai Tensor.zero).xy + s * v.xy
            xz := (self.atom_based.virial_stress.getD ai Tensor.zero).xz + s * v.xz
            yz := (self.atom_based.virial_stress.getD ai Tensor.zero).yz + s * v.yz
            yx := (self.atom_based.virial_stress.getD ai Tensor.zero).yx
            zx := (self.atom_based.virial_stress.getD ai Tensor.zero).zx
            zy := (self.atom_based.virial_stress.getD ai Tensor.zero).zy }
      ∧ (∀ b, b ≠ ai →
          (self.add_virial ai v s).atom_based.virial_stress.getD b Tensor.zero
            = self.atom_based.virial_stress.getD b Tensor.zero)
      ∧ (self.add_virial ai v s).atom_based.virial_stress.length
          = self.atom_based.virial_stress.length
      ∧ (self.add_virial ai v s).atom_based.distributed_forces
          = self.atom_based.distributed_forces
      ∧ (self.add_virial ai v s).residue_based = self.residue_based
      ∧ (self.add_virial ai v s).fda_settings = self.fda_settings
      ∧ old.add_virial ai v s
          = some { old with atom_vir := modify_at (fun t => t.add_scaled v s) ai old.atom_vir }
      ∧ (modify_at (fun t => t.add_scaled v s) ai old.atom_vir).getD ai Tensor.zero
          = (old.atom_vir.getD ai Tensor.zero).add_scaled v s
      ∧ (∀ b, b ≠ ai →
          (modify_at (fun t => t.add_scaled v s) ai old.atom_vir).getD b Tensor.zero
            = old.atom_vir.getD b Tensor.zero) := by
  refine ⟨?_, ?_, add_virial_length self ai v s, rfl, rfl, rfl, ?_, ?_, ?_⟩
  · show (modify_at (fun t => t.add_scaled v s) ai self.atom_based.virial_stress).getD ai
      Tensor.zero = _
    rw [getD_modify_at, if_pos ⟨rfl, h⟩]
    rfl
  · intro b hb
    show (modify_at (fun t => t.add_scaled v s) ai self.atom_based.virial_stress).getD b
      Tensor.zero = _
    rw [getD_modify_at, if_neg (fun hc => hb hc.1.symm)]
  · unfold Legacy.FDA.add_virial
    rw [if_pos hold]
  · rw [getD_modify_at, if_pos ⟨rfl, hold⟩]
  · intro b hb
    rw [getD_modify_at, if_neg (fun hc => hb hc.1.symm)]

/-- Witness of C24: atom 1 of four, in both accumulators. -/
theorem add_virial_components_witness :
    ((FDA.fresh (settings_of InteractionType_BOND OnePair.SUMMED) true :
        FDA ℚ).add_virial 1 ⟨1, 2, 3, 4, 5, 6, 7, 8, 9⟩ 2).atom_based.virial_stress.getD 1
        Tensor.zero
      = ⟨2, 4, 6, 0, 10, 12, 0, 0, 18⟩ := by
  have hw := (add_virial_components
    (FDA.fresh (settings_of InteractionType_BOND OnePair.SUMMED) true : FDA ℚ)
    (Legacy.FDA.construct
      { type := InteractionType_BOND, one_pair := Legacy.OnePair.SUMMED,
        atoms_in_groups := fun _ _ => true, get_atom2residue := fun a => a / 2 }
      Legacy.ResultType.FILE_OUT_VIRIAL_STRESS Legacy.ResultType.FILE_OUT_NONE 4)
    1 ⟨1, 2, 3, 4, 5, 6, 7, 8, 9⟩ 2 (by decide) (by decide)).1
  rw [hw]
  simp [FDA.fresh, Tensor.zero]
  norm_num

/-! ### Trailing zeros of the per-node line -/

theorem last_nonzero_le (force : List α) : ∀ n : Nat, Legacy.last_nonzero force n ≤ n
  | 0 => le_refl 0
  | n + 1 => by
    unfold Legacy.last_nonzero
    split_ifs
    · exact le_refl _
    · exact Nat.le_succ_of_le (last_nonzero_le force n)

theorem last_nonzero_tail_zero (force : List α) :
    ∀ n i : Nat, Legacy.last_nonzero force n ≤ i → i < n → force.getD i 0 = 0
  | 0, _, _, hi => absurd hi (Nat.not_lt_zero _)
  | n + 1, i, hle, hi => by
    unfold Legacy.last_nonzero at hle
    split_ifs at hle with hz
    · omega
    · by_cases hin : i = n
      · rw [hin]
        exact not_not.mp hz
      · exact last_nonzero_tail_zero force n i hle (by omega)

theorem last_nonzero_last (force : List α) :
    ∀ n : Nat, 0 < Legacy.last_nonzero force n →
      force.getD (Legacy.last_nonzero force n - 1) 0 ≠ 0
  | 0, hp => absurd hp (by simp [Legacy.last_nonzero])
  | n + 1, hp => by
    unfold Legacy.last_nonzero at hp ⊢
    split_ifs at hp ⊢ with hz
    · simpa using hz
    · exact last_nonzero_last force n hp

/-- C27: with the no-trailing-zeros flag set, `per_atom_real_write_frame` prints the
first j per-node values, where every value from position j on is zero, the value at
position j - 1 is not zero when j > 0, and j = 0 (a line without values) when every
value is zero; with the flag clear it prints every value; in both cases in index
order on one line. -/
theorem per_atom_line_values (f : List (Legacy.Line α)) (force : List α) :
    Legacy.per_atom_real_write_frame f force false = f ++ [Legacy.Line.values force]
      ∧ Legacy.per_atom_real_write_frame f force true
          = f ++ [Legacy.Line.values (force.take (Legacy.last_nonzero force force.length))]
      ∧ Legacy.last_nonzero force force.length ≤ force.length
      ∧ (∀ i, Legacy.last_nonzero force force.length ≤ i → force.getD i 0 = 0)
      ∧ (0 < Legacy.last_nonzero force force.length →
          force.getD (Legacy.last_nonzero force force.length - 1) 0 ≠ 0)
      ∧ ((∀ i, force.getD i 0 = 0) →
          Legacy.per_atom_real_write_frame f force true = f ++ [Legacy.Line.values []]) := by
  have hlast := last_nonzero_last force force.length
  refine ⟨?_, rfl, last_nonzero_le force _, ?_, hlast, ?_⟩
  · unfold Legacy.per_atom_real_write_frame
    simp
  · intro i hi
    by_cases hlt : i < force.length
    · exact last_nonzero_tail_zero force _ i hi hlt
    · exact List.getD_eq_default _ _ (by omega)
  · intro hz
    have h0 : Legacy.last_nonzero force force.length = 0 := by
      by_contra hne
      exact hlast (Nat.pos_of_ne_zero hne) (hz _)
    unfold Legacy.per_atom_real_write_frame
    simp [h0]

/-- Witness of C27: the values 1, 0, 2, 0, 0 are printed as 1, 0, 2. -/
theorem per_atom_line_values_witness :
    Legacy.per_atom_real_write_frame [] ([1, 0, 2, 0, 0] : List ℚ) true
      = [Legacy.Line.values [1, 0, 2]] := by
  have hw := (per_atom_line_values [] ([1, 0, 2, 0, 0] : List ℚ)).2.1
  rw [hw]
  simp [Legacy.last_nonzero]

/-! ### The virial tensors as outer products -/

/-- C25 (counterexample): for the angle input r_ij = (1, 0, 0), f_i = (0, 1, 0),
r_kj = f_k = 0 the tensor of `add_virial_angle` has the XY component 1, where the
symmetrized outer product has 1/2. -/
theorem virial_angle_not_symmetrized :
    (virial_angle_tensor (⟨1, 0, 0⟩ : RVec ℚ) ⟨0, 0, 0⟩ ⟨0, 1, 0⟩ ⟨0, 0, 0⟩).xy = 1
      ∧ (symmetrized_outer
          (angle_pairs (⟨1, 0, 0⟩ : RVec ℚ) ⟨0, 0, 0⟩ ⟨0, 1, 0⟩ ⟨0, 0, 0⟩)).xy = 1 / 2
      ∧ virial_angle_tensor (⟨1, 0, 0⟩ : RVec ℚ) ⟨0, 0, 0⟩ ⟨0, 1, 0⟩ ⟨0, 0, 0⟩
        ≠ symmetrized_outer (angle_pairs (⟨1, 0, 0⟩ : RVec ℚ) ⟨0, 0, 0⟩ ⟨0, 1, 0⟩ ⟨0, 0, 0⟩) := by
  have h1 : (virial_angle_tensor (⟨1, 0, 0⟩ : RVec ℚ) ⟨0, 0, 0⟩ ⟨0, 1, 0⟩ ⟨0, 0, 0⟩).xy = 1 := by
    norm_num [virial_angle_tensor]
  have h2 : (symmetrized_outer
      (angle_pairs (⟨1, 0, 0⟩ : RVec ℚ) ⟨0, 0, 0⟩ ⟨0, 1, 0⟩ ⟨0, 0, 0⟩)).xy = 1 / 2 := by
    norm_num [symmetrized_outer, angle_pairs, outer_sum]
  refine ⟨h1, h2, ?_⟩
  intro he
  rw [he, h2] at h1
  norm_num at h1

theorem virial_bond_outer (f dx dy dz : α) :
    virial_bond_tensor f dx dy dz = outer_upper (bond_pairs f dx dy dz)
      ∧ virial_bond_tensor f dx dy dz = symmetrized_outer (bond_pairs f dx dy dz) := by
  constructor
  · ext <;>
      simp only [virial_bond_tensor, outer_upper, bond_pairs, outer_sum, List.map_cons,
        List.map_nil, List.sum_cons, List.sum_nil] <;> ring
  · ext <;>
      simp only [virial_bond_tensor, symmetrized_outer, bond_pairs, outer_sum, List.map_cons,
        List.map_nil, List.sum_cons, List.sum_nil] <;> ring

theorem virial_angle_outer (r_ij r_kj f_i f_k : RVec α) :
    virial_angle_tensor r_ij r_kj f_i f_k = outer_upper (angle_pairs r_ij r_kj f_i f_k) := by
  ext <;>
    simp only [virial_angle_tensor, outer_upper, angle_pairs, outer_sum, List.map_cons,
      List.map_nil, List.sum_cons, List.sum_nil] <;> ring

theorem virial_dihedral_outer (f_i f_k f_l r_ij r_kj r_kl : RVec α) :
    virial_dihedral_tensor f_i f_k f_l r_ij r_kj r_kl
      = outer_upper (dihedral_pairs f_i f_k f_l r_ij r_kj r_kl) := by
  ext <;>
    simp only [virial_dihedral_tensor, outer_upper, dihedral_pairs, outer_sum, List.map_cons,
      List.map_nil, List.sum_cons, List.sum_nil, rvec_sub] <;> ring

/-- C25 (amended): for every input the tensor that `add_virial_bond`,
`add_virial_angle` and `add_virial_dihedral` distribute is the upper triangle of the
plain outer product of the contributing (r, f) pairs: component (a, a) is the sum of
r[a] * f[a] and component (a, b), a < b, the sum of r[a] * f[b]. Its diagonal is that of
the symmetrized outer product; an off-diagonal component equals the symmetrized one
exactly when the sum of r[a] * f[b] equals the sum of r[b] * f[a], which holds for every
bond input. -/
theorem virial_tensor_outer_upper (f dx dy dz : α) (f_i f_k f_l r_ij r_kj r_kl : RVec α)
    (pairs : List (RVec α × RVec α)) :
    virial_bond_tensor f dx dy dz = outer_upper (bond_pairs f dx dy dz)
      ∧ virial_angle_tensor r_ij r_kj f_i f_k = outer_upper (angle_pairs r_ij r_kj f_i f_k)
      ∧ virial_dihedral_tensor f_i f_k f_l r_ij r_kj r_kl
          = outer_upper (dihedral_pairs f_i f_k f_l r_ij r_kj r_kl)
      ∧ virial_bond_tensor f dx dy dz = symmetrized_outer (bond_pairs f dx dy dz)
      ∧ ((outer_upper pairs).xx = (symmetrized_outer pairs).xx
          ∧ (outer_upper pairs).yy = (symmetrized_outer pairs).yy
          ∧ (outer_upper pairs).zz = (symmetrized_outer pairs).zz)
      ∧ ((outer_upper pairs).xy = (symmetrized_outer pairs).xy
          ↔ outer_sum RVec.x RVec.y pairs = outer_sum RVec.y RVec.x pairs)
      ∧ ((outer_upper pairs).xz = (symmetrized_outer pairs).xz
          ↔ outer_sum RVec.x RVec.z pairs = outer_sum RVec.z RVec.x pairs)
      ∧ ((outer_upper pairs).yz = (symmetrized_outer pairs).yz
          ↔ outer_sum RVec.y RVec.z pairs = outer_sum RVec.z RVec.y pairs) := by
  refine ⟨(virial_bond_outer f dx dy dz).1, virial_angle_outer r_ij r_kj f_i f_k,
    virial_dihedral_outer f_i f_k f_l r_ij r_kj r_kl, (virial_bond_outer f dx dy dz).2,
    ⟨rfl, rfl, rfl⟩, ?_, ?_, ?_⟩
  · show outer_sum RVec.x RVec.y pairs
      = 1 / 2 * (outer_sum RVec.x RVec.y pairs + outer_sum RVec.y RVec.x pairs) ↔ _
    constructor <;> intro hh <;> linarith
  · show outer_sum RVec.x RVec.z pairs
      = 1 / 2 * (outer_sum RVec.x RVec.z pairs + outer_sum RVec.z RVec.x pairs) ↔ _
    constructor <;> intro hh <;> linarith
  · show outer_sum RVec.y RVec.z pairs
      = 1 / 2 * (outer_sum RVec.y RVec.z pairs + outer_sum RVec.z RVec.y pairs) ↔ _
    constructor <;> intro hh <;> linarith

/-- Witness of C25: the tensor of a bond is its symmetrized outer product. -/
theorem virial_tensor_outer_upper_witness :
    virial_bond_tensor (2 : ℚ) 1 2 3 = symmetrized_outer (bond_pairs (2 : ℚ) 1 2 3) :=
  (virial_tensor_outer_upper (2 : ℚ) 1 2 3 ⟨0, 0, 0⟩ ⟨0, 0, 0⟩ ⟨0, 0, 0⟩ ⟨0, 0, 0⟩ ⟨0, 0, 0⟩
    ⟨0, 0, 0⟩ []).2.2.2.1

/-! ### The virial functions without virial-stress mode -/

/-- The functions of `FDA.cpp`: without virial-stress mode for the atom-based result
`add_virial_bond`, `add_virial_angle` and `add_virial_dihedral` return the session as
it is, whatever the tensor array holds (also when it is empty). -/
theorem add_virial_off_unchanged (self : FDA α) (hvs : self.atom_based.VS_mode = false)
    (i j k l : Nat) (f dx dy dz : α) (r_ij r_kj r_kl f_i f_k f_l : RVec α) :
    self.add_virial_bond i j f dx dy dz = self
      ∧ self.add_virial_angle i j k r_ij r_kj f_i f_k = self
      ∧ self.add_virial_dihedral i j k l f_i f_k f_l r_ij r_kj r_kl = self := by
  unfold FDA.add_virial_bond FDA.add_virial_angle FDA.add_virial_dihedral
  simp only [hvs, if_true, and_self]

/-- C26 (the functions of `fda.cpp`): an accumulator that the constructor of `fda.cpp`
set up without virial-stress mode for the atom-based result has an empty `atom_vir`,
and every call of the older `add_virial_bond`, `add_virial_angle` and
`add_virial_dihedral` on it reaches `add_virial`, whose access `atom_vir[ai]` is
outside the vector; and on an accumulator whose `atom_vir` holds the atoms, the three
functions update the tensors whatever the virial-stress flag says. -/
theorem legacy_add_virial_unguarded (fda_settings : Legacy.FDASettings)
    (atom_based_result_type residue_based_result_type : Legacy.ResultType)
    (syslen_atoms : Nat) (hvs : Legacy.VS_mode atom_based_result_type = false)
    (i j k l : Nat) (f dx dy dz : α) (r_ij r_kj r_kl f_i f_k f_l : RVec α) :
    (Legacy.FDA.construct fda_settings atom_based_result_type residue_based_result_type
        syslen_atoms : Legacy.FDA α).atom_based.VS_mode = false
      ∧ (Legacy.FDA.construct fda_settings atom_based_result_type residue_based_result_type
        syslen_atoms : Legacy.FDA α).atom_vir = []
      ∧ (Legacy.FDA.construct fda_settings atom_based_result_type residue_based_result_type
        syslen_atoms : Legacy.FDA α).add_virial_bond i j f dx dy dz = none
      ∧ (Legacy.FDA.construct fda_settings atom_based_result_type residue_based_result_type
        syslen_atoms : Legacy.FDA α).add_virial_angle i j k r_ij r_kj f_i f_k = none
      ∧ (Legacy.FDA.construct fda_settings atom_based_result_type residue_based_result_type
        syslen_atoms : Legacy.FDA α).add_virial_dihedral i j k l f_i f_k f_l r_ij r_kj r_kl
          = none
      ∧ ∀ self : Legacy.FDA α, i < self.atom_vir.length →
          self.add_virial_bond i i f dx dy dz
            = some { self with
                atom_vir :=
                  modify_at (fun t => t.add_scaled (virial_bond_tensor f dx dy dz) HALF) i
                    (modify_at (fun t => t.add_scaled (virial_bond_tensor f dx dy dz) HALF) i
                      self.atom_vir) } := by
  have hv : (Legacy.FDA.construct fda_settings atom_based_result_type
      residue_based_result_type syslen_atoms : Legacy.FDA α).atom_vir = [] := by
    unfold Legacy.FDA.construct
    simp only [hvs, Bool.false_eq_true, if_false]
  have hnone : ∀ (a : Nat) (v : Tensor α) (s : α),
      (Legacy.FDA.construct fda_settings atom_based_result_type residue_based_result_type
        syslen_atoms : Legacy.FDA α).add_virial a v s = none := by
    intro a v s
    unfold Legacy.FDA.add_virial
    rw [hv]
    simp
  refine ⟨hvs, hv, ?_, ?_, ?_, ?_⟩
  · unfold Legacy.FDA.add_virial_bond
    simp only [hnone, Option.none_bind]
  · unfold Legacy.FDA.add_virial_angle
    simp only [hnone, Option.none_bind]
  · unfold Legacy.FDA.add_virial_dihedral
    simp only [hnone, Option.none_bind]
  · intro self hi
    unfold Legacy.FDA.add_virial_bond Legacy.FDA.add_virial
    simp only [if_pos hi, Option.some_bind, length_modify_at]

/-- Witness of C26: the constructor with pairwise vector output for the atoms, then
a bond between the atoms 0 and 1. -/
theorem legacy_add_virial_unguarded_witness :
    (Legacy.FDA.construct
        { type := InteractionType_BOND, one_pair := Legacy.OnePair.SUMMED,
          atoms_in_groups := fun _ _ => true, get_atom2residue := fun a => a / 2 }
        Legacy.ResultType.FILE_OUT_PAIRWISE_FORCES_VECTOR Legacy.ResultType.FILE_OUT_NONE 4
        : Legacy.FDA ℚ).add_virial_bond 0 1 1 1 0 0 = none :=
  (legacy_add_virial_unguarded
    { type := InteractionType_BOND, one_pair := Legacy.OnePair.SUMMED,
      atoms_in_groups := fun _ _ => true, get_atom2residue := fun a => a / 2 }
    Legacy.ResultType.FILE_OUT_PAIRWISE_FORCES_VECTOR Legacy.ResultType.FILE_OUT_NONE 4 rfl
    0 1 2 3 (1 : ℚ) 1 0 0 ⟨0, 0, 0⟩ ⟨0, 0, 0⟩ ⟨0, 0, 0⟩ ⟨0, 0, 0⟩ ⟨0, 0, 0⟩ ⟨0, 0, 0⟩).2.2.1

/-! ### The averaged force matrix of the graph tool -/

theorem iterate_zipWith_add (p : List α) :
    ∀ k : Nat,
      Nat.iterate (fun m => List.zipWith (fun a b => a + b) m p) k p
        = p.map (fun a => ((k : α) + 1) * a)
  | 0 => by simp
  | k + 1 => by
    rw [Function.iterate_succ_apply', iterate_zipWith_add p k, List.zipWith_map_left,
      List.zipWith_same]
    apply List.map_congr_left
    intro a _
    push_cast
    ring

/-- C28 (the code): for every n ≥ 1 the matrix that the AVERAGE block of
`gmx_fda_graph` hands to the graph for the window starting at `frame` is the prepared
matrix of `frame` alone, because the inner loop reads the frame `frame` again n - 1
times; for the two frames with the matrices (1) and (3) and n = 2 it is (1), where the
mean over the window is (2). -/
theorem graph_average_repeats_frame (get_forcematrix_of_frame : Nat → List α)
    (diff : Option (Nat → List α)) (convert : Bool) (frameValue frame : Nat)
    (hn : 1 ≤ frameValue) :
    average_matrix get_forcematrix_of_frame diff convert frameValue frame
        = prepared_matrix get_forcematrix_of_frame diff convert frame
      ∧ average_matrix (two_frames : Nat → List α) none false 2 0 = [1]
      ∧ window_mean (two_frames : Nat → List α) none false 2 0 = [2] := by
  have hgen : ∀ (g : Nat → List α) (d : Option (Nat → List α)) (c : Bool) (n f : Nat), 1 ≤ n →
      average_matrix g d c n f = prepared_matrix g d c f := by
    intro g d c n f h1
    unfold average_matrix
    simp only []
    rw [iterate_zipWith_add, List.map_map]
    have hcast : ((n - 1 : Nat) : α) + 1 = (n : α) := by
      rw [Nat.cast_sub h1]
      simp
    have hpos : (n : α) ≠ 0 := by
      have : (0 : α) < (n : α) := by exact_mod_cast h1
      exact ne_of_gt this
    have hid : ∀ a ∈ prepared_matrix g d c f,
        ((fun x => x / (n : α)) ∘ fun a => (((n - 1 : Nat) : α) + 1) * a) a = id a := by
      intro a _
      simp only [Function.comp, hcast, id]
      field_simp
    rw [List.map_congr_left hid, List.map_id]
  refine ⟨hgen _ _ _ _ _ hn, ?_, ?_⟩
  · rw [hgen _ _ _ _ _ (by decide)]
    simp [prepared_matrix, two_frames]
  · simp [window_mean, prepared_matrix, two_frames, List.range_succ]
    norm_num

/-- Witness of C28: the window of two frames that starts at frame 0. -/
theorem graph_average_repeats_frame_witness :
    average_matrix (two_frames : Nat → List ℚ) none false 2 0
      = prepared_matrix (two_frames : Nat → List ℚ) none false 0 :=
  (graph_average_repeats_frame (two_frames : Nat → List ℚ) none false 2 0 (by decide)).1

/-! ### The guards of add_dihedral -/

theorem add_dihedral_calls_guarded (sqrt : α → α) (eps : α) (i j k l : Nat)
    (f_i f_j f_k f_l : RVec α)
    (h : norm sqrt f_i + norm sqrt f_j + norm sqrt f_k + norm sqrt f_l = 0
      ∨ dihedral_nf_ipl sqrt f_i f_l < eps
      ∨ dihedral_nf_jpkxnf_j sqrt f_j f_k < eps
      ∨ dihedral_nf_jpkxnf_k sqrt f_j f_k < eps
      ∨ dihedral_sinacosbpsinbcosa sqrt f_j f_k < eps) :
    add_dihedral_calls sqrt eps i j k l f_i f_j f_k f_l = [] := by
  unfold dihedral_sinacosbpsinbcosa dihedral_sin_a dihedral_sin_b dihedral_cos_a dihedral_cos_b
    dihedral_nf_jpkxnf_j dihedral_nf_jpkxnf_k dihedral_nf_ipl dihedral_f_jpk at h
  unfold add_dihedral_calls
  dsimp only
  split_ifs with h1 h2 h3 h4
  · rfl
  · rfl
  · rfl
  · rfl
  · exfalso
    rcases h with h | h | h | h | h
    · exact h1 h
    · exact h2 h
    · exact h3 (Or.inl h)
    · exact h3 (Or.inr h)
    · exact h4 h

theorem add_dihedral_calls_emitted (sqrt : α → α) (eps : α) (i j k l : Nat)
    (f_i f_j f_k f_l : RVec α)
    (h0 : ¬ norm sqrt f_i + norm sqrt f_j + norm sqrt f_k + norm sqrt f_l = 0)
    (h1 : ¬ dihedral_nf_ipl sqrt f_i f_l < eps)
    (h2 : ¬ dihedral_nf_jpkxnf_j sqrt f_j f_k < eps)
    (h3 : ¬ dihedral_nf_jpkxnf_k sqrt f_j f_k < eps)
    (h4 : ¬ dihedral_sinacosbpsinbcosa sqrt f_j f_k < eps) :
    ∃ v1 v2 v3 v4 v5 v6 : RVec α,
      add_dihedral_calls sqrt eps i j k l f_i f_j f_k f_l
        = [⟨j, i, InteractionType_DIHEDRAL, v1⟩, ⟨k, i, InteractionType_DIHEDRAL, v2⟩,
           ⟨l, i, InteractionType_DIHEDRAL, v3⟩, ⟨j, k, InteractionType_DIHEDRAL, v4⟩,
           ⟨j, l, InteractionType_DIHEDRAL, v5⟩, ⟨k, l, InteractionType_DIHEDRAL, v6⟩] := by
  unfold dihedral_sinacosbpsinbcosa dihedral_sin_a dihedral_sin_b dihedral_cos_a dihedral_cos_b
    dihedral_nf_jpkxnf_j dihedral_nf_jpkxnf_k dihedral_f_jpk at h4
  unfold dihedral_nf_jpkxnf_j dihedral_f_jpk at h2
  unfold dihedral_nf_jpkxnf_k dihedral_f_jpk at h3
  unfold dihedral_nf_ipl at h1
  unfold add_dihedral_calls
  dsimp only
  rw [if_neg h0, if_neg h1, if_neg (not_or.mpr ⟨h2, h3⟩), if_neg h4]
  exact ⟨_, _, _, _, _, _, rfl⟩

theorem legacy_add_dihedral_calls_guarded (sqrt : α → α) (eps : α) (i j k l : Nat)
    (f_i f_j f_k f_l : RVec α)
    (h : dihedral_nf_ipl sqrt f_i f_l < eps
      ∨ dihedral_nf_jpkxnf_j sqrt f_j f_k < eps
      ∨ dihedral_nf_jpkxnf_k sqrt f_j f_k < eps
      ∨ dihedral_sinacosbpsinbcosa sqrt f_j f_k < eps) :
    Legacy.add_dihedral_calls sqrt eps i j k l f_i f_j f_k f_l = [] := by
  unfold dihedral_sinacosbpsinbcosa dihedral_sin_a dihedral_sin_b dihedral_cos_a dihedral_cos_b
    dihedral_nf_jpkxnf_j dihedral_nf_jpkxnf_k dihedral_nf_ipl dihedral_f_jpk at h
  unfold Legacy.add_dihedral_calls
  dsimp only
  split_ifs with h2 h3 h4
  · rfl
  · rfl
  · rfl
  · exfalso
    rcases h with h | h | h | h
    · exact h2 h
    · exact h3 (Or.inl h)
    · exact h3 (Or.inr h)
    · exact h4 h

theorem norm_rvec_sub_clear (sqrt : α → α) (f : RVec α) :
    norm sqrt (rvec_sub clear_rvec f) = norm sqrt f := by
  unfold norm
  congr 1
  simp only [norm2, rvec_sub, clear_rvec]
  ring

theorem norm_dihedral_f_jpk (sqrt : α → α) (f_j f_k : RVec α) :
    norm sqrt (dihedral_f_jpk f_j f_k) = norm sqrt (rvec_add f_j f_k) := by
  unfold norm
  congr 1
  simp only [norm2, dihedral_f_jpk, rvec_add, rvec_sub, clear_rvec]
  ring

/-- C29: `add_dihedral` stores no record, and leaves the session as it is, whenever
|f_i + f_l| < ε, or |f_j + f_k| * |f_j| < ε, or |f_j + f_k| * |f_k| < ε, or the value
sin a * cos b + sin b * cos a that it computes from the cross and dot products of
-(f_j + f_k) with -f_j and with -f_k is below ε; for the function of `FDA.cpp` and for
that of `fda.cpp`. -/
theorem dihedral_guards_store_nothing (self : FDA α) (old : Legacy.FDA α) (sqrt : α → α)
    (eps : α) (i j k l : Nat) (f_i f_j f_k f_l : RVec α)
    (h : norm sqrt (rvec_add f_i f_l) < eps
      ∨ norm sqrt (rvec_add f_j f_k) * norm sqrt f_j < eps
      ∨ norm sqrt (rvec_add f_j f_k) * norm sqrt f_k < eps
      ∨ dihedral_sinacosbpsinbcosa sqrt f_j f_k < eps) :
    add_dihedral_calls sqrt eps i j k l f_i f_j f_k f_l = []
      ∧ self.add_dihedral sqrt eps i j k l f_i f_j f_k f_l = self
      ∧ Legacy.add_dihedral_calls sqrt eps i j k l f_i f_j f_k f_l = []
      ∧ old.add_dihedral sqrt eps i j k l f_i f_j f_k f_l = old := by
  have h2 : dihedral_nf_ipl sqrt f_i f_l < eps
      ∨ dihedral_nf_jpkxnf_j sqrt f_j f_k < eps
      ∨ dihedral_nf_jpkxnf_k sqrt f_j f_k < eps
      ∨ dihedral_sinacosbpsinbcosa sqrt f_j f_k < eps := by
    unfold dihedral_nf_ipl dihedral_nf_jpkxnf_j dihedral_nf_jpkxnf_k
    rw [norm_dihedral_f_jpk, norm_rvec_sub_clear, norm_rvec_sub_clear]
    exact h
  have hc := add_dihedral_calls_guarded sqrt eps i j k l f_i f_j f_k f_l (Or.inr h2)
  have hl := legacy_add_dihedral_calls_guarded sqrt eps i j k l f_i f_j f_k f_l h2
  refine ⟨hc, ?_, hl, ?_⟩
  · unfold FDA.add_dihedral
    rw [hc]
    rfl
  · unfold Legacy.FDA.add_dihedral
    rw [hl]
    rfl

/-- Witness of C29: f_i + f_l = 0 with the identity as square root and ε = 1. -/
theorem dihedral_guards_store_nothing_witness :
    (FDA.fresh (settings_of InteractionType_DIHEDRAL OnePair.DETAILED) false :
        FDA ℚ).add_dihedral (fun a => a) 1 0 1 2 3 ⟨1, 0, 0⟩ ⟨0, 2, 0⟩ ⟨0, 0, 3⟩ ⟨-1, 0, 0⟩
      = FDA.fresh (settings_of InteractionType_DIHEDRAL OnePair.DETAILED) false :=
  (dihedral_guards_store_nothing
    (FDA.fresh (settings_of InteractionType_DIHEDRAL OnePair.DETAILED) false : FDA ℚ)
    (Legacy.FDA.fresh InteractionType_DIHEDRAL Legacy.OnePair.DETAILED) (fun a => a) 1 0 1 2 3
    ⟨1, 0, 0⟩ ⟨0, 2, 0⟩ ⟨0, 0, 3⟩ ⟨-1, 0, 0⟩
    (Or.inl (by norm_num [norm, norm2, rvec_add]))).2.1

/-! ### The cross product in the guards of add_dihedral -/

theorem norm_of_sq (f : RVec ℝ) (c : ℝ) (hc : 0 ≤ c) (h : norm2 f = c * c) :
    norm Real.sqrt f = c := by
  unfold norm
  rw [h]
  exact Real.sqrt_mul_self hc

theorem cross_norms_equal (sqrt : α → α) (f_j f_k : RVec α) :
    norm sqrt (cprod (dihedral_f_jpk f_j f_k) (rvec_sub clear_rvec f_j))
      = norm sqrt (cprod (dihedral_f_jpk f_j f_k) (rvec_sub clear_rvec f_k)) := by
  unfold norm
  congr 1
  simp only [norm2, cprod, dihedral_f_jpk, rvec_add, rvec_sub, clear_rvec]
  ring

theorem iprod_f_jpk_sum (f_j f_k : RVec α) :
    iprod (dihedral_f_jpk f_j f_k) (rvec_sub clear_rvec f_j)
        + iprod (dihedral_f_jpk f_j f_k) (rvec_sub clear_rvec f_k)
      = norm2 (dihedral_f_jpk f_j f_k) := by
  simp only [norm2, iprod, dihedral_f_jpk, rvec_add, rvec_sub, clear_rvec]
  ring

theorem triangle_identity (C N nj nk dj dk : ℝ) (hN : N ≠ 0) (hj : nj ≠ 0) (hk : nk ≠ 0)
    (hd : dj + dk = N * N) :
    C / (N * nj) * (dk / (N * nk)) + C / (N * nk) * (dj / (N * nj)) = C / (nj * nk) := by
  have hdk : dk = N * N - dj := by linarith
  rw [hdk]
  field_simp
  ring

/-- Once the two products of norms are not below a positive ε, the value
sin a * cos b + sin b * cos a of `add_dihedral` is the magnitude of the cross product
divided by |f_j| * |f_k|. -/
theorem sinacosbpsinbcosa_eq (eps : ℝ) (heps : 0 < eps) (f_j f_k : RVec ℝ)
    (h2 : ¬ dihedral_nf_jpkxnf_j Real.sqrt f_j f_k < eps)
    (h3 : ¬ dihedral_nf_jpkxnf_k Real.sqrt f_j f_k < eps) :
    0 < norm Real.sqrt f_j * norm Real.sqrt f_k
      ∧ dihedral_sinacosbpsinbcosa Real.sqrt f_j f_k
        = norm Real.sqrt (cprod (dihedral_f_jpk f_j f_k) (rvec_sub clear_rvec f_j))
            / (norm Real.sqrt f_j * norm Real.sqrt f_k) := by
  have hN0 := norm_nonneg_real (dihedral_f_jpk f_j f_k)
  have hj0 := norm_nonneg_real (rvec_sub clear_rvec f_j)
  have hk0 := norm_nonneg_real (rvec_sub clear_rvec f_k)
  unfold dihedral_nf_jpkxnf_j at h2
  unfold dihedral_nf_jpkxnf_k at h3
  have hNj : 0 < norm Real.sqrt (dihedral_f_jpk f_j f_k) * norm Real.sqrt (rvec_sub clear_rvec f_j) :=
    lt_of_lt_of_le heps (not_lt.mp h2)
  have hNk : 0 < norm Real.sqrt (dihedral_f_jpk f_j f_k) * norm Real.sqrt (rvec_sub clear_rvec f_k) :=
    lt_of_lt_of_le heps (not_lt.mp h3)
  have hN : 0 < norm Real.sqrt (dihedral_f_jpk f_j f_k) := by
    rcases eq_or_lt_of_le hN0 with h | h
    · rw [← h, zero_mul] at hNj
      exact absurd hNj (lt_irrefl 0)
    · exact h
  have hj : 0 < norm Real.sqrt (rvec_sub clear_rvec f_j) := by
    rcases eq_or_lt_of_le hj0 with h | h
    · rw [← h, mul_zero] at hNj
      exact absurd hNj (lt_irrefl 0)
    · exact h
  have hk : 0 < norm Real.sqrt (rvec_sub clear_rvec f_k) := by
    rcases eq_or_lt_of_le hk0 with h | h
    · rw [← h, mul_zero] at hNk
      exact absurd hNk (lt_irrefl 0)
    · exact h
  have hd := iprod_f_jpk_sum f_j f_k
  rw [← norm_mul_self] at hd
  have hid := triangle_identity
    (norm Real.sqrt (cprod (dihedral_f_jpk f_j f_k) (rvec_sub clear_rvec f_j)))
    (norm Real.sqrt (dihedral_f_jpk f_j f_k)) (norm Real.sqrt (rvec_sub clear_rvec f_j))
    (norm Real.sqrt (rvec_sub clear_rvec f_k))
    (iprod (dihedral_f_jpk f_j f_k) (rvec_sub clear_rvec f_j))
    (iprod (dihedral_f_jpk f_j f_k) (rvec_sub clear_rvec f_k)) (ne_of_gt hN) (ne_of_gt hj)
    (ne_of_gt hk) hd
  constructor
  · rw [← norm_rvec_sub_clear Real.sqrt f_j, ← norm_rvec_sub_clear Real.sqrt f_k]
    exact mul_pos hj hk
  · unfold dihedral_sinacosbpsinbcosa dihedral_sin_a dihedral_sin_b dihedral_cos_a
      dihedral_cos_b dihedral_nf_jpkxnf_j dihedral_nf_jpkxnf_k
    rw [← cross_norms_equal Real.sqrt f_j f_k, hid, norm_rvec_sub_clear, norm_rvec_sub_clear]

/-- C30 (amended): over the reals and for a positive ε, `add_dihedral` stores no
record whenever |f_j + f_k| * |f_j| < ε or |f_j + f_k| * |f_k| < ε, or whenever the
magnitude of the cross product of -(f_j + f_k) with -f_j, which is also that of the
cross product with -f_k, is below ε * |f_j| * |f_k|. -/
theorem dihedral_cross_product_guard (self : FDA ℝ) (eps : ℝ) (heps : 0 < eps)
    (i j k l : Nat) (f_i f_j f_k f_l : RVec ℝ)
    (h : norm Real.sqrt (rvec_add f_j f_k) * norm Real.sqrt f_j < eps
      ∨ norm Real.sqrt (rvec_add f_j f_k) * norm Real.sqrt f_k < eps
      ∨ norm Real.sqrt (cprod (dihedral_f_jpk f_j f_k) (rvec_sub clear_rvec f_j))
          < eps * (norm Real.sqrt f_j * norm Real.sqrt f_k)) :
    add_dihedral_calls Real.sqrt eps i j k l f_i f_j f_k f_l = []
      ∧ self.add_dihedral Real.sqrt eps i j k l f_i f_j f_k f_l = self
      ∧ norm Real.sqrt (cprod (dihedral_f_jpk f_j f_k) (rvec_sub clear_rvec f_j))
          = norm Real.sqrt (cprod (dihedral_f_jpk f_j f_k) (rvec_sub clear_rvec f_k)) := by
  have hc : add_dihedral_calls Real.sqrt eps i j k l f_i f_j f_k f_l = [] := by
    by_cases h2 : dihedral_nf_jpkxnf_j Real.sqrt f_j f_k < eps
    · exact add_dihedral_calls_guarded _ _ _ _ _ _ _ _ _ _ (Or.inr (Or.inr (Or.inl h2)))
    by_cases h3 : dihedral_nf_jpkxnf_k Real.sqrt f_j f_k < eps
    · exact add_dihedral_calls_guarded _ _ _ _ _ _ _ _ _ _ (Or.inr (Or.inr (Or.inr (Or.inl h3))))
    have hs := sinacosbpsinbcosa_eq eps heps f_j f_k h2 h3
    unfold dihedral_nf_jpkxnf_j at h2
    unfold dihedral_nf_jpkxnf_k at h3
    rw [norm_dihedral_f_jpk, norm_rvec_sub_clear] at h2 h3
    rcases h with h | h | h
    · exact absurd h h2
    · exact absurd h h3
    · apply add_dihedral_calls_guarded
      refine Or.inr (Or.inr (Or.inr (Or.inr ?_)))
      rw [hs.2, div_lt_iff₀ hs.1]
      exact h
  refine ⟨hc, ?_, cross_norms_equal Real.sqrt f_j f_k⟩
  unfold FDA.add_dihedral
  rw [hc]
  rfl

/-- Witness of C30: f_j = f_k = (1, 0, 0), whose cross products vanish. -/
theorem dihedral_cross_product_guard_witness :
    add_dihedral_calls Real.sqrt gmx_float_eps 0 1 2 3 (⟨0, 1, 0⟩ : RVec ℝ) ⟨1, 0, 0⟩ ⟨1, 0, 0⟩
        ⟨0, 0, 1⟩ = [] :=
  (dihedral_cross_product_guard
    (FDA.fresh (settings_of InteractionType_DIHEDRAL OnePair.DETAILED) false) gmx_float_eps
    (by norm_num [gmx_float_eps]) 0 1 2 3 ⟨0, 1, 0⟩ ⟨1, 0, 0⟩ ⟨1, 0, 0⟩ ⟨0, 0, 1⟩
    (Or.inr (Or.inr (by
      norm_num [norm, norm2, cprod, dihedral_f_jpk, rvec_add, rvec_sub, clear_rvec,
        gmx_float_eps])))).1

/-- C30 (counterexample): for f_i = (0.00028, 0.00021, 0), f_j = (-0.00056, 0, 0),
f_k = (0.00028, -0.00021, 0), f_l = 0, which sum to zero, the cross products of
-(f_j + f_k) with -f_j and with -f_k both have the magnitude 1.176e-7, below the
epsilon 1.1920929e-7, and `add_dihedral` on the atoms 0, 1, 2, 3 still emits its six
records and stores one for the pair (0, 1). -/
theorem dihedral_small_cross_product_stores :
    norm Real.sqrt (cprod (dihedral_f_jpk (⟨-0.00056, 0, 0⟩ : RVec ℝ) ⟨0.00028, -0.00021, 0⟩)
        (rvec_sub clear_rvec ⟨-0.00056, 0, 0⟩)) < gmx_float_eps
      ∧ norm Real.sqrt
          (cprod (dihedral_f_jpk (⟨-0.00056, 0, 0⟩ : RVec ℝ) ⟨0.00028, -0.00021, 0⟩)
            (rvec_sub clear_rvec ⟨0.00028, -0.00021, 0⟩)) < gmx_float_eps
      ∧ (add_dihedral_calls Real.sqrt gmx_float_eps 0 1 2 3 (⟨0.00028, 0.00021, 0⟩ : RVec ℝ)
          ⟨-0.00056, 0, 0⟩ ⟨0.00028, -0.00021, 0⟩ ⟨0, 0, 0⟩).length = 6
      ∧ ((FDA.fresh (settings_of InteractionType_DIHEDRAL OnePair.DETAILED) false :
            FDA ℝ).add_dihedral Real.sqrt gmx_float_eps 0 1 2 3 ⟨0.00028, 0.00021, 0⟩
            ⟨-0.00056, 0, 0⟩ ⟨0.00028, -0.00021, 0⟩
            ⟨0, 0, 0⟩).atom_based.distributed_forces.get_detailed 0 1
          PureInteractionType.DIHEDRAL ≠ none := by
  have hCj : norm Real.sqrt
      (cprod (dihedral_f_jpk (⟨-0.00056, 0, 0⟩ : RVec ℝ) ⟨0.00028, -0.00021, 0⟩)
        (rvec_sub clear_rvec ⟨-0.00056, 0, 0⟩)) = 0.0000001176 :=
    norm_of_sq _ _ (by norm_num)
      (by norm_num [norm2, cprod, dihedral_f_jpk, rvec_add, rvec_sub, clear_rvec])
  have hCk : norm Real.sqrt
      (cprod (dihedral_f_jpk (⟨-0.00056, 0, 0⟩ : RVec ℝ) ⟨0.00028, -0.00021, 0⟩)
        (rvec_sub clear_rvec ⟨0.00028, -0.00021, 0⟩)) = 0.0000001176 :=
    (cross_norms_equal Real.sqrt _ _).symm.trans hCj
  have hN : norm Real.sqrt (dihedral_f_jpk (⟨-0.00056, 0, 0⟩ : RVec ℝ) ⟨0.00028, -0.00021, 0⟩)
      = 0.00035 :=
    norm_of_sq _ _ (by norm_num)
      (by norm_num [norm2, dihedral_f_jpk, rvec_add, rvec_sub, clear_rvec])
  have hnj : norm Real.sqrt (rvec_sub clear_rvec (⟨-0.00056, 0, 0⟩ : RVec ℝ)) = 0.00056 :=
    norm_of_sq _ _ (by norm_num) (by norm_num [norm2, rvec_sub, clear_rvec])
  have hnk : norm Real.sqrt (rvec_sub clear_rvec (⟨0.00028, -0.00021, 0⟩ : RVec ℝ))
      = 0.00035 :=
    norm_of_sq _ _ (by norm_num) (by norm_num [norm2, rvec_sub, clear_rvec])
  have hni : norm Real.sqrt (⟨0.00028, 0.00021, 0⟩ : RVec ℝ) = 0.00035 :=
    norm_of_sq _ _ (by norm_num) (by norm_num [norm2])
  have hnl : norm Real.sqrt (⟨0, 0, 0⟩ : RVec ℝ) = 0 :=
    norm_of_sq _ _ (le_refl 0) (by norm_num [norm2])
  have hipl : dihedral_nf_ipl Real.sqrt (⟨0.00028, 0.00021, 0⟩ : RVec ℝ) ⟨0, 0, 0⟩ = 0.00035 :=
    norm_of_sq _ _ (by norm_num) (by norm_num [norm2, rvec_add])
  have h0 : ¬ norm Real.sqrt (⟨0.00028, 0.00021, 0⟩ : RVec ℝ)
      + norm Real.sqrt (⟨-0.00056, 0, 0⟩ : RVec ℝ)
      + norm Real.sqrt (⟨0.00028, -0.00021, 0⟩ : RVec ℝ)
      + norm Real.sqrt (⟨0, 0, 0⟩ : RVec ℝ) = 0 := by
    have a1 := norm_nonneg_real (⟨-0.00056, 0, 0⟩ : RVec ℝ)
    have a2 := norm_nonneg_real (⟨0.00028, -0.00021, 0⟩ : RVec ℝ)
    rw [hni, hnl]
    intro hz
    linarith
  have h1 : ¬ dihedral_nf_ipl Real.sqrt (⟨0.00028, 0.00021, 0⟩ : RVec ℝ) ⟨0, 0, 0⟩
      < gmx_float_eps := by
    rw [hipl]
    norm_num [gmx_float_eps]
  have h2 : ¬ dihedral_nf_jpkxnf_j Real.sqrt (⟨-0.00056, 0, 0⟩ : RVec ℝ)
      ⟨0.00028, -0.00021, 0⟩ < gmx_float_eps := by
    unfold dihedral_nf_jpkxnf_j
    rw [hN, hnj]
    norm_num [gmx_float_eps]
  have h3 : ¬ dihedral_nf_jpkxnf_k Real.sqrt (⟨-0.00056, 0, 0⟩ : RVec ℝ)
      ⟨0.00028, -0.00021, 0⟩ < gmx_float_eps := by
    unfold dihedral_nf_jpkxnf_k
    rw [hN, hnk]
    norm_num [gmx_float_eps]
  have hs := sinacosbpsinbcosa_eq gmx_float_eps (by norm_num [gmx_float_eps])
    (⟨-0.00056, 0, 0⟩ : RVec ℝ) ⟨0.00028, -0.00021, 0⟩ h2 h3
  have h4 : ¬ dihedral_sinacosbpsinbcosa Real.sqrt (⟨-0.00056, 0, 0⟩ : RVec ℝ)
      ⟨0.00028, -0.00021, 0⟩ < gmx_float_eps := by
    rw [hs.2, hCj, ← norm_rvec_sub_clear Real.sqrt (⟨-0.00056, 0, 0⟩ : RVec ℝ),
      ← norm_rvec_sub_clear Real.sqrt (⟨0.00028, -0.00021, 0⟩ : RVec ℝ), hnj, hnk]
    norm_num [gmx_float_eps]
  obtain ⟨v1, v2, v3, v4, v5, v6, hcalls⟩ := add_dihedral_calls_emitted Real.sqrt gmx_float_eps
    0 1 2 3 (⟨0.00028, 0.00021, 0⟩ : RVec ℝ) ⟨-0.00056, 0, 0⟩ ⟨0.00028, -0.00021, 0⟩ ⟨0, 0, 0⟩
    h0 h1 h2 h3 h4
  refine ⟨by rw [hCj]; norm_num [gmx_float_eps], by rw [hCk]; norm_num [gmx_float_eps],
    by rw [hcalls]; rfl, ?_⟩
  unfold FDA.add_dihedral
  rw [hcalls, get_detailed_add_bonded_calls 0 1 PureInteractionType.DIHEDRAL (by decide) _ _
    rfl rfl]
  simp [contribution, FDA.fresh, settings_of, to_pure_flag, InteractionType_DIHEDRAL,
    InteractionType_BOND, InteractionType_ANGLE, accumulate, DistributedForces.get_detailed,
    DistributedForces.empty, find]

/-! ### The projections of add_angle -/

theorem iprod_svmul_left (s : α) (a b : RVec α) : iprod (svmul s a) b = s * iprod a b := by
  simp only [iprod, svmul]
  ring

/-- The length of `f` times the component of its unit vector along `u` is the
component of `f` along `u`. -/
theorem norm_mul_iprod_unitv (f u : RVec ℝ) :
    norm Real.sqrt f * iprod (unitv Real.sqrt f) u = iprod f u := by
  rw [← iprod_svmul_left, norm_smul_unitv]

theorem angle_f_j_i_eq (f u : RVec ℝ) :
    svmul (-norm Real.sqrt f * iprod (unitv Real.sqrt f) (unitv Real.sqrt u)) (unitv Real.sqrt u)
      = rvec_opp (projection_onto Real.sqrt f u) := by
  have h := norm_mul_iprod_unitv f (unitv Real.sqrt u)
  unfold projection_onto
  rw [← h]
  simp only [svmul, rvec_opp, RVec.mk.injEq]
  refine ⟨?_, ?_, ?_⟩ <;> ring

theorem unitv_norm2 (u : RVec ℝ) (hu : u ≠ clear_rvec) :
    1 / Real.sqrt (norm2 u) * (1 / Real.sqrt (norm2 u)) = 1 / norm2 u := by
  have hn : norm Real.sqrt u ≠ 0 := fun h => hu (norm_eq_zero_real u h)
  have hsq := norm_mul_self u
  unfold norm at hn hsq
  rw [div_mul_div_comm, one_mul, hsq]

/-- For a non-zero `u` the projection onto the unit vector of `u` is the multiple
`(f . u / u . u) u` of `u`. -/
theorem projection_onto_eq (f u : RVec ℝ) (hu : u ≠ clear_rvec) :
    projection_onto Real.sqrt f u = svmul (iprod f u / norm2 u) u := by
  have h := unitv_norm2 u hu
  simp only [projection_onto, unitv, svmul, iprod, RVec.mk.injEq]
  refine ⟨?_, ?_, ?_⟩
  · linear_combination (f.x * u.x + f.y * u.y + f.z * u.z) * u.x * h
  · linear_combination (f.x * u.x + f.y * u.y + f.z * u.z) * u.y * h
  · linear_combination (f.x * u.x + f.y * u.y + f.z * u.z) * u.z * h

theorem norm2_ne_zero (u : RVec α) (hu : u ≠ clear_rvec) : norm2 u ≠ 0 :=
  fun h => hu (eq_clear_of_norm2_eq_zero u h)

/-! ### The denominators of add_dihedral -/

theorem add_dihedral_calls_passed (sqrt : α → α) (eps : α) (i j k l : Nat)
    (f_i f_j f_k f_l : RVec α)
    (hne : add_dihedral_calls sqrt eps i j k l f_i f_j f_k f_l ≠ []) :
    ¬ norm sqrt f_i + norm sqrt f_j + norm sqrt f_k + norm sqrt f_l = 0
      ∧ ¬ dihedral_nf_ipl sqrt f_i f_l < eps
      ∧ ¬ dihedral_nf_jpkxnf_j sqrt f_j f_k < eps
      ∧ ¬ dihedral_nf_jpkxnf_k sqrt f_j f_k < eps
      ∧ ¬ dihedral_sinacosbpsinbcosa sqrt f_j f_k < eps :=
  ⟨fun h => hne (add_dihedral_calls_guarded sqrt eps i j k l f_i f_j f_k f_l (Or.inl h)),
    fun h => hne (add_dihedral_calls_guarded sqrt eps i j k l f_i f_j f_k f_l
      (Or.inr (Or.inl h))),
    fun h => hne (add_dihedral_calls_guarded sqrt eps i j k l f_i f_j f_k f_l
      (Or.inr (Or.inr (Or.inl h)))),
    fun h => hne (add_dihedral_calls_guarded sqrt eps i j k l f_i f_j f_k f_l
      (Or.inr (Or.inr (Or.inr (Or.inl h))))),
    fun h => hne (add_dihedral_calls_guarded sqrt eps i j k l f_i f_j f_k f_l
      (Or.inr (Or.inr (Or.inr (Or.inr h)))))⟩

/-- Once the two products of norms are not below a positive ε, the three lengths
they are made of are positive. -/
theorem dihedral_norms_pos (eps : ℝ) (heps : 0 < eps) (f_j f_k : RVec ℝ)
    (h2 : ¬ dihedral_nf_jpkxnf_j Real.sqrt f_j f_k < eps)
    (h3 : ¬ dihedral_nf_jpkxnf_k Real.sqrt f_j f_k < eps) :
    0 < norm Real.sqrt (dihedral_f_jpk f_j f_k)
      ∧ 0 < norm Real.sqrt (rvec_sub clear_rvec f_j)
      ∧ 0 < norm Real.sqrt (rvec_sub clear_rvec f_k) := by
  have hN0 := norm_nonneg_real (dihedral_f_jpk f_j f_k)
  have hj0 := norm_nonneg_real (rvec_sub clear_rvec f_j)
  have hk0 := norm_nonneg_real (rvec_sub clear_rvec f_k)
  unfold dihedral_nf_jpkxnf_j at h2
  unfold dihedral_nf_jpkxnf_k at h3
  have hNj : 0 < norm Real.sqrt (dihedral_f_jpk f_j f_k) * norm Real.sqrt (rvec_sub clear_rvec f_j) :=
    lt_of_lt_of_le heps (not_lt.mp h2)
  have hNk : 0 < norm Real.sqrt (dihedral_f_jpk f_j f_k) * norm Real.sqrt (rvec_sub clear_rvec f_k) :=
    lt_of_lt_of_le heps (not_lt.mp h3)
  refine ⟨?_, ?_, ?_⟩
  · rcases eq_or_lt_of_le hN0 with h | h
    · rw [← h, zero_mul] at hNj
      exact absurd hNj (lt_irrefl 0)
    · exact h
  · rcases eq_or_lt_of_le hj0 with h | h
    · rw [← h, mul_zero] at hNj
      exact absurd hNj (lt_irrefl 0)
    · exact h
  · rcases eq_or_lt_of_le hk0 with h | h
    · rw [← h, mul_zero] at hNk
      exact absurd hNk (lt_irrefl 0)
    · exact h

/-- The six records of `add_dihedral` for f_i = (3,4,0), f_j = (-4,0,0),
f_k = (-5,-12,0), f_l = (6,8,0) on the atoms 0, 1, 2, 3, an input that passes every
guard. -/
theorem dihedral_sample_calls :
    add_dihedral_calls Real.sqrt gmx_float_eps 0 1 2 3 (⟨3, 4, 0⟩ : RVec ℝ)
        ⟨-4, 0, 0⟩ ⟨-5, -12, 0⟩ ⟨6, 8, 0⟩
      = [⟨1, 0, InteractionType_DIHEDRAL, ⟨4 / 3, 0, 0⟩⟩,
         ⟨2, 0, InteractionType_DIHEDRAL, ⟨5 / 3, 4, 0⟩⟩,
         ⟨3, 0, InteractionType_DIHEDRAL, ⟨-6, -8, 0⟩⟩,
         ⟨1, 2, InteractionType_DIHEDRAL, ⟨0, 0, 0⟩⟩,
         ⟨1, 3, InteractionType_DIHEDRAL, ⟨8 / 3, 0, 0⟩⟩,
         ⟨2, 3, InteractionType_DIHEDRAL, ⟨10 / 3, 8, 0⟩⟩] := by
  have s4 : Real.sqrt 16 = 4 := by
    rw [show (16 : ℝ) = 4 * 4 by norm_num]
    exact Real.sqrt_mul_self (by norm_num)
  have s5 : Real.sqrt 25 = 5 := by
    rw [show (25 : ℝ) = 5 * 5 by norm_num]
    exact Real.sqrt_mul_self (by norm_num)
  have s10 : Real.sqrt 100 = 10 := by
    rw [show (100 : ℝ) = 10 * 10 by norm_num]
    exact Real.sqrt_mul_self (by norm_num)
  have s13 : Real.sqrt 169 = 13 := by
    rw [show (169 : ℝ) = 13 * 13 by norm_num]
    exact Real.sqrt_mul_self (by norm_num)
  have s15 : Real.sqrt 225 = 15 := by
    rw [show (225 : ℝ) = 15 * 15 by norm_num]
    exact Real.sqrt_mul_self (by norm_num)
  have s48 : Real.sqrt 2304 = 48 := by
    rw [show (2304 : ℝ) = 48 * 48 by norm_num]
    exact Real.sqrt_mul_self (by norm_num)
  unfold add_dihedral_calls
  norm_num [norm, norm2, unitv, svmul, iprod, cprod, rvec_add, rvec_sub, rvec_opp, clear_rvec,
    gmx_float_eps, s4, s5, s10, s13, s15, s48]

theorem dihedral_sample_emits :
    add_dihedral_calls Real.sqrt gmx_float_eps 0 1 2 3 (⟨3, 4, 0⟩ : RVec ℝ)
        ⟨-4, 0, 0⟩ ⟨-5, -12, 0⟩ ⟨6, 8, 0⟩ ≠ [] := by
  rw [dihedral_sample_calls]
  exact List.cons_ne_nil _ _

/-- C35: over the reals and for a positive ε, whenever `add_dihedral` emits records,
every denominator it used is positive: the lengths of -f_j, -f_k and -(f_j + f_k) that
`unitv` divides by (which are |f_j|, |f_k| and |f_j + f_k|), the length |f_i + f_l|,
the two products of lengths under the sines and cosines, and the value
sin a * cos b + sin b * cos a, which is at least ε. -/
theorem dihedral_denominators_positive (eps : ℝ) (heps : 0 < eps) (i j k l : Nat)
    (f_i f_j f_k f_l : RVec ℝ)
    (hne : add_dihedral_calls Real.sqrt eps i j k l f_i f_j f_k f_l ≠ []) :
    0 < Real.sqrt (norm2 (rvec_sub clear_rvec f_j))
      ∧ 0 < Real.sqrt (norm2 (rvec_sub clear_rvec f_k))
      ∧ 0 < Real.sqrt (norm2 (dihedral_f_jpk f_j f_k))
      ∧ 0 < norm Real.sqrt f_j
      ∧ 0 < norm Real.sqrt f_k
      ∧ 0 < norm Real.sqrt (rvec_add f_j f_k)
      ∧ 0 < norm Real.sqrt (rvec_add f_i f_l)
      ∧ eps ≤ dihedral_nf_ipl Real.sqrt f_i f_l
      ∧ eps ≤ dihedral_nf_jpkxnf_j Real.sqrt f_j f_k
      ∧ eps ≤ dihedral_nf_jpkxnf_k Real.sqrt f_j f_k
      ∧ eps ≤ dihedral_sinacosbpsinbcosa Real.sqrt f_j f_k := by
  obtain ⟨_, h1, h2, h3, h4⟩ := add_dihedral_calls_passed Real.sqrt eps i j k l f_i f_j f_k f_l hne
  obtain ⟨hN, hj, hk⟩ := dihedral_norms_pos eps heps f_j f_k h2 h3
  have hipl : eps ≤ norm Real.sqrt (rvec_add f_i f_l) := not_lt.mp h1
  refine ⟨hj, hk, hN, ?_, ?_, ?_, lt_of_lt_of_le heps hipl, hipl, not_lt.mp h2, not_lt.mp h3,
    not_lt.mp h4⟩
  · rw [← norm_rvec_sub_clear]
    exact hj
  · rw [← norm_rvec_sub_clear]
    exact hk
  · rw [← norm_dihedral_f_jpk]
    exact hN

/-- Witness of C35: f_i = (3,4,0), f_j = (-4,0,0), f_k = (-5,-12,0), f_l = (6,8,0). -/
theorem dihedral_denominators_positive_witness :
    0 < norm Real.sqrt (⟨-4, 0, 0⟩ : RVec ℝ)
      ∧ 0 < norm Real.sqrt (⟨-5, -12, 0⟩ : RVec ℝ)
      ∧ 0 < norm Real.sqrt (rvec_add (⟨-4, 0, 0⟩ : RVec ℝ) ⟨-5, -12, 0⟩)
      ∧ 0 < norm Real.sqrt (rvec_add (⟨3, 4, 0⟩ : RVec ℝ) ⟨6, 8, 0⟩) :=
  have h := dihedral_denominators_positive gmx_float_eps (by norm_num [gmx_float_eps]) 0 1 2 3
    ⟨3, 4, 0⟩ ⟨-4, 0, 0⟩ ⟨-5, -12, 0⟩ ⟨6, 8, 0⟩ dihedral_sample_emits
  ⟨h.2.2.2.1, h.2.2.2.2.1, h.2.2.2.2.2.1, h.2.2.2.2.2.2.1⟩

/-! ### The split of a projection in add_dihedral -/

theorem split_ratio (C N nj nk P a b : ℝ) (hC : C ≠ 0) (hN : N ≠ 0) (hj : nj ≠ 0)
    (hk : nk ≠ 0) :
    P * (C / (N * nk)) / (C / (nj * nk)) * (1 / nj * a)
        + P * (C / (N * nj)) / (C / (nj * nk)) * (1 / nk * b)
      = P * (1 / N * (a + b)) := by
  field_simp
  ring

/-- Once every guard of `add_dihedral` is passed, the component along -f_j and the
component along -f_k into which a length `P` along the joint direction is split add up
to `P` times the unit vector of -(f_j + f_k). -/
theorem dihedral_split_recombines (eps : ℝ) (heps : 0 < eps) (f_j f_k : RVec ℝ) (P : ℝ)
    (h2 : ¬ dihedral_nf_jpkxnf_j Real.sqrt f_j f_k < eps)
    (h3 : ¬ dihedral_nf_jpkxnf_k Real.sqrt f_j f_k < eps)
    (h4 : ¬ dihedral_sinacosbpsinbcosa Real.sqrt f_j f_k < eps) :
    rvec_add
        (svmul (P * dihedral_sin_b Real.sqrt f_j f_k
            / dihedral_sinacosbpsinbcosa Real.sqrt f_j f_k)
          (unitv Real.sqrt (rvec_sub clear_rvec f_j)))
        (svmul (P * dihedral_sin_a Real.sqrt f_j f_k
            / dihedral_sinacosbpsinbcosa Real.sqrt f_j f_k)
          (unitv Real.sqrt (rvec_sub clear_rvec f_k)))
      = svmul P (unitv Real.sqrt (dihedral_f_jpk f_j f_k)) := by
  obtain ⟨hN, hj, hk⟩ := dihedral_norms_pos eps heps f_j f_k h2 h3
  have hs := (sinacosbpsinbcosa_eq eps heps f_j f_k h2 h3).2
  rw [← norm_rvec_sub_clear Real.sqrt f_j, ← norm_rvec_sub_clear Real.sqrt f_k] at hs
  have hC0 := norm_nonneg_real (cprod (dihedral_f_jpk f_j f_k) (rvec_sub clear_rvec f_j))
  have hC : norm Real.sqrt (cprod (dihedral_f_jpk f_j f_k) (rvec_sub clear_rvec f_j)) ≠ 0 := by
    intro h
    rw [h, zero_div] at hs
    rw [hs] at h4
    exact h4 heps
  have hsb : dihedral_sin_b Real.sqrt f_j f_k
      = norm Real.sqrt (cprod (dihedral_f_jpk f_j f_k) (rvec_sub clear_rvec f_j))
        / (norm Real.sqrt (dihedral_f_jpk f_j f_k) * norm Real.sqrt (rvec_sub clear_rvec f_k)) := by
    unfold dihedral_sin_b dihedral_nf_jpkxnf_k
    rw [← cross_norms_equal]
  have hsa : dihedral_sin_a Real.sqrt f_j f_k
      = norm Real.sqrt (cprod (dihedral_f_jpk f_j f_k) (rvec_sub clear_rvec f_j))
        / (norm Real.sqrt (dihedral_f_jpk f_j f_k) * norm Real.sqrt (rvec_sub clear_rvec f_j)) :=
    rfl
  have hu : ∀ v : RVec ℝ, unitv Real.sqrt v = svmul (1 / norm Real.sqrt v) v := fun _ => rfl
  rw [hsb, hsa, hs, hu, hu, hu]
  have hsum : dihedral_f_jpk f_j f_k
      = rvec_add (rvec_sub clear_rvec f_j) (rvec_sub clear_rvec f_k) := rfl
  have key := fun a b => split_ratio
    (norm Real.sqrt (cprod (dihedral_f_jpk f_j f_k) (rvec_sub clear_rvec f_j)))
    (norm Real.sqrt (dihedral_f_jpk f_j f_k)) (norm Real.sqrt (rvec_sub clear_rvec f_j))
    (norm Real.sqrt (rvec_sub clear_rvec f_k)) P a b hC (ne_of_gt hN) (ne_of_gt hj) (ne_of_gt hk)
  ext
  · exact (key (rvec_sub clear_rvec f_j).x (rvec_sub clear_rvec f_k).x).trans (by rw [hsum]; rfl)
  · exact (key (rvec_sub clear_rvec f_j).y (rvec_sub clear_rvec f_k).y).trans (by rw [hsum]; rfl)
  · exact (key (rvec_sub clear_rvec f_j).z (rvec_sub clear_rvec f_k).z).trans (by rw [hsum]; rfl)

/-- The six records of `add_dihedral` once every guard is passed. -/
theorem add_dihedral_calls_components (sqrt : α → α) (eps : α) (i j k l : Nat)
    (f_i f_j f_k f_l : RVec α)
    (hne : add_dihedral_calls sqrt eps i j k l f_i f_j f_k f_l ≠ []) :
    add_dihedral_calls sqrt eps i j k l f_i f_j f_k f_l
      = [⟨j, i, InteractionType_DIHEDRAL, dihedral_f_j_i sqrt f_i f_j f_k f_l⟩,
         ⟨k, i, InteractionType_DIHEDRAL, dihedral_f_k_i sqrt f_i f_j f_k f_l⟩,
         ⟨l, i, InteractionType_DIHEDRAL,
           rvec_opp (rvec_add f_i (dihedral_f_jpk_i sqrt f_i f_j f_k f_l))⟩,
         ⟨j, k, InteractionType_DIHEDRAL,
           rvec_sub (rvec_sub clear_rvec f_j)
             (rvec_add (dihedral_f_j_i sqrt f_i f_j f_k f_l)
               (dihedral_f_j_l sqrt f_i f_j f_k f_l))⟩,
         ⟨j, l, InteractionType_DIHEDRAL, dihedral_f_j_l sqrt f_i f_j f_k f_l⟩,
         ⟨k, l, InteractionType_DIHEDRAL, dihedral_f_k_l sqrt f_i f_j f_k f_l⟩] := by
  obtain ⟨h0, h1, h2, h3, h4⟩ := add_dihedral_calls_passed sqrt eps i j k l f_i f_j f_k f_l hne
  unfold dihedral_sinacosbpsinbcosa dihedral_sin_a dihedral_sin_b dihedral_cos_a dihedral_cos_b
    dihedral_nf_jpkxnf_j dihedral_nf_jpkxnf_k dihedral_f_jpk at h4
  unfold dihedral_nf_jpkxnf_j dihedral_f_jpk at h2
  unfold dihedral_nf_jpkxnf_k dihedral_f_jpk at h3
  unfold dihedral_nf_ipl at h1
  unfold add_dihedral_calls
  dsimp only
  rw [if_neg h0, if_neg h1, if_neg (not_or.mpr ⟨h2, h3⟩), if_neg h4]
  rfl

/-- C32: over the reals and for a positive ε, whenever `add_dihedral` passes all its
guards, the records for (j, i) and (k, i) carry f_j_i and f_k_i with
f_j_i + f_k_i = |f_jpk_i| * unit(f_jpk), and the records for (j, l) and (k, l) carry
f_j_l and f_k_l with f_j_l + f_k_l = |f_jpk_l| * unit(f_jpk), where f_jpk = -(f_j + f_k)
and f_jpk_i, f_jpk_l are the projections of f_i and f_l. -/
theorem dihedral_components_recombine (eps : ℝ) (heps : 0 < eps) (i j k l : Nat)
    (f_i f_j f_k f_l : RVec ℝ)
    (hne : add_dihedral_calls Real.sqrt eps i j k l f_i f_j f_k f_l ≠ []) :
    add_dihedral_calls Real.sqrt eps i j k l f_i f_j f_k f_l
        = [⟨j, i, InteractionType_DIHEDRAL, dihedral_f_j_i Real.sqrt f_i f_j f_k f_l⟩,
           ⟨k, i, InteractionType_DIHEDRAL, dihedral_f_k_i Real.sqrt f_i f_j f_k f_l⟩,
           ⟨l, i, InteractionType_DIHEDRAL,
             rvec_opp (rvec_add f_i (dihedral_f_jpk_i Real.sqrt f_i f_j f_k f_l))⟩,
           ⟨j, k, InteractionType_DIHEDRAL,
             rvec_sub (rvec_sub clear_rvec f_j)
               (rvec_add (dihedral_f_j_i Real.sqrt f_i f_j f_k f_l)
                 (dihedral_f_j_l Real.sqrt f_i f_j f_k f_l))⟩,
           ⟨j, l, InteractionType_DIHEDRAL, dihedral_f_j_l Real.sqrt f_i f_j f_k f_l⟩,
           ⟨k, l, InteractionType_DIHEDRAL, dihedral_f_k_l Real.sqrt f_i f_j f_k f_l⟩]
      ∧ rvec_add (dihedral_f_j_i Real.sqrt f_i f_j f_k f_l)
          (dihedral_f_k_i Real.sqrt f_i f_j f_k f_l)
        = svmul (norm Real.sqrt (dihedral_f_jpk_i Real.sqrt f_i f_j f_k f_l))
            (unitv Real.sqrt (dihedral_f_jpk f_j f_k))
      ∧ rvec_add (dihedral_f_j_l Real.sqrt f_i f_j f_k f_l)
          (dihedral_f_k_l Real.sqrt f_i f_j f_k f_l)
        = svmul (norm Real.sqrt (dihedral_f_jpk_l Real.sqrt f_i f_j f_k f_l))
            (unitv Real.sqrt (dihedral_f_jpk f_j f_k))
      ∧ dihedral_f_jpk f_j f_k = rvec_opp (rvec_add f_j f_k) := by
  obtain ⟨_, _, h2, h3, h4⟩ :=
    add_dihedral_calls_passed Real.sqrt eps i j k l f_i f_j f_k f_l hne
  refine ⟨add_dihedral_calls_components Real.sqrt eps i j k l f_i f_j f_k f_l hne,
    dihedral_split_recombines eps heps f_j f_k _ h2 h3 h4,
    dihedral_split_recombines eps heps f_j f_k _ h2 h3 h4, ?_⟩
  simp only [dihedral_f_jpk, rvec_add, rvec_sub, rvec_opp, clear_rvec, RVec.mk.injEq]
  refine ⟨?_, ?_, ?_⟩ <;> ring

/-- Witness of C32: f_i = (3,4,0), f_j = (-4,0,0), f_k = (-5,-12,0), f_l = (6,8,0). -/
theorem dihedral_components_recombine_witness :
    rvec_add (dihedral_f_j_i Real.sqrt (⟨3, 4, 0⟩ : RVec ℝ) ⟨-4, 0, 0⟩ ⟨-5, -12, 0⟩ ⟨6, 8, 0⟩)
        (dihedral_f_k_i Real.sqrt (⟨3, 4, 0⟩ : RVec ℝ) ⟨-4, 0, 0⟩ ⟨-5, -12, 0⟩ ⟨6, 8, 0⟩)
      = svmul
          (norm Real.sqrt
            (dihedral_f_jpk_i Real.sqrt (⟨3, 4, 0⟩ : RVec ℝ) ⟨-4, 0, 0⟩ ⟨-5, -12, 0⟩ ⟨6, 8, 0⟩))
          (unitv Real.sqrt (dihedral_f_jpk (⟨-4, 0, 0⟩ : RVec ℝ) ⟨-5, -12, 0⟩)) :=
  (dihedral_components_recombine gmx_float_eps (by norm_num [gmx_float_eps]) 0 1 2 3
    ⟨3, 4, 0⟩ ⟨-4, 0, 0⟩ ⟨-5, -12, 0⟩ ⟨6, 8, 0⟩ dihedral_sample_emits).2.1

/-! ### The virial tensors against the sum over the atoms -/

theorem virial_angle_full (r_i r_j r_k g_i g_j g_k : RVec α)
    (h : rvec_add (rvec_add g_i g_j) g_k = clear_rvec) :
    virial_angle_tensor (rvec_sub r_i r_j) (rvec_sub r_k r_j) g_i g_k
      = outer_upper [(r_i, g_i), (r_j, g_j), (r_k, g_k)] := by
  simp only [rvec_add, clear_rvec, RVec.mk.injEq] at h
  obtain ⟨hx, hy, hz⟩ := h
  ext <;>
    simp only [virial_angle_tensor, outer_upper, outer_sum, rvec_sub, List.map_cons,
      List.map_nil, List.sum_cons, List.sum_nil]
  · linear_combination (-r_j.x) * hx
  · linear_combination (-r_j.x) * hy
  · linear_combination (-r_j.x) * hz
  · linear_combination (-r_j.y) * hy
  · linear_combination (-r_j.y) * hz
  · linear_combination (-r_j.z) * hz

theorem virial_dihedral_full (r_i r_j r_k r_l f_i f_j f_k f_l : RVec α)
    (h : rvec_add (rvec_add (rvec_add f_i f_j) f_k) f_l = clear_rvec) :
    virial_dihedral_tensor f_i f_k f_l (rvec_sub r_i r_j) (rvec_sub r_k r_j) (rvec_sub r_k r_l)
      = outer_upper [(r_i, f_i), (r_j, f_j), (r_k, f_k), (r_l, f_l)] := by
  simp only [rvec_add, clear_rvec, RVec.mk.injEq] at h
  obtain ⟨hx, hy, hz⟩ := h
  ext <;>
    simp only [virial_dihedral_tensor, outer_upper, outer_sum, rvec_sub, List.map_cons,
      List.map_nil, List.sum_cons, List.sum_nil]
  · linear_combination (-r_j.x) * hx
  · linear_combination (-r_j.x) * hy
  · linear_combination (-r_j.x) * hz
  · linear_combination (-r_j.y) * hy
  · linear_combination (-r_j.y) * hz
  · linear_combination (-r_j.z) * hz

theorem outer_upper_shift (t : RVec α) (l : List (RVec α × RVec α))
    (h : (l.map (fun p => p.2.x)).sum = 0 ∧ (l.map (fun p => p.2.y)).sum = 0
      ∧ (l.map (fun p => p.2.z)).sum = 0) :
    outer_upper (l.map (fun p => (rvec_add p.1 t, p.2))) = outer_upper l := by
  have key : ∀ (a b : RVec α → α) (ta : α), (∀ r, a (rvec_add r t) = a r + ta) →
      (l.map (fun p => b p.2)).sum = 0 →
      outer_sum a b (l.map (fun p => (rvec_add p.1 t, p.2))) = outer_sum a b l := by
    intro a b ta ha hb
    unfold outer_sum
    rw [List.map_map]
    have e : ∀ m : List (RVec α × RVec α),
        (m.map ((fun p => a p.1 * b p.2) ∘ fun p => (rvec_add p.1 t, p.2))).sum
          = (m.map (fun p => a p.1 * b p.2)).sum + ta * (m.map (fun p => b p.2)).sum := by
      intro m
      induction m with
      | nil => simp
      | cons p m ih =>
        simp only [List.map_cons, List.sum_cons, Function.comp_apply, ih, ha]
        ring
    rw [e l, hb, mul_zero, add_zero]
  obtain ⟨hx, hy, hz⟩ := h
  unfold outer_upper
  rw [key RVec.x RVec.x t.x (fun r => rfl) hx, key RVec.y RVec.y t.y (fun r => rfl) hy,
    key RVec.z RVec.z t.z (fun r => rfl) hz, key RVec.x RVec.y t.x (fun r => rfl) hy,
    key RVec.x RVec.z t.x (fun r => rfl) hz, key RVec.y RVec.z t.y (fun r => rfl) hz]

/-- C33: for atom positions r_i, r_j, r_k, r_l and forces with f_i + f_j + f_k + f_l = 0,
the tensor that `add_virial_dihedral` builds from r_i - r_j, r_k - r_j and r_k - r_l has
in every stored component (a, b) the sum over the four atoms of r[a] * F[b]; for forces
with g_i + g_j + g_k = 0 the tensor that `add_virial_angle` builds from r_i - r_j and
r_k - r_j has the sum over its three atoms. Both functions of `FDA.cpp`, and of
`fda.cpp`, distribute this sum; moving every position by the same vector t changes
neither the tensors nor the sums. -/
theorem virial_tensor_is_atom_sum (self : FDA α) (old : Legacy.FDA α) (i j k l : Nat)
    (r_i r_j r_k r_l t f_i f_j f_k f_l g_i g_j g_k : RVec α)
    (h4 : rvec_add (rvec_add (rvec_add f_i f_j) f_k) f_l = clear_rvec)
    (h3 : rvec_add (rvec_add g_i g_j) g_k = clear_rvec) :
    virial_dihedral_tensor f_i f_k f_l (rvec_sub r_i r_j) (rvec_sub r_k r_j) (rvec_sub r_k r_l)
        = outer_upper [(r_i, f_i), (r_j, f_j), (r_k, f_k), (r_l, f_l)]
      ∧ virial_angle_tensor (rvec_sub r_i r_j) (rvec_sub r_k r_j) g_i g_k
        = outer_upper [(r_i, g_i), (r_j, g_j), (r_k, g_k)]
      ∧ outer_upper [(rvec_add r_i t, f_i), (rvec_add r_j t, f_j), (rvec_add r_k t, f_k),
            (rvec_add r_l t, f_l)]
        = outer_upper [(r_i, f_i), (r_j, f_j), (r_k, f_k), (r_l, f_l)]
      ∧ outer_upper [(rvec_add r_i t, g_i), (rvec_add r_j t, g_j), (rvec_add r_k t, g_k)]
        = outer_upper [(r_i, g_i), (r_j, g_j), (r_k, g_k)]
      ∧ self.add_virial_dihedral i j k l f_i f_k f_l (rvec_sub r_i r_j) (rvec_sub r_k r_j)
            (rvec_sub r_k r_l)
        = (if self.atom_based.VS_mode = false then self
          else
            (((self.add_virial i (outer_upper [(r_i, f_i), (r_j, f_j), (r_k, f_k), (r_l, f_l)])
              QUARTER).add_virial j
                (outer_upper [(r_i, f_i), (r_j, f_j), (r_k, f_k), (r_l, f_l)]) QUARTER).add_virial
              k (outer_upper [(r_i, f_i), (r_j, f_j), (r_k, f_k), (r_l, f_l)]) QUARTER).add_virial
              l (outer_upper [(r_i, f_i), (r_j, f_j), (r_k, f_k), (r_l, f_l)]) QUARTER)
      ∧ self.add_virial_angle i j k (rvec_sub r_i r_j) (rvec_sub r_k r_j) g_i g_k
        = (if self.atom_based.VS_mode = false then self
          else
            ((self.add_virial i (outer_upper [(r_i, g_i), (r_j, g_j), (r_k, g_k)])
              THIRD).add_virial j (outer_upper [(r_i, g_i), (r_j, g_j), (r_k, g_k)])
              THIRD).add_virial k (outer_upper [(r_i, g_i), (r_j, g_j), (r_k, g_k)]) THIRD)
      ∧ old.add_virial_dihedral i j k l f_i f_k f_l (rvec_sub r_i r_j) (rvec_sub r_k r_j)
            (rvec_sub r_k r_l)
        = old.add_virial_dihedral i j k l f_i f_k f_l
            (rvec_sub (rvec_add r_i t) (rvec_add r_j t))
            (rvec_sub (rvec_add r_k t) (rvec_add r_j t))
            (rvec_sub (rvec_add r_k t) (rvec_add r_l t))
      ∧ old.add_virial_angle i j k (rvec_sub r_i r_j) (rvec_sub r_k r_j) g_i g_k
        = old.add_virial_angle i j k (rvec_sub (rvec_add r_i t) (rvec_add r_j t))
            (rvec_sub (rvec_add r_k t) (rvec_add r_j t)) g_i g_k := by
  have hd := virial_dihedral_full r_i r_j r_k r_l f_i f_j f_k f_l h4
  have ha := virial_angle_full r_i r_j r_k g_i g_j g_k h3
  have shift : ∀ a b : RVec α, rvec_sub (rvec_add a t) (rvec_add b t) = rvec_sub a b := by
    intro a b
    simp only [rvec_sub, rvec_add, RVec.mk.injEq]
    refine ⟨?_, ?_, ?_⟩ <;> ring
  simp only [rvec_add, clear_rvec, RVec.mk.injEq] at h4 h3
  refine ⟨hd, ha, ?_, ?_, ?_, ?_, ?_, ?_⟩
  · exact outer_upper_shift t [(r_i, f_i), (r_j, f_j), (r_k, f_k), (r_l, f_l)]
      (by
        simp only [List.map_cons, List.map_nil, List.sum_cons, List.sum_nil]
        refine ⟨?_, ?_, ?_⟩
        · linear_combination h4.1
        · linear_combination h4.2.1
        · linear_combination h4.2.2)
  · exact outer_upper_shift t [(r_i, g_i), (r_j, g_j), (r_k, g_k)]
      (by
        simp only [List.map_cons, List.map_nil, List.sum_cons, List.sum_nil]
        refine ⟨?_, ?_, ?_⟩
        · linear_combination h3.1
        · linear_combination h3.2.1
        · linear_combination h3.2.2)
  · unfold FDA.add_virial_dihedral
    rw [hd]
  · unfold FDA.add_virial_angle
    rw [ha]
  · rw [shift, shift, shift]
  · rw [shift, shift]

/-- Witness of C33: the positions (1,0,0), (0,0,0), (0,1,0), (0,1,1) with the forces
(1,2,3), (-1,-1,-1), (2,0,-1), (-2,-1,-1) for the dihedral and (1,2,3), (-3,-2,-2),
(2,0,-1) for the angle. -/
theorem virial_tensor_is_atom_sum_witness :
    virial_dihedral_tensor (⟨1, 2, 3⟩ : RVec ℚ) ⟨2, 0, -1⟩ ⟨-2, -1, -1⟩
        (rvec_sub ⟨1, 0, 0⟩ ⟨0, 0, 0⟩) (rvec_sub ⟨0, 1, 0⟩ ⟨0, 0, 0⟩)
        (rvec_sub ⟨0, 1, 0⟩ ⟨0, 1, 1⟩)
      = outer_upper [(⟨1, 0, 0⟩, ⟨1, 2, 3⟩), (⟨0, 0, 0⟩, ⟨-1, -1, -1⟩),
          (⟨0, 1, 0⟩, ⟨2, 0, -1⟩), (⟨0, 1, 1⟩, ⟨-2, -1, -1⟩)] :=
  (virial_tensor_is_atom_sum
    (FDA.fresh (settings_of InteractionType_DIHEDRAL OnePair.DETAILED) true)
    (Legacy.FDA.fresh InteractionType_DIHEDRAL Legacy.OnePair.DETAILED) 0 1 2 3
    ⟨1, 0, 0⟩ ⟨0, 0, 0⟩ ⟨0, 1, 0⟩ ⟨0, 1, 1⟩ ⟨5, 5, 5⟩ ⟨1, 2, 3⟩ ⟨-1, -1, -1⟩ ⟨2, 0, -1⟩
    ⟨-2, -1, -1⟩ ⟨1, 2, 3⟩ ⟨-3, -2, -2⟩ ⟨2, 0, -1⟩
    (by norm_num [rvec_add, clear_rvec]) (by norm_num [rvec_add, clear_rvec])).1

/-! ### The order of the principal components -/

theorem add_bonded_atom_view (s1 s2 : FDA α) (h : s1.same_atom_view s2) (i j : Nat)
    (t : InteractionType) (f : RVec α) :
    (s1.add_bonded_atom i j t f).1.atom_based = (s2.add_bonded_atom i j t f).1.atom_based := by
  obtain ⟨ha, _, hp, _, hpure⟩ := h
  unfold FDA.add_bonded_atom FDA.set_atom_forces
  rw [ha, hp, hpure]
  cases s2.fda_settings.one_pair <;> dsimp only <;> split_ifs <;> first | rfl | exact ha

theorem add_bonded_nocheck_view (s1 s2 : FDA α) (h : s1.same_atom_view s2) (i j : Nat)
    (t : InteractionType) (f : RVec α) :
    (s1.add_bonded_nocheck i j t f).1.atom_based
      = (s2.add_bonded_nocheck i j t f).1.atom_based := by
  unfold FDA.add_bonded_nocheck
  apply add_bonded_atom_view
  unfold FDA.same_atom_view
  simp only [add_bonded_residue_atom_based, add_bonded_residue_settings]
  exact h

theorem add_bonded_view (s1 s2 : FDA α) (h : s1.same_atom_view s2) (i j : Nat)
    (t : InteractionType) (f : RVec α) :
    ((s1.add_bonded i j t f).1).same_atom_view (s2.add_bonded i j t f).1 := by
  have hn := add_bonded_nocheck_view s1 s2 h i j t f
  obtain ⟨ha, ht, hp, hg, hpure⟩ := h
  refine ⟨?_, by simpa using ht, by simpa using hp, by simpa using hg, by simpa using hpure⟩
  unfold FDA.add_bonded
  rw [ht, hg]
  split_ifs
  · exact ha
  · exact ha
  · exact hn

theorem add_nonbonded_single_view (s1 s2 : FDA α) (h : s1.same_atom_view s2) (i j : Nat)
    (t : InteractionType) (force dx dy dz : α) :
    (s1.add_nonbonded_single i j t force dx dy dz).same_atom_view
      (s2.add_nonbonded_single i j t force dx dy dz) := by
  have hn := add_bonded_nocheck_view s1 s2 h i j t ⟨force * dx, force * dy, force * dz⟩
  obtain ⟨ha, ht, hp, hg, hpure⟩ := h
  refine ⟨?_, by simpa using ht, by simpa using hp, by simpa using hg, by simpa using hpure⟩
  unfold FDA.add_nonbonded_single
  rw [ht, hg]
  split_ifs
  · exact ha
  · exact ha
  · exact hn

theorem add_nonbonded_atom_view (s1 s2 : FDA α) (h : s1.same_atom_view s2) (i j : Nat)
    (pf_coul pf_lj dx dy dz : α) :
    (s1.add_nonbonded_atom i j pf_coul pf_lj dx dy dz).atom_based
      = (s2.add_nonbonded_atom i j pf_coul pf_lj dx dy dz).atom_based := by
  obtain ⟨ha, _, hp, _, _⟩ := h
  unfold FDA.add_nonbonded_atom FDA.set_atom_forces
  rw [ha, hp]
  cases s2.fda_settings.one_pair <;> dsimp only <;> split_ifs <;> first | rfl | exact ha

theorem add_nonbonded_view (s1 s2 : FDA α) (h : s1.same_atom_view s2) (i j : Nat)
    (pf_coul pf_lj dx dy dz : α) :
    (s1.add_nonbonded i j pf_coul pf_lj dx dy dz).same_atom_view
      (s2.add_nonbonded i j pf_coul pf_lj dx dy dz) := by
  have hl := add_nonbonded_single_view s1 s2 h i j InteractionType_LJ pf_lj dx dy dz
  have hc := add_nonbonded_single_view s1 s2 h i j InteractionType_COULOMB pf_coul dx dy dz
  have hb : (s1.add_nonbonded_residue i j pf_coul pf_lj dx dy dz).same_atom_view
      (s2.add_nonbonded_residue i j pf_coul pf_lj dx dy dz) := by
    unfold FDA.same_atom_view
    simp only [add_nonbonded_residue_atom_based, add_nonbonded_residue_settings]
    exact h
  have hn := add_nonbonded_atom_view _ _ hb i j pf_coul pf_lj dx dy dz
  obtain ⟨ha, ht, hp, hg, hpure⟩ := h
  refine ⟨?_, by simpa using ht, by simpa using hp, by simpa using hg, by simpa using hpure⟩
  unfold FDA.add_nonbonded
  rw [ht, hg]
  split_ifs
  · exact ha
  · exact hl.1
  · exact hc.1
  · exact ha
  · exact hn

theorem add_bonded_calls_view :
    ∀ (calls : List (BondedCall α)) (s1 s2 : FDA α), s1.same_atom_view s2 →
      (s1.add_bonded_calls calls).same_atom_view (s2.add_bonded_calls calls)
  | [], _, _, h => h
  | c :: calls, s1, s2, h => by
    have ih := add_bonded_calls_view calls _ _ (add_bonded_view s1 s2 h c.i c.j c.type c.force)
    simp only [FDA.add_bonded_calls, List.foldl_cons] at ih ⊢
    exact ih

theorem step_view (sqrt : α → α) (eps : α) (s1 s2 : FDA α) (h : s1.same_atom_view s2)
    (c : Call α) : (s1.step sqrt eps c).same_atom_view (s2.step sqrt eps c) := by
  cases c with
  | bonded i j type force => exact add_bonded_view s1 s2 h i j type force
  | nonbonded_single i j type force dx dy dz =>
    exact add_nonbonded_single_view s1 s2 h i j type force dx dy dz
  | nonbonded i j pf_coul pf_lj dx dy dz =>
    exact add_nonbonded_view s1 s2 h i j pf_coul pf_lj dx dy dz
  | angle ai aj ak f_i f_j f_k => exact add_bonded_calls_view _ s1 s2 h
  | dihedral i j k l f_i f_j f_k f_l => exact add_bonded_calls_view _ s1 s2 h

theorem run_view (sqrt : α → α) (eps : α) :
    ∀ (calls : List (Call α)) (s1 s2 : FDA α), s1.same_atom_view s2 →
      (s1.run sqrt eps calls).same_atom_view (s2.run sqrt eps calls)
  | [], _, _, h => h
  | c :: calls, s1, s2, h => by
    have ih := run_view sqrt eps calls _ _ (step_view sqrt eps s1 s2 h c)
    simp only [FDA.run, List.foldl_cons] at ih ⊢
    exact ih

theorem add_bonded_nocheck_residue_view (s1 s2 : FDA α) (h : s1.same_residue_view s2)
    (i j : Nat) (t : InteractionType) (f : RVec α) :
    (s1.add_bonded_nocheck i j t f).1.residue_based
      = (s2.add_bonded_nocheck i j t f).1.residue_based := by
  unfold FDA.add_bonded_nocheck
  rw [add_bonded_atom_residue_based, add_bonded_atom_residue_based]
  exact add_bonded_residue_congr s1 s2 h.2 h.1 i j t f

theorem add_bonded_residue_view (s1 s2 : FDA α) (h : s1.same_residue_view s2) (i j : Nat)
    (t : InteractionType) (f : RVec α) :
    ((s1.add_bonded i j t f).1).same_residue_view (s2.add_bonded i j t f).1 := by
  have hn := add_bonded_nocheck_residue_view s1 s2 h i j t f
  obtain ⟨hr, hs⟩ := h
  refine ⟨?_, by simpa using hs⟩
  unfold FDA.add_bonded
  rw [hs]
  split_ifs
  · exact hr
  · exact hr
  · exact hn

theorem add_nonbonded_single_residue_view (s1 s2 : FDA α) (h : s1.same_residue_view s2)
    (i j : Nat) (t : InteractionType) (force dx dy dz : α) :
    (s1.add_nonbonded_single i j t force dx dy dz).same_residue_view
      (s2.add_nonbonded_single i j t force dx dy dz) := by
  have hn := add_bonded_nocheck_residue_view s1 s2 h i j t ⟨force * dx, force * dy, force * dz⟩
  obtain ⟨hr, hs⟩ := h
  refine ⟨?_, by simpa using hs⟩
  unfold FDA.add_nonbonded_single
  rw [hs]
  split_ifs
  · exact hr
  · exact hr
  · exact hn

theorem add_nonbonded_residue_congr (s1 s2 : FDA α) (h : s1.same_residue_view s2) (i j : Nat)
    (pf_coul pf_lj dx dy dz : α) :
    (s1.add_nonbonded_residue i j pf_coul pf_lj dx dy dz).residue_based
      = (s2.add_nonbonded_residue i j pf_coul pf_lj dx dy dz).residue_based := by
  obtain ⟨hr, hs⟩ := h
  unfold FDA.add_nonbonded_residue FDA.set_residue_forces
  rw [hs, hr]
  cases s2.fda_settings.one_pair <;> dsimp only <;> split_ifs <;> first | rfl | exact hr

theorem add_nonbonded_residue_view (s1 s2 : FDA α) (h : s1.same_residue_view s2) (i j : Nat)
    (pf_coul pf_lj dx dy dz : α) :
    (s1.add_nonbonded i j pf_coul pf_lj dx dy dz).same_residue_view
      (s2.add_nonbonded i j pf_coul pf_lj dx dy dz) := by
  have hl := add_nonbonded_single_residue_view s1 s2 h i j InteractionType_LJ pf_lj dx dy dz
  have hc := add_nonbonded_single_residue_view s1 s2 h i j InteractionType_COULOMB pf_coul dx
    dy dz
  have hn := add_nonbonded_residue_congr s1 s2 h i j pf_coul pf_lj dx dy dz
  obtain ⟨hr, hs⟩ := h
  refine ⟨?_, by simpa using hs⟩
  unfold FDA.add_nonbonded
  rw [hs]
  split_ifs
  · exact hr
  · exact hl.1
  · exact hc.1
  · exact hr
  · rw [add_nonbonded_atom_residue_based, add_nonbonded_atom_residue_based]
    exact hn

theorem add_bonded_calls_residue_view :
    ∀ (calls : List (BondedCall α)) (s1 s2 : FDA α), s1.same_residue_view s2 →
      (s1.add_bonded_calls calls).same_residue_view (s2.add_bonded_calls calls)
  | [], _, _, h => h
  | c :: calls, s1, s2, h => by
    have ih := add_bonded_calls_residue_view calls _ _
      (add_bonded_residue_view s1 s2 h c.i c.j c.type c.force)
    simp only [FDA.add_bonded_calls, List.foldl_cons] at ih ⊢
    exact ih

theorem step_residue_view (sqrt : α → α) (eps : α) (s1 s2 : FDA α)
    (h : s1.same_residue_view s2) (c : Call α) :
    (s1.step sqrt eps c).same_residue_view (s2.step sqrt eps c) := by
  cases c with
  | bonded i j type force => exact add_bonded_residue_view s1 s2 h i j type force
  | nonbonded_single i j type force dx dy dz =>
    exact add_nonbonded_single_residue_view s1 s2 h i j type force dx dy dz
  | nonbonded i j pf_coul pf_lj dx dy dz =>
    exact add_nonbonded_residue_view s1 s2 h i j pf_coul pf_lj dx dy dz
  | angle ai aj ak f_i f_j f_k => exact add_bonded_calls_residue_view _ s1 s2 h
  | dihedral i j k l f_i f_j f_k f_l => exact add_bonded_calls_residue_view _ s1 s2 h

theorem run_residue_view (sqrt : α → α) (eps : α) :
    ∀ (calls : List (Call α)) (s1 s2 : FDA α), s1.same_residue_view s2 →
      (s1.run sqrt eps calls).same_residue_view (s2.run sqrt eps calls)
  | [], _, _, h => h
  | c :: calls, s1, s2, h => by
    have ih := run_residue_view sqrt eps calls _ _ (step_residue_view sqrt eps s1 s2 h c)
    simp only [FDA.run, List.foldl_cons] at ih ⊢
    exact ih

/-- C36: for every sequence of calls of `add_bonded`, `add_nonbonded_single` and
`add_nonbonded` (and of `add_angle` and `add_dihedral`, which only call `add_bonded`),
the atom-based operation after the sequence is the same when the residue-based
operation (its output switch and its store) and the atom-to-residue table are
replaced by any others, and the residue-based operation after the sequence is the
same when the atom-based operation is replaced by any other. -/
theorem accumulation_paths_independent (sqrt : α → α) (eps : α) (self : FDA α)
    (residue_based atom_based : FDABase α) (get_atom2residue : Nat → Nat)
    (calls : List (Call α)) :
    (({ self with
          residue_based := residue_based
          fda_settings := { self.fda_settings with get_atom2residue := get_atom2residue } } :
        FDA α).run sqrt eps calls).atom_based = (self.run sqrt eps calls).atom_based
      ∧ (({ self with atom_based := atom_based } : FDA α).run sqrt eps calls).residue_based
        = (self.run sqrt eps calls).residue_based := by
  constructor
  · exact
      (run_view sqrt eps calls
        ({ self with
            residue_based := residue_based
            fda_settings := { self.fda_settings with get_atom2residue := get_atom2residue } } :
          FDA α) self ⟨rfl, rfl, rfl, rfl, rfl⟩).1
  · exact
      (run_residue_view sqrt eps calls ({ self with atom_based := atom_based } : FDA α) self
        ⟨rfl, rfl⟩).1

/-! ### The caller's force vector after add_bonded_nocheck -/

theorem add_bonded_atom_force (self : FDA α) (i j : Nat) (type : InteractionType)
    (force : RVec α) :
    (self.add_bonded_atom i j type force).2
      = if self.atom_based.PF_or_PS_mode = true ∧ i > j then rvec_opp force else force := by
  unfold FDA.add_bonded_atom
  cases self.fda_settings.one_pair <;> dsimp only <;> split_ifs <;> simp_all

theorem legacy_add_bonded_residue_atom_based (old : Legacy.FDA α) (i j : Nat)
    (type : InteractionType) (force : RVec α) :
    (old.add_bonded_residue i j type force).atom_based = old.atom_based := by
  unfold Legacy.FDA.add_bonded_residue Legacy.FDA.set_residue_forces
  cases old.fda_settings.one_pair <;> dsimp only <;> split_ifs <;> rfl

theorem legacy_add_bonded_atom_force (old : Legacy.FDA α) (i j : Nat) (type : InteractionType)
    (force : RVec α) :
    (old.add_bonded_atom i j type force).2
      = if old.atom_based.PF_or_PS_mode = true ∧ i > j then rvec_opp force else force := by
  unfold Legacy.FDA.add_bonded_atom
  cases old.fda_settings.one_pair <;> dsimp only <;> split_ifs <;> simp_all

/-- C37: after `add_bonded_nocheck` the caller's force vector is the negated vector
when atom-based pairwise output is active and i > j, and the vector it was before in
every other case, whatever the residue-based operation and the residues of the two
atoms are; for the function of `FDA.cpp` and for that of `fda.cpp`. The residue-based
half hands its negated copy to the store and has no effect on the vector: once
atom-based output is switched off the vector stays as it was, with residue-based
output on or off. -/
theorem add_bonded_nocheck_force (self : FDA α) (old : Legacy.FDA α) (i j : Nat)
    (type : InteractionType) (force : RVec α) :
    (self.add_bonded_nocheck i j type force).2
        = (if self.atom_based.PF_or_PS_mode = true ∧ i > j then rvec_opp force else force)
      ∧ (old.add_bonded_nocheck i j type force).2
        = (if old.atom_based.PF_or_PS_mode = true ∧ i > j then rvec_opp force else force)
      ∧ (({ self with atom_based := { self.atom_based with PF_or_PS_mode := false } } :
            FDA α).add_bonded_nocheck i j type force).2 = force
      ∧ (({ old with atom_based := { old.atom_based with PF_or_PS_mode := false } } :
            Legacy.FDA α).add_bonded_nocheck i j type force).2 = force := by
  have h1 : ∀ s : FDA α, (s.add_bonded_nocheck i j type force).2
      = (if s.atom_based.PF_or_PS_mode = true ∧ i > j then rvec_opp force else force) := by
    intro s
    unfold FDA.add_bonded_nocheck
    rw [add_bonded_atom_force, add_bonded_residue_atom_based]
  have h2 : ∀ s : Legacy.FDA α, (s.add_bonded_nocheck i j type force).2
      = (if s.atom_based.PF_or_PS_mode = true ∧ i > j then rvec_opp force else force) := by
    intro s
    unfold Legacy.FDA.add_bonded_nocheck
    rw [legacy_add_bonded_atom_force, legacy_add_bonded_residue_atom_based]
  refine ⟨h1 self, h2 old, ?_, ?_⟩
  · rw [h1]
    simp
  · rw [h2]
    simp

/-! ### The per-node sums -/

theorem per_atom_sum_loop_fold (h : Legacy.Helpers α) (x : Nat → RVec α)
    (v2s : Legacy.Vector2Scalar) (hv : v2s ≠ Legacy.Vector2Scalar.INVALID) :
    ∀ (pairs : List (Nat × Legacy.t_pf_interaction (RVec α))) (force : List α),
      Legacy.per_atom_sum_loop h x v2s pairs force
        = Except.ok (pairs.foldl
            (fun f p => Legacy.add_to_nodes (Legacy.scalar_force h x v2s p.1 p.2) p.1 p.2.jjnr f)
            force)
  | [], force => rfl
  | (ii, is) :: rest, force => by
    cases v2s with
    | PF_VECTOR2SCALAR_NORM =>
      rw [Legacy.per_atom_sum_loop, per_atom_sum_loop_fold h x _ hv rest]
      rfl
    | PF_VECTOR2SCALAR_PROJECTION =>
      rw [Legacy.per_atom_sum_loop, per_atom_sum_loop_fold h x _ hv rest]
      rfl
    | INVALID => exact absurd rfl hv

theorem length_add_to_nodes (s : α) (ii jj : Nat) (force : List α) :
    (Legacy.add_to_nodes s ii jj force).length = force.length := by
  unfold Legacy.add_to_nodes
  rw [length_modify_at, length_modify_at]

theorem getD_add_to_nodes (s : α) (ii jj : Nat) (force : List α) (hi : ii < force.length)
    (hj : jj < force.length) (n : Nat) :
    (Legacy.add_to_nodes s ii jj force).getD n 0
      = force.getD n 0 + ((if ii = n then s else 0) + (if jj = n then s else 0)) := by
  unfold Legacy.add_to_nodes
  rw [getD_modify_at, getD_modify_at, length_modify_at]
  by_cases h1 : ii = n <;> by_cases h2 : jj = n
  · have hn : n < force.length := h1 ▸ hi
    simp [h1, h2, hn]
    ring
  · have hn : n < force.length := h1 ▸ hi
    simp [h1, h2, hn]
  · have hn : n < force.length := h2 ▸ hj
    simp [h1, h2, hn]
  · simp [h1, h2]

theorem sum_add_to_nodes (s : α) (ii jj : Nat) (force : List α) (hi : ii < force.length)
    (hj : jj < force.length) : (Legacy.add_to_nodes s ii jj force).sum = force.sum + 2 * s := by
  unfold Legacy.add_to_nodes
  have h1 := sum_map_modify_at (fun v : α => v) (fun v => v + s) s (fun _ => rfl) ii force hi
  have h2 := sum_map_modify_at (fun v : α => v) (fun v => v + s) s (fun _ => rfl) jj
    (modify_at (fun v => v + s) ii force) (by rw [length_modify_at]; exact hj)
  simp only [List.map_id_fun', id_eq] at h1 h2
  rw [h2, h1]
  ring

theorem per_atom_fold_props (sc : Nat × Legacy.t_pf_interaction (RVec α) → α) :
    ∀ (pairs : List (Nat × Legacy.t_pf_interaction (RVec α))) (force : List α),
      (∀ p ∈ pairs, p.1 < force.length ∧ p.2.jjnr < force.length) →
      (pairs.foldl (fun f p => Legacy.add_to_nodes (sc p) p.1 p.2.jjnr f) force).length
          = force.length
        ∧ (∀ n, (pairs.foldl (fun f p => Legacy.add_to_nodes (sc p) p.1 p.2.jjnr f) force).getD
              n 0
            = force.getD n 0
              + (pairs.map (fun p =>
                  (if p.1 = n then sc p else 0) + (if p.2.jjnr = n then sc p else 0))).sum)
        ∧ (pairs.foldl (fun f p => Legacy.add_to_nodes (sc p) p.1 p.2.jjnr f) force).sum
            = force.sum + 2 * (pairs.map sc).sum
  | [], force, _ => by simp
  | p :: rest, force, hin => by
    have hp := hin p (List.mem_cons_self _ _)
    have ih := per_atom_fold_props sc rest (Legacy.add_to_nodes (sc p) p.1 p.2.jjnr force)
      (fun q hq => by
        rw [length_add_to_nodes]
        exact hin q (List.mem_cons_of_mem _ hq))
    obtain ⟨ih1, ih2, ih3⟩ := ih
    simp only [List.foldl_cons, List.map_cons, List.sum_cons]
    refine ⟨?_, ?_, ?_⟩
    · rw [ih1, length_add_to_nodes]
    · intro n
      rw [ih2 n, getD_add_to_nodes _ _ _ _ hp.1 hp.2]
      ring
    · rw [ih3, sum_add_to_nodes _ _ _ _ hp.1 hp.2]
      ring

theorem list_eq_map_range (l : List α) (g : Nat → α) (h : ∀ n, n < l.length → l.getD n 0 = g n) :
    l = (List.range l.length).map g := by
  apply List.ext_getElem
  · simp
  · intro n h1 h2
    have := h n h1
    rw [List.getD_eq_getElem _ _ h1] at this
    simp [this]

theorem scalar_force_nonneg (h : Legacy.Helpers α) (hsqrt : ∀ a, 0 ≤ a → 0 ≤ h.sqrt a)
    (x : Nat → RVec α) (v2s : Legacy.Vector2Scalar) (ii : Nat)
    (is : Legacy.t_pf_interaction (RVec α)) : 0 ≤ Legacy.scalar_force h x v2s ii is := by
  cases v2s with
  | PF_VECTOR2SCALAR_NORM => exact hsqrt _ (norm2_nonneg _)
  | PF_VECTOR2SCALAR_PROJECTION =>
    show 0 ≤ Legacy.pf_vector2unsignedscalar h is.force ii is.jjnr x
    unfold Legacy.pf_vector2unsignedscalar
    dsimp only
    split_ifs with hneg
    · linarith
    · exact not_lt.mp hneg
  | INVALID => exact le_refl 0

theorem node_total_nonneg (h : Legacy.Helpers α) (hsqrt : ∀ a, 0 ≤ a → 0 ≤ h.sqrt a)
    (x : Nat → RVec α) (v2s : Legacy.Vector2Scalar)
    (pairs : List (Nat × Legacy.t_pf_interaction (RVec α))) (n : Nat) :
    0 ≤ Legacy.node_total h x v2s pairs n := by
  unfold Legacy.node_total
  apply List.sum_nonneg
  intro v hv
  obtain ⟨p, _, rfl⟩ := List.mem_map.mp hv
  have hs := scalar_force_nonneg h hsqrt x v2s p.1 p.2
  split_ifs <;> linarith

/-- C38: for the options NORM and PROJECTION, a square root that maps non-negative
numbers to non-negative numbers and node indices inside the per-node array,
`per_atom_sum` returns an array that no longer depends on the old contents: entry n is
the sum of the scalars of the stored summed pairs that have n as first node plus the
sum of those that have n as second node, where the scalar of a pair is the norm of its
force or the absolute value of `cos_angle(r, v) * norm(v)`. Every entry is ≥ 0 and the
entries sum to twice the sum of the pair scalars. -/
theorem per_atom_sum_twice (h : Legacy.Helpers α) (hsqrt : ∀ a, 0 ≤ a → 0 ≤ h.sqrt a)
    (force_per_node : List α) (summed : List (Legacy.t_pf_atom (RVec α))) (atoms_len : Nat)
    (x : Nat → RVec α) (v2s : Legacy.Vector2Scalar)
    (hv : v2s ≠ Legacy.Vector2Scalar.INVALID)
    (hin : ∀ p ∈ Legacy.per_atom_pairs summed atoms_len,
      p.1 < force_per_node.length ∧ p.2.jjnr < force_per_node.length) :
    Legacy.per_atom_sum h force_per_node summed atoms_len x v2s
        = Except.ok ((List.range force_per_node.length).map
            (Legacy.node_total h x v2s (Legacy.per_atom_pairs summed atoms_len)))
      ∧ (∀ v ∈ (List.range force_per_node.length).map
            (Legacy.node_total h x v2s (Legacy.per_atom_pairs summed atoms_len)), 0 ≤ v)
      ∧ ((List.range force_per_node.length).map
            (Legacy.node_total h x v2s (Legacy.per_atom_pairs summed atoms_len))).sum
          = 2 * ((Legacy.per_atom_pairs summed atoms_len).map
              (fun p => Legacy.scalar_force h x v2s p.1 p.2)).sum
      ∧ (∀ p ∈ Legacy.per_atom_pairs summed atoms_len,
          0 ≤ Legacy.scalar_force h x v2s p.1 p.2) := by
  have hfold := per_atom_sum_loop_fold h x v2s hv (Legacy.per_atom_pairs summed atoms_len)
    (List.replicate force_per_node.length 0)
  obtain ⟨p1, p2, p3⟩ := per_atom_fold_props (fun p => Legacy.scalar_force h x v2s p.1 p.2)
    (Legacy.per_atom_pairs summed atoms_len) (List.replicate force_per_node.length 0)
    (by simpa using hin)
  have heq := list_eq_map_range _ (Legacy.node_total h x v2s (Legacy.per_atom_pairs summed atoms_len))
    (fun n _ => by
      rw [p2 n]
      unfold Legacy.node_total
      simp [List.getElem?_getD_replicate_default_eq])
  rw [p1, List.length_replicate] at heq
  refine ⟨?_, ?_, ?_, ?_⟩
  · unfold Legacy.per_atom_sum
    rw [← heq]
    exact hfold
  · intro v hv2
    obtain ⟨n, _, rfl⟩ := List.mem_map.mp hv2
    exact node_total_nonneg h hsqrt x v2s _ n
  · rw [← heq, p3]
    simp
  · intro p _
    exact scalar_force_nonneg h hsqrt x v2s p.1 p.2

/-- Witness of C38: the store with the one pair (0, 1) of force (1, 2, 3), the
identity as square root (norm 14), and the old array (7, 7): the new array is
(14, 14), whose sum is 28. -/
theorem per_atom_sum_twice_witness :
    Legacy.per_atom_sum (Legacy.helpers_x : Legacy.Helpers ℚ) [7, 7]
        (Legacy.one_pair_atoms : Legacy.t_pf_atoms ℚ).summed 2 (fun _ => clear_rvec)
        Legacy.Vector2Scalar.PF_VECTOR2SCALAR_NORM = Except.ok [14, 14] :=
  (per_atom_sum_twice (Legacy.helpers_x : Legacy.Helpers ℚ) (fun _ ha => ha) [7, 7]
    (Legacy.one_pair_atoms : Legacy.t_pf_atoms ℚ).summed 2 (fun _ => clear_rvec)
    Legacy.Vector2Scalar.PF_VECTOR2SCALAR_NORM (by decide)
    (by decide)).1.trans
    (by
      norm_num [Legacy.node_total, Legacy.per_atom_pairs, Legacy.one_pair_atoms,
        Legacy.scalar_force, Legacy.helpers_x, norm, norm2, List.range_succ])

/-! ### The compatibility index on unordered pairs -/

theorem index_digits (N x y x2 y2 : Nat) (hy : y < N) (hy2 : y2 < N)
    (h : x * N + y = x2 * N + y2) : x = x2 ∧ y = y2 := by
  rcases lt_trichotomy x x2 with hlt | heq | hgt
  · exfalso
    have h1 : (x + 1) * N ≤ x2 * N := Nat.mul_le_mul_right N hlt
    rw [Nat.add_mul, Nat.one_mul] at h1
    omega
  · subst heq
    exact ⟨rfl, by omega⟩
  · exfalso
    have h1 : (x2 + 1) * N ≤ x * N := Nat.mul_le_mul_right N hgt
    rw [Nat.add_mul, Nat.one_mul] at h1
    omega

/-! ### Removing the centre of mass -/

theorem sub_xcm_loop_other (xcm : RVec α) (index : Option (Nat → Nat)) (x : Nat → RVec α)
    (a : Nat) :
    ∀ n : Nat, (∀ i, i < n → xcm_index index i ≠ a) → sub_xcm_loop xcm index x n a = x a
  | 0, _ => rfl
  | n + 1, h => by
    have ih := sub_xcm_loop_other xcm index x a n (fun i hi => h i (Nat.lt_succ_of_lt hi))
    have hn : a ≠ xcm_index index n := fun e => h n (Nat.lt_succ_self n) e.symm
    simp only [sub_xcm_loop, if_neg hn]
    exact ih

theorem sub_xcm_loop_indexed (xcm : RVec α) (index : Option (Nat → Nat)) (x : Nat → RVec α) :
    ∀ n : Nat,
      (∀ i, i < n → ∀ i2, i2 < n → xcm_index index i = xcm_index index i2 → i = i2) →
      ∀ i, i < n →
        sub_xcm_loop xcm index x n (xcm_index index i) = rvec_dec (x (xcm_index index i)) xcm
  | 0, _, i, hi => absurd hi (Nat.not_lt_zero i)
  | n + 1, hinj, i, hi => by
    simp only [sub_xcm_loop]
    by_cases he : xcm_index index i = xcm_index index n
    · rw [if_pos he]
      rw [sub_xcm_loop_other xcm index x (xcm_index index n) n
        (fun i2 hi2 e => by
          have := hinj i2 (Nat.lt_succ_of_lt hi2) n (Nat.lt_succ_self n) e
          omega)]
      rw [he]
    · rw [if_neg he]
      have hin : i < n := by
        rcases Nat.lt_succ_iff_lt_or_eq.mp hi with h | h
        · exact h
        · exact absurd (by rw [h]) he
      exact sub_xcm_loop_indexed xcm index x n
        (fun a ha b hb => hinj a (Nat.lt_succ_of_lt ha) b (Nat.lt_succ_of_lt hb)) i hin

theorem calc_xcm_loop_shifted (x x2 : Nat → RVec α) (c : RVec α) (index : Option (Nat → Nat))
    (atom : Option (Nat → t_atom α)) (bQ : Bool) :
    ∀ n : Nat,
      (∀ i, i < n → x2 (xcm_index index i) = rvec_dec (x (xcm_index index i)) c) →
      (calc_xcm_loop x2 index atom bQ n).1 = (calc_xcm_loop x index atom bQ n).1
        ∧ (calc_xcm_loop x2 index atom bQ n).2
          = rvec_sub (calc_xcm_loop x index atom bQ n).2
              (svmul (calc_xcm_loop x index atom bQ n).1 c)
  | 0, _ => by simp [calc_xcm_loop, rvec_sub, svmul, clear_rvec]
  | n + 1, h => by
    obtain ⟨ih1, ih2⟩ := calc_xcm_loop_shifted x x2 c index atom bQ n
      (fun i hi => h i (Nat.lt_succ_of_lt hi))
    have hx := h n (Nat.lt_succ_self n)
    simp only [calc_xcm_loop, ih1, ih2, hx, rvec_sub, rvec_dec, svmul, RVec.mk.injEq, true_and]
    refine ⟨?_, ?_, ?_⟩ <;> ring

theorem calc_xcm_loop_tm (x : Nat → RVec α) (index : Option (Nat → Nat))
    (atom : Option (Nat → t_atom α)) (bQ : Bool) :
    ∀ n : Nat,
      (calc_xcm_loop x index atom bQ n).1
        = ((List.range n).map (fun i => xcm_weight atom bQ (xcm_index index i))).sum
  | 0 => by simp [calc_xcm_loop]
  | n + 1 => by
    simp only [calc_xcm_loop, calc_xcm_loop_tm x index atom bQ n, List.range_succ,
      List.map_append, List.sum_append, List.map_cons, List.map_nil, List.sum_cons,
      List.sum_nil, add_zero]

/-- C40: for an index list without duplicates among its first `gnx` entries and a
total weight that is not zero, `sub_xcm` returns the total weight (the sum of the
weights of the selected atoms) and the weighted centre that `calc_xcm` computes, every
selected position is the old one minus that centre, every other position is unchanged,
and `calc_xcm` of the same selection on the new positions yields the same total weight
and the zero vector. -/
theorem sub_xcm_centres (x : Nat → RVec α) (gnx : Nat) (index : Option (Nat → Nat))
    (atom : Option (Nat → t_atom α)) (bQ : Bool)
    (hinj : ∀ i, i < gnx → ∀ i2, i2 < gnx → xcm_index index i = xcm_index index i2 → i = i2)
    (htm : (calc_xcm x gnx index atom bQ).1 ≠ 0) :
    (sub_xcm x gnx index atom bQ).1 = (calc_xcm x gnx index atom bQ).1
      ∧ (sub_xcm x gnx index atom bQ).1
        = ((List.range gnx).map (fun i => xcm_weight atom bQ (xcm_index index i))).sum
      ∧ (sub_xcm x gnx index atom bQ).2.1 = (calc_xcm x gnx index atom bQ).2
      ∧ (∀ i, i < gnx →
          (sub_xcm x gnx index atom bQ).2.2 (xcm_index index i)
            = rvec_dec (x (xcm_index index i)) (calc_xcm x gnx index atom bQ).2)
      ∧ (∀ a, (∀ i, i < gnx → xcm_index index i ≠ a) →
          (sub_xcm x gnx index atom bQ).2.2 a = x a)
      ∧ calc_xcm (sub_xcm x gnx index atom bQ).2.2 gnx index atom bQ
        = ((calc_xcm x gnx index atom bQ).1, clear_rvec) := by
  have hidx := sub_xcm_loop_indexed (calc_xcm x gnx index atom bQ).2 index x gnx hinj
  refine ⟨rfl, calc_xcm_loop_tm x index atom bQ gnx, rfl, hidx,
    fun a ha => sub_xcm_loop_other _ index x a gnx ha, ?_⟩
  obtain ⟨h1, h2⟩ := calc_xcm_loop_shifted x (sub_xcm x gnx index atom bQ).2.2
    (calc_xcm x gnx index atom bQ).2 index atom bQ gnx hidx
  have htm2 : (calc_xcm_loop x index atom bQ gnx).1 ≠ 0 := htm
  show ((calc_xcm_loop (sub_xcm x gnx index atom bQ).2.2 index atom bQ gnx).1,
      (⟨(calc_xcm_loop (sub_xcm x gnx index atom bQ).2.2 index atom bQ gnx).2.x
          / (calc_xcm_loop (sub_xcm x gnx index atom bQ).2.2 index atom bQ gnx).1,
        (calc_xcm_loop (sub_xcm x gnx index atom bQ).2.2 index atom bQ gnx).2.y
          / (calc_xcm_loop (sub_xcm x gnx index atom bQ).2.2 index atom bQ gnx).1,
        (calc_xcm_loop (sub_xcm x gnx index atom bQ).2.2 index atom bQ gnx).2.z
          / (calc_xcm_loop (sub_xcm x gnx index atom bQ).2.2 index atom bQ gnx).1⟩ : RVec α))
    = ((calc_xcm_loop x index atom bQ gnx).1, clear_rvec)
  rw [h1, h2]
  simp only [calc_xcm, rvec_sub, svmul, clear_rvec, Prod.mk.injEq, RVec.mk.injEq, true_and]
  refine ⟨?_, ?_, ?_⟩ <;> field_simp

/-- Witness of C40: the atoms 1 and 2 at (1,0,0) and (2,0,0) with the masses 1 and 3,
selected by the index list (1, 2): total weight 4, centre (7/4, 0, 0). -/
theorem sub_xcm_centres_witness :
    calc_xcm
        (sub_xcm (fun a => (⟨(a : ℚ), 0, 0⟩ : RVec ℚ)) 2 (some (fun i => i + 1))
          (some (fun a => ⟨if a = 1 then 1 else 3, 0⟩)) false).2.2
        2 (some (fun i => i + 1)) (some (fun a => ⟨if a = 1 then 1 else 3, 0⟩)) false
      = ((calc_xcm (fun a => (⟨(a : ℚ), 0, 0⟩ : RVec ℚ)) 2 (some (fun i => i + 1))
          (some (fun a => ⟨if a = 1 then 1 else 3, 0⟩)) false).1, clear_rvec) :=
  (sub_xcm_centres (fun a => (⟨(a : ℚ), 0, 0⟩ : RVec ℚ)) 2 (some (fun i => i + 1))
    (some (fun a => ⟨if a = 1 then 1 else 3, 0⟩)) false
    (by
      intro i _ i2 _ h
      simpa [xcm_index] using h)
    (by norm_num [calc_xcm, calc_xcm_loop, xcm_index, xcm_weight])).2.2.2.2.2

/-! ### The index of the compatibility writer -/

theorem wrap_int_fits (x : Int) (h0 : 0 ≤ x) (h1 : x < 2147483648) : Legacy.wrap_int x = x := by
  unfold Legacy.wrap_int
  omega

/-- Where the mathematical index fits an `int`, the index the code computes is the
mathematical index. -/
theorem compat_index_fits (N ii jj : Nat) (hfit : min ii jj * N + max ii jj < 2147483648) :
    Legacy.compat_index N ii jj = ((min ii jj * N + max ii jj : Nat) : Int) := by
  unfold Legacy.compat_index
  by_cases hab : ii > jj
  · rw [if_pos hab]
    rw [Nat.min_eq_right (Nat.le_of_lt hab), Nat.max_eq_left (Nat.le_of_lt hab)] at hfit ⊢
    have hp : ((jj : Int) * (N : Int)) = ((jj * N : Nat) : Int) := by push_cast; rfl
    rw [hp, wrap_int_fits ((jj * N : Nat) : Int) (by omega) (by omega),
      wrap_int_fits _ (by omega) (by omega)]
    push_cast
    rfl
  · rw [if_neg hab]
    rw [Nat.min_eq_left (Nat.le_of_not_gt hab), Nat.max_eq_right (Nat.le_of_not_gt hab)]
      at hfit ⊢
    have hp : ((ii : Int) * (N : Int)) = ((ii * N : Nat) : Int) := by push_cast; rfl
    rw [hp, wrap_int_fits ((ii * N : Nat) : Int) (by omega) (by omega),
      wrap_int_fits _ (by omega) (by omega)]
    push_cast
    rfl

theorem compat_index_comm (N ii jj : Nat) :
    Legacy.compat_index N ii jj = Legacy.compat_index N jj ii := by
  unfold Legacy.compat_index
  by_cases h1 : ii > jj
  · have h2 : ¬ jj > ii := by omega
    rw [if_pos h1, if_neg h2]
  · by_cases h2 : jj > ii
    · rw [if_neg h1, if_pos h2]
    · have : ii = jj := by omega
      rw [this]

/-- C22: the index that `write_frame_atoms_scalar_compat` stores for a scalar pair
with the mapped indices ii and jj and the store length N is the same for (ii, jj) and
(jj, ii), and it is min(ii, jj) * N + max(ii, jj) where that number is below 2^31 and
so fits the `int` in which the code computes it; these are the indices of the entries
the writer fills, in loop order, and, when the store holds an interaction, of the
block it writes. For N = 50000 and the pair (49998, 49999) the number is 2499949999,
which does not fit, and the code stores -1795017297. -/
theorem compat_index_min_max (h : Legacy.Helpers α) (atoms : Legacy.t_pf_atoms α)
    (out : Legacy.Output α) (ascii : Bool) (N ii jj : Nat)
    (hfit : min ii jj * N + max ii jj < 2147483648) :
    Legacy.compat_index N ii jj = ((min ii jj * N + max ii jj : Nat) : Int)
      ∧ Legacy.compat_index N ii jj = Legacy.compat_index N jj ii
      ∧ (Legacy.compat_entries h atoms).map (fun e => e.1)
        = (atoms.scalar.take atoms.len).flatMap (fun a =>
            a.interactions.map (fun j =>
              Legacy.compat_index atoms.len (atoms.sys2pf a.nr) (atoms.sys2pf j.jjnr)))
      ∧ (Legacy.pf_atoms_scalar_to_fm atoms ≠ 0 →
          (Legacy.write_frame_atoms_scalar_compat h atoms out ascii).f
            = out.f ++ [Legacy.Line.compat out.framenr (Legacy.pf_atoms_scalar_to_fm atoms)
                (Legacy.fmatoms_of atoms)
                ((atoms.scalar.take atoms.len).flatMap (fun a =>
                  a.interactions.map (fun j =>
                    Legacy.compat_index atoms.len (atoms.sys2pf a.nr) (atoms.sys2pf j.jjnr))))
                ((Legacy.compat_entries h atoms).map (fun e => e.2.1))
                ((Legacy.compat_entries h atoms).map (fun e => e.2.2)) ascii])
      ∧ Legacy.compat_index 50000 49998 49999 = -1795017297
      ∧ ((min 49998 49999 * 50000 + max 49998 49999 : Nat) : Int) = 2499949999 := by
  have hent : (Legacy.compat_entries h atoms).map (fun e => e.1)
      = (atoms.scalar.take atoms.len).flatMap (fun a =>
          a.interactions.map (fun j =>
            Legacy.compat_index atoms.len (atoms.sys2pf a.nr) (atoms.sys2pf j.jjnr))) := by
    unfold Legacy.compat_entries
    simp only [List.map_flatMap, List.map_map, Function.comp_def]
  refine ⟨compat_index_fits N ii jj hfit, compat_index_comm N ii jj, hent, ?_, ?_, ?_⟩
  · intro hn
    unfold Legacy.write_frame_atoms_scalar_compat
    simp only [if_neg hn]
    rw [hent]
  · decide
  · decide

/-- Witness of C22: the block written for a store with one interaction between the
entities 0 and 1 of two, whose index is 0 * 2 + 1. -/
theorem compat_index_min_max_witness :
    Legacy.compat_index 2 0 1 = ((min 0 1 * 2 + max 0 1 : Nat) : Int)
      ∧ (Legacy.write_frame_atoms_scalar_compat Legacy.helpers_x
          (Legacy.one_pair_atoms : Legacy.t_pf_atoms ℚ) ⟨[], 0⟩ true).f
        = [Legacy.Line.compat 0 1 [0, 1] [1] [5] [InteractionType_BOND] true] := by
  have hw := compat_index_min_max Legacy.helpers_x
    (Legacy.one_pair_atoms : Legacy.t_pf_atoms ℚ) ⟨[], 0⟩ true 2 0 1 (by decide)
  refine ⟨hw.1, ?_⟩
  rw [hw.2.2.2.1 (by decide)]
  simp [Legacy.pf_atoms_scalar_to_fm, Legacy.fmatoms_of, Legacy.compat_entries,
    Legacy.one_pair_atoms, Legacy.helpers_x, Legacy.compat_index, Legacy.wrap_int]

/-! ### The compatibility index below the range of `int` -/

/-- C39: for a store length N ≤ 46340, for which N * N fits the `int` of the code, and
indices a, b, c, d below N, the index the compatibility writer computes for the pair
(a, b) is min(a, b) * N + max(a, b), lies in [0, N * N), and equals the index of the
pair (c, d) exactly when {a, b} = {c, d}. For N = 70000 the `int` wraps around: the
pairs (61356, 65000) and (0, 17704) both get the index 17704. -/
theorem compat_index_injective (N a b c d : Nat) (hN : N ≤ 46340) (ha : a < N) (hb : b < N)
    (hc : c < N) (hd : d < N) :
    Legacy.compat_index N a b = ((min a b * N + max a b : Nat) : Int)
      ∧ 0 ≤ Legacy.compat_index N a b
      ∧ Legacy.compat_index N a b < ((N * N : Nat) : Int)
      ∧ (Legacy.compat_index N a b = Legacy.compat_index N c d
          ↔ (a = c ∧ b = d) ∨ (a = d ∧ b = c))
      ∧ Legacy.compat_index 70000 61356 65000 = 17704
      ∧ Legacy.compat_index 70000 0 17704 = 17704 := by
  have hNN : N * N ≤ 46340 * 46340 := Nat.mul_le_mul hN hN
  have hbound : ∀ x y : Nat, x < N → y < N → min x y * N + max x y < N * N := by
    intro x y hx hy
    have h1 : min x y < N := lt_of_le_of_lt (Nat.min_le_left x y) hx
    have h2 : max x y < N := Nat.max_lt.mpr ⟨hx, hy⟩
    have h3 : (min x y + 1) * N ≤ N * N := Nat.mul_le_mul_right N h1
    rw [Nat.add_mul, Nat.one_mul] at h3
    omega
  have hfit : ∀ x y : Nat, x < N → y < N → min x y * N + max x y < 2147483648 := by
    intro x y hx hy
    have := hbound x y hx hy
    omega
  have hab := compat_index_fits N a b (hfit a b ha hb)
  have hcd := compat_index_fits N c d (hfit c d hc hd)
  refine ⟨hab, ?_, ?_, ?_, by decide, by decide⟩
  · rw [hab]
    exact Int.natCast_nonneg _
  · rw [hab]
    exact Int.ofNat_lt.mpr (hbound a b ha hb)
  · rw [hab, hcd, Int.natCast_inj]
    constructor
    · intro h
      have h1 : max a b < N := Nat.max_lt.mpr ⟨ha, hb⟩
      have h2 : max c d < N := Nat.max_lt.mpr ⟨hc, hd⟩
      obtain ⟨e1, e2⟩ := index_digits N (min a b) (max a b) (min c d) (max c d) h1 h2 h
      rcases Nat.le_total a b with hle | hle <;> rcases Nat.le_total c d with hle2 | hle2
      · rw [Nat.min_eq_left hle, Nat.min_eq_left hle2] at e1
        rw [Nat.max_eq_right hle, Nat.max_eq_right hle2] at e2
        exact Or.inl ⟨e1, e2⟩
      · rw [Nat.min_eq_left hle, Nat.min_eq_right hle2] at e1
        rw [Nat.max_eq_right hle, Nat.max_eq_left hle2] at e2
        exact Or.inr ⟨e1, e2⟩
      · rw [Nat.min_eq_right hle, Nat.min_eq_left hle2] at e1
        rw [Nat.max_eq_left hle, Nat.max_eq_right hle2] at e2
        exact Or.inr ⟨e2, e1⟩
      · rw [Nat.min_eq_right hle, Nat.min_eq_right hle2] at e1
        rw [Nat.max_eq_left hle, Nat.max_eq_left hle2] at e2
        exact Or.inl ⟨e2, e1⟩
    · rintro (⟨e1, e2⟩ | ⟨e1, e2⟩)
      · rw [e1, e2]
      · rw [e1, e2, Nat.min_comm, Nat.max_comm]

/-- Witness of C39: the pairs (2, 1) and (1, 2) below N = 3 share the index 5, which
is below 9. -/
theorem compat_index_injective_witness :
    Legacy.compat_index 3 2 1 = ((min 2 1 * 3 + max 2 1 : Nat) : Int)
      ∧ Legacy.compat_index 3 2 1 < ((3 * 3 : Nat) : Int)
      ∧ (Legacy.compat_index 3 2 1 = Legacy.compat_index 3 1 2
          ↔ (2 = 1 ∧ 1 = 2) ∨ (2 = 2 ∧ 1 = 1)) :=
  have h := compat_index_injective 3 2 1 1 2 (by decide) (by decide) (by decide) (by decide)
    (by decide)
  ⟨h.1, h.2.2.1, h.2.2.2.1⟩

/-! ### The divisions of add_angle -/

/-- Where none of the three lengths is zero, the calls of `add_angle` are those of
`add_angle_calls`. -/
theorem add_angle_records_defined (sqrt : α → α) (ai aj ak : Nat) (f_i f_j f_k : RVec α)
    (hi : sqrt (norm2 f_i) ≠ 0) (hj : sqrt (norm2 f_j) ≠ 0) (hk : sqrt (norm2 f_k) ≠ 0) :
    add_angle_records sqrt ai aj ak f_i f_j f_k
      = some (add_angle_calls sqrt ai aj ak f_i f_j f_k) := by
  unfold add_angle_records add_angle_calls unitv_checked
  simp only [if_neg hi, if_neg hj, if_neg hk, Option.some_bind]
  split_ifs <;> rfl

/-- Where `add_angle` does not return and one of the three lengths is zero, its calls
have no value. -/
theorem add_angle_records_undefined (sqrt : α → α) (ai aj ak : Nat) (f_i f_j f_k : RVec α)
    (hn : ¬ norm sqrt f_i + norm sqrt f_j + norm sqrt f_k = 0)
    (hz : sqrt (norm2 f_i) = 0 ∨ sqrt (norm2 f_j) = 0 ∨ sqrt (norm2 f_k) = 0) :
    add_angle_records sqrt ai aj ak f_i f_j f_k = none := by
  unfold add_angle_records unitv_checked
  rw [if_neg hn]
  rcases hz with h | h | h
  · simp [h]
  · by_cases h1 : sqrt (norm2 f_i) = 0
    · simp [h1]
    · simp [h, h1]
  · by_cases h1 : sqrt (norm2 f_i) = 0
    · simp [h1]
    · by_cases h2 : sqrt (norm2 f_j) = 0
      · simp [h1, h2]
      · simp [h, h1, h2]

theorem legacy_add_angle_records_defined (sqrt : α → α) (old : Legacy.FDA α) (ai aj ak : Nat)
    (f_i f_j f_k : RVec α)
    (hi : sqrt (norm2 f_i) ≠ 0) (hj : sqrt (norm2 f_j) ≠ 0) (hk : sqrt (norm2 f_k) ≠ 0) :
    ∃ l, Legacy.add_angle_records sqrt ai aj ak f_i f_j f_k = some l
      ∧ old.add_angle sqrt ai aj ak f_i f_j f_k
        = l.foldl (fun s c => (s.add_bonded c.i c.j c.type c.force).1) old := by
  unfold Legacy.add_angle_records unitv_checked
  simp only [if_neg hi, if_neg hj, if_neg hk, Option.some_bind]
  exact ⟨_, rfl, rfl⟩

theorem legacy_add_angle_records_undefined (sqrt : α → α) (ai aj ak : Nat)
    (f_i f_j f_k : RVec α)
    (hz : sqrt (norm2 f_i) = 0 ∨ sqrt (norm2 f_j) = 0 ∨ sqrt (norm2 f_k) = 0) :
    Legacy.add_angle_records sqrt ai aj ak f_i f_j f_k = none := by
  unfold Legacy.add_angle_records unitv_checked
  rcases hz with h | h | h
  · simp [h]
  · by_cases h1 : sqrt (norm2 f_i) = 0
    · simp [h1]
    · simp [h, h1]
  · by_cases h1 : sqrt (norm2 f_i) = 0
    · simp [h1]
    · by_cases h2 : sqrt (norm2 f_j) = 0
      · simp [h1, h2]
      · simp [h, h1, h2]

theorem sqrt_norm2_ne_zero (f : RVec ℝ) (h : f ≠ clear_rvec) : Real.sqrt (norm2 f) ≠ 0 :=
  fun h0 => h (norm_eq_zero_real f h0)

theorem sqrt_norm2_clear : Real.sqrt (norm2 (clear_rvec : RVec ℝ)) = 0 := norm_clear_real

theorem norm_sum_ne_zero (f_i f_j f_k : RVec ℝ) (hj : f_j ≠ clear_rvec) :
    ¬ norm Real.sqrt f_i + norm Real.sqrt f_j + norm Real.sqrt f_k = 0 := by
  have h1 := norm_nonneg_real f_i
  have h2 := norm_nonneg_real f_j
  have h3 := norm_nonneg_real f_k
  have h4 : norm Real.sqrt f_j ≠ 0 := fun h => hj (norm_eq_zero_real f_j h)
  intro h
  have : norm Real.sqrt f_j = 0 := by linarith
  exact h4 this

/-- For three distinct atoms and forces with f_i + f_j + f_k = 0 whose norms do not sum
to zero, the records of `add_angle_calls` put the net force f_i on atom ai, f_j on atom
aj and f_k on atom ak. -/
theorem net_force_add_angle_calls (ai aj ak : Nat) (hij : ai ≠ aj) (hik : ai ≠ ak)
    (hjk : aj ≠ ak) (f_i f_j f_k : RVec ℝ)
    (hsum : rvec_add (rvec_add f_i f_j) f_k = clear_rvec)
    (hnz : norm Real.sqrt f_i + norm Real.sqrt f_j + norm Real.sqrt f_k ≠ 0) :
    net_force (add_angle_calls Real.sqrt ai aj ak f_i f_j f_k) ai = f_i
      ∧ net_force (add_angle_calls Real.sqrt ai aj ak f_i f_j f_k) aj = f_j
      ∧ net_force (add_angle_calls Real.sqrt ai aj ak f_i f_j f_k) ak = f_k := by
  rw [add_angle_calls, if_neg hnz]
  have hi := norm_smul_unitv f_i
  have hk := norm_smul_unitv f_k
  have hj := iprod_unitv_smul f_j
  simp only [svmul, RVec.mk.injEq, RVec.ext_iff] at hi hk hj
  simp only [rvec_add, clear_rvec, RVec.ext_iff] at hsum
  obtain ⟨hix, hiy, hiz⟩ := hi
  obtain ⟨hkx, hky, hkz⟩ := hk
  obtain ⟨hjx, hjy, hjz⟩ := hj
  obtain ⟨sx, sy, sz⟩ := hsum
  simp only [iprod] at hjx hjy hjz
  have hji := hij.symm
  have hki := hik.symm
  have hkj := hjk.symm
  refine ⟨?_, ?_, ?_⟩
  · simp [net_force, hij, hik, hjk, hji, hki, hkj, rvec_add, rvec_sub, clear_rvec]
  · simp only [net_force, List.foldl, hij, hik, hjk, hji, hki, hkj, if_true, if_false, rvec_add,
      rvec_sub, clear_rvec, svmul, iprod, RVec.ext_iff]
    refine ⟨?_, ?_, ?_⟩
    · linear_combination
        (-(unitv Real.sqrt f_j).x * (unitv Real.sqrt f_j).x) * hix
        + (-(unitv Real.sqrt f_j).y * (unitv Real.sqrt f_j).x) * hiy
        + (-(unitv Real.sqrt f_j).z * (unitv Real.sqrt f_j).x) * hiz
        + (-(unitv Real.sqrt f_j).x * (unitv Real.sqrt f_j).x) * hkx
        + (-(unitv Real.sqrt f_j).y * (unitv Real.sqrt f_j).x) * hky
        + (-(unitv Real.sqrt f_j).z * (unitv Real.sqrt f_j).x) * hkz
        + (-(unitv Real.sqrt f_j).x * (unitv Real.sqrt f_j).x) * sx
        + (-(unitv Real.sqrt f_j).y * (unitv Real.sqrt f_j).x) * sy
        + (-(unitv Real.sqrt f_j).z * (unitv Real.sqrt f_j).x) * sz + hjx
    · linear_combination
        (-(unitv Real.sqrt f_j).x * (unitv Real.sqrt f_j).y) * hix
        + (-(unitv Real.sqrt f_j).y * (unitv Real.sqrt f_j).y) * hiy
        + (-(unitv Real.sqrt f_j).z * (unitv Real.sqrt f_j).y) * hiz
        + (-(unitv Real.sqrt f_j).x * (unitv Real.sqrt f_j).y) * hkx
        + (-(unitv Real.sqrt f_j).y * (unitv Real.sqrt f_j).y) * hky
        + (-(unitv Real.sqrt f_j).z * (unitv Real.sqrt f_j).y) * hkz
        + (-(unitv Real.sqrt f_j).x * (unitv Real.sqrt f_j).y) * sx
        + (-(unitv Real.sqrt f_j).y * (unitv Real.sqrt f_j).y) * sy
        + (-(unitv Real.sqrt f_j).z * (unitv Real.sqrt f_j).y) * sz + hjy
    · linear_combination
        (-(unitv Real.sqrt f_j).x * (unitv Real.sqrt f_j).z) * hix
        + (-(unitv Real.sqrt f_j).y * (unitv Real.sqrt f_j).z) * hiy
        + (-(unitv Real.sqrt f_j).z * (unitv Real.sqrt f_j).z) * hiz
        + (-(unitv Real.sqrt f_j).x * (unitv Real.sqrt f_j).z) * hkx
        + (-(unitv Real.sqrt f_j).y * (unitv Real.sqrt f_j).z) * hky
        + (-(unitv Real.sqrt f_j).z * (unitv Real.sqrt f_j).z) * hkz
        + (-(unitv Real.sqrt f_j).x * (unitv Real.sqrt f_j).z) * sx
        + (-(unitv Real.sqrt f_j).y * (unitv Real.sqrt f_j).z) * sy
        + (-(unitv Real.sqrt f_j).z * (unitv Real.sqrt f_j).z) * sz + hjz
  · simp only [net_force, List.foldl, hij, hik, hjk, hji, hki, hkj, if_true, if_false, rvec_add,
      rvec_sub, clear_rvec, svmul, iprod, RVec.ext_iff]
    refine ⟨?_, ?_, ?_⟩
    · linear_combination
        ((unitv Real.sqrt f_j).x * (unitv Real.sqrt f_j).x) * hix
        + ((unitv Real.sqrt f_j).y * (unitv Real.sqrt f_j).x) * hiy
        + ((unitv Real.sqrt f_j).z * (unitv Real.sqrt f_j).x) * hiz
        + ((unitv Real.sqrt f_j).x * (unitv Real.sqrt f_j).x) * hkx
        + ((unitv Real.sqrt f_j).y * (unitv Real.sqrt f_j).x) * hky
        + ((unitv Real.sqrt f_j).z * (unitv Real.sqrt f_j).x) * hkz
        + ((unitv Real.sqrt f_j).x * (unitv Real.sqrt f_j).x - 1) * sx
        + ((unitv Real.sqrt f_j).y * (unitv Real.sqrt f_j).x) * sy
        + ((unitv Real.sqrt f_j).z * (unitv Real.sqrt f_j).x) * sz - hjx
    · linear_combination
        ((unitv Real.sqrt f_j).x * (unitv Real.sqrt f_j).y) * hix
        + ((unitv Real.sqrt f_j).y * (unitv Real.sqrt f_j).y) * hiy
        + ((unitv Real.sqrt f_j).z * (unitv Real.sqrt f_j).y) * hiz
        + ((unitv Real.sqrt f_j).x * (unitv Real.sqrt f_j).y) * hkx
        + ((unitv Real.sqrt f_j).y * (unitv Real.sqrt f_j).y) * hky
        + ((unitv Real.sqrt f_j).z * (unitv Real.sqrt f_j).y) * hkz
        + ((unitv Real.sqrt f_j).x * (unitv Real.sqrt f_j).y) * sx
        + ((unitv Real.sqrt f_j).y * (unitv Real.sqrt f_j).y - 1) * sy
        + ((unitv Real.sqrt f_j).z * (unitv Real.sqrt f_j).y) * sz - hjy
    · linear_combination
        ((unitv Real.sqrt f_j).x * (unitv Real.sqrt f_j).z) * hix
        + ((unitv Real.sqrt f_j).y * (unitv Real.sqrt f_j).z) * hiy
        + ((unitv Real.sqrt f_j).z * (unitv Real.sqrt f_j).z) * hiz
        + ((unitv Real.sqrt f_j).x * (unitv Real.sqrt f_j).z) * hkx
        + ((unitv Real.sqrt f_j).y * (unitv Real.sqrt f_j).z) * hky
        + ((unitv Real.sqrt f_j).z * (unitv Real.sqrt f_j).z) * hkz
        + ((unitv Real.sqrt f_j).x * (unitv Real.sqrt f_j).z) * sx
        + ((unitv Real.sqrt f_j).y * (unitv Real.sqrt f_j).z) * sy
        + ((unitv Real.sqrt f_j).z * (unitv Real.sqrt f_j).z - 1) * sz - hjz

/-- C2 (counterexample): for the forces (1,0,0), (0,1,0), (0,0,1), which do not sum to
zero, the three records of `add_angle` on the atoms 0, 1, 2 carry the vectors 0,
(1,0,0) and 0 and put no net force on the middle atom, not (0,1,0). For the forces
(0,0,0), (1,0,0), (-1,0,0), which sum to zero and whose norms sum to 2, `add_angle`
does not return and takes the unit vector of the zero vector: its records have no
value, and likewise with the zero vector in the second or the third place. For the forces (1,0,0), (-2,0,0), (1,0,0) on the atoms 0, 1, 0 the records put
the net force (2,0,0) on atom 0, not (1,0,0). -/
theorem angle_net_force_unbalanced :
    (add_angle_records Real.sqrt 0 1 2 (⟨1, 0, 0⟩ : RVec ℝ) ⟨0, 1, 0⟩ ⟨0, 0, 1⟩
        = some [⟨1, 0, InteractionType_ANGLE, ⟨0, 0, 0⟩⟩,
                ⟨0, 2, InteractionType_ANGLE, ⟨1, 0, 0⟩⟩,
                ⟨1, 2, InteractionType_ANGLE, ⟨0, 0, 0⟩⟩]
      ∧ net_force ([⟨1, 0, InteractionType_ANGLE, ⟨0, 0, 0⟩⟩,
                ⟨0, 2, InteractionType_ANGLE, ⟨1, 0, 0⟩⟩,
                ⟨1, 2, InteractionType_ANGLE, ⟨0, 0, 0⟩⟩] : List (BondedCall ℝ)) 1
        ≠ ⟨0, 1, 0⟩)
      ∧ (rvec_add (rvec_add (⟨0, 0, 0⟩ : RVec ℝ) ⟨1, 0, 0⟩) ⟨-1, 0, 0⟩ = clear_rvec
        ∧ norm Real.sqrt (⟨0, 0, 0⟩ : RVec ℝ) + norm Real.sqrt (⟨1, 0, 0⟩ : RVec ℝ)
            + norm Real.sqrt (⟨-1, 0, 0⟩ : RVec ℝ) = 2
        ∧ add_angle_records Real.sqrt 0 1 2 (⟨0, 0, 0⟩ : RVec ℝ) ⟨1, 0, 0⟩ ⟨-1, 0, 0⟩ = none
        ∧ add_angle_records Real.sqrt 0 1 2 (⟨1, 0, 0⟩ : RVec ℝ) ⟨0, 0, 0⟩ ⟨-1, 0, 0⟩ = none
        ∧ add_angle_records Real.sqrt 0 1 2 (⟨1, 0, 0⟩ : RVec ℝ) ⟨-1, 0, 0⟩ ⟨0, 0, 0⟩ = none)
      ∧ (add_angle_records Real.sqrt 0 1 0 (⟨1, 0, 0⟩ : RVec ℝ) ⟨-2, 0, 0⟩ ⟨1, 0, 0⟩
          = some [⟨1, 0, InteractionType_ANGLE, ⟨-1, 0, 0⟩⟩,
                  ⟨0, 0, InteractionType_ANGLE, ⟨0, 0, 0⟩⟩,
                  ⟨1, 0, InteractionType_ANGLE, ⟨-1, 0, 0⟩⟩]
        ∧ net_force ([⟨1, 0, InteractionType_ANGLE, ⟨-1, 0, 0⟩⟩,
                  ⟨0, 0, InteractionType_ANGLE, ⟨0, 0, 0⟩⟩,
                  ⟨1, 0, InteractionType_ANGLE, ⟨-1, 0, 0⟩⟩] : List (BondedCall ℝ)) 0
          = ⟨2, 0, 0⟩) := by
  have s1 : Real.sqrt 1 = 1 := Real.sqrt_one
  have s4 : Real.sqrt 4 = 2 := by
    rw [show (4 : ℝ) = 2 * 2 by norm_num]
    exact Real.sqrt_mul_self (by norm_num)
  have n0 : norm Real.sqrt (⟨0, 0, 0⟩ : RVec ℝ) = 0 := norm_clear_real
  have n1 : norm Real.sqrt (⟨1, 0, 0⟩ : RVec ℝ) = 1 := by simp [norm, norm2]
  have n2 : norm Real.sqrt (⟨-1, 0, 0⟩ : RVec ℝ) = 1 := by simp [norm, norm2]
  refine ⟨⟨?_, ?_⟩, ⟨?_, ?_, ?_, ?_, ?_⟩, ⟨?_, ?_⟩⟩
  · unfold add_angle_records unitv_checked
    norm_num [norm, norm2, unitv, svmul, iprod, rvec_add]
  · norm_num [net_force, rvec_add, rvec_sub, clear_rvec]
  · norm_num [rvec_add, clear_rvec]
  · rw [n0, n1, n2]
    norm_num
  · apply add_angle_records_undefined
    · rw [n0, n1, n2]
      norm_num
    · exact Or.inl n0
  · apply add_angle_records_undefined
    · rw [n0, n1, n2]
      norm_num
    · exact Or.inr (Or.inl n0)
  · apply add_angle_records_undefined
    · rw [n0, n1, n2]
      norm_num
    · exact Or.inr (Or.inr n0)
  · unfold add_angle_records unitv_checked
    norm_num [norm, norm2, unitv, svmul, iprod, rvec_add, s4]
  · norm_num [net_force, rvec_add, rvec_sub, clear_rvec]

/-- C2 (amended): for three distinct atoms and forces with f_i + f_j + f_k = 0 none of
which is the zero vector, `add_angle` divides by no zero length, and the three records
it passes to `add_bonded` put the net force f_i on atom ai, f_j on atom aj and f_k on
atom ak. -/
theorem angle_net_force_balanced (ai aj ak : Nat) (hij : ai ≠ aj) (hik : ai ≠ ak)
    (hjk : aj ≠ ak) (f_i f_j f_k : RVec ℝ)
    (hsum : rvec_add (rvec_add f_i f_j) f_k = clear_rvec)
    (hi : f_i ≠ clear_rvec) (hj : f_j ≠ clear_rvec) (hk : f_k ≠ clear_rvec) :
    add_angle_records Real.sqrt ai aj ak f_i f_j f_k
        = some (add_angle_calls Real.sqrt ai aj ak f_i f_j f_k)
      ∧ (add_angle_calls Real.sqrt ai aj ak f_i f_j f_k).length = 3
      ∧ net_force (add_angle_calls Real.sqrt ai aj ak f_i f_j f_k) ai = f_i
      ∧ net_force (add_angle_calls Real.sqrt ai aj ak f_i f_j f_k) aj = f_j
      ∧ net_force (add_angle_calls Real.sqrt ai aj ak f_i f_j f_k) ak = f_k := by
  have hnz := norm_sum_ne_zero f_i f_j f_k hj
  have hnet := net_force_add_angle_calls ai aj ak hij hik hjk f_i f_j f_k hsum hnz
  refine ⟨add_angle_records_defined Real.sqrt ai aj ak f_i f_j f_k (sqrt_norm2_ne_zero f_i hi)
    (sqrt_norm2_ne_zero f_j hj) (sqrt_norm2_ne_zero f_k hk), ?_, hnet.1, hnet.2.1, hnet.2.2⟩
  rw [add_angle_calls, if_neg hnz]
  rfl

/-- Witness of C2 (amended): the balanced forces (1,0,0), (-2,0,0), (1,0,0). -/
theorem angle_net_force_balanced_witness :
    net_force (add_angle_calls Real.sqrt 0 1 2 (⟨1, 0, 0⟩ : RVec ℝ) ⟨-2, 0, 0⟩ ⟨1, 0, 0⟩) 0
        = ⟨1, 0, 0⟩
      ∧ net_force (add_angle_calls Real.sqrt 0 1 2 (⟨1, 0, 0⟩ : RVec ℝ) ⟨-2, 0, 0⟩ ⟨1, 0, 0⟩) 1
        = ⟨-2, 0, 0⟩
      ∧ net_force (add_angle_calls Real.sqrt 0 1 2 (⟨1, 0, 0⟩ : RVec ℝ) ⟨-2, 0, 0⟩ ⟨1, 0, 0⟩) 2
        = ⟨1, 0, 0⟩ :=
  (angle_net_force_balanced 0 1 2 (by decide) (by decide) (by decide) ⟨1, 0, 0⟩ ⟨-2, 0, 0⟩
    ⟨1, 0, 0⟩ (by norm_num [rvec_add, clear_rvec]) (by simp [clear_rvec])
    (by simp [clear_rvec]) (by simp [clear_rvec])).2.2

/-! ### The projections of add_angle and its division by a zero length -/

/-- C31: over the reals, for forces none of which is the zero vector, the three
records of `add_angle` carry, for the pair (aj, ai), the negated orthogonal projection
of f_i onto the unit vector of f_j, for the pair (ai, ak) the remainder f_i minus that
projection, and for the pair (aj, ak) the negated orthogonal projection of f_k; the
projections are the multiples (f . f_j / f_j . f_j) f_j of f_j and the remainder is
orthogonal to f_j; the `add_angle` of `fda.cpp` hands the same three vectors to
`add_bonded`. For f_i = 0 and f_j ≠ 0, where the projection and the remainder are the
zero vector, `add_angle` passes the check of the norms and takes the unit vector of
f_i: its records have no value, in `FDA.cpp` and in `fda.cpp`. -/
theorem add_angle_projections (old : Legacy.FDA ℝ) (ai aj ak : Nat) (f_i f_j f_k : RVec ℝ)
    (hi : f_i ≠ clear_rvec) (hj : f_j ≠ clear_rvec) (hk : f_k ≠ clear_rvec) :
    add_angle_records Real.sqrt ai aj ak f_i f_j f_k
        = some
          [⟨aj, ai, InteractionType_ANGLE, rvec_opp (projection_onto Real.sqrt f_i f_j)⟩,
           ⟨ai, ak, InteractionType_ANGLE, rvec_sub f_i (projection_onto Real.sqrt f_i f_j)⟩,
           ⟨aj, ak, InteractionType_ANGLE, rvec_opp (projection_onto Real.sqrt f_k f_j)⟩]
      ∧ projection_onto Real.sqrt f_i f_j = svmul (iprod f_i f_j / norm2 f_j) f_j
      ∧ projection_onto Real.sqrt f_k f_j = svmul (iprod f_k f_j / norm2 f_j) f_j
      ∧ iprod (rvec_sub f_i (projection_onto Real.sqrt f_i f_j)) f_j = 0
      ∧ Legacy.add_angle_records Real.sqrt ai aj ak f_i f_j f_k
        = some
          [⟨aj, ai, Legacy.PF_INTER_ANGLE, rvec_opp (projection_onto Real.sqrt f_i f_j)⟩,
           ⟨ai, ak, Legacy.PF_INTER_ANGLE, rvec_sub f_i (projection_onto Real.sqrt f_i f_j)⟩,
           ⟨aj, ak, Legacy.PF_INTER_ANGLE, rvec_opp (projection_onto Real.sqrt f_k f_j)⟩]
      ∧ old.add_angle Real.sqrt ai aj ak f_i f_j f_k
        = (((old.add_bonded aj ai Legacy.PF_INTER_ANGLE
                (rvec_opp (projection_onto Real.sqrt f_i f_j))).1.add_bonded ai ak
              Legacy.PF_INTER_ANGLE
              (rvec_sub f_i (projection_onto Real.sqrt f_i f_j))).1.add_bonded aj ak
            Legacy.PF_INTER_ANGLE (rvec_opp (projection_onto Real.sqrt f_k f_j))).1
      ∧ ¬ norm Real.sqrt (clear_rvec : RVec ℝ) + norm Real.sqrt f_j + norm Real.sqrt f_k = 0
      ∧ projection_onto Real.sqrt clear_rvec f_j = clear_rvec
      ∧ add_angle_records Real.sqrt ai aj ak clear_rvec f_j f_k = none
      ∧ Legacy.add_angle_records Real.sqrt ai aj ak clear_rvec f_j f_k = none := by
  have hnz := norm_sum_ne_zero f_i f_j f_k hj
  have hnz0 := norm_sum_ne_zero clear_rvec f_j f_k hj
  have si := sqrt_norm2_ne_zero f_i hi
  have sj := sqrt_norm2_ne_zero f_j hj
  have sk := sqrt_norm2_ne_zero f_k hk
  have hrem : rvec_add (rvec_opp (projection_onto Real.sqrt f_i f_j)) f_i
      = rvec_sub f_i (projection_onto Real.sqrt f_i f_j) := by
    simp only [rvec_add, rvec_opp, rvec_sub, RVec.mk.injEq]
    refine ⟨?_, ?_, ?_⟩ <;> ring
  have hpi := projection_onto_eq f_i f_j hj
  have hpk := projection_onto_eq f_k f_j hj
  refine ⟨?_, hpi, hpk, ?_, ?_, ?_, hnz0, ?_, ?_, ?_⟩
  · rw [add_angle_records_defined Real.sqrt ai aj ak f_i f_j f_k si sj sk, add_angle_calls,
      if_neg hnz]
    simp only [angle_f_j_i_eq, hrem]
  · rw [hpi]
    have hn := norm2_ne_zero f_j hj
    simp only [iprod, rvec_sub, svmul, norm2] at hn ⊢
    field_simp
    ring
  · unfold Legacy.add_angle_records unitv_checked
    simp only [if_neg si, if_neg sj, if_neg sk, Option.some_bind, angle_f_j_i_eq, hrem]
  · unfold Legacy.FDA.add_angle
    simp only [angle_f_j_i_eq, hrem]
  · simp [projection_onto, svmul, iprod, clear_rvec]
  · exact add_angle_records_undefined Real.sqrt ai aj ak clear_rvec f_j f_k hnz0
      (Or.inl sqrt_norm2_clear)
  · exact legacy_add_angle_records_undefined Real.sqrt ai aj ak clear_rvec f_j f_k
      (Or.inl sqrt_norm2_clear)

/-- Witness of C31: f_i = (1, 1, 0), f_j = (2, 0, 0), f_k = (0, 0, 3). -/
theorem add_angle_projections_witness :
    iprod (rvec_sub (⟨1, 1, 0⟩ : RVec ℝ) (projection_onto Real.sqrt ⟨1, 1, 0⟩ ⟨2, 0, 0⟩))
        ⟨2, 0, 0⟩ = 0
      ∧ add_angle_records Real.sqrt 0 1 2 (clear_rvec : RVec ℝ) ⟨2, 0, 0⟩ ⟨0, 0, 3⟩ = none :=
  have h := add_angle_projections
    (Legacy.FDA.fresh InteractionType_ANGLE Legacy.OnePair.DETAILED) 0 1 2
    ⟨1, 1, 0⟩ ⟨2, 0, 0⟩ ⟨0, 0, 3⟩ (by simp [clear_rvec]) (by simp [clear_rvec])
    (by simp [clear_rvec])
  ⟨h.2.2.2.1, h.2.2.2.2.2.2.2.2.1⟩

/-! ### The net forces of the dihedral records -/

end Theorems

end fda
